import Mathlib

/-! The newRPL compiler core (`src/newrpl/compiler.c`): shallow embedding.

Machine model used throughout.

* Addresses of words in the temporary-object store and of cells in the return
  stack are integers (`Int`), so pointer decrements never truncate.  A pointer
  that may be `NULL` is an `Option Int`.
* A word of the compiled stream is a natural number; arithmetic on words that
  can wrap is written with an explicit `% 2 ^ 32`.
* The globals of the runtime (`CompileEnd`, `ValidateTop`, `RetNum`, ...) are
  the fields of `Globals`; the locals of `rplCompile` are the further fields of
  `St`.  A library handler is a function `Globals → Globals`: it can read and
  write every global, and none of the locals.
* Everything the file includes from headers that are not part of the sources
  (`libraries.h`, `cmdcodes.h`, `newrpl.h`, `sysvars.h`, `hal_api.h`) is a field
  of `Env`: constants, header macros, the library table and the heap
  collaborator.
-/

namespace NewRPL

/-- Modelled from the spec: the values a handler leaves in the shared
"last result" register `RetNum` (declared in `libraries.h`, which is not under
src/).  The register carries either one of the status codes of the action
table, or a packed token-info value (every value at or above `OK_TOKENINFO`,
kept whole in `info`), or some other number (`other`, for instance the `-1`
that `rplCompile` stores before calling a handler). -/
inductive RetCode
  | OK_CONTINUE
  | OK_CONTINUE_NOVALIDATE
  | OK_STARTCONSTRUCT
  | OK_CHANGECONSTRUCT
  | OK_INCARGCOUNT
  | OK_ENDCONSTRUCT
  | OK_NEEDMORE
  | OK_NEEDMORESTARTCONST
  | OK_SPLITTOKEN
  | OK_STARTCONSTRUCT_SPLITTOKEN
  | OK_STARTCONSTRUCT_INFIX
  | OK_ENDCONSTRUCT_INFIX_SPLITTOKEN
  | OK_ENDCONSTRUCT_INFIX
  | ERR_NOTMINE
  | ERR_NOTMINE_SPLITTOKEN
  | ERR_INVALID
  | ERR_SYNTAX
  | OK_TOKENINFO (info : Int)
  | other (v : Int)
  deriving DecidableEq

/-- The globals of the runtime that `compiler.c` reads or writes. -/
structure Globals where
  /-- Words of the temporary-object store, by word address. -/
  mem : Int → Nat
  TempOb : Int
  TempObEnd : Int
  TempObSize : Int
  CompileEnd : Int
  /-- Cells of the return stack, by cell address. -/
  cells : Int → Int
  RStk : Int
  RStkSize : Int
  RSTop : Int
  ValidateTop : Int
  ValidateBottom : Int
  LAMTop : Int
  LAMTopSaved : Int
  Exceptions : Nat
  ErrorCode : Nat
  RetNum : RetCode
  CurOpcode : Nat
  CurrentConstruct : Nat
  LastCompiledObject : Int
  /-- Bytes of the source text, by offset from the pointer given to `rplCompile`. -/
  string : Nat → Nat
  TokenStart : Nat
  BlankStart : Nat
  NextTokenStart : Nat
  CompileStringEnd : Nat
  TokenLen : Int
  BlankLen : Int
  -- decompiler
  DecompileObject : Int
  EndOfObject : Int
  SavedDecompObject : Int
  DecompMode : Nat
  DecompHints : Nat
  /-- End of the string under construction, as a byte address (four bytes to a word). -/
  DecompStringEnd : Int

/-- A library handler (`LIBHANDLER`): called with no arguments, it works on the globals. -/
abbrev LIBHANDLER := Globals → Globals

/-- Everything `compiler.c` takes from headers and collaborators outside src/. -/
structure Env where
  -- object header macros
  MKPROLOG : Nat → Nat → Nat
  OBJSIZE : Nat → Nat
  ISPROLOG : Nat → Bool
  LIBNUM : Nat → Int
  MKOPCODE : Int → Nat → Nat
  -- token-info macros
  MKTOKENINFO : Nat → Nat → Nat → Nat → Int
  TI_LENGTH : Int → Nat
  TI_TYPE : Int → Nat
  TI_NARGS : Int → Nat
  TI_PRECEDENCE : Int → Nat
  -- token-info kinds
  TITYPE_OPERATORS : Nat
  TITYPE_BINARYOP_LEFT : Nat
  TITYPE_BINARYOP_RIGHT : Nat
  TITYPE_CASBINARYOP_LEFT : Nat
  TITYPE_CASBINARYOP_RIGHT : Nat
  TITYPE_OPENBRACKET : Nat
  TITYPE_CLOSEBRACKET : Nat
  TITYPE_PREFIXOP : Nat
  TITYPE_COMMA : Nat
  TITYPE_FUNCTION : Nat
  TITYPE_CASFUNCTION : Nat
  TITYPE_NOTALLOWED : Nat
  -- library numbers and handler opcodes
  MAXLIBNUMBER : Nat
  DOCOL : Nat
  DOSYMB : Nat
  OPCODE_PROBETOKEN : Nat
  OPCODE_COMPILE : Nat
  OPCODE_COMPILECONT : Nat
  OPCODE_VALIDATE : Nat
  -- commands
  CMD_OVR_SUB : Nat
  CMD_OVR_ADD : Nat
  CMD_OVR_UMINUS : Nat
  CMD_OVR_UPLUS : Nat
  CMD_OVR_FUNCEVAL : Nat
  CMD_OPENBRACKET : Nat
  CMD_LISTCLOSEBRACKET : Nat
  CMD_CLISTOPENBRACKET : Nat
  CMD_SEMI : Nat
  CMD_ENDOFCODE : Nat
  -- error codes and exception bits
  ERR_BADARGCOUNT : Nat
  ERR_ENDWITHOUTSTART : Nat
  ERR_STARTWITHOUTEND : Nat
  ERR_MISSINGBRACKET : Nat
  ERR_SYNTAXERROR : Nat
  ERR_INVALIDTOKEN : Nat
  ERR_NOTALLOWEDINSYMBOLICS : Nat
  EX_ERRORCODE : Nat
  EX_OUTOFMEM : Nat
  -- slack kept free after a growth
  TEMPOBSLACK : Int
  RSTKSLACK : Int
  -- collaborators
  /-- The library table: the handler registered under an identifier, if any. -/
  rplGetLibHandler : Int → Option LIBHANDLER
  /-- The heap collaborator asked for a store of the given total size: the new
  `TempObSize` when it can provide it, nothing when it is out of memory. -/
  tempObGrowth : Int → Globals → Option Int
  /-- The same for the return stack: the new `RStkSize`, or nothing. -/
  rstkGrowth : Int → Globals → Option Int
  /-- Registration of a finished block with the heap bookkeeping. -/
  rplAddTempBlock : Int → Globals → Globals
  /-- Number of code points in the bytes `[start, end)` of a text. -/
  utf8nlen : (Nat → Nat) → Nat → Nat → Int
  /-- Position reached from `start` after `n` code points, not beyond `end`. -/
  utf8nskip : (Nat → Nat) → Nat → Nat → Nat → Nat
  -- decompiler: library numbers, handler opcodes, flags, hints
  DOSTRING : Nat
  OPCODE_GETINFO : Nat
  OPCODE_DECOMPILE : Nat
  OPCODE_DECOMPEDIT : Nat
  DECOMP_EMBEDDED : Nat
  DECOMP_EDIT : Nat
  DECOMP_NOHINTS : Nat
  DECOMP_GETMAXWIDTH : Nat → Nat
  DECOMP_MAXWIDTH : Nat → Nat
  DEFAULT_DECOMP_WIDTH : Nat
  HINT_ALLBEFORE : Nat
  HINT_ADDINDENTBEFORE : Nat
  HINT_SUBINDENTBEFORE : Nat
  HINT_NLBEFORE : Nat
  HINT_ALLAFTER : Nat
  HINT_ADDINDENTAFTER : Nat
  HINT_SUBINDENTAFTER : Nat
  HINT_NLAFTER : Nat
  SET_INDENT : Nat → Int → Nat
  GET_INDENT : Nat → Int
  GET_HINTS : Nat → Nat
  TITYPE_POSTFIXOP : Nat
  TITYPE_CUSTOMFUNC : Nat
  CMD_OVR_MUL : Nat
  CMD_OVR_DIV : Nat
  CMD_OVR_INV : Nat
  CMD_OVR_POW : Nat
  ERR_MALFORMEDOBJECT : Nat
  /-- The symbolic library's `rplSymbMainOperator`: the opcode of the main operator of
  the object at an address, 0 when it has none. -/
  rplSymbMainOperator : (Int → Nat) → Int → Nat
  /-- The symbolic library's `rplSymbUnwrap`: the innermost symbolic of the object at
  an address. -/
  rplSymbUnwrap : (Int → Nat) → Int → Int
  /-- The bytes of the argument separator of the system locale,
  `cp2utf8(ARG_SEP(rplGetSystemLocale()))`, packed in a word. -/
  argSeparator : Globals → Nat
  /-- Word address of the local variable (`Operator`, `closebracket`) that
  `rplDecompile` lets `DecompileObject` point to. -/
  localWord : Int
  /-- Word address of cell 0 of the return stack (a cell is one word on the 32-bit
  target), for the pointer `InfixOpTop - 2` given to a handler. -/
  rstkBase : Int

/-- The constant `EXIT_LOOP` of `compiler.c`. -/
def EXIT_LOOP : Int := -10000

/-- A machine word: the low 32 bits of an integer. -/
def toWord (x : Int) : Nat := (x % 2 ^ 32).toNat

/-- Modelled from the spec: `rplError` (runtime, not under src/) raises the shared
error flag and records the error code. -/
def rplError (E : Env) (errorcode : Nat) (g : Globals) : Globals :=
  { g with Exceptions := g.Exceptions ||| E.EX_ERRORCODE, ErrorCode := errorcode }

/-- Modelled from the spec: `growTempOb` (heap collaborator, not under src/) either
provides the requested store, or flags out-of-memory.  This definition is the outcome
in which the store is extended where it lies: only its size changes, and every
address keeps its meaning.  The specification also allows a growth that moves the
whole store; that outcome is `growRelocating`, and an address that a C function
keeps in a local variable across the call (`ptr` in `rplInfixApply` and
`rplRotArgs`) is right after this outcome only.  The statements about the words
that these two functions write are therefore made for a store with room, where
`growTempOb` is not called, and the growth inside them is examined with
`growRelocating`. -/
def growTempOb (E : Env) (newtotalsize : Int) (g : Globals) : Globals :=
  match E.tempObGrowth newtotalsize g with
  | some sz => { g with TempObSize := sz }
  | none => { g with Exceptions := g.Exceptions ||| E.EX_OUTOFMEM }

/-- Modelled from the spec: `growRStk` (not under src/), as `growTempOb`. -/
def growRStk (E : Env) (newtotalsize : Int) (g : Globals) : Globals :=
  match E.rstkGrowth newtotalsize g with
  | some sz => { g with RStkSize := sz }
  | none => { g with Exceptions := g.Exceptions ||| E.EX_OUTOFMEM }

/-- Store one word. -/
def setWord (mem : Int → Nat) (p : Int) (w : Nat) : Int → Nat :=
  fun a => if a = p then w else mem a

/-- Store one return-stack cell. -/
def setCell (cells : Int → Int) (p : Int) (v : Int) : Int → Int :=
  fun a => if a = p then v else cells a

/-- Modelled from the spec: `memmovew` (not under src/) copies `n` words from `src`
to `dest`, the two areas being allowed to overlap. -/
def memmovew (mem : Int → Nat) (dest src n : Int) : Int → Nat :=
  fun a => if dest ≤ a ∧ a < dest + n then mem (a - dest + src) else mem a

/-- Modelled from the spec: `rplSkipOb` (not under src/).  An object is one word,
followed, when that word is a prolog, by as many words as its size field says. -/
def rplSkipOb (E : Env) (mem : Int → Nat) (ip : Int) : Int :=
  ip + 1 + (if E.ISPROLOG (mem ip) then (E.OBJSIZE (mem ip) : Int) else 0)

/-- Modelled from the spec: `rplObjSize` (not under src/), the length of an object in words. -/
def rplObjSize (E : Env) (mem : Int → Nat) (ip : Int) : Int :=
  1 + (if E.ISPROLOG (mem ip) then (E.OBJSIZE (mem ip) : Int) else 0)

/-- `rplCompileAppend`. -/
def rplCompileAppend (E : Env) (word : Nat) (g : Globals) : Globals :=
  let g1 := { g with mem := setWord g.mem g.CompileEnd word, CompileEnd := g.CompileEnd + 1 }
  if g1.CompileEnd ≥ g1.TempObSize then
    growTempOb E ((toWord (g1.CompileEnd - g1.TempOb) : Int) + E.TEMPOBSLACK) g1
  else g1

/-- `rplCompileInsert`. -/
def rplCompileInsert (E : Env) (position : Int) (word : Nat) (g : Globals) : Globals :=
  let m1 := memmovew g.mem (position + 1) position (g.CompileEnd - position)
  let g1 := { g with mem := setWord m1 position word, CompileEnd := g.CompileEnd + 1 }
  if g1.CompileEnd ≥ g1.TempObSize then
    growTempOb E ((toWord (g1.CompileEnd - g1.TempOb) : Int) + E.TEMPOBSLACK) g1
  else g1

/-- `rplCompileRemoveWords`. -/
def rplCompileRemoveWords (nwords : Int) (g : Globals) : Globals :=
  { g with CompileEnd := g.CompileEnd - nwords }

/-- `rplCompileAppendWords`: the new globals and the returned pointer. -/
def rplCompileAppendWords (E : Env) (nwords : Int) (g : Globals) : Globals × Int :=
  let g1 := { g with CompileEnd := g.CompileEnd + nwords }
  let g2 := if g1.CompileEnd ≥ g1.TempObSize then
      growTempOb E ((toWord (g1.CompileEnd - g1.TempOb) : Int) + E.TEMPOBSLACK) g1
    else g1
  (g2, g2.CompileEnd - nwords)

/-- The loop of `rplReverseSkipOb`.  Every pass moves `list_start` forward by at
least one word and a pass is only repeated below `after_object`, so the fuel
`after_object - list_start + 1` given by `rplReverseSkipOb` is never used up. -/
def rplReverseSkipObLoop (E : Env) (mem : Int → Nat) (after_object : Int) :
    Nat → Int → Option Int
  | 0, _ => none
  | fuel + 1, list_start =>
    let next := rplSkipOb E mem list_start
    if next < after_object then rplReverseSkipObLoop E mem after_object fuel next
    else if next > after_object then none
    else some list_start

/-- `rplReverseSkipOb`. -/
def rplReverseSkipOb (E : Env) (mem : Int → Nat) (list_start after_object : Int) : Option Int :=
  rplReverseSkipObLoop E mem after_object ((after_object - list_start).toNat + 1) list_start

/-- The loop `for(; (nargs > 0) && ptr; --nargs) ptr = rplReverseSkipOb(symbstart, ptr);`
shared by `rplRotArgs` and `rplInfixApply`: the count left over and the pointer. -/
def findArgsStart (E : Env) (mem : Int → Nat) (symbstart : Int) : Nat → Option Int → Nat × Option Int
  | 0, ptr => (0, ptr)
  | nargs + 1, none => (nargs + 1, none)
  | nargs + 1, some p => findArgsStart E mem symbstart nargs (rplReverseSkipOb E mem symbstart p)

/-- `rplRotArgs`: the returned flag and the new globals. -/
def rplRotArgs (E : Env) (nargs : Nat) (g : Globals) : Bool × Globals :=
  let symbstart := g.cells (g.ValidateTop - 1) + 1
  match findArgsStart E g.mem symbstart nargs (some g.CompileEnd) with
  | (0, some ptr) =>
    let firstsize := rplObjSize E g.mem ptr
    let g1 := if g.CompileEnd + firstsize ≥ g.TempObSize then
        growTempOb E ((toWord (g.CompileEnd + firstsize - g.TempOb) : Int) + E.TEMPOBSLACK) g
      else g
    if g.CompileEnd + firstsize ≥ g.TempObSize ∧ g1.Exceptions ≠ 0 then (false, g1)
    else
      let m1 := memmovew g1.mem g1.CompileEnd ptr firstsize
      let m2 := memmovew m1 ptr (ptr + firstsize) (g1.CompileEnd - ptr)
      (true, { g1 with mem := m2 })
  | _ => (false, rplError E E.ERR_BADARGCOUNT g)

/-- `rplInfixApply`: the returned flag and the new globals. -/
def rplInfixApply (E : Env) (opcode : Nat) (nargs : Nat) (g : Globals) : Bool × Globals :=
  let symbstart := g.cells (g.ValidateTop - 1) + 1
  match findArgsStart E g.mem symbstart nargs (some g.CompileEnd) with
  | (0, some ptr) =>
    let g1 := { g with CompileEnd := g.CompileEnd + 2 }
    let g2 := if g1.CompileEnd ≥ g1.TempObSize then
        growTempOb E ((toWord (g1.CompileEnd - g1.TempOb) : Int) + E.TEMPOBSLACK) g1
      else g1
    if g1.CompileEnd ≥ g1.TempObSize ∧ g2.Exceptions ≠ 0 then (false, g2)
    else
      let m1 := memmovew g2.mem (ptr + 2) ptr (g2.CompileEnd - ptr - 2)
      let m2 := setWord m1 ptr (E.MKPROLOG E.DOSYMB (toWord (g2.CompileEnd - ptr - 1)))
      let m3 := setWord m2 (ptr + 1) opcode
      (true, { g2 with mem := m3 })
  | _ => (false, rplError E E.ERR_BADARGCOUNT g)

/-! ## `rplCompile` -/

/-- The locals of `rplCompile`, together with the globals. -/
structure St where
  g : Globals
  force_libnum : Int
  splittoken : Bool
  validate : Bool
  infixmode : Bool
  probe_libnum : Int
  probe_tokeninfo : Int
  previous_tokeninfo : Int
  libcnt : Int
  libnum : Int
  ValidateHandler : Option LIBHANDLER
  InfixOpTop : Int

/-- Control flow inside `rplCompile`: either execution goes on with a new state,
or the function returns (`value` is the returned pointer, nothing for `NULL`). -/
inductive Flow (α : Type) where
  | next (a : α)
  | ret (value : Option Int) (g : Globals)

/-- Sequencing: a return ends the function, otherwise the rest runs. -/
def Flow.bind {α β : Type} (f : Flow α) (k : α → Flow β) : Flow β :=
  match f with
  | .next a => k a
  | .ret v g => .ret v g

/-- The statement pair `LAMTop = LAMTopSaved; return 0;`. -/
def return0 {α : Type} (g : Globals) : Flow α :=
  .ret none { g with LAMTop := g.LAMTopSaved }

/-- Modelled from the spec: `rplGetNextLib` (not under src/).  Libraries are
queried in descending identifier order; identifiers without a handler are passed
over by the caller, so the candidate after `libnum` is `libnum - 1`, negative
once the scan is over. -/
def rplGetNextLib (libnum : Int) : Int := libnum - 1

/-- The four whitespace bytes that delimit tokens. -/
def isBlank (c : Nat) : Bool := c = 32 || c = 9 || c = 10 || c = 13

/-- The loop `while((p < CompileStringEnd) && (*p is blank)) ++p;`; the fuel
`CompileStringEnd - p` is the number of bytes left. -/
def skipBlanks (str : Nat → Nat) (stop : Nat) : Nat → Nat → Nat
  | 0, p => p
  | fuel + 1, p => if p < stop ∧ isBlank (str p) = true then skipBlanks str stop fuel (p + 1) else p

/-- The loop `while((p < CompileStringEnd) && (*p is not blank)) ++p;`. -/
def skipNonBlanks (str : Nat → Nat) (stop : Nat) : Nat → Nat → Nat
  | 0, p => p
  | fuel + 1, p => if p < stop ∧ isBlank (str p) = false then skipNonBlanks str stop fuel (p + 1) else p

/-- The expression `(ValidateTop > ValidateBottom) ? **(ValidateTop - 1) : 0`. -/
def currentConstruct (g : Globals) : Nat :=
  if g.ValidateTop > g.ValidateBottom then g.mem (g.cells (g.ValidateTop - 1)) else 0

/-- The fragment that opens a construct: make room on the return stack, give up
when an error is flagged, then `*ValidateTop++ = CompileEnd - 1`. -/
def pushConstruct (E : Env) (g : Globals) : Flow Globals :=
  let g1 := if g.RStkSize ≤ g.ValidateTop - g.RStk then
      growRStk E (g.ValidateTop - g.RStk + E.RSTKSLACK) g
    else g
  if g1.Exceptions ≠ 0 then return0 g1
  else .next { g1 with cells := setCell g1.cells g1.ValidateTop (g1.CompileEnd - 1),
                       ValidateTop := g1.ValidateTop + 1 }

/-- The size stored in a header on close:
`((WORD)((PTR2NUMBER)CompileEnd - (PTR2NUMBER)header) >> 2) - 1`, the pointers
being byte addresses of 4-byte words. -/
def closeSize (compileEnd header : Int) : Nat :=
  toWord ((toWord (4 * (compileEnd - header)) / 4 : Nat) - 1)

/-- The fragment that closes a construct (it appears three times in `rplCompile`):
pop the construct stack, fail on underflow, and when the popped header is a prolog
patch its size and prepare the validation of the closed object by its parent. -/
def endConstruct (E : Env) (s : St) : Flow St :=
  let g1 := { s.g with ValidateTop := s.g.ValidateTop - 1 }
  if g1.ValidateTop < g1.ValidateBottom then
    return0 (rplError E E.ERR_ENDWITHOUTSTART g1)
  else
    let p := g1.cells g1.ValidateTop
    let w := g1.mem p
    if E.ISPROLOG w then
      let g2 := { g1 with mem := setWord g1.mem p ((w ^^^ E.OBJSIZE w) ||| closeSize g1.CompileEnd p) }
      let g3 := { g2 with CurrentConstruct := currentConstruct g2 }
      .next { s with g := { g3 with LastCompiledObject := p },
                     ValidateHandler := E.rplGetLibHandler (E.LIBNUM g3.CurrentConstruct),
                     validate := true }
    else .next { s with g := g1 }

/-- The statement `**(ValidateTop - 1) = **(ValidateTop - 1) + 1;`. -/
def incArgCount (g : Globals) : Globals :=
  let p := g.cells (g.ValidateTop - 1)
  { g with mem := setWord g.mem p ((g.mem p + 1) % 2 ^ 32) }

/-- The loop that flushes the operator stack at the end of an infix expression. -/
def infixFlushEnd (E : Env) : Nat → St → Flow St
  | 0, s => .next s
  | fuel + 1, s =>
    if s.InfixOpTop > s.g.ValidateTop then
      let top := s.InfixOpTop - 2
      if E.TI_TYPE (s.g.cells (top + 1)) = E.TITYPE_OPENBRACKET then
        return0 (rplError E E.ERR_MISSINGBRACKET s.g)
      else
        match rplInfixApply E (s.g.cells top).toNat (E.TI_NARGS (s.g.cells (top + 1))) s.g with
        | (false, g1) => return0 g1
        | (true, g1) => infixFlushEnd E fuel { s with g := g1, InfixOpTop := top }
    else .next s

/-- The cases `OK_ENDCONSTRUCT_INFIX_SPLITTOKEN` (after it has set `splittoken`)
and `OK_ENDCONSTRUCT_INFIX`. -/
def endConstructInfix (E : Env) (s : St) : Flow St :=
  (if s.infixmode then
    (infixFlushEnd E (s.InfixOpTop - s.g.ValidateTop).toNat s).bind fun s1 =>
      if rplSkipOb E s1.g.mem (s1.g.cells (s1.g.ValidateTop - 1) + 1) ≠ s1.g.CompileEnd then
        return0 (rplError E E.ERR_SYNTAXERROR s1.g)
      else .next { s1 with infixmode := false }
  else .next s).bind fun s2 =>
  (endConstruct E s2).bind fun s3 =>
  .next { s3 with libcnt := EXIT_LOOP, force_libnum := -1 }

/-- What the library scan does with the value a handler left in `RetNum`. -/
def dispatch (E : Env) (s : St) : Flow St :=
  match s.g.RetNum with
  | .OK_TOKENINFO info =>
    if E.TI_LENGTH info > E.TI_LENGTH s.probe_tokeninfo then
      .next { s with probe_libnum := s.libnum, probe_tokeninfo := info }
    else .next s
  | .OK_CONTINUE => .next { s with libcnt := EXIT_LOOP, force_libnum := -1, validate := true }
  | .OK_CONTINUE_NOVALIDATE => .next { s with libcnt := EXIT_LOOP, force_libnum := -1 }
  | .OK_STARTCONSTRUCT =>
    (pushConstruct E s.g).bind fun g1 =>
    .next { s with g := g1, libcnt := EXIT_LOOP, force_libnum := -1,
                   validate := !(E.ISPROLOG (g1.mem (g1.cells (g1.ValidateTop - 1)))) }
  | .OK_CHANGECONSTRUCT =>
    .next { s with g := { s.g with cells := setCell s.g.cells (s.g.ValidateTop - 1) (s.g.CompileEnd - 1) },
                   libcnt := EXIT_LOOP, force_libnum := -1 }
  | .OK_INCARGCOUNT =>
    .next { s with g := incArgCount s.g, libcnt := EXIT_LOOP, force_libnum := -1 }
  | .OK_ENDCONSTRUCT =>
    (endConstruct E s).bind fun s1 => .next { s1 with libcnt := EXIT_LOOP, force_libnum := -1 }
  | .OK_NEEDMORE => .next { s with force_libnum := s.libnum, libcnt := EXIT_LOOP }
  | .OK_NEEDMORESTARTCONST =>
    (pushConstruct E s.g).bind fun g1 =>
    .next { s with g := g1, force_libnum := s.libnum, libcnt := EXIT_LOOP, validate := false }
  | .OK_SPLITTOKEN =>
    .next { s with splittoken := true, libcnt := EXIT_LOOP, force_libnum := -1, validate := true }
  | .OK_STARTCONSTRUCT_SPLITTOKEN =>
    (pushConstruct E s.g).bind fun g1 =>
    .next { s with g := g1, splittoken := true, libcnt := EXIT_LOOP, force_libnum := -1,
                   validate := false }
  | .OK_STARTCONSTRUCT_INFIX =>
    (pushConstruct E s.g).bind fun g1 =>
    .next { s with g := g1, infixmode := true, previous_tokeninfo := 0,
                   InfixOpTop := g1.ValidateTop, probe_libnum := -1, probe_tokeninfo := 0,
                   libcnt := EXIT_LOOP, force_libnum := -1, validate := true }
  | .OK_ENDCONSTRUCT_INFIX_SPLITTOKEN => endConstructInfix E { s with splittoken := true }
  | .OK_ENDCONSTRUCT_INFIX => endConstructInfix E s
  | .ERR_NOTMINE => .next s
  | .ERR_NOTMINE_SPLITTOKEN =>
    .next { s with splittoken := true, libcnt := EXIT_LOOP, force_libnum := -1 }
  | .ERR_INVALID =>
    return0 (if s.g.Exceptions = 0 then rplError E E.ERR_SYNTAXERROR s.g else s.g)
  | .ERR_SYNTAX =>
    return0 (if s.g.Exceptions = 0 then rplError E E.ERR_SYNTAXERROR s.g else s.g)
  | .other _ => .next s

/-- The call of a library handler in the scan: set `CurOpcode`, protect the
operator stack by moving `RSTop`, call, restore `RSTop`. -/
def handlerCall (E : Env) (handler : LIBHANDLER) (libnum : Int) (s : St) : St :=
  let op := if s.infixmode then E.MKOPCODE libnum E.OPCODE_PROBETOKEN
    else if s.force_libnum ≠ -1 then E.MKOPCODE libnum E.OPCODE_COMPILECONT
    else E.MKOPCODE libnum E.OPCODE_COMPILE
  let tmpRSTop := s.g.RSTop
  let g1 := { s.g with CurOpcode := op,
                       RSTop := if s.infixmode then s.InfixOpTop else s.g.ValidateTop }
  let g2 := handler g1
  { s with g := { g2 with RSTop := tmpRSTop } }

/-- One pass of the loop `while(libcnt >= 0)`: pick the library, step `libcnt`,
and when the library has a handler call it and act on its answer. -/
def scanBody (E : Env) (s : St) : Flow St :=
  let libnum := if s.force_libnum < 0 then s.libcnt else s.force_libnum
  let s1 := { s with libnum := libnum, libcnt := rplGetNextLib s.libcnt }
  match E.rplGetLibHandler libnum with
  | none => .next s1
  | some handler => dispatch E (handlerCall E handler libnum s1)

/-- The loop `while(libcnt >= 0)`.  Every pass lowers `libcnt` by at least one, so
the fuel `libcnt + 1` given by the caller is never used up while `libcnt >= 0`. -/
def scanLibs (E : Env) : Nat → St → Flow St
  | 0, s => .next s
  | fuel + 1, s =>
    if s.libcnt ≥ 0 then (scanBody E s).bind (scanLibs E fuel) else .next s

/-- The loop that finds the last object the handler compiled:
`while(rplSkipOb(NextObject) < CompileEnd) NextObject = rplSkipOb(NextObject);`.
Every pass moves `NextObject` forward, so the fuel `CompileEnd - NextObject`
given by the caller is never used up. -/
def lastObject (E : Env) (mem : Int → Nat) (compileEnd : Int) : Nat → Int → Int
  | 0, NextObject => NextObject
  | fuel + 1, NextObject =>
    if rplSkipOb E mem NextObject < compileEnd then
      lastObject E mem compileEnd fuel (rplSkipOb E mem NextObject)
    else NextObject

/-- The token-info kinds after which `-` and `+` are unary: the labels of the two
`switch (TI_TYPE(previous_tokeninfo))` statements. -/
def unaryContext (E : Env) (previous_tokeninfo : Int) : Bool :=
  E.TI_TYPE previous_tokeninfo = 0
  || E.TI_TYPE previous_tokeninfo = E.TITYPE_BINARYOP_LEFT
  || E.TI_TYPE previous_tokeninfo = E.TITYPE_BINARYOP_RIGHT
  || E.TI_TYPE previous_tokeninfo = E.TITYPE_CASBINARYOP_LEFT
  || E.TI_TYPE previous_tokeninfo = E.TITYPE_CASBINARYOP_RIGHT
  || E.TI_TYPE previous_tokeninfo = E.TITYPE_OPENBRACKET
  || E.TI_TYPE previous_tokeninfo = E.TITYPE_PREFIXOP
  || E.TI_TYPE previous_tokeninfo = E.TITYPE_COMMA

/-- The two special cases "unary minus or subtraction" and "unary plus or addition":
the opcode and the token-info after them. -/
def disambiguate (E : Env) (Opcode : Nat) (probe_tokeninfo previous_tokeninfo : Int) : Nat × Int :=
  let r1 : Nat × Int :=
    if Opcode = E.CMD_OVR_SUB ∧ unaryContext E previous_tokeninfo = true then
      (E.CMD_OVR_UMINUS, E.MKTOKENINFO 1 E.TITYPE_PREFIXOP 1 4)
    else (Opcode, probe_tokeninfo)
  if r1.1 = E.CMD_OVR_ADD ∧ unaryContext E previous_tokeninfo = true then
    (E.CMD_OVR_UPLUS, E.MKTOKENINFO 1 E.TITYPE_PREFIXOP 1 4)
  else r1

/-- The fragment before a push of `n + 1` cells on the operator stack: make room,
give up when an error is flagged. -/
def reserveOps (E : Env) (n : Int) (s : St) : Flow St :=
  let g1 := if s.g.RStkSize ≤ s.InfixOpTop + n - s.g.RStk then
      growRStk E (s.InfixOpTop - s.g.RStk + E.RSTKSLACK) s.g
    else s.g
  if g1.Exceptions ≠ 0 then return0 g1 else .next { s with g := g1 }

/-- Push of the four-cell open-bracket marker. -/
def pushMarker (Opcode : Nat) (s : St) : St :=
  let c0 := setCell s.g.cells s.InfixOpTop (s.g.CompileEnd - s.g.TempObEnd)
  let c1 := setCell c0 (s.InfixOpTop + 1) s.probe_tokeninfo
  let c2 := setCell c1 (s.InfixOpTop + 2) Opcode
  let c3 := setCell c2 (s.InfixOpTop + 3) s.probe_tokeninfo
  { s with g := { s.g with cells := c3 }, InfixOpTop := s.InfixOpTop + 4 }

/-- An open-bracket token. -/
def openBracket (E : Env) (Opcode : Nat) (s : St) : Flow St :=
  if s.previous_tokeninfo = 0 ∨ E.TI_TYPE s.previous_tokeninfo > E.TITYPE_OPERATORS then
    (reserveOps E 3 s).bind fun s1 => .next (pushMarker Opcode s1)
  else
    (reserveOps E 5 s).bind fun s1 =>
      let c0 := setCell s1.g.cells s1.InfixOpTop E.CMD_OVR_FUNCEVAL
      let c1 := setCell c0 (s1.InfixOpTop + 1)
        (E.MKTOKENINFO (E.TI_LENGTH s1.previous_tokeninfo) E.TITYPE_FUNCTION 0xf 2)
      .next (pushMarker Opcode { s1 with g := { s1.g with cells := c1 },
                                         InfixOpTop := s1.InfixOpTop + 2 })

/-- The loop of a close bracket or comma: apply the stacked operators down to the
innermost open-bracket marker, checking the kind of bracket there. -/
def popToBracket (E : Env) (Opcode : Nat) : Nat → St → Flow St
  | 0, s => .next s
  | fuel + 1, s =>
    if s.InfixOpTop > s.g.ValidateTop then
      if E.TI_TYPE (s.g.cells (s.InfixOpTop - 1)) = E.TITYPE_OPENBRACKET then
        if E.TI_TYPE s.probe_tokeninfo = E.TITYPE_CLOSEBRACKET
            ∧ s.g.cells (s.InfixOpTop - 2) ≠ (toWord ((Opcode : Int) - 1) : Int) then
          if ¬ (Opcode = E.CMD_LISTCLOSEBRACKET
              ∧ s.g.cells (s.InfixOpTop - 2) = (E.CMD_CLISTOPENBRACKET : Int)) then
            return0 (rplError E E.ERR_MISSINGBRACKET s.g)
          else .next s
        else .next s
      else
        let top := s.InfixOpTop - 2
        match rplInfixApply E (s.g.cells top).toNat (E.TI_NARGS (s.g.cells (top + 1))) s.g with
        | (false, g1) => return0 g1
        | (true, g1) => popToBracket E Opcode fuel { s with g := g1, InfixOpTop := top }
    else .next s

/-- The loop `while((ptr = rplReverseSkipOb(list, ptr)) != NULL) ++nargs;`.  Every
pass moves `ptr` back by at least one word and never below `list`, so the fuel
`ptr - list + 1` given by the caller is never used up. -/
def countArgs (E : Env) (mem : Int → Nat) (list : Int) : Nat → Int → Nat → Nat
  | 0, _, nargs => nargs
  | fuel + 1, ptr, nargs =>
    match rplReverseSkipOb E mem list ptr with
    | none => nargs
    | some p => countArgs E mem list fuel p (nargs + 1)

/-- A close bracket, once the operators above the marker are applied: count the
arguments, remove the marker, and apply the function below it or the bracket. -/
def closeBracket (E : Env) (s : St) : Flow St :=
  let top := s.InfixOpTop - 4
  let brackettype := (s.g.cells (top + 2)).toNat
  let list := s.g.TempObEnd + s.g.cells top
  let nargs := countArgs E s.g.mem list ((s.g.CompileEnd - list).toNat + 1) s.g.CompileEnd 0
  let s1 := { s with InfixOpTop := top }
  if top > s1.g.ValidateTop
      ∧ (E.TI_TYPE (s1.g.cells (top - 1)) = E.TITYPE_FUNCTION
        ∨ E.TI_TYPE (s1.g.cells (top - 1)) = E.TITYPE_CASFUNCTION) then
    let needargs := E.TI_NARGS (s1.g.cells (top - 1))
    if needargs ≠ 0xf ∧ nargs ≠ needargs then
      return0 (rplError E E.ERR_BADARGCOUNT s1.g)
    else
      let top2 := top - 2
      let s2 := { s1 with InfixOpTop := top2 }
      if s2.g.cells top2 = (E.CMD_OVR_FUNCEVAL : Int) then
        match rplRotArgs E (nargs + 1) s2.g with
        | (false, g1) => return0 g1
        | (true, g1) =>
          match rplInfixApply E (g1.cells top2).toNat (nargs + 1) g1 with
          | (false, g2) => return0 g2
          | (true, g2) => .next { s2 with g := g2 }
      else
        match rplInfixApply E (s2.g.cells top2).toNat nargs s2.g with
        | (false, g2) => return0 g2
        | (true, g2) => .next { s2 with g := g2 }
  else
    if brackettype ≠ E.CMD_OPENBRACKET ∨ nargs > 1 then
      match rplInfixApply E brackettype nargs s1.g with
      | (false, g2) => return0 g2
      | (true, g2) => .next { s1 with g := g2 }
    else .next s1

/-- A close-bracket or comma token. -/
def closeBracketOrComma (E : Env) (Opcode : Nat) (s : St) : Flow St :=
  (popToBracket E Opcode (s.InfixOpTop - s.g.ValidateTop).toNat s).bind fun s1 =>
  if s1.InfixOpTop ≤ s1.g.ValidateTop then
    return0 (rplError E E.ERR_MISSINGBRACKET s1.g)
  else if E.TI_TYPE s1.probe_tokeninfo = E.TITYPE_CLOSEBRACKET then closeBracket E s1
  else .next s1

/-- The loop that applies stacked operators according to precedence before a new
operator is pushed. -/
def precedenceFlush (E : Env) : Nat → St → Flow St
  | 0, s => .next s
  | fuel + 1, s =>
    if s.InfixOpTop > s.g.ValidateTop then
      let top := s.InfixOpTop - 2
      if E.TI_PRECEDENCE (s.g.cells (s.InfixOpTop - 1)) < E.TI_PRECEDENCE s.probe_tokeninfo then
        match rplInfixApply E (s.g.cells top).toNat (E.TI_NARGS (s.g.cells (top + 1))) s.g with
        | (false, g1) => return0 g1
        | (true, g1) => precedenceFlush E fuel { s with g := g1, InfixOpTop := top }
      else if (E.TI_TYPE s.probe_tokeninfo = E.TITYPE_BINARYOP_LEFT
            ∨ E.TI_TYPE s.probe_tokeninfo = E.TITYPE_CASBINARYOP_LEFT)
          ∧ E.TI_PRECEDENCE (s.g.cells (s.InfixOpTop - 1)) ≤ E.TI_PRECEDENCE s.probe_tokeninfo then
        match rplInfixApply E (s.g.cells top).toNat (E.TI_NARGS (s.g.cells (top + 1))) s.g with
        | (false, g1) => return0 g1
        | (true, g1) => precedenceFlush E fuel { s with g := g1, InfixOpTop := top }
      else .next s
    else .next s

/-- The statements `InfixOpTop[0] = Opcode; InfixOpTop[1] = probe_tokeninfo; InfixOpTop += 2;`. -/
def pushOp (Opcode : Nat) (s : St) : St :=
  let c0 := setCell s.g.cells s.InfixOpTop Opcode
  let c1 := setCell c0 (s.InfixOpTop + 1) s.probe_tokeninfo
  { s with g := { s.g with cells := c1 }, InfixOpTop := s.InfixOpTop + 2 }

/-- Any other operator: flush by precedence (not for a prefix operator), then push. -/
def pushOperator (E : Env) (Opcode : Nat) (s : St) : Flow St :=
  (if E.TI_TYPE s.probe_tokeninfo ≠ E.TITYPE_PREFIXOP then
    precedenceFlush E (s.InfixOpTop - s.g.ValidateTop).toNat s
  else .next s).bind fun s1 =>
  (reserveOps E 1 s1).bind fun s2 => .next (pushOp Opcode s2)

/-- What infix mode does with a token once its handler has compiled it: find the
last compiled object; when the token is an operator take it out of the stream and
run the operator-precedence step; finally remember the token-info. -/
def infixAfterCompile (E : Env) (s : St) : Flow St :=
  let last := lastObject E s.g.mem s.g.CompileEnd
    (s.g.CompileEnd - s.g.LastCompiledObject).toNat s.g.LastCompiledObject
  let s1 := { s with g := { s.g with LastCompiledObject := last } }
  (if E.TI_TYPE s1.probe_tokeninfo > E.TITYPE_OPERATORS then
    let Opcode0 := s1.g.mem s1.g.LastCompiledObject
    let s2 := { s1 with g := { s1.g with CompileEnd := s1.g.LastCompiledObject } }
    let d := disambiguate E Opcode0 s2.probe_tokeninfo s2.previous_tokeninfo
    let Opcode := d.1
    let s3 := { s2 with probe_tokeninfo := d.2 }
    if E.TI_TYPE s3.probe_tokeninfo = E.TITYPE_OPENBRACKET then openBracket E Opcode s3
    else if E.TI_TYPE s3.probe_tokeninfo = E.TITYPE_CLOSEBRACKET
        ∨ E.TI_TYPE s3.probe_tokeninfo = E.TITYPE_COMMA then closeBracketOrComma E Opcode s3
    else pushOperator E Opcode s3
  else .next s1).bind fun s4 =>
  .next { s4 with previous_tokeninfo := s4.probe_tokeninfo }

/-- Infix mode, after the probe found a library for the token: the globals as they
are set up for the `COMPILE` call: the token is cut at the probed length, the blanks
after it are skipped, and the token globals are refreshed. -/
def cutToken (E : Env) (s : St) : Globals :=
  let blank := E.utf8nskip s.g.string s.g.TokenStart s.g.BlankStart (E.TI_LENGTH s.probe_tokeninfo)
  let next := skipBlanks s.g.string s.g.CompileStringEnd (s.g.CompileStringEnd - blank) blank
  let g1 := { s.g with CurOpcode := E.MKOPCODE s.probe_libnum E.OPCODE_COMPILE,
                       BlankStart := blank, NextTokenStart := next }
  let g2 := { g1 with TokenLen := E.utf8nlen g1.string g1.TokenStart g1.BlankStart,
                      BlankLen := (g1.NextTokenStart : Int) - g1.BlankStart }
  { g2 with CurrentConstruct := currentConstruct g2,
            LastCompiledObject := g2.CompileEnd, RetNum := RetCode.other (-1) }

/-- Infix mode, after the probe found a library for the token: reject what is not
allowed in symbolics, cut the token at the probed length, let the library compile
it, and go on with `infixAfterCompile`. -/
def infixToken (E : Env) (s : St) : Flow St :=
  if E.TI_TYPE s.probe_tokeninfo = E.TITYPE_NOTALLOWED then
    return0 (rplError E E.ERR_NOTALLOWEDINSYMBOLICS s.g)
  else
    let g3 := cutToken E s
    let g4 : Globals := match E.rplGetLibHandler s.probe_libnum with
      | some h =>
        let tmpRSTop := g3.RSTop
        { h { g3 with RSTop := s.InfixOpTop } with RSTop := tmpRSTop }
      | none => g3
    if g4.RetNum ≠ RetCode.OK_CONTINUE then
      return0 (if g4.Exceptions = 0 then rplError E E.ERR_INVALIDTOKEN g4 else g4)
    else infixAfterCompile E { s with g := g4 }

/-- The part of the main loop after the library scan, when no library ended the
scan (`libcnt > EXIT_LOOP`). -/
def afterScan (E : Env) (s : St) : Flow St :=
  if s.libcnt > EXIT_LOOP then
    if s.infixmode then
      if s.probe_libnum < 0 then .next { s with g := rplError E E.ERR_INVALIDTOKEN s.g }
      else infixToken E s
    else return0 (rplError E E.ERR_INVALIDTOKEN s.g)
  else .next s

/-- The block `if(ValidateHandler) { ... }`: call the handler of the current
construct and act on its answer. -/
def validateCall (E : Env) (s : St) : Flow St :=
  match s.ValidateHandler with
  | some vh =>
    let g1 := vh { s.g with CurOpcode := E.MKOPCODE (E.LIBNUM s.g.CurrentConstruct) E.OPCODE_VALIDATE }
    let s1 := { s with g := g1 }
    match g1.RetNum with
    | .OK_INCARGCOUNT => .next { s1 with g := incArgCount g1 }
    | .ERR_INVALID =>
      return0 (if g1.Exceptions = 0 then rplError E E.ERR_SYNTAXERROR g1 else g1)
    | .OK_ENDCONSTRUCT => endConstruct E s1
    | _ => .next s1
  | none => .next s

/-- Validation of the last compiled object by the handler of the current construct. -/
def validateStep (E : Env) (s : St) : Flow St :=
  if s.validate ∧ ¬ s.infixmode then
    (validateCall E s).bind fun s2 => .next { s2 with validate := false }
  else .next s

/-- The head of a pass of the main loop, up to the `break`: scan the next token
unless the previous one was split, refresh the token globals, and set up the
library scan.  The flag tells whether the `break` is taken. -/
def loopHead (E : Env) (s : St) : St × Bool :=
  let g1 := if ¬ s.splittoken then
      let tokenStart := s.g.NextTokenStart
      let blank := skipNonBlanks s.g.string s.g.CompileStringEnd (s.g.CompileStringEnd - tokenStart) tokenStart
      let next := skipBlanks s.g.string s.g.CompileStringEnd (s.g.CompileStringEnd - blank) blank
      { s.g with TokenStart := tokenStart, BlankStart := blank, NextTokenStart := next }
    else s.g
  let g2 := { g1 with TokenLen := E.utf8nlen g1.string g1.TokenStart g1.BlankStart,
                      BlankLen := (g1.NextTokenStart : Int) - g1.BlankStart }
  let g3 := { g2 with CurrentConstruct := currentConstruct g2 }
  let g4 := { g3 with LastCompiledObject := g3.CompileEnd }
  let s1 := { s with g := g4, splittoken := false,
                     ValidateHandler := E.rplGetLibHandler (E.LIBNUM g3.CurrentConstruct),
                     libcnt := if s.force_libnum < 0 then (E.MAXLIBNUMBER : Int) else 0 }
  if s1.g.TokenStart ≥ s1.g.CompileStringEnd then (s1, true)
  else if s1.infixmode then ({ s1 with probe_libnum := -1, probe_tokeninfo := 0 }, false)
  else (s1, false)

/-- The rest of a pass of the main loop: library scan, infix step or unknown
token, validation. -/
def loopRest (E : Env) (s : St) : Flow St :=
  (scanLibs E (s.libcnt.toNat + 1) s).bind fun s1 =>
  (afterScan E s1).bind fun s2 =>
  validateStep E s2

/-- The main `do ... while` loop.  Handlers decide how far the text pointers move,
so the number of passes has no bound that the code enforces: the loop takes fuel,
and the result is nothing when the fuel runs out.  Otherwise it is the state with
which the loop was left, or the return taken inside it. -/
def compileLoop (E : Env) : Nat → St → Option (Flow St)
  | 0, _ => none
  | fuel + 1, s =>
    match loopHead E s with
    | (s1, true) => some (.next s1)
    | (s1, false) =>
      match loopRest E s1 with
      | .ret v g => some (.ret v g)
      | .next s2 =>
        if (s2.splittoken ∨ s2.g.NextTokenStart < s2.g.CompileStringEnd) ∧ s2.g.Exceptions = 0 then
          compileLoop E fuel s2
        else some (.next s2)

/-- The start of `rplCompile`, up to the main loop. -/
def compileInit (E : Env) (string : Nat → Nat) (length : Nat) (addwrapper : Bool)
    (g : Globals) : Flow St :=
  let g1 := { g with CompileEnd := g.TempObEnd, LAMTopSaved := g.LAMTop,
                     ValidateTop := g.RSTop, ValidateBottom := g.RSTop,
                     string := string, NextTokenStart := 0, CompileStringEnd := length }
  (if addwrapper then
    let g2 := rplCompileAppend E (E.MKPROLOG E.DOCOL 0) g1
    pushConstruct E g2
  else .next g1).bind fun g3 =>
  let start := skipBlanks g3.string g3.CompileStringEnd (g3.CompileStringEnd - g3.NextTokenStart)
    g3.NextTokenStart
  let g4 := { g3 with NextTokenStart := start }
  .next { g := g4, force_libnum := -1, splittoken := false, validate := false, infixmode := false,
          probe_libnum := 0, probe_tokeninfo := 0, previous_tokeninfo := 0,
          libcnt := 0, libnum := 0, ValidateHandler := none, InfixOpTop := 0 }

/-- The result of a call of `rplCompile`: the returned pointer (nothing for
`NULL`) and the globals it leaves. -/
structure Result where
  value : Option Int
  g : Globals

/-- The block `if(!Exceptions && addwrapper) { ... }` that closes the program wrapper. -/
def closeWrapper (E : Env) (addwrapper : Bool) (g : Globals) : Flow Globals :=
  if g.Exceptions = 0 ∧ addwrapper = true then
    let g1 := rplCompileAppend E E.CMD_SEMI g
    let g2 := { g1 with ValidateTop := g1.ValidateTop - 1 }
    if g2.ValidateTop < g2.ValidateBottom then
      return0 (rplError E E.ERR_ENDWITHOUTSTART g2)
    else
      let p := g2.cells g2.ValidateTop
      let g3 := if E.ISPROLOG (g2.mem p) then
          { g2 with mem := setWord g2.mem p (g2.mem p ||| closeSize g2.CompileEnd p) }
        else g2
      .next (rplCompileAppend E E.CMD_ENDOFCODE g3)
  else .next g

/-- The end of `rplCompile`, after the main loop. -/
def compileFinish (E : Env) (addwrapper : Bool) (s : St) : Result :=
  if s.force_libnum ≥ 0 then
    let g0 := rplError E E.ERR_STARTWITHOUTEND s.g
    { value := none, g := { g0 with LAMTop := g0.LAMTopSaved } }
  else
    match closeWrapper E addwrapper s.g with
    | .ret v g => { value := v, g := g }
    | .next g4 =>
      let g5 := if g4.Exceptions = 0 then
          if g4.ValidateTop < g4.ValidateBottom then rplError E E.ERR_ENDWITHOUTSTART g4
          else if g4.ValidateTop > g4.ValidateBottom then rplError E E.ERR_STARTWITHOUTEND g4
          else g4
        else g4
      let g6 := { g5 with LAMTop := g5.LAMTopSaved }
      if g6.CompileEnd ≠ g6.TempObEnd ∧ g6.Exceptions = 0 then
        let g7 := if g6.CompileEnd + E.TEMPOBSLACK > g6.TempObSize then
            growTempOb E (g6.CompileEnd - g6.TempOb + E.TEMPOBSLACK) g6
          else g6
        if g6.CompileEnd + E.TEMPOBSLACK > g6.TempObSize ∧ g7.Exceptions ≠ 0 then
          { value := none, g := g7 }
        else
          let g8 := E.rplAddTempBlock g7.TempObEnd g7
          let newobject := g8.TempObEnd
          { value := some newobject, g := { g8 with TempObEnd := g8.CompileEnd } }
      else { value := none, g := g6 }

/-- The main loop and the end of `rplCompile`, from a state of the loop on. -/
def compileFrom (E : Env) (fuel : Nat) (addwrapper : Bool) (s : St) : Option Result :=
  match compileLoop E fuel s with
  | none => none
  | some (.ret v g1) => some { value := v, g := g1 }
  | some (.next s1) => some (compileFinish E addwrapper s1)

/-- `rplCompile(string, length, addwrapper)`, run on the globals `g` with the given
fuel for the main loop; nothing when the fuel runs out. -/
def rplCompile (E : Env) (fuel : Nat) (string : Nat → Nat) (length : Nat) (addwrapper : Bool)
    (g : Globals) : Option Result :=
  match compileInit E string length addwrapper g with
  | .ret v g1 => some { value := v, g := g1 }
  | .next s0 => compileFrom E fuel addwrapper s0

/-! ## Vocabulary of the statements -/

/-- The `n` words stored from address `p` on. -/
def segment (mem : Int → Nat) (p : Int) (n : Nat) : List Nat :=
  (List.range n).map fun (i : Nat) => mem (p + (i : Int))

/-- The store after the words `ws` were written from address `p` on. -/
def writeWords (mem : Int → Nat) (p : Int) (ws : List Nat) : Int → Nat :=
  fun a => if p ≤ a ∧ a < p + (ws.length : Int) then ws.getD (a - p).toNat 0 else mem a

/-- The words `ws` are one complete object: a single word that is not a prolog, or
a prolog followed by as many words as its size field says. -/
def IsObj (E : Env) (ws : List Nat) : Prop :=
  match ws with
  | [] => False
  | w :: rest => rest.length = if E.ISPROLOG w then E.OBJSIZE w else 0

/-- The store holds the words `ws` from address `p` on. -/
def Holds (mem : Int → Nat) (p : Int) (ws : List Nat) : Prop :=
  ∀ i : Nat, i < ws.length → ws[i]? = some (mem (p + (i : Int)))

/-- The symbolic node that applies `opcode` to the argument objects `args`: a
`DOSYMB` prolog spanning the opcode and the arguments. -/
def node (E : Env) (opcode : Nat) (args : List (List Nat)) : List Nat :=
  E.MKPROLOG E.DOSYMB (args.flatten.length + 1) :: opcode :: args.flatten

/-- The state in which `infixAfterCompile` finds the compiler when the library that
won the probe with token-info `info` has appended the words `ws` at the cursor and
answered `OK_CONTINUE` (what `infixToken` sets up around the handler call). -/
def compiledToken (ws : List Nat) (info : Int) (s : St) : St :=
  { s with probe_tokeninfo := info,
           g := { s.g with mem := writeWords s.g.mem s.g.CompileEnd ws,
                           CompileEnd := s.g.CompileEnd + (ws.length : Int),
                           LastCompiledObject := s.g.CompileEnd,
                           RetNum := RetCode.OK_CONTINUE } }

/-- One token through the infix engine: the library compiles it to `ws`, then
`infixAfterCompile` runs. -/
def feed (E : Env) (ws : List Nat) (info : Int) (s : St) : Flow St :=
  infixAfterCompile E (compiledToken ws info s)

/-- A token-info of an operand: its kind is neither the empty kind `0` nor in the
operator class. -/
def IsOperand (E : Env) (info : Int) : Prop :=
  0 < E.TI_TYPE info ∧ E.TI_TYPE info ≤ E.TITYPE_OPERATORS

/-- A token-info of a binary operator: one of the four binary kinds, two arguments. -/
def IsBinary (E : Env) (info : Int) : Prop :=
  (E.TI_TYPE info = E.TITYPE_BINARYOP_LEFT ∨ E.TI_TYPE info = E.TITYPE_BINARYOP_RIGHT
    ∨ E.TI_TYPE info = E.TITYPE_CASBINARYOP_LEFT ∨ E.TI_TYPE info = E.TITYPE_CASBINARYOP_RIGHT)
  ∧ E.TI_NARGS info = 2

/-- A token-info of a left-associative binary operator. -/
def IsLeftAssoc (E : Env) (info : Int) : Prop :=
  E.TI_TYPE info = E.TITYPE_BINARYOP_LEFT ∨ E.TI_TYPE info = E.TITYPE_CASBINARYOP_LEFT

/-- The token-info kinds that `compiler.c` names, apart from the class bound
`TITYPE_OPERATORS`. -/
def operatorKinds (E : Env) : List Nat :=
  [E.TITYPE_BINARYOP_LEFT, E.TITYPE_BINARYOP_RIGHT, E.TITYPE_CASBINARYOP_LEFT,
   E.TITYPE_CASBINARYOP_RIGHT, E.TITYPE_OPENBRACKET, E.TITYPE_CLOSEBRACKET, E.TITYPE_PREFIXOP,
   E.TITYPE_COMMA, E.TITYPE_FUNCTION, E.TITYPE_CASFUNCTION, E.TITYPE_NOTALLOWED]

/-- What the statements assume of the header constants: the operator kinds are
pairwise different and all lie in the operator class, above `TITYPE_OPERATORS`. -/
structure KindLaws (E : Env) : Prop where
  nodup : (operatorKinds E).Nodup
  above : ∀ k ∈ operatorKinds E, E.TITYPE_OPERATORS < k

/-- What the statements assume of the header macros for symbolic prologs of a size
below `bound`: the size field reads back, and the word is a prolog. -/
structure SymbLaws (E : Env) (bound : Nat) : Prop where
  small : bound ≤ 2 ^ 32
  objsize : ∀ n, n < bound → E.OBJSIZE (E.MKPROLOG E.DOSYMB n) = n
  isprolog : ∀ n, n < bound → E.ISPROLOG (E.MKPROLOG E.DOSYMB n) = true

/-- What the statements assume of the token-info macros: the fields of the
token-info built for a unary operator read back, and the commands involved differ. -/
structure UnaryLaws (E : Env) : Prop where
  kind : E.TI_TYPE (E.MKTOKENINFO 1 E.TITYPE_PREFIXOP 1 4) = E.TITYPE_PREFIXOP
  nargs : E.TI_NARGS (E.MKTOKENINFO 1 E.TITYPE_PREFIXOP 1 4) = 1
  precedence : E.TI_PRECEDENCE (E.MKTOKENINFO 1 E.TITYPE_PREFIXOP 1 4) = 4
  length : E.TI_LENGTH (E.MKTOKENINFO 1 E.TITYPE_PREFIXOP 1 4) = 1
  uminus_ne_add : E.CMD_OVR_UMINUS ≠ E.CMD_OVR_ADD
  sub_ne_add : E.CMD_OVR_SUB ≠ E.CMD_OVR_ADD

/-- The operator stack of the infix engine, the cells between `ValidateTop` and
`InfixOpTop`, holds the cell pairs `ops`, bottom first. -/
def OpStack (s : St) (ops : List (Int × Int)) : Prop :=
  s.InfixOpTop = s.g.ValidateTop + 2 * (ops.length : Int) ∧
  ∀ i : Nat, i < ops.length →
    ops[i]? = some (s.g.cells (s.g.ValidateTop + 2 * (i : Int)),
                    s.g.cells (s.g.ValidateTop + 2 * (i : Int) + 1))

/-- The infix engine between two tokens, seen abstractly: the innermost construct is
the symbolic whose header lies at `h`, the stream after the header is the sequence
of complete objects `objs` and ends at the cursor, the operator stack holds `ops`,
and no error is flagged. -/
structure Engine (E : Env) (s : St) (h : Int) (objs : List (List Nat))
    (ops : List (Int × Int)) : Prop where
  header : s.g.cells (s.g.ValidateTop - 1) = h
  cursor : s.g.CompileEnd = h + 1 + (objs.flatten.length : Int)
  wf : ∀ o ∈ objs, IsObj E o
  stream : Holds s.g.mem (h + 1) objs.flatten
  ops : OpStack s ops
  noerr : s.g.Exceptions = 0

/-- Two states agree on what the infix engine never changes: the bounds of the
construct stack, the capacities of store and stack, and the mode. -/
structure SameFrame (s t : St) : Prop where
  vtop : t.g.ValidateTop = s.g.ValidateTop
  vbottom : t.g.ValidateBottom = s.g.ValidateBottom
  tsize : t.g.TempObSize = s.g.TempObSize
  tend : t.g.TempObEnd = s.g.TempObEnd
  rstk : t.g.RStk = s.g.RStk
  rsize : t.g.RStkSize = s.g.RStkSize
  mode : t.infixmode = s.infixmode

/-- The state in which the operator branch of `infixAfterCompile` works after the
library compiled an operator token to the single word `w`: the word was written at
the cursor, recorded as last compiled object, and taken out of the stream again. -/
def tookOperator (w : Nat) (s : St) : St :=
  { s with g := { s.g with mem := writeWords s.g.mem s.g.CompileEnd [w],
                           LastCompiledObject := s.g.CompileEnd,
                           RetNum := RetCode.OK_CONTINUE } }

/-- The condition under which the precedence flush pops the stacked operator with
token-info `top` before the operator with token-info `new` is pushed. -/
def popsBefore (E : Env) (top new : Int) : Prop :=
  E.TI_PRECEDENCE top < E.TI_PRECEDENCE new
  ∨ ((E.TI_TYPE new = E.TITYPE_BINARYOP_LEFT ∨ E.TI_TYPE new = E.TITYPE_CASBINARYOP_LEFT)
      ∧ E.TI_PRECEDENCE top ≤ E.TI_PRECEDENCE new)

/-- The precedence flush before an operator with token-info `new` leaves the
stack `ops` (bottom first) as it is: the stack is empty, or its top is not popped. -/
def FlushStops (E : Env) (ops : List (Int × Int)) (new : Int) : Prop :=
  ops = [] ∨ ∃ (below : List (Int × Int)) (o t : Int), ops = below ++ [(o, t)] ∧ ¬ popsBefore E t new

/-- The infix expression `a op1 b op2 c` followed by the end of the symbolic, token
by token through the infix engine. -/
def compileInfix3 (E : Env) (a b c : List Nat) (ia ib ic : Int) (op1 op2 : Nat) (i1 i2 : Int)
    (s : St) : Flow St :=
  (feed E a ia s).bind fun s1 =>
  (feed E [op1] i1 s1).bind fun s2 =>
  (feed E b ib s2).bind fun s3 =>
  (feed E [op2] i2 s3).bind fun s4 =>
  (feed E c ic s4).bind fun s5 =>
  endConstructInfix E s5

/-- What flushing a stack of operators makes of a sequence of objects: the
operators, given top first as pairs of opcode cell and token-info, are applied one
after the other, each wrapping as many of the last objects as its token-info
declares into one node; nothing when an operator finds too few objects. -/
def applyOps (E : Env) : List (Int × Int) → List (List Nat) → Option (List (List Nat))
  | [], objs => some objs
  | (o, t) :: rest, objs =>
    if E.TI_NARGS t ≤ objs.length then
      applyOps E rest (objs.take (objs.length - E.TI_NARGS t)
        ++ [node E o.toNat (objs.drop (objs.length - E.TI_NARGS t))])
    else none

/-- The infix expression `a op b` followed by the end of the symbolic, token by
token through the infix engine. -/
def compileInfix2 (E : Env) (a b : List Nat) (ia ib : Int) (op : Nat) (i : Int) (s : St) : Flow St :=
  (feed E a ia s).bind fun s1 =>
  (feed E [op] i s1).bind fun s2 =>
  (feed E b ib s2).bind fun s3 =>
  endConstructInfix E s3

/-- The infix expression `op b`, an operator followed by one operand, then the end
of the symbolic, token by token through the infix engine. -/
def compileInfix1 (E : Env) (b : List Nat) (ib : Int) (op : Nat) (i : Int) (s : St) : Flow St :=
  (feed E [op] i s).bind fun s1 =>
  (feed E b ib s1).bind fun s2 =>
  endConstructInfix E s2

/-- The infix expression `a op1 op b`, an operand, an operator, a second operator
and an operand, followed by the end of the symbolic, token by token through the infix
engine. -/
def compileInfixSigned (E : Env) (a b : List Nat) (ia ib : Int) (op1 : Nat) (i1 : Int)
    (op : Nat) (i : Int) (s : St) : Flow St :=
  (feed E a ia s).bind fun s1 =>
  (feed E [op1] i1 s1).bind fun s2 =>
  (feed E [op] i s2).bind fun s3 =>
  (feed E b ib s3).bind fun s4 =>
  endConstructInfix E s4

/-- The token-info that `rplCompile` gives a `-` or `+` it found to be unary:
`MKTOKENINFO(1, TITYPE_PREFIXOP, 1, 4)`. -/
def unaryInfo (E : Env) : Int := E.MKTOKENINFO 1 E.TITYPE_PREFIXOP 1 4

/-- Library `n` is registered and answers `PROBETOKEN` with `answer`, whatever
else its handler does to the globals. -/
def Answers (E : Env) (n : Int) (answer : RetCode) : Prop :=
  ∃ h : LIBHANDLER, E.rplGetLibHandler n = some h
    ∧ ∀ g : Globals, g.CurOpcode = E.MKOPCODE n E.OPCODE_PROBETOKEN → (h g).RetNum = answer

/-- A family of `PROBETOKEN` responses in which every registered library answers
with a token-info value or with `NOT_MINE`. -/
def ProbeFamily (E : Env) (resp : Int → RetCode) : Prop :=
  (∀ (n : Int) (h : LIBHANDLER), E.rplGetLibHandler n = some h →
    ∀ g : Globals, g.CurOpcode = E.MKOPCODE n E.OPCODE_PROBETOKEN → (h g).RetNum = resp n)
  ∧ ∀ n : Int, resp n = RetCode.ERR_NOTMINE ∨ ∃ w : Int, resp n = RetCode.OK_TOKENINFO w

/-- Library `n`, between 0 and `MAXLIBNUMBER`, is registered and its response in the
family is the token-info `w`. -/
def Offers (E : Env) (resp : Int → RetCode) (n : Int) (w : Int) : Prop :=
  0 ≤ n ∧ n ≤ (E.MAXLIBNUMBER : Int) ∧ (E.rplGetLibHandler n).isSome = true
    ∧ resp n = RetCode.OK_TOKENINFO w

/-- The state of the main loop of `rplCompile` when the library scan of a token
starts in infix mode without a continuation library, as `loopHead` leaves it. -/
def ProbeStart (E : Env) (s : St) : Prop :=
  s.infixmode = true ∧ s.force_libnum < 0 ∧ s.libcnt = (E.MAXLIBNUMBER : Int)
    ∧ s.probe_libnum = -1 ∧ s.probe_tokeninfo = 0

/-- What the scan has established when the libraries above `k` have been asked. -/
structure ProbeInv (E : Env) (resp : Int → RetCode) (s : St) (k : Int) : Prop where
  mode : s.infixmode = true
  force : s.force_libnum < 0
  cnt : s.libcnt = k
  best : ∀ n w, k < n → Offers E resp n w → E.TI_LENGTH w ≤ E.TI_LENGTH s.probe_tokeninfo
  sel : (s.probe_libnum = -1 ∧ E.TI_LENGTH s.probe_tokeninfo = 0)
    ∨ (k < s.probe_libnum ∧ Offers E resp s.probe_libnum s.probe_tokeninfo
      ∧ (∀ n w, s.probe_libnum < n → Offers E resp n w →
          E.TI_LENGTH w < E.TI_LENGTH s.probe_tokeninfo)
      ∧ 0 < E.TI_LENGTH s.probe_tokeninfo)

/-- The outcome of a loop that pops and applies the operators `topfirst` stacked
above `base`: either all are applied, or one finds too few objects. -/
def PopOutcome (E : Env) (run : Nat → St → Flow St) (s : St) (h : Int)
    (topfirst : List (Int × Int)) (objs : List (List Nat)) (base : List (Int × Int))
    (fuel : Nat) : Prop :=
  match applyOps E topfirst objs with
  | some objs2 => ∃ u : St, run (fuel + topfirst.length) s = run fuel u
      ∧ Engine E u h objs2 base ∧ SameFrame s u
      ∧ u.probe_tokeninfo = s.probe_tokeninfo
      ∧ u.g.CompileEnd = s.g.CompileEnd + 2 * (topfirst.length : Int)
  | none => ∃ g : Globals, run (fuel + topfirst.length) s = Flow.ret none g
      ∧ g.ErrorCode = E.ERR_BADARGCOUNT ∧ g.Exceptions = E.EX_ERRORCODE

/-- Every return a flow takes is a return of `NULL` with the error flag raised. -/
def Flagged {α : Type} (f : Flow α) : Prop :=
  ∀ v g, f = Flow.ret v g → v = none ∧ g.Exceptions ≠ 0

/-- A token is left for the next pass of the main loop: the token start the pass
will use lies before the end of the text. -/
def TokenLeft (s : St) : Prop :=
  (if s.splittoken = true then s.g.TokenStart else s.g.NextTokenStart) < s.g.CompileStringEnd

/-- The text pointers are left alone between two values of the globals, except that
`NextTokenStart` may have moved forward. -/
structure KeptG (g g1 : Globals) : Prop where
  string : g1.string = g.string
  stop : g1.CompileStringEnd = g.CompileStringEnd
  tok : g1.TokenStart = g.TokenStart
  blank : g1.BlankStart = g.BlankStart
  next : g.NextTokenStart ≤ g1.NextTokenStart

/-- The same between two states of `rplCompile`, no token split being asked for, and
the validation handler being the same or taken from the library table. -/
structure Kept (E : Env) (s t : St) : Prop where
  text : KeptG s.g t.g
  split : t.splittoken = s.splittoken
  vh : t.ValidateHandler = s.ValidateHandler ∨ ∃ n, t.ValidateHandler = E.rplGetLibHandler n

/-- The answer is none of the four that make the next pass work on the same token. -/
def NoSplit (r : RetCode) : Prop :=
  r ≠ RetCode.OK_SPLITTOKEN ∧ r ≠ RetCode.OK_STARTCONSTRUCT_SPLITTOKEN
    ∧ r ≠ RetCode.OK_ENDCONSTRUCT_INFIX_SPLITTOKEN ∧ r ≠ RetCode.ERR_NOTMINE_SPLITTOKEN

/-- Libraries that read the text without rewinding it: every handler leaves the text
and the token bounds alone, moves `NextTokenStart` forward if at all, and never asks
for a token split; and `utf8nskip` moves forward, by at least one byte when asked to
skip at least one code point of a token that is not empty. -/
structure Tame (E : Env) : Prop where
  handlers : ∀ (n : Int) (h : LIBHANDLER), E.rplGetLibHandler n = some h →
    ∀ g : Globals, KeptG g (h g) ∧ NoSplit (h g).RetNum
  skip_le : ∀ (str : Nat → Nat) (a b n : Nat), a ≤ b → a ≤ E.utf8nskip str a b n
  skip_lt : ∀ (str : Nat → Nat) (a b n : Nat), a < b → 0 < n → a < E.utf8nskip str a b n

/-- Every state a flow goes on with is related to `s`. -/
def Keeps (E : Env) (s : St) (f : Flow St) : Prop := ∀ t, f = Flow.next t → Kept E s t

/-- In infix mode a library is selected only with a token-info of positive length. -/
def Selected (E : Env) (s : St) : Prop :=
  s.infixmode = true → s.probe_libnum ≥ 0 → 0 < E.TI_LENGTH s.probe_tokeninfo

/-- The validation handler, when there is one, is a handler of the library table. -/
def Registered (E : Env) (s : St) : Prop :=
  ∀ h, s.ValidateHandler = some h → ∃ n, E.rplGetLibHandler n = some h

/-! ## A concrete environment

The layout of the upstream headers is not part of the sources; this instance fixes
one that has the properties above, for evaluating the definitions. -/

/-- Globals with an empty store and empty stacks at the given addresses. -/
def emptyGlobals (tempObEnd rsTop : Int) : Globals :=
  { mem := fun _ => 0, TempOb := 0, TempObEnd := tempObEnd, TempObSize := tempObEnd + 1000,
    CompileEnd := tempObEnd, cells := fun _ => 0, RStk := 0, RStkSize := rsTop + 1000,
    RSTop := rsTop, ValidateTop := rsTop, ValidateBottom := rsTop, LAMTop := 0, LAMTopSaved := 0,
    Exceptions := 0, ErrorCode := 0, RetNum := RetCode.other 0, CurOpcode := 0,
    CurrentConstruct := 0, LastCompiledObject := 0, string := fun _ => 0, TokenStart := 0,
    BlankStart := 0, NextTokenStart := 0, CompileStringEnd := 0, TokenLen := 0, BlankLen := 0,
    DecompileObject := 0, EndOfObject := 0, SavedDecompObject := 0, DecompMode := 0,
    DecompHints := 0, DecompStringEnd := 0 }

/-- An environment with the given highest library number and library table; words are laid out as library
number, prolog bit and an 18-bit size, token-infos as length, kind, argument count
and precedence above the flag `2 ^ 30`.  The decompiler flags are bits 0 to 2 with
the maximum width above them, the hints are six bits with the indentation above bit
16, the main operator of a symbolic is the word after its prolog when that word is
not a prolog, and the argument separator is a comma. -/
def mkEnv (maxlib : Nat) (table : Int → Option LIBHANDLER) : Env :=
  { MKPROLOG := fun lib size => lib * 2 ^ 20 + 2 ^ 19 + size % 2 ^ 18
    OBJSIZE := fun w => w % 2 ^ 18
    ISPROLOG := fun w => (w / 2 ^ 19) % 2 = 1
    LIBNUM := fun w => (w / 2 ^ 20 : Nat)
    MKOPCODE := fun lib op => lib.toNat * 2 ^ 20 + op % 2 ^ 19
    MKTOKENINFO := fun len kind nargs prec =>
      ((len % 2 ^ 14 + (kind % 64) * 2 ^ 14 + (nargs % 16) * 2 ^ 20 + (prec % 64) * 2 ^ 24
        + 2 ^ 30 : Nat) : Int)
    TI_LENGTH := fun w => w.toNat % 2 ^ 14
    TI_TYPE := fun w => (w.toNat / 2 ^ 14) % 64
    TI_NARGS := fun w => (w.toNat / 2 ^ 20) % 16
    TI_PRECEDENCE := fun w => (w.toNat / 2 ^ 24) % 64
    TITYPE_OPERATORS := 16
    TITYPE_PREFIXOP := 17
    TITYPE_BINARYOP_LEFT := 19
    TITYPE_BINARYOP_RIGHT := 20
    TITYPE_FUNCTION := 21
    TITYPE_OPENBRACKET := 22
    TITYPE_CLOSEBRACKET := 23
    TITYPE_COMMA := 24
    TITYPE_NOTALLOWED := 25
    TITYPE_CASFUNCTION := 26
    TITYPE_CASBINARYOP_LEFT := 27
    TITYPE_CASBINARYOP_RIGHT := 28
    MAXLIBNUMBER := maxlib
    DOCOL := 8
    DOSYMB := 56
    OPCODE_PROBETOKEN := 0x7A001
    OPCODE_COMPILE := 0x7A002
    OPCODE_COMPILECONT := 0x7A003
    OPCODE_VALIDATE := 0x7A004
    CMD_OVR_ADD := 0x100001
    CMD_OVR_SUB := 0x100002
    CMD_OVR_UMINUS := 0x100003
    CMD_OVR_UPLUS := 0x100004
    CMD_OVR_FUNCEVAL := 0x100005
    CMD_OPENBRACKET := 0x200001
    CMD_LISTCLOSEBRACKET := 0x200004
    CMD_CLISTOPENBRACKET := 0x200005
    CMD_SEMI := 0x800001
    CMD_ENDOFCODE := 0x800002
    ERR_BADARGCOUNT := 1
    ERR_ENDWITHOUTSTART := 2
    ERR_STARTWITHOUTEND := 3
    ERR_MISSINGBRACKET := 4
    ERR_SYNTAXERROR := 5
    ERR_INVALIDTOKEN := 6
    ERR_NOTALLOWEDINSYMBOLICS := 7
    EX_ERRORCODE := 8
    EX_OUTOFMEM := 16
    TEMPOBSLACK := 32
    RSTKSLACK := 16
    rplGetLibHandler := table
    tempObGrowth := fun n _ => some n
    rstkGrowth := fun n _ => some n
    rplAddTempBlock := fun _ g => g
    utf8nlen := fun _ a b => (b : Int) - a
    utf8nskip := fun _ a b n => min (a + n) b
    DOSTRING := 24
    OPCODE_GETINFO := 0x7A005
    OPCODE_DECOMPILE := 0x7A006
    OPCODE_DECOMPEDIT := 0x7A007
    DECOMP_EMBEDDED := 1
    DECOMP_EDIT := 2
    DECOMP_NOHINTS := 4
    DECOMP_GETMAXWIDTH := fun flags => flags / 16
    DECOMP_MAXWIDTH := fun width => width * 16
    DEFAULT_DECOMP_WIDTH := 20
    HINT_NLBEFORE := 1
    HINT_NLAFTER := 2
    HINT_ADDINDENTBEFORE := 4
    HINT_ADDINDENTAFTER := 8
    HINT_SUBINDENTBEFORE := 16
    HINT_SUBINDENTAFTER := 32
    HINT_ALLBEFORE := 21
    HINT_ALLAFTER := 42
    SET_INDENT := fun hints indent => hints % 2 ^ 16 + ((indent % 2 ^ 16).toNat) * 2 ^ 16
    GET_INDENT := fun hints => ((hints / 2 ^ 16 : Nat) : Int)
    GET_HINTS := fun hints => hints % 2 ^ 16
    TITYPE_POSTFIXOP := 18
    TITYPE_CUSTOMFUNC := 29
    CMD_OVR_MUL := 0x100006
    CMD_OVR_DIV := 0x100007
    CMD_OVR_INV := 0x100008
    CMD_OVR_POW := 0x100009
    ERR_MALFORMEDOBJECT := 9
    rplSymbMainOperator := fun mem p =>
      if mem p / 2 ^ 19 = 56 * 2 + 1 ∧ (mem (p + 1) / 2 ^ 19) % 2 = 0 then mem (p + 1) else 0
    rplSymbUnwrap := fun _ p => p
    argSeparator := fun _ => 44
    localWord := 90
    rstkBase := 100000 }

/-- The concrete environment without any library. -/
def E0 : Env := mkEnv 3 fun _ => none

/-- The state of the compiler right after a symbolic was opened in infix mode: the
header of the symbolic is the word at address 100, the stream body and both stacks
are empty. -/
def infixStart : St :=
  { g := { emptyGlobals 100 50 with
      mem := fun a => if a = 100 then E0.MKPROLOG E0.DOSYMB 0 else 0,
      CompileEnd := 101, cells := fun a => if a = 50 then 100 else 0, ValidateTop := 51 },
    force_libnum := -1, splittoken := false, validate := false, infixmode := true,
    probe_libnum := -1, probe_tokeninfo := 0, previous_tokeninfo := 0, libcnt := 0, libnum := 0,
    ValidateHandler := none, InfixOpTop := 51 }

/-- Token-info of a number token of one character (an operand kind). -/
def tiNumber : Int := E0.MKTOKENINFO 1 1 0 1

/-- Token-info of `+` and `-`: binary, left-associative, precedence 8. -/
def tiPlus : Int := E0.MKTOKENINFO 1 E0.TITYPE_BINARYOP_LEFT 2 8

/-- Token-info of `*`: binary, left-associative, precedence 7 (binds tighter). -/
def tiTimes : Int := E0.MKTOKENINFO 1 E0.TITYPE_BINARYOP_LEFT 2 7

/-- Opcode of the multiplication command in the concrete environment. -/
def cmdMul : Nat := 0x100006

/-- The one-word objects of the small integers 1, 2 and 3 in the concrete environment. -/
def sint (n : Nat) : Nat := 12 * 2 ^ 20 + n

/-- A handler that does nothing but leave `answer` in `RetNum`. -/
def answering (answer : RetCode) : LIBHANDLER := fun g => { g with RetNum := answer }

/-- A token-info value whose length field is zero. -/
def tiEmpty : Int := E0.MKTOKENINFO 0 1 0 1

/-- An environment whose only library, number 1, answers every call with the
token-info `tiEmpty`. -/
def EemptyProbe : Env :=
  mkEnv 3 fun n => if n = 1 then some (answering (RetCode.OK_TOKENINFO tiEmpty)) else none

/-- A state of the main loop at the start of a library scan in infix mode. -/
def probeStart : St :=
  { infixStart with libcnt := 3 }

/-- The response family of `EemptyProbe`. -/
def respEmpty : Int → RetCode :=
  fun n => if n = 1 then RetCode.OK_TOKENINFO tiEmpty else RetCode.ERR_NOTMINE

/-- Token-info of an operand token of two characters. -/
def tiNumber2 : Int := E0.MKTOKENINFO 2 1 0 1

/-- An environment with two libraries: number 2 claims one character of the token,
number 1 claims two. -/
def EtwoProbes : Env :=
  mkEnv 3 fun n => if n = 2 then some (answering (RetCode.OK_TOKENINFO tiNumber))
    else if n = 1 then some (answering (RetCode.OK_TOKENINFO tiNumber2)) else none

/-- The response family of `EtwoProbes`. -/
def respTwo : Int → RetCode :=
  fun n => if n = 2 then RetCode.OK_TOKENINFO tiNumber
    else if n = 1 then RetCode.OK_TOKENINFO tiNumber2 else RetCode.ERR_NOTMINE

/-- The state a run of tokens through the engine ends in (the start state when the
run returned early). -/
def afterTokens (f : Flow St) : St :=
  match f with
  | .next t => t
  | .ret _ _ => infixStart

/-- Token-info of an open bracket, a close bracket and a comma. -/
def tiOpen : Int := E0.MKTOKENINFO 1 E0.TITYPE_OPENBRACKET 0 31

/-- Token-info of a close bracket. -/
def tiClose : Int := E0.MKTOKENINFO 1 E0.TITYPE_CLOSEBRACKET 0 31

/-- Token-info of a comma. -/
def tiComma : Int := E0.MKTOKENINFO 1 E0.TITYPE_COMMA 0 31

/-- Opcode of the close parenthesis, one above `CMD_OPENBRACKET`. -/
def cmdCloseBracket : Nat := 0x200002

/-- Opcode of the open square bracket. -/
def cmdOpenSquare : Nat := 0x200007

/-- Opcode of the comma. -/
def cmdComma : Nat := 0x200009

/-- The tokens `[1,2` through the engine. -/
def tokensSquare12 : Flow St :=
  (feed E0 [cmdOpenSquare] tiOpen infixStart).bind fun s1 =>
  (feed E0 [sint 1] tiNumber s1).bind fun s2 =>
  (feed E0 [cmdComma] tiComma s2).bind fun s3 =>
  feed E0 [sint 2] tiNumber s3

/-- The tokens `1+` through the engine. -/
def tokensOnePlus : Flow St :=
  (feed E0 [sint 1] tiNumber infixStart).bind fun s1 =>
  feed E0 [E0.CMD_OVR_ADD] tiPlus s1

/-- The state in which `rplCompile` handles the `)` of `[1,2)`: the tokens `[1,2`
went through the engine and the library compiled `)` as a close bracket. -/
def squareCloseState : St :=
  { tookOperator cmdCloseBracket (afterTokens tokensSquare12) with probe_tokeninfo := tiClose }

/-- The state in which `rplCompile` handles the `)` of `1+)`. -/
def plusCloseState : St :=
  { tookOperator cmdCloseBracket (afterTokens tokensOnePlus) with probe_tokeninfo := tiClose }

/-- Token-info of a function token declared with exactly two arguments. -/
def tiFun2 : Int := E0.MKTOKENINFO 1 E0.TITYPE_FUNCTION 2 2

/-- Opcode of that two-argument function. -/
def cmdFun : Nat := 0x300001

/-- The one-word object of an identifier, and its token-info (an operand kind). -/
def identF : Nat := 28 * 2 ^ 20 + 1

/-- Token-info of an identifier token of one character. -/
def tiIdent : Int := E0.MKTOKENINFO 1 4 0 1

/-- The tokens `g(1,2,3` through the engine, `g` being the two-argument function. -/
def tokensFun123 : Flow St :=
  (feed E0 [cmdFun] tiFun2 infixStart).bind fun s1 =>
  (feed E0 [E0.CMD_OPENBRACKET] tiOpen s1).bind fun s2 =>
  (feed E0 [sint 1] tiNumber s2).bind fun s3 =>
  (feed E0 [cmdComma] tiComma s3).bind fun s4 =>
  (feed E0 [sint 2] tiNumber s4).bind fun s5 =>
  (feed E0 [cmdComma] tiComma s5).bind fun s6 =>
  feed E0 [sint 3] tiNumber s6

/-- The state in which `rplCompile` counts the arguments at the `)` of `g(1,2,3)`. -/
def funCloseState : St :=
  { tookOperator cmdCloseBracket (afterTokens tokensFun123) with probe_tokeninfo := tiClose }

/-- The tokens `f(1,2` through the engine, `f` being an identifier. -/
def tokensIdent12 : Flow St :=
  (feed E0 [identF] tiIdent infixStart).bind fun s1 =>
  (feed E0 [E0.CMD_OPENBRACKET] tiOpen s1).bind fun s2 =>
  (feed E0 [sint 1] tiNumber s2).bind fun s3 =>
  (feed E0 [cmdComma] tiComma s3).bind fun s4 =>
  feed E0 [sint 2] tiNumber s4

/-- The state in which `rplCompile` counts the arguments at the `)` of `f(1,2)`. -/
def identCloseState : St :=
  { tookOperator cmdCloseBracket (afterTokens tokensIdent12) with probe_tokeninfo := tiClose }

/-- The tokens `1+2` through the engine. -/
def tokensOnePlusTwo : Flow St :=
  tokensOnePlus.bind fun s2 => feed E0 [sint 2] tiNumber s2

/-- The tokens `(1+` through the engine. -/
def tokensParenOnePlus : Flow St :=
  (feed E0 [E0.CMD_OPENBRACKET] tiOpen infixStart).bind fun s1 =>
  (feed E0 [sint 1] tiNumber s1).bind fun s2 =>
  feed E0 [E0.CMD_OVR_ADD] tiPlus s2

/-- The tokens `(1,` through the engine. -/
def tokensParenOneComma : Flow St :=
  (feed E0 [E0.CMD_OPENBRACKET] tiOpen infixStart).bind fun s1 =>
  (feed E0 [sint 1] tiNumber s1).bind fun s2 =>
  feed E0 [cmdComma] tiComma s2

/-- The tokens `(1)` through the engine. -/
def tokensParenOne : Flow St :=
  (feed E0 [E0.CMD_OPENBRACKET] tiOpen infixStart).bind fun s1 =>
  (feed E0 [sint 1] tiNumber s1).bind fun s2 =>
  feed E0 [cmdCloseBracket] tiClose s2

/-- The word a toy construct starts with: a prolog of library 9. -/
def toyProlog : Nat := E0.MKPROLOG 9 0

/-- A small library for running `rplCompile` on concrete texts.  It looks at the first
byte of the token.  Asked to compile: `1` is a number, `'` opens a symbolic in infix
mode, `<` opens a construct, `>` closes one, and on `!` it flags out-of-memory itself
and goes on.  Asked to probe in infix mode: `1` is an operand of one character, `'`
ends the symbolic, `>` closes a construct.  Everything else is not its own. -/
def toyLib : LIBHANDLER := fun g =>
  let c := g.string g.TokenStart
  if g.CurOpcode % 2 ^ 19 = E0.OPCODE_PROBETOKEN then
    if c = 49 then { g with RetNum := RetCode.OK_TOKENINFO tiNumber }
    else if c = 39 then { g with RetNum := RetCode.OK_ENDCONSTRUCT_INFIX }
    else if c = 62 then { g with RetNum := RetCode.OK_ENDCONSTRUCT }
    else { g with RetNum := RetCode.ERR_NOTMINE }
  else if c = 49 then
    { g with mem := setWord g.mem g.CompileEnd (sint 1), CompileEnd := g.CompileEnd + 1,
             RetNum := RetCode.OK_CONTINUE }
  else if c = 39 then
    { g with mem := setWord g.mem g.CompileEnd (E0.MKPROLOG E0.DOSYMB 0),
             CompileEnd := g.CompileEnd + 1, RetNum := RetCode.OK_STARTCONSTRUCT_INFIX }
  else if c = 60 then
    { g with mem := setWord g.mem g.CompileEnd toyProlog, CompileEnd := g.CompileEnd + 1,
             RetNum := RetCode.OK_STARTCONSTRUCT }
  else if c = 62 then { g with RetNum := RetCode.OK_ENDCONSTRUCT }
  else if c = 33 then
    { g with Exceptions := g.Exceptions ||| E0.EX_OUTOFMEM, RetNum := RetCode.OK_CONTINUE }
  else { g with RetNum := RetCode.ERR_NOTMINE }

/-- The concrete environment whose only library, number 2, is `toyLib`. -/
def Etoy : Env := mkEnv 3 fun n => if n = 2 then some toyLib else none

/-- A text given by its bytes. -/
def textOf (bytes : List Nat) : Nat → Nat := fun i => bytes.getD i 0

/-- The globals the concrete runs start from: the store is free from address 100 on,
the return stack from cell 50 on, and the cell below holds a caller's pointer. -/
def toyGlobals : Globals :=
  { emptyGlobals 100 50 with cells := fun a => if a = 49 then 300 else 0 }

/-- The state in which the main loop starts on a text, in the toy environment. -/
def toyStart (text : Nat → Nat) (length : Nat) (addwrapper : Bool) : St :=
  afterTokens (compileInit Etoy text length addwrapper toyGlobals)

/-- The state after one more pass of the main loop in the toy environment. -/
def toyPass (s : St) : St :=
  afterTokens (loopRest Etoy (loopHead Etoy s).1)

/-- The state in which the main loop acts on the answer of the toy library to the
next token (library 3, asked first, is not registered). -/
def toyAsked (s : St) : St :=
  handlerCall Etoy toyLib 2 { (loopHead Etoy s).1 with libnum := 2, libcnt := 1 }

/-- The state with which the main loop is left in the toy environment. -/
def toyLoopEnd (s0 : St) : St :=
  match compileLoop Etoy 10 s0 with
  | some (.next t) => t
  | _ => s0

/-- An environment whose only library, number 1, answers every call with `NOT_MINE`. -/
def Edeaf : Env := mkEnv 3 fun n => if n = 1 then some (answering RetCode.ERR_NOTMINE) else none

/-- The state in which the main loop of `rplCompile` starts on the text `x` in `Edeaf`. -/
def deafStart : St :=
  afterTokens (compileInit Edeaf (textOf [120]) 1 false toyGlobals)

/-- What the statements assume of the header macros (`libraries.h`): the size field
holds every size below `bound`, and replacing it leaves the prolog flag and the
library identifier of the word alone. -/
structure HeaderLaws (E : Env) (bound : Nat) : Prop where
  small : bound < 2 ^ 30
  size : ∀ w n, n < bound → E.OBJSIZE ((w ^^^ E.OBJSIZE w) ||| n) = n
  prolog : ∀ w n, n < bound → E.ISPROLOG ((w ^^^ E.OBJSIZE w) ||| n) = E.ISPROLOG w
  libnum : ∀ w n, n < bound → E.LIBNUM ((w ^^^ E.OBJSIZE w) ||| n) = E.LIBNUM w

/-- The state `t` is the state `s` after the construct on top of the construct
stack of `s` was closed on a prolog header. -/
structure ClosedOn (E : Env) (s t : St) : Prop where
  size : (E.OBJSIZE (t.g.mem (s.g.cells (s.g.ValidateTop - 1))) : Int)
    = s.g.CompileEnd - s.g.cells (s.g.ValidateTop - 1) - 1
  skip : rplSkipOb E t.g.mem (s.g.cells (s.g.ValidateTop - 1)) = t.g.CompileEnd
  cursor : t.g.CompileEnd = s.g.CompileEnd
  prolog : E.ISPROLOG (t.g.mem (s.g.cells (s.g.ValidateTop - 1))) = true
  libnum : E.LIBNUM (t.g.mem (s.g.cells (s.g.ValidateTop - 1)))
    = E.LIBNUM (s.g.mem (s.g.cells (s.g.ValidateTop - 1)))
  others : ∀ a : Int, a ≠ s.g.cells (s.g.ValidateTop - 1) → t.g.mem a = s.g.mem a
  popped : t.g.ValidateTop = s.g.ValidateTop - 1

/-- A construct whose header, the toy prolog at address 100, has counted three
arguments with `INC_ARG_COUNT`; four words follow it up to the cursor. -/
def countedState : St :=
  { infixStart with
    g := incArgCount (incArgCount (incArgCount
      { infixStart.g with mem := fun a => if a = 100 then toyProlog else 0, CompileEnd := 105 })),
    infixmode := false }

/-- What the statements on the program wrapper assume of the header macros and of
the registration of the finished block: the size or-ed into the prolog built with
size 0 gives the prolog of that size, whose size field reads back, and the
registration leaves the store and its pointers alone. -/
structure WrapperLaws (E : Env) (bound : Nat) : Prop where
  small : bound < 2 ^ 30
  isprolog : ∀ n, n < bound → E.ISPROLOG (E.MKPROLOG E.DOCOL n) = true
  objsize : ∀ n, n < bound → E.OBJSIZE (E.MKPROLOG E.DOCOL n) = n
  patch : ∀ n, n < bound → E.MKPROLOG E.DOCOL 0 ||| n = E.MKPROLOG E.DOCOL n
  block : ∀ (p : Int) (g : Globals), (E.rplAddTempBlock p g).mem = g.mem
    ∧ (E.rplAddTempBlock p g).TempObEnd = g.TempObEnd
    ∧ (E.rplAddTempBlock p g).CompileEnd = g.CompileEnd

/-- The program wrapper is intact in a state: the top entry of the construct stack
points to the first word of the compiled stream, that word is still the prolog
`MKPROLOG(DOCOL, 0)` written at the start, and the cursor is above it. -/
structure WrapperIntact (E : Env) (s : St) : Prop where
  entry : s.g.cells (s.g.ValidateTop - 1) = s.g.TempObEnd
  header : s.g.mem s.g.TempObEnd = E.MKPROLOG E.DOCOL 0
  above : s.g.TempObEnd < s.g.CompileEnd

/-- The words of a finished program: the prolog of `DOCOL` at `obj` whose size counts
the words after it up to and including `CMD_SEMI`, the last of them `CMD_SEMI`, and
`CMD_ENDOFCODE` right after the object. -/
structure IsProgram (E : Env) (mem : Int → Nat) (obj : Int) (size : Nat) : Prop where
  header : mem obj = E.MKPROLOG E.DOCOL size
  semi : mem (obj + size) = E.CMD_SEMI
  after : mem (obj + size + 1) = E.CMD_ENDOFCODE
  skip : rplSkipOb E mem obj = obj + size + 1

/-- The loop `while((p < end) && (*p != '\n')) ++p;` of a library that skips a
comment up to the end of the line. -/
def lineEnd (str : Nat → Nat) (stop : Nat) : Nat → Nat → Nat
  | 0, p => p
  | fuel + 1, p => if p < stop ∧ str p ≠ 10 then lineEnd str stop fuel (p + 1) else p

/-- A second small library for running `rplCompile` on concrete texts.  It looks at
the first byte of the token: `1` is a number, `#` asks to count one more argument in
the open construct (`INC_ARG_COUNT`), `~` compiles a prolog word and asks to put it in
the place of the open construct (`CHANGE_CONSTRUCT`), and `@` starts a comment: the
library moves `NextTokenStart` to the line feed that ends the line, or to the end of
the text.  Everything else is not its own. -/
def markLib : LIBHANDLER := fun g =>
  let c := g.string g.TokenStart
  if c = 49 then
    { g with mem := setWord g.mem g.CompileEnd (sint 1), CompileEnd := g.CompileEnd + 1,
             RetNum := RetCode.OK_CONTINUE }
  else if c = 35 then { g with RetNum := RetCode.OK_INCARGCOUNT }
  else if c = 126 then
    { g with mem := setWord g.mem g.CompileEnd toyProlog, CompileEnd := g.CompileEnd + 1,
             RetNum := RetCode.OK_CHANGECONSTRUCT }
  else if c = 64 then
    { g with NextTokenStart := lineEnd g.string g.CompileStringEnd
               (g.CompileStringEnd - g.TokenStart) g.TokenStart,
             RetNum := RetCode.OK_CONTINUE_NOVALIDATE }
  else { g with RetNum := RetCode.ERR_NOTMINE }

/-- The concrete environment whose only library, number 2, is `markLib`. -/
def Emark : Env := mkEnv 3 fun n => if n = 2 then some markLib else none

/-- An answer of a handler that is an action of the table other than `NOT_MINE`:
neither `NOT_MINE`, nor a token-info value, nor a number outside the table. -/
def IsAction (r : RetCode) : Prop :=
  match r with
  | RetCode.ERR_NOTMINE => False
  | RetCode.OK_TOKENINFO _ => False
  | RetCode.other _ => False
  | _ => True

/-- The library identifiers `hi, hi - 1, ...`, `k` of them. -/
def descending (hi : Int) : Nat → List Int
  | 0 => []
  | k + 1 => hi :: descending (hi - 1) k

/-- The dispatch order in the words of the spec: the handlers of the libraries `ids`
are called one after the other in the order of the list, identifiers without a
handler being skipped. -/
def callInOrder (E : Env) : List Int → St → St
  | [], s => s
  | n :: rest, s =>
    match E.rplGetLibHandler n with
    | none => callInOrder E rest { s with libnum := n, libcnt := n - 1 }
    | some handler => callInOrder E rest (handlerCall E handler n { s with libnum := n, libcnt := n - 1 })

/-- The state in which the scan acts on the answer of library `MAXLIBNUMBER - k`:
the libraries above it were called in descending order, then its handler `h0`. -/
def firstTaker (E : Env) (k : Nat) (h0 : LIBHANDLER) (s : St) : St :=
  handlerCall E h0 ((E.MAXLIBNUMBER : Int) - k)
    { callInOrder E (descending (E.MAXLIBNUMBER : Int) k) s with
      libnum := (E.MAXLIBNUMBER : Int) - k, libcnt := (E.MAXLIBNUMBER : Int) - k - 1 }

/-- A library that keeps a log of its calls: it stores the opcode it was called
with (library identifier and handler opcode) after the entries already logged, from
address 200 on, counts the entries in the word at address 199, and gives the answer
that `answer` chooses for that opcode. -/
def logLib (answer : Nat → RetCode) : LIBHANDLER := fun g =>
  { g with mem := setWord (setWord g.mem (200 + (g.mem 199 : Int)) g.CurOpcode) 199 (g.mem 199 + 1),
           RetNum := answer g.CurOpcode }

/-- Library 1 of the logging environment: it asks for more input when asked to
compile, and finishes when asked to continue. -/
def logLib1 : LIBHANDLER :=
  logLib fun op => if op % 2 ^ 19 = E0.OPCODE_COMPILECONT then RetCode.OK_CONTINUE
    else RetCode.OK_NEEDMORE

/-- The logging environment: library 3 answers `NOT_MINE`, no library is number 2,
library 1 is `logLib1`, and library 0 accepts every token. -/
def Elog : Env :=
  mkEnv 3 fun n =>
    if n = 3 then some (logLib fun _ => RetCode.ERR_NOTMINE)
    else if n = 1 then some logLib1
    else if n = 0 then some (logLib fun _ => RetCode.OK_CONTINUE)
    else none

/-- The state in which the library scan starts on the first token of the text `x y`
in the logging environment. -/
def logStart : St :=
  (loopHead Elog (afterTokens (compileInit Elog (textOf [120, 32, 121]) 3 false toyGlobals))).1

/-- The state in which the library scan starts on the second token. -/
def logSecond : St :=
  (loopHead Elog (afterTokens (loopRest Elog logStart))).1

/-- The position `p` of a text is at its end or on a byte that is not whitespace. -/
def AtToken (str : Nat → Nat) (stop p : Nat) : Prop :=
  p = stop ∨ (p < stop ∧ isBlank (str p) = false)

/-- The state in which the second pass of the main loop starts on the text `@`,
line feed, `1` with the library `markLib`: the library skipped the comment up to the
line feed. -/
def commentSecond : St :=
  afterTokens (loopRest Emark
    (loopHead Emark (afterTokens (compileInit Emark (textOf [64, 10, 49]) 3 false toyGlobals))).1)

/-! ## `rplDecompile`

The text under construction is a sequence of bytes in the temporary-object store.
The target is little-endian: the byte at byte address `b` is lane `b % 4` of the word
at word address `b / 4`.  A return-stack cell is one word (32-bit target), so the
operator stack of the decompiler, which the code addresses through a `WORDPTR`,
is made of cells.  The offset `DecompileObject - EndOfObject` that the code stores in
a cell and reads back through `*(signed int *)` is kept as the integer it is. -/

/-- The byte at a byte address. -/
def getByte (mem : Int → Nat) (b : Int) : Nat :=
  (mem (b / 4) / 256 ^ (b % 4).toNat) % 256

/-- Store one byte (`*((BYTEPTR) p) = c`). -/
def setByte (mem : Int → Nat) (b : Int) (c : Nat) : Int → Nat :=
  setWord mem (b / 4)
    (mem (b / 4) - (mem (b / 4) / 256 ^ (b % 4).toNat % 256) * 256 ^ (b % 4).toNat
      + (c % 256) * 256 ^ (b % 4).toNat)

/-- The growth test shared by the append functions: when the word after the text
plus the slack reaches the end of the store, ask the heap for more. -/
def growForText (E : Env) (textEnd : Int) (g : Globals) : Globals :=
  if (textEnd + 3) / 4 + E.TEMPOBSLACK ≥ g.TempObSize then
    growTempOb E ((textEnd + 3 - 4 * g.TempOb) / 4 + E.TEMPOBSLACK) g
  else g

/-- `rplDecompAppendChar`. -/
def rplDecompAppendChar (E : Env) (c : Nat) (g : Globals) : Globals :=
  let g1 := { g with mem := setByte g.mem g.DecompStringEnd c,
                     DecompStringEnd := g.DecompStringEnd + 1 }
  if g1.DecompStringEnd % 4 = 0 then growForText E g1.DecompStringEnd g1 else g1

/-- The loop `while(utf8bytes) { store the low byte; utf8bytes >>= 8; }` of
`rplDecompAppendUTF8`; a 32-bit word is used up after four passes. -/
def appendUTF8Bytes : Nat → Nat → Globals → Globals
  | 0, _, g => g
  | fuel + 1, utf8bytes, g =>
    if utf8bytes ≠ 0 then
      appendUTF8Bytes fuel (utf8bytes / 256)
        { g with mem := setByte g.mem g.DecompStringEnd (utf8bytes % 256),
                 DecompStringEnd := g.DecompStringEnd + 1 }
    else g

/-- `rplDecompAppendUTF8`. -/
def rplDecompAppendUTF8 (E : Env) (utf8bytes : Nat) (g : Globals) : Globals :=
  let g1 := appendUTF8Bytes 4 (utf8bytes % 2 ^ 32) g
  if g1.DecompStringEnd % 4 = 0 then growForText E g1.DecompStringEnd g1 else g1

/-- The copy loop of `rplDecompAppendString`. -/
def copyBytes : List Nat → Int → (Int → Nat) → (Int → Nat)
  | [], _, mem => mem
  | c :: rest, ptr, mem => copyBytes rest (ptr + 1) (setByte mem ptr c)

/-- `rplDecompAppendString`, for a C string given by its bytes before the final
zero.  The string is a constant of the program here, so the protection of its
pointer on the data stack around the growth does not show. -/
def rplDecompAppendString (E : Env) (str : List Nat) (g : Globals) : Globals :=
  let len : Int := str.length
  let g1 := if (g.DecompStringEnd + len + 3) / 4 + E.TEMPOBSLACK ≥ g.TempObSize then
      growTempOb E ((g.DecompStringEnd + len + 3 - 4 * g.TempOb) / 4 + E.TEMPOBSLACK) g
    else g
  if (g.DecompStringEnd + len + 3) / 4 + E.TEMPOBSLACK ≥ g.TempObSize
      ∧ g1.Exceptions &&& E.EX_OUTOFMEM ≠ 0 then g1
  else { g1 with mem := copyBytes str g1.DecompStringEnd g1.mem,
                 DecompStringEnd := g1.DecompStringEnd + len }

/-- The constant `"INVALID_COMMAND"`. -/
def textInvalidCommand : List Nat := [73, 78, 86, 65, 76, 73, 68, 95, 67, 79, 77, 77, 65, 78, 68]

/-- The constant `"##INVALID##"`. -/
def textInvalid : List Nat := [35, 35, 73, 78, 86, 65, 76, 73, 68, 35, 35]

/-- The infix modes of the decompiler (the anonymous `enum` before `rplDecompile`). -/
def INFIX_OFF : Nat := 0

/-- Infix mode: a symbolic was just opened outside every expression. -/
def INFIX_STARTSYMBOLIC : Nat := 1

/-- Infix mode: a sub-expression was just opened. -/
def INFIX_STARTEXPRESSION : Nat := 2

/-- Infix mode: an argument of a custom function was decompiled. -/
def INFIX_CUSTOMFUNCARG : Nat := 3

/-- Infix mode: an argument of a function or bracket was decompiled. -/
def INFIX_FUNCARGUMENT : Nat := 4

/-- Infix mode (not used by the code). -/
def INFIX_PREFIXOP : Nat := 5

/-- Infix mode: the argument of a prefix operator was decompiled. -/
def INFIX_PREFIXARG : Nat := 6

/-- Infix mode (not used by the code). -/
def INFIX_POSTFIXOP : Nat := 7

/-- Infix mode: the argument of a postfix operator was decompiled. -/
def INFIX_POSTFIXARG : Nat := 8

/-- Infix mode: the first argument of a binary operator was decompiled. -/
def INFIX_BINARYLEFT : Nat := 9

/-- Infix mode: a middle argument of a binary operator was decompiled. -/
def INFIX_BINARYMID : Nat := 10

/-- Infix mode (not used by the code). -/
def INFIX_BINARYOP : Nat := 11

/-- Infix mode: the last argument of a binary operator was decompiled. -/
def INFIX_BINARYRIGHT : Nat := 12

/-- Infix mode: the only object of a symbolic without operator was decompiled. -/
def INFIX_ATOMIC : Nat := 13

/-- The locals of `rplDecompile`, together with the globals. -/
structure DSt where
  g : Globals
  flags : Nat
  han : Option LIBHANDLER
  infixmode : Nat
  indent : Int
  lastnewline : Bool
  lastnloffset : Int
  maxwidth : Int
  savecstruct : Nat
  savedecompmode : Nat
  dhints : Nat
  savedhints : Nat
  validtop : Int
  validbottom : Int
  SavedRSTop : Int
  InfixOpTop : Int

/-- Control flow inside the loop of `rplDecompile`: go on to what follows (`next`),
jump to the label `end_of_expression` (`again`), leave the `while` loop with `break`
(`leave`), or return from the function (`ret`). -/
inductive Step where
  | next (s : DSt)
  | again (s : DSt)
  | leave (s : DSt)
  | ret (value : Option Int) (g : Globals)

/-- The expression `infixmode | (flags << 16)` stored in `DecompMode`. -/
def decompMode (infixmode flags : Nat) : Nat := (infixmode ||| (flags <<< 16)) % 2 ^ 32

/-- The expression `(flags & DECOMP_EDIT) ? OPCODE_DECOMPEDIT : OPCODE_DECOMPILE`. -/
def decompOp (E : Env) (flags : Nat) : Nat :=
  if flags &&& E.DECOMP_EDIT ≠ 0 then E.OPCODE_DECOMPEDIT else E.OPCODE_DECOMPILE

/-- A handler call with the operator stack protected: `RSTop` is moved to `top` for
the call and put back afterwards. -/
def callProtected (handler : LIBHANDLER) (top : Int) (g : Globals) : Globals :=
  let tmpRSTop := g.RSTop
  let g1 := handler { g with RSTop := top }
  { g1 with RSTop := tmpRSTop }

/-- The block "RESTORE ALL POINTERS BEFORE RETURNING" of an embedded session. -/
def restorePointers (s : DSt) (g : Globals) : Globals :=
  { g with SavedDecompObject := g.cells (g.RSTop - 1),
           LAMTopSaved := g.cells (g.RSTop - 2),
           EndOfObject := g.cells (g.RSTop - 3),
           DecompileObject := g.cells (g.RSTop - 4),
           CurrentConstruct := s.savecstruct,
           DecompMode := s.savedecompmode,
           DecompHints := s.savedhints,
           RSTop := s.SavedRSTop,
           ValidateTop := s.SavedRSTop + s.validtop,
           ValidateBottom := s.SavedRSTop + s.validbottom }

/-- The statements `LAMTop = LAMTopSaved; if(flags & DECOMP_EMBEDDED) { restore }
return 0;` found after every failure inside the loop. -/
def failReturn (E : Env) (s : DSt) (g : Globals) : Step :=
  let g1 := { g with LAMTop := g.LAMTopSaved }
  .ret none (if s.flags &&& E.DECOMP_EMBEDDED ≠ 0 then restorePointers s g1 else g1)

/-- The loop `for(k = 0; k < indent; ++k) rplDecompAppendChar(' ');`. -/
def appendSpaces (E : Env) : Nat → Globals → Globals
  | 0, g => g
  | k + 1, g => appendSpaces E k (rplDecompAppendChar E 32 g)

/-- The block "CHECK FOR HINTS BEFORE" and the statement `lastnewline = 0;`. -/
def hintsBefore (E : Env) (s : DSt) : DSt :=
  let s1 :=
    if s.infixmode = 0 ∧ s.flags &&& E.DECOMP_NOHINTS = 0 ∧ s.dhints &&& E.HINT_ALLBEFORE ≠ 0 then
      if s.lastnewline then
        let s2 := if s.dhints &&& E.HINT_ADDINDENTBEFORE ≠ 0 then
            { s with indent := s.indent + 2,
                     g := rplDecompAppendChar E 32 (rplDecompAppendChar E 32 s.g) }
          else s
        if s2.dhints &&& E.HINT_SUBINDENTBEFORE ≠ 0 then
          { s2 with g := if s2.indent ≥ 2 then
                      { s2.g with DecompStringEnd := s2.g.DecompStringEnd - 2 }
                    else s2.g,
                    indent := s2.indent - 2 }
        else s2
      else
        let i1 := if s.dhints &&& E.HINT_ADDINDENTBEFORE ≠ 0 then s.indent + 2 else s.indent
        let i2 := if s.dhints &&& E.HINT_SUBINDENTBEFORE ≠ 0 then i1 - 2 else i1
        if s.dhints &&& E.HINT_NLBEFORE ≠ 0 then
          { s with indent := i2, g := appendSpaces E i2.toNat (rplDecompAppendChar E 10 s.g) }
        else { s with indent := i2 }
    else s
  { s1 with lastnewline := false }

/-- The statement `if(RetNum != OK_CONTINUE) rplDecompAppendString("##INVALID##");`. -/
def appendIfInvalid (E : Env) (g : Globals) : Globals :=
  if g.RetNum ≠ RetCode.OK_CONTINUE then rplDecompAppendString E textInvalid g else g

/-- The statement `switch (RetNum)` of the loop, on the answer of the handler to the
decompile call. -/
def decompSwitch (E : Env) (s6 : DSt) : Step :=
  match s6.g.RetNum with
  | .OK_CONTINUE =>
    .next { s6 with g := { s6.g with
      DecompileObject := rplSkipOb E s6.g.mem s6.g.DecompileObject } }
  | .OK_STARTCONSTRUCT =>
    let g7 := if s6.g.RStkSize ≤ s6.g.ValidateTop - s6.g.RStk then
        growRStk E (s6.g.ValidateTop - s6.g.RStk + E.RSTKSLACK) s6.g
      else s6.g
    if g7.Exceptions ≠ 0 then failReturn E s6 g7
    else
      .next { s6 with g := { g7 with
        cells := setCell g7.cells g7.ValidateTop g7.DecompileObject,
        ValidateTop := g7.ValidateTop + 1,
        DecompileObject := g7.DecompileObject + 1 } }
  | .OK_CHANGECONSTRUCT =>
    let g7 := { s6.g with ValidateTop := s6.g.ValidateTop - 1 }
    if g7.ValidateTop < g7.ValidateBottom then
      failReturn E s6 (rplError E E.ERR_MALFORMEDOBJECT g7)
    else
      .next { s6 with g := { g7 with
        cells := setCell g7.cells g7.ValidateTop g7.DecompileObject,
        ValidateTop := g7.ValidateTop + 1,
        DecompileObject := g7.DecompileObject + 1 } }
  | .OK_ENDCONSTRUCT =>
    let g7 := { s6.g with ValidateTop := s6.g.ValidateTop - 1 }
    if g7.ValidateTop < g7.ValidateBottom then
      failReturn E s6 (rplError E E.ERR_MALFORMEDOBJECT g7)
    else
      .next { s6 with g := { g7 with
        DecompileObject := rplSkipOb E g7.mem g7.DecompileObject } }
  | .OK_STARTCONSTRUCT_INFIX =>
    let top := if s6.infixmode = 0 then s6.g.ValidateTop else s6.InfixOpTop
    let g7 := if s6.g.RStkSize ≤ top + 1 - s6.g.RStk then
        growRStk E (top - s6.g.RStk + E.RSTKSLACK) s6.g
      else s6.g
    if g7.Exceptions ≠ 0 then failReturn E { s6 with InfixOpTop := top } g7
    else
      .next { s6 with
        g := { g7 with
          cells := setCell (setCell g7.cells (top + 1) s6.infixmode) top
            (g7.DecompileObject - g7.EndOfObject),
          DecompileObject := g7.DecompileObject + 1 },
        InfixOpTop := top + 2,
        infixmode := if s6.infixmode ≠ 0 then INFIX_STARTEXPRESSION
          else INFIX_STARTSYMBOLIC }
  | _ =>
    let g7 := rplDecompAppendString E textInvalidCommand s6.g
    .next { s6 with g := { g7 with DecompileObject := g7.DecompileObject + 1 } }

/-- The `GETINFO` call at the head of a pass of the loop: the handler of the library
of the object leaves the token-info in `RetNum` and the hints in `DecompHints`. -/
def decompInfo (E : Env) (s : DSt) : DSt :=
  let han := E.rplGetLibHandler (E.LIBNUM (s.g.mem s.g.DecompileObject))
  let g1 := { s.g with CurOpcode := E.MKOPCODE 0 E.OPCODE_GETINFO,
                       DecompMode := decompMode s.infixmode s.flags }
  let g2 := match han with
    | none => { g1 with RetNum := RetCode.ERR_INVALID }
    | some handler =>
      callProtected handler (if s.infixmode ≠ 0 then s.InfixOpTop else g1.ValidateTop) g1
  { s with g := g2, han := han, dhints := g2.DecompHints }

/-- The decompile call of a pass of the loop ("NOW ACTUALLY DECOMPILE THE OBJECT"):
the handler gets the hints and the indentation in `DecompHints` and may change
them. -/
def decompObject (E : Env) (s3 : DSt) : DSt :=
  let g4 := { s3.g with CurOpcode := E.MKOPCODE 0 (decompOp E s3.flags) }
  let g5 := { g4 with CurrentConstruct := currentConstruct g4 }
  match s3.han with
  | none => { s3 with g := { g5 with RetNum := RetCode.ERR_INVALID } }
  | some handler =>
    let tmpRSTop := g5.RSTop
    let g6 := handler { g5 with RSTop := if s3.infixmode ≠ 0 then s3.InfixOpTop
                                  else g5.ValidateTop,
                                DecompHints := E.SET_INDENT s3.dhints s3.indent }
    { s3 with g := { g6 with RSTop := tmpRSTop },
              indent := E.GET_INDENT g6.DecompHints,
              dhints := E.GET_HINTS g6.DecompHints }

/-- The first part of a pass of the loop, from the `GETINFO` call to the end of
`switch (RetNum)`. -/
def decompTop (E : Env) (s : DSt) : Step :=
  if (decompInfo E s).g.Exceptions ≠ 0 then .leave (decompInfo E s)
  else if (decompObject E (hintsBefore E (decompInfo E s))).g.Exceptions ≠ 0 then
    .leave (decompObject E (hintsBefore E (decompInfo E s)))
  else decompSwitch E (decompObject E (hintsBefore E (decompInfo E s)))

/-- The end of an expression, shared by the cases of the infix switch:
`InfixOpTop -= n; infixmode = InfixOpTop[1]; DecompileObject = rplSkipOb(*(signed
int *)InfixOpTop + EndOfObject); if(!infixmode) rplDecompAppendChar('\'');
goto end_of_expression;`. -/
def popExpression (E : Env) (n : Int) (s : DSt) : Step :=
  let top := s.InfixOpTop - n
  let mode := toWord (s.g.cells (top + 1))
  let g1 := { s.g with
    DecompileObject := rplSkipOb E s.g.mem (s.g.cells top + s.g.EndOfObject) }
  let g2 := if mode = 0 then rplDecompAppendChar E 39 g1 else g1
  .again { s with g := g2, InfixOpTop := top, infixmode := mode }

/-- The test `(TI_TYPE(x) != TITYPE_FUNCTION) && (TI_TYPE(x) != TITYPE_CASFUNCTION)
&& (TI_TYPE(x) != TITYPE_CUSTOMFUNC)` on a token-info. -/
@[reducible] def notFunctionKind (E : Env) (info : Int) : Prop :=
  E.TI_TYPE info ≠ E.TITYPE_FUNCTION ∧ E.TI_TYPE info ≠ E.TITYPE_CASFUNCTION
    ∧ E.TI_TYPE info ≠ E.TITYPE_CUSTOMFUNC

/-- The test on the mode saved with the sub-expression that puts a prefix operator
in parentheses: the sub-expression is an argument after an operator. -/
@[reducible] def afterOperator (mode : Nat) : Prop :=
  mode = INFIX_BINARYRIGHT ∨ mode = INFIX_BINARYMID ∨ mode = INFIX_POSTFIXARG
    ∨ mode = INFIX_PREFIXARG

/-- The block "CHECK PRECEDENCE TO SEE IF WE NEED PARENTHESIS" after the operator of
a sub-expression was pushed (`top` is `InfixOpTop` after the push, `info` the
token-info of the operator): it may append `(`. -/
def openParen (E : Env) (top : Int) (info : Int) (g : Globals) : Globals :=
  if top - 6 ≥ g.ValidateTop then
    if E.ISPROLOG (toWord (g.cells (top - 6))) then g
    else if E.TI_TYPE info = E.TITYPE_PREFIXOP then
      if afterOperator (toWord (g.cells (top - 3))) then rplDecompAppendChar E 40 g
      else if toWord (g.cells (top - 6)) = E.CMD_OVR_POW then
        if notFunctionKind E (g.cells (top - 1)) ∧ E.TI_TYPE info ≠ E.TITYPE_OPENBRACKET then
          rplDecompAppendChar E 40 g
        else g
      else g
    else if E.TI_PRECEDENCE (g.cells (top - 5)) = E.TI_PRECEDENCE info then
      if g.mem g.DecompileObject ≠ E.CMD_OVR_MUL ∧ g.mem g.DecompileObject ≠ E.CMD_OVR_ADD then
        if notFunctionKind E (g.cells (top - 5)) ∧ E.TI_TYPE info ≠ E.TITYPE_OPENBRACKET then
          rplDecompAppendChar E 40 g
        else g
      else g
    else if E.TI_PRECEDENCE (g.cells (top - 5)) < E.TI_PRECEDENCE info then
      if notFunctionKind E (g.cells (top - 5)) ∧ E.TI_TYPE info ≠ E.TITYPE_OPENBRACKET then
        rplDecompAppendChar E 40 g
      else g
    else g
  else g

/-- The same block at the end of a binary or postfix sub-expression: it may append
`)`.  The two tests on the precedences come one after the other. -/
def closeParen (E : Env) (top : Int) (g : Globals) : Globals :=
  if top - 6 ≥ g.ValidateTop then
    if E.ISPROLOG (toWord (g.cells (top - 6))) then g
    else
      let g1 := if E.TI_PRECEDENCE (g.cells (top - 5)) = E.TI_PRECEDENCE (g.cells (top - 1)) then
          if toWord (g.cells (top - 2)) ≠ E.CMD_OVR_MUL
              ∧ toWord (g.cells (top - 2)) ≠ E.CMD_OVR_ADD then
            rplDecompAppendChar E 41 g
          else g
        else g
      if E.TI_PRECEDENCE (g1.cells (top - 5)) < E.TI_PRECEDENCE (g1.cells (top - 1)) then
        if notFunctionKind E (g1.cells (top - 5)) then rplDecompAppendChar E 41 g1 else g1
      else g1
  else g

/-- The same block at the end of the argument of a prefix operator. -/
def closeParenPrefix (E : Env) (top : Int) (g : Globals) : Globals :=
  if top - 6 ≥ g.ValidateTop then
    if E.ISPROLOG (toWord (g.cells (top - 6))) then g
    else if afterOperator (toWord (g.cells (top - 3))) then rplDecompAppendChar E 41 g
    else if toWord (g.cells (top - 6)) = E.CMD_OVR_POW then
      if notFunctionKind E (g.cells (top - 1)) then rplDecompAppendChar E 41 g else g
    else g
  else g

/-- Modelled from the spec: `rplPushRet` (runtime, not under src/) pushes one cell on
the return stack. -/
def rplPushRet (p : Int) (g : Globals) : Globals :=
  { g with cells := setCell g.cells g.RSTop p, RSTop := g.RSTop + 1 }

/-- The statement `DecompileObject = rplPopRet();`, `rplPopRet` (runtime, not under
src/) being modelled from the spec as the pop of one cell of the return stack. -/
def popDecompileObject (g : Globals) : Globals :=
  { g with RSTop := g.RSTop - 1, DecompileObject := g.cells (g.RSTop - 1) }

/-- The call of the handler that decompiles an operator inside an expression:
`RetNum = -1;`, then the protected call when the library has a handler. -/
def callOperator (handler : Option LIBHANDLER) (top : Int) (g : Globals) : Globals :=
  match handler with
  | none => { g with RetNum := RetCode.other (-1) }
  | some h => callProtected h top { g with RetNum := RetCode.other (-1) }

/-- The case `TITYPE_CUSTOMFUNC` of `switch (TI_TYPE(RetNum))`. -/
def customFunction (E : Env) (s : DSt) : Step :=
  let firstobj := s.g.DecompileObject + 1
  let EndofExpression := rplSkipOb E s.g.mem (s.g.cells (s.InfixOpTop - 4) + s.g.EndOfObject)
  let argList := lastObject E s.g.mem EndofExpression (EndofExpression - firstobj).toNat firstobj
  let g1 := rplPushRet s.g.DecompileObject s.g
  let g2 := { g1 with DecompileObject := argList,
                      CurOpcode := E.MKOPCODE (E.LIBNUM (g1.mem argList)) (decompOp E s.flags),
                      DecompMode := decompMode s.infixmode s.flags }
  let g3 := callOperator (E.rplGetLibHandler (E.LIBNUM (g2.mem argList))) s.InfixOpTop g2
  let g4 := popDecompileObject g3
  let g5 := rplDecompAppendChar E 40 (appendIfInvalid E g4)
  let g6 := { g5 with DecompileObject := g5.DecompileObject + 1 }
  if argList = firstobj then popExpression E 4 { s with g := rplDecompAppendChar E 41 g6 }
  else .next { s with g := g6, infixmode := INFIX_CUSTOMFUNCARG }

/-- The statement `switch (TI_TYPE(RetNum))` of the case `INFIX_STARTEXPRESSION`,
after the operator was pushed; `handler` is the handler of the library of the
operator and `info` its token-info.  In the case of a prefix operator the code calls
the handler without testing it; it is not null there, since the token-info came from
it. -/
def operatorKind (E : Env) (handler : Option LIBHANDLER) (info : Int) (s : DSt) : Step :=
  let kind := E.TI_TYPE info
  if kind = E.TITYPE_BINARYOP_LEFT ∨ kind = E.TITYPE_BINARYOP_RIGHT
      ∨ kind = E.TITYPE_CASBINARYOP_LEFT ∨ kind = E.TITYPE_CASBINARYOP_RIGHT then
    .next { s with g := { s.g with DecompileObject := s.g.DecompileObject + 1 },
                   infixmode := INFIX_BINARYLEFT }
  else if kind = E.TITYPE_POSTFIXOP then
    .next { s with g := { s.g with DecompileObject := s.g.DecompileObject + 1 },
                   infixmode := INFIX_POSTFIXARG }
  else if kind = E.TITYPE_PREFIXOP then
    let g1 := { s.g with
      CurOpcode := E.MKOPCODE (E.LIBNUM (s.g.mem s.g.DecompileObject)) (decompOp E s.flags),
      DecompMode := decompMode s.infixmode s.flags }
    let g2 := match handler with
      | none => g1
      | some h => callProtected h s.InfixOpTop g1
    let g3 := appendIfInvalid E g2
    .next { s with g := { g3 with DecompileObject := g3.DecompileObject + 1 },
                   infixmode := INFIX_PREFIXARG }
  else if kind = E.TITYPE_CUSTOMFUNC then customFunction E s
  else if kind = E.TITYPE_OPENBRACKET then
    let g1 := { s.g with
      CurOpcode := E.MKOPCODE (E.LIBNUM (s.g.mem s.g.DecompileObject)) (decompOp E s.flags),
      DecompMode := decompMode s.infixmode s.flags }
    let g3 := appendIfInvalid E (callOperator handler s.InfixOpTop g1)
    .next { s with g := { g3 with DecompileObject := g3.DecompileObject + 1 },
                   infixmode := INFIX_FUNCARGUMENT }
  else
    let g1 := { s.g with
      CurOpcode := E.MKOPCODE (E.LIBNUM (s.g.mem s.g.DecompileObject)) (decompOp E s.flags),
      DecompMode := decompMode s.infixmode s.flags }
    let g3 := rplDecompAppendChar E 40 (appendIfInvalid E (callOperator handler s.InfixOpTop g1))
    let g4 := { g3 with DecompileObject := g3.DecompileObject + 1 }
    let EndofExpression := rplSkipOb E g4.mem (g4.cells (s.InfixOpTop - 4) + g4.EndOfObject)
    if g4.DecompileObject = EndofExpression then
      popExpression E 4 { s with g := rplDecompAppendChar E 41 g4 }
    else .next { s with g := g4, infixmode := INFIX_FUNCARGUMENT }

/-- The second half of the case `INFIX_STARTEXPRESSION`, once the token-info `info`
of the first object of the expression is known: an operator is pushed on the
operator stack, after which the parenthesis is decided and the kind of the operator
chooses the next mode; anything else makes the expression atomic. -/
def operatorOrAtom (E : Env) (handler : Option LIBHANDLER) (info : Int) (s : DSt)
    (g2 : Globals) : Step :=
  if E.TI_TYPE info ≥ E.TITYPE_OPERATORS then
    let g3 := if g2.RStkSize ≤ s.InfixOpTop + 1 - g2.RStk then
        growRStk E (s.InfixOpTop - g2.RStk + E.RSTKSLACK) g2
      else g2
    if g3.Exceptions ≠ 0 then failReturn E s g3
    else
      let g4 := { g3 with cells := setCell (setCell g3.cells s.InfixOpTop
        (g3.mem g3.DecompileObject)) (s.InfixOpTop + 1) info }
      let g5 := openParen E (s.InfixOpTop + 2) info g4
      operatorKind E handler info { s with g := g5, InfixOpTop := s.InfixOpTop + 2 }
  else .next { s with g := g2, infixmode := INFIX_ATOMIC }

/-- The token-info that the case `INFIX_STARTEXPRESSION` works with: the one the
handler left in `RetNum`, or `MKTOKENINFO(0, TITYPE_FUNCTION, 0, 20)` when `RetNum`
is below `OK_TOKENINFO`. -/
def infoOr (E : Env) (r : RetCode) : Int :=
  match r with
  | RetCode.OK_TOKENINFO i => i
  | _ => E.MKTOKENINFO 0 E.TITYPE_FUNCTION 0 20

/-- The statement `if(RetNum < OK_TOKENINFO) RetNum = MKTOKENINFO(0, TITYPE_FUNCTION,
0, 20);`. -/
def defaultInfo (E : Env) (g : Globals) : Globals :=
  match g.RetNum with
  | RetCode.OK_TOKENINFO _ => g
  | _ => { g with RetNum := RetCode.other (E.MKTOKENINFO 0 E.TITYPE_FUNCTION 0 20) }

/-- The `GETINFO` call of the case `INFIX_STARTEXPRESSION`: `RetNum = 0;`, then the
protected call when the library of the object has a handler. -/
def askInfo (E : Env) (s : DSt) : Globals :=
  let g0 := { s.g with RetNum := RetCode.other 0 }
  match E.rplGetLibHandler (E.LIBNUM (s.g.mem s.g.DecompileObject)) with
  | none => g0
  | some h =>
    callProtected h s.InfixOpTop
      { g0 with CurOpcode := E.MKOPCODE (E.LIBNUM (g0.mem g0.DecompileObject)) E.OPCODE_GETINFO,
                DecompMode := decompMode s.infixmode s.flags }

/-- The case `INFIX_STARTEXPRESSION`: get the token-info of the first object of the
expression and go on with `operatorOrAtom`. -/
def startExpression (E : Env) (s : DSt) : Step :=
  operatorOrAtom E (E.rplGetLibHandler (E.LIBNUM (s.g.mem s.g.DecompileObject)))
    (infoOr E (askInfo E s).RetNum) s (defaultInfo E (askInfo E s))

/-- The locals `Operator`, `SavedDecompObject` (a global in fact) and `no_output`
after the block "HANDLE SPECIAL CASES" of the cases `INFIX_BINARYLEFT` and
`INFIX_BINARYMID`. -/
structure Shortcut where
  Operator : Nat
  SavedDecompObject : Int
  no_output : Bool

/-- The block "HANDLE SPECIAL CASES: A+(-B) --> A-B, A*INV(B) --> A/B" for the
operator `Operator` on top of the operator stack and the next argument at `obj`. -/
def specialCases (E : Env) (mem : Int → Nat) (obj : Int) (Operator : Nat) : Shortcut :=
  let c0 : Shortcut := { Operator := Operator, SavedDecompObject := obj, no_output := false }
  let c1 := if c0.Operator = E.CMD_OVR_ADD then
      let c := if E.rplSymbMainOperator mem obj = E.CMD_OVR_UMINUS then
          { c0 with Operator := E.CMD_OVR_SUB, SavedDecompObject := E.rplSymbUnwrap mem obj + 2 }
        else c0
      if E.rplSymbMainOperator mem obj = E.CMD_OVR_MUL
          ∨ E.rplSymbMainOperator mem obj = E.CMD_OVR_DIV then
        if E.rplSymbMainOperator mem (E.rplSymbUnwrap mem obj + 2) = E.CMD_OVR_UMINUS then
          { c with no_output := true }
        else c
      else c
    else c0
  if c1.Operator = E.CMD_OVR_MUL then
    if E.rplSymbMainOperator mem obj = E.CMD_OVR_INV then
      { c1 with Operator := E.CMD_OVR_DIV, SavedDecompObject := E.rplSymbUnwrap mem obj + 2 }
    else c1
  else c1

/-- The cases `INFIX_BINARYLEFT` and `INFIX_BINARYMID` (the same statements twice):
after an argument of a binary operator that is not the last, decompile the operator
(or the one the special cases put in its place) from a local variable, go to the
next argument, and see whether it is the last. -/
def binaryArgument (E : Env) (s : DSt) : Step :=
  let c := specialCases E s.g.mem s.g.DecompileObject (toWord (s.g.cells (s.InfixOpTop - 2)))
  let g0 := { s.g with SavedDecompObject := c.SavedDecompObject }
  let g3 := if c.no_output = false then
      let g1 := { g0 with mem := setWord g0.mem E.localWord c.Operator,
                          DecompileObject := E.localWord,
                          CurOpcode := E.MKOPCODE (E.LIBNUM c.Operator) (decompOp E s.flags),
                          DecompMode := decompMode s.infixmode s.flags }
      let g2 := callOperator (E.rplGetLibHandler (E.LIBNUM c.Operator)) s.InfixOpTop g1
      appendIfInvalid E { g2 with DecompileObject := g2.SavedDecompObject }
    else g0
  let afternext := rplSkipOb E g3.mem g3.DecompileObject
  let EndofExpression := rplSkipOb E g3.mem (g3.cells (s.InfixOpTop - 4) + g3.EndOfObject)
  .next { s with g := g3,
                 infixmode := if afternext = EndofExpression then INFIX_BINARYRIGHT
                   else INFIX_BINARYMID }

/-- The case `INFIX_POSTFIXARG`: decompile the operator, which is read in place on
the operator stack, decide the closing parenthesis and end the expression. -/
def postfixArgument (E : Env) (s : DSt) : Step :=
  let libnum := E.LIBNUM (toWord (s.g.cells (s.InfixOpTop - 2)))
  let g1 := { s.g with SavedDecompObject := s.g.DecompileObject,
                       DecompileObject := E.rstkBase + (s.InfixOpTop - 2),
                       CurOpcode := E.MKOPCODE libnum (decompOp E s.flags),
                       DecompMode := decompMode s.infixmode s.flags }
  let g2 := callOperator (E.rplGetLibHandler libnum) s.InfixOpTop g1
  let g3 := appendIfInvalid E { g2 with DecompileObject := g2.SavedDecompObject }
  popExpression E 4 { s with g := closeParen E s.InfixOpTop g3 }

/-- The statement `rplDecompAppendUTF8(cp2utf8(ARG_SEP(Locale)));` between arguments. -/
def appendSeparator (E : Env) (s : DSt) : Step :=
  .next { s with g := rplDecompAppendUTF8 E (E.argSeparator s.g) s.g }

/-- The case `INFIX_FUNCARGUMENT`. -/
def functionArgument (E : Env) (s : DSt) : Step :=
  let EndofExpression := rplSkipOb E s.g.mem (s.g.cells (s.InfixOpTop - 4) + s.g.EndOfObject)
  if s.g.DecompileObject = EndofExpression then
    let functype := s.g.cells (s.InfixOpTop - 1)
    let g3 := if E.TI_TYPE functype = E.TITYPE_OPENBRACKET then
        let libnum := E.LIBNUM (toWord (s.g.cells (s.InfixOpTop - 2)))
        let closebracket := (toWord (s.g.cells (s.InfixOpTop - 2)) + 1) % 2 ^ 32
        let g1 := { s.g with mem := setWord s.g.mem E.localWord closebracket,
                             DecompileObject := E.localWord,
                             CurOpcode := E.MKOPCODE libnum (decompOp E s.flags),
                             DecompMode := decompMode s.infixmode s.flags }
        appendIfInvalid E (callOperator (E.rplGetLibHandler libnum) s.InfixOpTop g1)
      else rplDecompAppendChar E 41 s.g
    popExpression E 4 { s with g := g3 }
  else appendSeparator E s

/-- The statement `switch (infixmode)` at the label `end_of_expression`. -/
def decompInfix (E : Env) (s : DSt) : Step :=
  if s.infixmode = INFIX_STARTSYMBOLIC then
    let g1 := rplDecompAppendChar E 39 s.g
    if g1.Exceptions ≠ 0 then .next { s with g := g1 }
    else startExpression E { s with g := g1 }
  else if s.infixmode = INFIX_STARTEXPRESSION then startExpression E s
  else if s.infixmode = INFIX_BINARYLEFT ∨ s.infixmode = INFIX_BINARYMID then binaryArgument E s
  else if s.infixmode = INFIX_BINARYRIGHT ∨ s.infixmode = INFIX_PREFIXARG then
    let g1 := if s.infixmode = INFIX_PREFIXARG then closeParenPrefix E s.InfixOpTop s.g
      else closeParen E s.InfixOpTop s.g
    popExpression E 4 { s with g := g1 }
  else if s.infixmode = INFIX_POSTFIXARG then postfixArgument E s
  else if s.infixmode = INFIX_CUSTOMFUNCARG then
    let EndofExpression := rplSkipOb E s.g.mem (s.g.cells (s.InfixOpTop - 4) + s.g.EndOfObject)
    if s.g.DecompileObject ≥ EndofExpression
        ∨ rplSkipOb E s.g.mem s.g.DecompileObject = EndofExpression then
      popExpression E 4 { s with g := rplDecompAppendChar E 41 s.g }
    else appendSeparator E s
  else if s.infixmode = INFIX_FUNCARGUMENT then functionArgument E s
  else if s.infixmode = INFIX_ATOMIC then
    let EndofExpression := rplSkipOb E s.g.mem (s.g.cells (s.InfixOpTop - 2) + s.g.EndOfObject)
    if s.g.DecompileObject = EndofExpression then popExpression E 2 s
    else appendSeparator E s
  else .next s

/-- The loop `do { --ptr; if(*ptr == '\n') break; } while(ptr > start);` that looks
for the last line feed.  A pass is only repeated above `start`, so the fuel
`ptr - start + 1` given by the caller is never used up. -/
def scanBackNewline (mem : Int → Nat) (start : Int) : Nat → Int → Int
  | 0, ptr => ptr
  | fuel + 1, ptr =>
    if getByte mem (ptr - 1) = 10 then ptr - 1
    else if ptr - 1 > start then scanBackNewline mem start fuel (ptr - 1)
    else ptr - 1

/-- The first statements after the label `end_of_expression` outside infix mode:
update the offset of the last line feed (unless hints are off), and ask for a line
feed after the object when the line is wider than the maximum width. -/
def widthCheck (E : Env) (s : DSt) : DSt :=
  let start := 4 * s.g.CompileEnd + s.lastnloffset
  let lastnloffset := if s.flags &&& E.DECOMP_NOHINTS = 0 then
      let ptr := scanBackNewline s.g.mem start ((s.g.DecompStringEnd - start).toNat + 1)
        s.g.DecompStringEnd
      if getByte s.g.mem ptr = 10 then ptr - 4 * s.g.CompileEnd + 1 else ptr - 4 * s.g.CompileEnd
    else 0
  let dhints := if s.g.DecompStringEnd - (4 * s.g.CompileEnd + lastnloffset) > s.maxwidth then
      s.dhints ||| E.HINT_NLAFTER
    else s.dhints
  { s with lastnloffset := lastnloffset, dhints := dhints }

/-- The block "CHECK FOR HINTS AFTER": apply the hints after the object (indentation,
then a line feed followed by the indentation), or separate the object from the next
one with a space. -/
def hintsAfter (E : Env) (s1 : DSt) : DSt :=
  if s1.flags &&& E.DECOMP_NOHINTS = 0 ∧ s1.dhints &&& E.HINT_ALLAFTER ≠ 0 then
    let i1 := if s1.dhints &&& E.HINT_ADDINDENTAFTER ≠ 0 then s1.indent + 2 else s1.indent
    let i2 := if s1.dhints &&& E.HINT_SUBINDENTAFTER ≠ 0 then i1 - 2 else i1
    if s1.dhints &&& E.HINT_NLAFTER ≠ 0 then
      { s1 with indent := i2, lastnewline := true,
                g := appendSpaces E i2.toNat (rplDecompAppendChar E 10 s1.g) }
    else if s1.g.DecompileObject < s1.g.EndOfObject then
      { s1 with indent := i2, g := rplDecompAppendChar E 32 s1.g }
    else { s1 with indent := i2 }
  else if s1.g.DecompileObject < s1.g.EndOfObject then
    { s1 with g := rplDecompAppendChar E 32 s1.g }
  else s1

/-- What follows the label `end_of_expression` outside infix mode: the width check,
the hints after the object, and `if(Exceptions) break;`. -/
def decompAfter (E : Env) (s : DSt) : Step :=
  if (hintsAfter E (widthCheck E s)).g.Exceptions ≠ 0 then
    .leave (hintsAfter E (widthCheck E s))
  else .next (hintsAfter E (widthCheck E s))

/-- What follows the label `end_of_expression`. -/
def decompEnd (E : Env) (s : DSt) : Step :=
  if s.infixmode ≠ 0 then decompInfix E s else decompAfter E s

/-- The loop `while(DecompileObject < EndOfObject)`, entered at its test (`false`)
or at the label `end_of_expression` (`true`).  Library handlers decide how the
pointers move, so the number of steps has no bound that the code enforces: the loop
takes fuel, one unit for each half of a pass and for each jump to the label, and the
result is nothing when the fuel runs out.  Otherwise it is the state with which the
loop was left, or the return taken inside it. -/
def decompLoop (E : Env) : Nat → Bool → DSt → Option (Flow DSt)
  | 0, _, _ => none
  | fuel + 1, false, s =>
    if s.g.DecompileObject < s.g.EndOfObject then
      match decompTop E s with
      | .next s1 => decompLoop E fuel true s1
      | .again s1 => decompLoop E fuel true s1
      | .leave s1 => some (.next s1)
      | .ret v g => some (.ret v g)
    else some (.next s)
  | fuel + 1, true, s =>
    match decompEnd E s with
    | .next s1 => decompLoop E fuel false s1
    | .again s1 => decompLoop E fuel true s1
    | .leave s1 => some (.next s1)
    | .ret v g => some (.ret v g)

/-- The locals of `rplDecompile` at its start (`infixmode = 0`, `indent = 0`,
`lastnewline = 0`, `lastnloffset = 0`; the others are not yet set). -/
def initLocals (flags : Nat) (g : Globals) : DSt :=
  { g := g, flags := flags, han := none, infixmode := 0, indent := 0,
    lastnewline := false, lastnloffset := 0, maxwidth := 0, savecstruct := 0,
    savedecompmode := 0, dhints := 0, savedhints := 0, validtop := 0,
    validbottom := 0, SavedRSTop := 0, InfixOpTop := 0 }

/-- The globals after an embedded session saved the pointers of its caller: four
cells are pushed at the higher of `ValidateTop` and `RSTop`, the session starts on
`object`, and the return stack is grown when the slack is used up. -/
def embeddedGlobals (E : Env) (object : Int) (g : Globals) : Globals :=
  let base := if g.ValidateTop > g.RSTop then g.ValidateTop else g.RSTop
  let g1 := { g with
    cells := setCell (setCell (setCell (setCell g.cells base g.DecompileObject)
      (base + 1) g.EndOfObject) (base + 2) g.LAMTopSaved) (base + 3) g.SavedDecompObject,
    RSTop := base + 4, DecompileObject := object }
  if g1.RStkSize ≤ g1.RSTop + E.RSTKSLACK - g1.RStk then
    growRStk E (g1.RSTop - g1.RStk + E.RSTKSLACK) g1
  else g1

/-- The block `if(flags & DECOMP_EMBEDDED) { ... }` at the start of `rplDecompile`:
save the state of the caller in locals and on the return stack, return `NULL` when
the return stack could not grow, and turn the hints off. -/
def initEmbedded (E : Env) (object : Int) (flags : Nat) (g : Globals) : Flow DSt :=
  let s0 : DSt := initLocals flags g
  let s1 : DSt := { s0 with g := embeddedGlobals E object g,
                            SavedRSTop := g.RSTop, savecstruct := g.CurrentConstruct }
  let s2 : DSt := { s1 with savedecompmode := g.DecompMode, savedhints := g.DecompHints }
  let s3 : DSt := { s2 with validtop := g.ValidateTop - g.RSTop,
                            validbottom := g.ValidateBottom - g.RSTop }
  if (embeddedGlobals E object g).Exceptions ≠ 0 then Flow.ret none (embeddedGlobals E object g)
  else Flow.next { s3 with flags := flags ||| E.DECOMP_NOHINTS }

/-- The statements that set `maxwidth`, taking the default width when `flags` gives
none. -/
def initWidth (E : Env) (s1 : DSt) : DSt :=
  if E.DECOMP_GETMAXWIDTH s1.flags = 0 then
    { s1 with maxwidth := E.DEFAULT_DECOMP_WIDTH,
              flags := s1.flags ||| E.DECOMP_MAXWIDTH E.DEFAULT_DECOMP_WIDTH }
  else { s1 with maxwidth := E.DECOMP_GETMAXWIDTH s1.flags }

/-- The statements before the loop: outside an embedded session the text starts at
`TempObEnd`; the end of the object, the saved environment pointer and the construct
stack with the object on it are set; outside an embedded session the prolog of the
string is appended and the text starts after it. -/
def initObject (E : Env) (object : Int) (s2 : DSt) : DSt :=
  let g3 := if s2.flags &&& E.DECOMP_EMBEDDED = 0 then
      { s2.g with CompileEnd := s2.g.TempObEnd }
    else s2.g
  let g4 := { g3 with EndOfObject := rplSkipOb E g3.mem object, LAMTopSaved := g3.LAMTop,
                      ValidateBottom := g3.RSTop,
                      cells := setCell g3.cells g3.RSTop g3.DecompileObject,
                      ValidateTop := g3.RSTop + 1 }
  let g5 := if s2.flags &&& E.DECOMP_EMBEDDED = 0 then
      let g := rplCompileAppend E (E.MKPROLOG E.DOSTRING 0) g4
      { g with DecompStringEnd := 4 * g.CompileEnd }
    else g4
  { s2 with g := g5, InfixOpTop := g3.RSTop }

/-- The start of `rplDecompile`, up to the loop. -/
def decompInit (E : Env) (object : Int) (flags : Nat) (g : Globals) : Flow DSt :=
  (if flags &&& E.DECOMP_EMBEDDED ≠ 0 then initEmbedded E object flags g
   else Flow.next (initLocals flags { g with DecompileObject := object })).bind fun s1 =>
  Flow.next (initObject E object (initWidth E s1))

/-- The loop `do { --ptr; if(*ptr == '\n') break; if(*ptr != ' ') break; }
while(ptr > start);` that looks for the line feed before the final indentation. -/
def trimScan (mem : Int → Nat) (start : Int) : Nat → Int → Int
  | 0, ptr => ptr
  | fuel + 1, ptr =>
    if getByte mem (ptr - 1) = 10 then ptr - 1
    else if getByte mem (ptr - 1) ≠ 32 then ptr - 1
    else if ptr - 1 > start then trimScan mem start fuel (ptr - 1)
    else ptr - 1

/-- The block "REMOVE END NEWLINE AND INDENT IF PRESENT". -/
def trimNewline (s : DSt) : Globals :=
  if s.lastnewline = true ∧ s.g.Exceptions = 0 then
    let start := 4 * s.g.CompileEnd + s.lastnloffset
    let ptr := trimScan s.g.mem start ((s.g.DecompStringEnd - start).toNat + 1)
      s.g.DecompStringEnd
    if getByte s.g.mem ptr = 10 then { s.g with DecompStringEnd := ptr } else s.g
  else s.g

/-- The end of `rplDecompile`, after the loop. -/
def decompFinish (E : Env) (s : DSt) : Result :=
  let g1 := trimNewline s
  let g2 := if s.flags &&& E.DECOMP_EMBEDDED = 0 then
      let m := setWord g1.mem (g1.CompileEnd - 1)
        (E.MKPROLOG (E.DOSTRING + ((-g1.DecompStringEnd) % 4).toNat)
          ((toWord (g1.DecompStringEnd - 4 * g1.CompileEnd) + 3) % 2 ^ 32 / 4))
      { g1 with mem := m, CompileEnd := rplSkipOb E m (g1.CompileEnd - 1) }
    else g1
  let g3 := { g2 with LAMTop := g2.LAMTopSaved }
  if g3.Exceptions = 0 then
    let g4 := if g3.CompileEnd + E.TEMPOBSLACK > g3.TempObSize then
        growTempOb E (g3.CompileEnd - g3.TempOb + E.TEMPOBSLACK) g3
      else g3
    if g3.CompileEnd + E.TEMPOBSLACK > g3.TempObSize ∧ g4.Exceptions ≠ 0 then
      { value := none,
        g := if s.flags &&& E.DECOMP_EMBEDDED ≠ 0 then restorePointers s g4 else g4 }
    else if s.flags &&& E.DECOMP_EMBEDDED ≠ 0 then
      { value := none, g := restorePointers s g4 }
    else
      let g5 := E.rplAddTempBlock g4.TempObEnd g4
      { value := some g5.TempObEnd, g := { g5 with TempObEnd := g5.CompileEnd } }
  else { value := none, g := g3 }

/-- `rplDecompile(object, flags)`, run on the globals `g` with the given fuel for
its loop; nothing when the fuel runs out. -/
def rplDecompile (E : Env) (fuel : Nat) (object : Int) (flags : Nat) (g : Globals) :
    Option Result :=
  match decompInit E object flags g with
  | .ret v g1 => some { value := v, g := g1 }
  | .next s0 =>
    match decompLoop E fuel false s0 with
    | none => none
    | some (.ret v g1) => some { value := v, g := g1 }
    | some (.next s1) => some (decompFinish E s1)

/-- Token-info of a symbolic met as an object inside an expression (an operand kind). -/
def tiExpression : Int := E0.MKTOKENINFO 0 2 0 1

/-- Token-info of the unary minus. -/
def tiNeg : Int := E0.MKTOKENINFO 1 E0.TITYPE_PREFIXOP 1 4

/-- Token-info of a CAS function of one argument, precedence 2. -/
def tiCasFun : Int := E0.MKTOKENINFO 1 E0.TITYPE_CASFUNCTION 1 2

/-- Token-info of a function of one argument, precedence 2. -/
def tiFun1 : Int := E0.MKTOKENINFO 1 E0.TITYPE_FUNCTION 1 2

/-- The word a handler finds at `DecompileObject`: the pointer is into the store,
to the local variable of `rplDecompile`, or to a cell of the return stack. -/
def objectWord (g : Globals) : Nat :=
  if g.DecompileObject ≥ E0.rstkBase then toWord (g.cells (g.DecompileObject - E0.rstkBase))
  else g.mem g.DecompileObject

/-- The text the algebra library prints for a word, 0 when it prints none:
identifiers and numbers of one character, the operators `+ - * /`, `i` for the
inverse and `f` for the CAS function `cmdFun`. -/
def algText (w : Nat) : Nat :=
  if w / 2 ^ 20 = 28 then w % 2 ^ 20
  else if w / 2 ^ 20 = 12 then 48 + w % 2 ^ 20
  else if w = E0.CMD_OVR_ADD then 43
  else if w = E0.CMD_OVR_SUB then 45
  else if w = E0.CMD_OVR_UMINUS then 45
  else if w = E0.CMD_OVR_MUL then 42
  else if w = E0.CMD_OVR_DIV then 47
  else if w = E0.CMD_OVR_INV then 105
  else if w = cmdFun then 102
  else 0

/-- The token-info the algebra library gives for a word: `+` and `-` are binary,
left-associative, of precedence 8, `*` and `/` of precedence 7, the unary minus is a
prefix operator, the inverse is a function and `cmdFun` a CAS function, everything
else is an operand. -/
def algInfo (w : Nat) : Int :=
  if w = E0.CMD_OVR_ADD ∨ w = E0.CMD_OVR_SUB then tiPlus
  else if w = E0.CMD_OVR_MUL ∨ w = E0.CMD_OVR_DIV then tiTimes
  else if w = E0.CMD_OVR_UMINUS then tiNeg
  else if w = E0.CMD_OVR_INV then tiFun1
  else if w = cmdFun then tiCasFun
  else if w / 2 ^ 19 = 56 * 2 + 1 then tiExpression
  else tiIdent

/-- The word the algebra library compiles for a token that starts with the byte `c`,
0 when the token is not its own. -/
def algWord (c : Nat) : Nat :=
  if 97 ≤ c ∧ c ≤ 122 then 28 * 2 ^ 20 + c
  else if 48 ≤ c ∧ c ≤ 57 then sint (c - 48)
  else if c = 43 then E0.CMD_OVR_ADD
  else if c = 45 then E0.CMD_OVR_SUB
  else if c = 42 then E0.CMD_OVR_MUL
  else if c = 47 then E0.CMD_OVR_DIV
  else if c = 40 then E0.CMD_OPENBRACKET
  else if c = 41 then E0.CMD_OPENBRACKET + 1
  else 0

/-- The token-info the algebra library answers to the probe of a token that starts
with the byte `c`. -/
def algProbe (c : Nat) : Int :=
  if c = 43 ∨ c = 45 then tiPlus
  else if c = 42 ∨ c = 47 then tiTimes
  else if c = 40 then tiOpen
  else if c = 41 then tiClose
  else tiIdent

/-- A small algebra library for running `rplCompile` and `rplDecompile` on concrete
expressions.  Asked to compile outside a symbolic, a token that starts with a quote
opens a symbolic in infix mode, the rest of the token being left for the next pass.
Asked to probe, it knows identifiers and numbers of one character, the operators
`+ - * /` and the parentheses, and a quote ends the symbolic.  Asked for information
on an object it answers with `algInfo` and no hints.  Asked to decompile, a symbolic
starts an infix construct and every other word it knows is printed with `algText`. -/
def algLib : LIBHANDLER := fun g =>
  let c := g.string g.TokenStart
  let op := g.CurOpcode % 2 ^ 19
  if op = E0.OPCODE_PROBETOKEN then
    if c = 39 then { g with RetNum := RetCode.OK_ENDCONSTRUCT_INFIX }
    else if algWord c ≠ 0 then { g with RetNum := RetCode.OK_TOKENINFO (algProbe c) }
    else { g with RetNum := RetCode.ERR_NOTMINE }
  else if op = E0.OPCODE_COMPILE then
    if c = 39 then
      { g with mem := setWord g.mem g.CompileEnd (E0.MKPROLOG E0.DOSYMB 0),
               CompileEnd := g.CompileEnd + 1,
               NextTokenStart := if g.TokenLen > 1 then g.TokenStart + 1 else g.NextTokenStart,
               RetNum := RetCode.OK_STARTCONSTRUCT_INFIX }
    else if algWord c ≠ 0 then
      { g with mem := setWord g.mem g.CompileEnd (algWord c), CompileEnd := g.CompileEnd + 1,
               RetNum := RetCode.OK_CONTINUE }
    else { g with RetNum := RetCode.ERR_NOTMINE }
  else if op = E0.OPCODE_GETINFO then
    { g with RetNum := RetCode.OK_TOKENINFO (algInfo (objectWord g)), DecompHints := 0 }
  else if op = E0.OPCODE_DECOMPILE ∨ op = E0.OPCODE_DECOMPEDIT then
    if objectWord g / 2 ^ 19 = 56 * 2 + 1 then { g with RetNum := RetCode.OK_STARTCONSTRUCT_INFIX }
    else if algText (objectWord g) ≠ 0 then
      { rplDecompAppendChar E0 (algText (objectWord g)) g with RetNum := RetCode.OK_CONTINUE }
    else { g with RetNum := RetCode.ERR_INVALID }
  else { g with RetNum := RetCode.OK_CONTINUE }

/-- The concrete environment of the algebra library, registered for the libraries
of its objects: operators (1), brackets (2), the CAS function (3), numbers (12),
identifiers (28) and symbolics (56). -/
def Ealg : Env :=
  mkEnv 56 fun n =>
    if n = 1 ∨ n = 2 ∨ n = 3 ∨ n = 12 ∨ n = 28 ∨ n = 56 then some algLib else none

/-- The globals left by a call, or the given ones when the call ran out of fuel. -/
def globalsOf (r : Option Result) (g : Globals) : Globals :=
  match r with
  | some x => x.g
  | none => g

/-- The pointer returned by a call, or `-1` for null or a call out of fuel. -/
def valueOf (r : Option Result) : Int :=
  match r with
  | some x => x.value.getD (-1)
  | none => -1

/-- The bytes of the string object at `p`: those of the words after its prolog, the
padding that the library number of the prolog records left out. -/
def stringBytes (E : Env) (mem : Int → Nat) (p : Int) : List Nat :=
  (List.range (4 * E.OBJSIZE (mem p) - (E.LIBNUM (mem p) - E.DOSTRING).toNat)).map
    fun i => getByte mem (4 * (p + 1) + i)

/-- Compile a text with the algebra library and decompile the result for editing:
the bytes of the string obtained, or nothing when a step fails. -/
def normalise (text : List Nat) : Option (List Nat) :=
  match rplCompile Ealg 40 (textOf text) text.length false toyGlobals with
  | some r1 =>
    match r1.value with
    | some obj =>
      match rplDecompile Ealg 100 obj Ealg.DECOMP_EDIT r1.g with
      | some r2 =>
        match r2.value with
        | some str => some (stringBytes Ealg r2.g.mem str)
        | none => none
      | none => none
    | none => none
  | none => none

/-- What every step of the loop of `rplDecompile` keeps: the local `flags` is the
given one when the function goes on, and a return taken inside the loop is a return
of `NULL` with the error flag raised. -/
def StepOK (fl : Nat) : Step → Prop
  | .next s => s.flags = fl
  | .again s => s.flags = fl
  | .leave s => s.flags = fl
  | .ret v g => v = none ∧ g.Exceptions ≠ 0

/-- A library handler that leaves the two pointers of the decompiler alone and
never opens an infix construct. -/
def TameHandler (h : LIBHANDLER) : Prop :=
  ∀ g, (h g).DecompileObject = g.DecompileObject ∧ (h g).EndOfObject = g.EndOfObject
    ∧ (h g).RetNum ≠ RetCode.OK_STARTCONSTRUCT_INFIX

/-- Every registered library handler is tame for the decompiler. -/
def DecompTame (E : Env) : Prop :=
  ∀ lib h, E.rplGetLibHandler lib = some h → TameHandler h

/-- The second state is in the same mode and at the same object as the first. -/
def SamePlace (s t : DSt) : Prop :=
  t.infixmode = s.infixmode ∧ t.g.DecompileObject = s.g.DecompileObject
    ∧ t.g.EndOfObject = s.g.EndOfObject

/-- A library for the decompiler only: asked for information on an object it asks
for a line feed and two more columns of indentation after the object; asked to
decompile, it prints the digit `1` for whatever object it is given. -/
def wrapLib : LIBHANDLER := fun g =>
  if g.CurOpcode % 2 ^ 19 = E0.OPCODE_GETINFO then
    { g with RetNum := RetCode.OK_TOKENINFO 0,
             DecompHints := E0.HINT_NLAFTER ||| E0.HINT_ADDINDENTAFTER }
  else { rplDecompAppendChar E0 49 g with RetNum := RetCode.OK_CONTINUE }

/-- The concrete environment in which the library of numbers, 12, is `wrapLib`. -/
def Ewrap : Env := mkEnv 56 fun n => if n = 12 then some wrapLib else none

/-- The globals with one number at address 60, below the end of the temporary
objects (100), and nothing else in the store. -/
def numberGlobals : Globals :=
  { toyGlobals with mem := fun a => if a = 60 then sint 1 else 0 }

/-- The globals in the middle of a decompilation session: the session is at the
object at 300 of a composite that ends at 310, its construct stack is the cell 51,
its text ends at the byte 484, and the number at address 60 is to be decompiled by
an embedded session. -/
def sessionGlobals : Globals :=
  { toyGlobals with mem := fun a => if a = 60 then sint 1 else 0,
                    CompileEnd := 120, DecompStringEnd := 484, DecompileObject := 300,
                    EndOfObject := 310, SavedDecompObject := 305, LAMTop := 9, LAMTopSaved := 7,
                    CurrentConstruct := 77, DecompMode := 5, DecompHints := 3, RSTop := 50,
                    ValidateTop := 52, ValidateBottom := 51 }

/-- The token-info kinds of binary and postfix operators. -/
def subExpressionKinds (E : Env) : List Nat :=
  [E.TITYPE_BINARYOP_LEFT, E.TITYPE_BINARYOP_RIGHT, E.TITYPE_CASBINARYOP_LEFT,
   E.TITYPE_CASBINARYOP_RIGHT, E.TITYPE_POSTFIXOP]

/-- A token-info of a binary or postfix operator. -/
def BinaryOrPostfixOp (E : Env) (info : Int) : Prop :=
  E.TI_TYPE info ∈ subExpressionKinds E

/-- What the statements on parentheses assume of the header constants: the kinds of
prefix operators and of open brackets are not kinds of binary or postfix operators. -/
structure ParenLaws (E : Env) : Prop where
  unary : E.TITYPE_PREFIXOP ∉ subExpressionKinds E
  bracket : E.TITYPE_OPENBRACKET ∉ subExpressionKinds E

/-- The rule of the specification: a sub-expression of precedence value `c` whose
operator is `op` is put in parentheses under an operator of precedence value `e`
when `e < c`, or `e = c` and `op` is neither `CMD_OVR_ADD` nor `CMD_OVR_MUL`. -/
@[reducible] def wrapRule (E : Env) (e c op : Nat) : Prop :=
  e < c ∨ (e = c ∧ op ≠ E.CMD_OVR_ADD ∧ op ≠ E.CMD_OVR_MUL)

/-- The object that `rplCompile` returns for a text with the algebra library, as the
list of its words; nothing when the compilation fails. -/
def compiled (text : List Nat) : Option (List Nat) :=
  match rplCompile Ealg 40 (textOf text) text.length false toyGlobals with
  | some r =>
    match r.value with
    | some obj => some (segment r.g.mem obj (rplObjSize Ealg r.g.mem obj).toNat)
    | none => none
  | none => none

/-- The globals when the decompiler is at the sum inside the product `(1+2)*3`: the
operator stack starts at the cell 50 and holds the expression of the product, the
product and its token-info, the expression of the sum, the sum and its token-info;
`DecompileObject` is at the word of the sum. -/
def productOfSum : Globals :=
  { toyGlobals with
    mem := fun a => if a = 103 then E0.CMD_OVR_ADD else 0,
    ValidateTop := 50, DecompileObject := 103,
    cells := fun a =>
      if a = 52 then (E0.CMD_OVR_MUL : Int) else if a = 53 then tiTimes
      else if a = 55 then 9 else if a = 56 then (E0.CMD_OVR_ADD : Int)
      else if a = 57 then tiPlus else 0 }

/-- What the statements on the shortcut assume of the header constants: the commands
involved differ. -/
structure ShortcutLaws (E : Env) : Prop where
  add_ne_mul : E.CMD_OVR_ADD ≠ E.CMD_OVR_MUL
  sub_ne_mul : E.CMD_OVR_SUB ≠ E.CMD_OVR_MUL
  uminus_ne_mul : E.CMD_OVR_UMINUS ≠ E.CMD_OVR_MUL
  uminus_ne_div : E.CMD_OVR_UMINUS ≠ E.CMD_OVR_DIV

/-- In the words of the specification: emit the text of the operator `op`, for which
the handler of its library is called on a word that holds `op`, and go on with the
object at `operand`; `##INVALID##` is appended when the handler does not answer
`OK_CONTINUE`. -/
def emitThenGo (E : Env) (s : DSt) (op : Nat) (operand : Int) : Globals :=
  let g1 := { s.g with SavedDecompObject := operand,
                       mem := setWord s.g.mem E.localWord op,
                       DecompileObject := E.localWord,
                       CurOpcode := E.MKOPCODE (E.LIBNUM op) (decompOp E s.flags),
                       DecompMode := decompMode s.infixmode s.flags }
  let g2 := callOperator (E.rplGetLibHandler (E.LIBNUM op)) s.InfixOpTop g1
  appendIfInvalid E { g2 with DecompileObject := g2.SavedDecompObject }

/-- The mode after an argument of a binary operator that is not the last: the next
argument is the last one when the object after it is the end of the expression. -/
def nextBinaryMode (E : Env) (s : DSt) (g3 : Globals) : Nat :=
  if rplSkipOb E g3.mem g3.DecompileObject
      = rplSkipOb E g3.mem (g3.cells (s.InfixOpTop - 4) + g3.EndOfObject) then INFIX_BINARYRIGHT
  else INFIX_BINARYMID

/-- The store with the words `ws` at address 60, below the area where the string is
built. -/
def objectAt60 (ws : List Nat) : Globals :=
  { toyGlobals with mem := writeWords (fun _ => 0) 60 ws }

/-- The text that `rplDecompile` gives, with the algebra library, for the object
whose words are `ws`; nothing when it fails. -/
def decompiled (ws : List Nat) : Option (List Nat) :=
  match rplDecompile Ealg 100 60 Ealg.DECOMP_EDIT (objectAt60 ws) with
  | some r =>
    match r.value with
    | some str => some (stringBytes Ealg r.g.mem str)
    | none => none
  | none => none

/-- The state of the decompiler in the sum of `a` and `-b` (the object at 60) after
the first argument was decompiled: the text so far is `'a`, the operator stack holds
the expression, that starts six words before the end of the object, and the sum;
`DecompileObject` is at the symbolic `-b`. -/
def sumState : DSt :=
  { initLocals Ealg.DECOMP_EDIT
      { objectAt60 (Ealg.MKPROLOG Ealg.DOSYMB 6
          :: node Ealg Ealg.CMD_OVR_ADD [[28 * 2 ^ 20 + 97],
              node Ealg Ealg.CMD_OVR_UMINUS [[28 * 2 ^ 20 + 98]]]) with
        DecompileObject := 64, EndOfObject := 67, CompileEnd := 101, DecompStringEnd := 406,
        ValidateTop := 51,
        cells := fun a => if a = 51 then -6 else if a = 52 then 1
          else if a = 53 then (Ealg.CMD_OVR_ADD : Int) else if a = 54 then tiPlus else 0 } with
    infixmode := INFIX_BINARYLEFT, InfixOpTop := 55 }

/-- A library whose handler flags an error whatever it is asked. -/
def failLib : LIBHANDLER := fun g =>
  { g with Exceptions := g.Exceptions ||| E0.EX_ERRORCODE, ErrorCode := 99,
           RetNum := RetCode.ERR_INVALID }

/-- The concrete environment in which the library of numbers, 12, is `failLib`. -/
def Efail : Env := mkEnv 56 fun n => if n = 12 then some failLib else none

/-- What an append of `k` bytes leaves behind: the text of `g` with `k` more bytes,
the bytes elsewhere and the start of the text being unchanged. -/
structure Appended (g g1 : Globals) (k : Nat) : Prop where
  textEnd : g1.DecompStringEnd = g.DecompStringEnd + k
  start : g1.CompileEnd = g.CompileEnd
  bytes : ∀ b, b < g.DecompStringEnd → getByte g1.mem b = getByte g.mem b

/-- What the statements on line feeds assume of the header constants: the hint for a
line feed after the object is a hint that the mask `HINT_ALLAFTER` lets through. -/
structure HintLaws (E : Env) : Prop where
  nonzero : E.HINT_NLAFTER ≠ 0
  masked : ∀ d : Nat, d &&& E.HINT_NLAFTER ≠ 0 → d &&& E.HINT_ALLAFTER ≠ 0

/-- The state with which the loop of `rplDecompile` starts, or `d` when the function
returned before its loop. -/
def startedAt (f : Flow DSt) (d : DSt) : DSt :=
  match f with
  | .next s => s
  | .ret _ _ => d

/-- The state after a step of the loop, or `d` when the step returned. -/
def steppedTo (st : Step) (d : DSt) : DSt :=
  match st with
  | .next s => s
  | .again s => s
  | .leave s => s
  | .ret _ _ => d

/-- The state of `rplDecompile`, called with the library `wrapLib` and no flags on
the number at address 60, when it reaches the label `end_of_expression` after that
number was decompiled. -/
def wrapState : DSt :=
  steppedTo (decompTop Ewrap
    (startedAt (decompInit Ewrap 60 0 numberGlobals) (initLocals 0 numberGlobals)))
    (initLocals 0 numberGlobals)

/-- The boundary `b i` of a list of consecutive objects that starts at `p`: the
address after the first `i` objects (`b 0 = p`). -/
def boundary (p : Int) (os : List (List Nat)) (i : Nat) : Int :=
  p + ((os.take i).flatten.length : Int)

/-- Two numbers, 1 and 2, at the addresses 100 and 101. -/
def twoNumbers : Int → Nat := writeWords (fun _ => 0) 100 [sint 1, sint 2]

/-- The number of arguments that a close bracket counts: the objects between the
position recorded in the marker on top of the operator stack and the cursor. -/
def countedArgs (E : Env) (s : St) : Nat :=
  countArgs E s.g.mem (s.g.TempObEnd + s.g.cells (s.InfixOpTop - 4))
    ((s.g.CompileEnd - (s.g.TempObEnd + s.g.cells (s.InfixOpTop - 4))).toNat + 1) s.g.CompileEnd 0

/-- What the statements assume of the token-info macros for the entry of the
synthetic function: its kind, argument count and precedence read back. -/
structure FunEvalLaws (E : Env) : Prop where
  kind : ∀ l, E.TI_TYPE (E.MKTOKENINFO l E.TITYPE_FUNCTION 0xf 2) = E.TITYPE_FUNCTION
  nargs : ∀ l, E.TI_NARGS (E.MKTOKENINFO l E.TITYPE_FUNCTION 0xf 2) = 0xf
  precedence : ∀ l, E.TI_PRECEDENCE (E.MKTOKENINFO l E.TITYPE_FUNCTION 0xf 2) = 2

/-- The state in which `rplCompile` meets the `(` of `f(`: the identifier is
compiled and remembered as the previous token. -/
def identOpenState : St :=
  { afterTokens (feed E0 [identF] tiIdent infixStart) with probe_tokeninfo := tiOpen }

/-- The state in which `rplCompile` meets the second `(` of `((`. -/
def openOpenState : St :=
  { afterTokens (feed E0 [E0.CMD_OPENBRACKET] tiOpen infixStart) with probe_tokeninfo := tiOpen }

/-- The precedence flush as the specification describes it, confined to the entries
above the position `m` of an open-bracket marker: the loop of `precedenceFlush` with
`m` as the bottom of the stack, so that it can neither pop nor apply a cell of the
marker or of an entry below it. -/
def flushAboveMarker (E : Env) (m : Int) : Nat → St → Flow St
  | 0, s => .next s
  | fuel + 1, s =>
    if s.InfixOpTop > m then
      let top := s.InfixOpTop - 2
      if E.TI_PRECEDENCE (s.g.cells (s.InfixOpTop - 1)) < E.TI_PRECEDENCE s.probe_tokeninfo then
        match rplInfixApply E (s.g.cells top).toNat (E.TI_NARGS (s.g.cells (top + 1))) s.g with
        | (false, g1) => return0 g1
        | (true, g1) => flushAboveMarker E m fuel { s with g := g1, InfixOpTop := top }
      else if (E.TI_TYPE s.probe_tokeninfo = E.TITYPE_BINARYOP_LEFT
            ∨ E.TI_TYPE s.probe_tokeninfo = E.TITYPE_CASBINARYOP_LEFT)
          ∧ E.TI_PRECEDENCE (s.g.cells (s.InfixOpTop - 1)) ≤ E.TI_PRECEDENCE s.probe_tokeninfo then
        match rplInfixApply E (s.g.cells top).toNat (E.TI_NARGS (s.g.cells (top + 1))) s.g with
        | (false, g1) => return0 g1
        | (true, g1) => flushAboveMarker E m fuel { s with g := g1, InfixOpTop := top }
      else .next s
    else .next s

/-- Token-info of an open bracket that a library declares with precedence 1. -/
def tiOpenLow : Int := E0.MKTOKENINFO 1 E0.TITYPE_OPENBRACKET 0 1

/-- The state in which `rplCompile` handles the `+` of `(1+`, the library having
declared the open bracket with the token-info `tiOpenLow`. -/
def lowBracketPlusState : St :=
  { tookOperator E0.CMD_OVR_ADD (afterTokens
      ((feed E0 [E0.CMD_OPENBRACKET] tiOpenLow infixStart).bind fun s1 =>
        feed E0 [sint 1] tiNumber s1)) with probe_tokeninfo := tiPlus }

/-- The state in which `rplCompile` handles the second `+` of `(1+2+`. -/
def parenSumPlusState : St :=
  { tookOperator E0.CMD_OVR_ADD (afterTokens
      (tokensParenOnePlus.bind fun s => feed E0 [sint 2] tiNumber s)) with
    probe_tokeninfo := tiPlus }

/-- The state in which `rplCompile` handles the `)` of `(1)`. -/
def parenOneCloseState : St :=
  { tookOperator cmdCloseBracket (afterTokens
      ((feed E0 [E0.CMD_OPENBRACKET] tiOpen infixStart).bind fun s1 =>
        feed E0 [sint 1] tiNumber s1)) with probe_tokeninfo := tiClose }

/-- The state in which `rplCompile` handles the `)` of `(1,2)`. -/
def parenPairCloseState : St :=
  { tookOperator cmdCloseBracket (afterTokens
      ((feed E0 [E0.CMD_OPENBRACKET] tiOpen infixStart).bind fun s1 =>
        (feed E0 [sint 1] tiNumber s1).bind fun s2 =>
        (feed E0 [cmdComma] tiComma s2).bind fun s3 =>
        feed E0 [sint 2] tiNumber s3)) with probe_tokeninfo := tiClose }

/-- What the statements assume of the header macros for string prologs of a size
below `bound` and a padding below 4: the size field and the library number read
back, and the word is a prolog. -/
structure StringLaws (E : Env) (bound : Nat) : Prop where
  small : bound ≤ 2 ^ 30
  objsize : ∀ p n, p < 4 → n < bound → E.OBJSIZE (E.MKPROLOG (E.DOSTRING + p) n) = n
  isprolog : ∀ p n, p < 4 → n < bound → E.ISPROLOG (E.MKPROLOG (E.DOSTRING + p) n) = true
  libnum : ∀ p n, p < 4 → n < bound →
    E.LIBNUM (E.MKPROLOG (E.DOSTRING + p) n) = ((E.DOSTRING + p : Nat) : Int)

/-- What the statements assume of `rplAddTempBlock`: the registration of a block
leaves the store, its pointers and the error flag alone. -/
def BlockLaws (E : Env) : Prop :=
  ∀ (p : Int) (g : Globals), (E.rplAddTempBlock p g).mem = g.mem
    ∧ (E.rplAddTempBlock p g).TempObEnd = g.TempObEnd
    ∧ (E.rplAddTempBlock p g).CompileEnd = g.CompileEnd
    ∧ (E.rplAddTempBlock p g).DecompStringEnd = g.DecompStringEnd

/-- Between two values of the globals the start of the text and the end of the
temporary objects are the same. -/
def StoreKept (g g1 : Globals) : Prop :=
  g1.CompileEnd = g.CompileEnd ∧ g1.TempObEnd = g.TempObEnd

/-- Every registered library handler leaves `CompileEnd` and `TempObEnd` alone. -/
def StoreTame (E : Env) : Prop :=
  ∀ lib h, E.rplGetLibHandler lib = some h → ∀ g, StoreKept g (h g)

/-- The states a step of the loop goes on with have the store pointers of `g`. -/
def StepStore (g : Globals) : Step → Prop
  | .next s1 => StoreKept g s1.g
  | .again s1 => StoreKept g s1.g
  | .leave s1 => StoreKept g s1.g
  | .ret _ _ => True

/-- A handler, when there is one, leaves the store pointers alone. -/
def HandlerKeeps (handler : Option LIBHANDLER) : Prop :=
  ∀ h, handler = some h → ∀ g, StoreKept g (h g)

/-- Token-info of a function of one argument that a library declares with
precedence 8, the precedence of `+` and `-`. -/
def tiFunEq : Int := E0.MKTOKENINFO 1 E0.TITYPE_FUNCTION 1 8

/-- The algebra library, except that it declares `cmdFun` as a function of
precedence 8. -/
def eqLib : LIBHANDLER := fun g =>
  if g.CurOpcode % 2 ^ 19 = E0.OPCODE_GETINFO ∧ objectWord g = cmdFun then
    { g with RetNum := RetCode.OK_TOKENINFO tiFunEq, DecompHints := 0 }
  else algLib g

/-- The concrete environment of the library `eqLib`. -/
def Eeq : Env :=
  mkEnv 56 fun n =>
    if n = 1 ∨ n = 2 ∨ n = 3 ∨ n = 12 ∨ n = 28 ∨ n = 56 then some eqLib else none

/-- The algebra library, except that it leaves the request for information on
`cmdFun` unanswered, so that `rplDecompile` takes its default
`MKTOKENINFO(0, TITYPE_FUNCTION, 0, 20)`. -/
def muteLib : LIBHANDLER := fun g =>
  if g.CurOpcode % 2 ^ 19 = E0.OPCODE_GETINFO ∧ objectWord g = cmdFun then g
  else algLib g

/-- The concrete environment of the library `muteLib`. -/
def Emute : Env :=
  mkEnv 56 fun n =>
    if n = 1 ∨ n = 2 ∨ n = 3 ∨ n = 12 ∨ n = 28 ∨ n = 56 then some muteLib else none

/-- The text that `rplDecompile` gives in the environment `E` for the object whose
words are `ws`; nothing when it fails. -/
def decompiledWith (E : Env) (ws : List Nat) : Option (List Nat) :=
  match rplDecompile E 100 60 E.DECOMP_EDIT (objectAt60 ws) with
  | some r =>
    match r.value with
    | some str => some (stringBytes E r.g.mem str)
    | none => none
  | none => none

/-- The symbolic of `cmdFun` applied to the difference of `a` and `b`. -/
def fOfDiff : List Nat :=
  Ealg.MKPROLOG Ealg.DOSYMB 6
    :: node Ealg cmdFun [node Ealg Ealg.CMD_OVR_SUB [[28 * 2 ^ 20 + 97], [28 * 2 ^ 20 + 98]]]

/-- The symbolic of the sum of `a` and `cmdFun` applied to `b`. -/
def aPlusF : List Nat :=
  Ealg.MKPROLOG Ealg.DOSYMB 6
    :: node Ealg Ealg.CMD_OVR_ADD [[28 * 2 ^ 20 + 97], node Ealg cmdFun [[28 * 2 ^ 20 + 98]]]

/-- The globals when the decompiler is at the difference inside `f(a-b)`, the
function `f` being declared with precedence 8: the operator stack starts at the cell
50 and holds the expression of the call, `cmdFun` and its token-info, the expression
of the difference, the subtraction and its token-info; `DecompileObject` is at the
word of the subtraction. -/
def functionOfDiff : Globals :=
  { toyGlobals with
    mem := fun a => if a = 103 then E0.CMD_OVR_SUB else 0,
    ValidateTop := 50, DecompileObject := 103,
    cells := fun a =>
      if a = 52 then (cmdFun : Int) else if a = 53 then tiFunEq
      else if a = 55 then 9 else if a = 56 then (E0.CMD_OVR_SUB : Int)
      else if a = 57 then tiPlus else 0 }

/-- The function `rplInfixApply` with the growth of the store as a parameter: the
statements of the source, `grow` standing for the call of `growTempOb`.  The local
`ptr` is computed before the growth and used after it, as in the source. -/
def rplInfixApplyWith (grow : Int → Globals → Globals) (E : Env) (opcode : Nat) (nargs : Nat)
    (g : Globals) : Bool × Globals :=
  let symbstart := g.cells (g.ValidateTop - 1) + 1
  match findArgsStart E g.mem symbstart nargs (some g.CompileEnd) with
  | (0, some ptr) =>
    let g1 := { g with CompileEnd := g.CompileEnd + 2 }
    let g2 := if g1.CompileEnd ≥ g1.TempObSize then
        grow ((toWord (g1.CompileEnd - g1.TempOb) : Int) + E.TEMPOBSLACK) g1
      else g1
    if g1.CompileEnd ≥ g1.TempObSize ∧ g2.Exceptions ≠ 0 then (false, g2)
    else
      let m1 := memmovew g2.mem (ptr + 2) ptr (g2.CompileEnd - ptr - 2)
      let m2 := setWord m1 ptr (E.MKPROLOG E.DOSYMB (toWord (g2.CompileEnd - ptr - 1)))
      let m3 := setWord m2 (ptr + 1) opcode
      (true, { g2 with mem := m3 })
  | _ => (false, rplError E E.ERR_BADARGCOUNT g)

/-- The function `rplRotArgs` with the growth of the store as a parameter, in the
same way. -/
def rplRotArgsWith (grow : Int → Globals → Globals) (E : Env) (nargs : Nat) (g : Globals) :
    Bool × Globals :=
  let symbstart := g.cells (g.ValidateTop - 1) + 1
  match findArgsStart E g.mem symbstart nargs (some g.CompileEnd) with
  | (0, some ptr) =>
    let firstsize := rplObjSize E g.mem ptr
    let g1 := if g.CompileEnd + firstsize ≥ g.TempObSize then
        grow ((toWord (g.CompileEnd + firstsize - g.TempOb) : Int) + E.TEMPOBSLACK) g
      else g
    if g.CompileEnd + firstsize ≥ g.TempObSize ∧ g1.Exceptions ≠ 0 then (false, g1)
    else
      let m1 := memmovew g1.mem g1.CompileEnd ptr firstsize
      let m2 := memmovew m1 ptr (ptr + firstsize) (g1.CompileEnd - ptr)
      (true, { g1 with mem := m2 })
  | _ => (false, rplError E E.ERR_BADARGCOUNT g)

/-- Modelled from the spec: `growTempOb` (heap collaborator, not under src/) when
the growth relocates the backing store, here by `d` words: every word of the store is
found `d` addresses higher, and the pointers into the store that survive a
relocation move with it: `TempOb`, `TempObEnd`, `CompileEnd`, `LastCompiledObject`,
the end of the store `TempObSize`, and the cells of the construct stack.  A local
variable of a C function is not among them. -/
def growRelocating (d : Int) (newtotalsize : Int) (g : Globals) : Globals :=
  { g with mem := fun a => g.mem (a - d),
           TempOb := g.TempOb + d, TempObEnd := g.TempObEnd + d,
           CompileEnd := g.CompileEnd + d, LastCompiledObject := g.LastCompiledObject + d,
           TempObSize := g.TempOb + d + newtotalsize,
           cells := fun a => if g.ValidateBottom ≤ a ∧ a < g.ValidateTop then g.cells a + d
             else g.cells a }

/-- The globals at the end of the text `'1+2'`, when `rplCompile` applies the
pending `+`, in a store that ends one word after the cursor. -/
def sumAtLimit : Globals :=
  { (afterTokens tokensOnePlusTwo).g with TempObSize := 104 }

/-- The globals at the `)` of `f(1,2)`, when `rplCompile` rotates the arguments, in a
store that ends one word after the cursor. -/
def callAtLimit : Globals :=
  { identCloseState.g with TempObSize := 105 }

/-! ## Lemmas on the store and the infix engine -/
theorem toWord_natCast (n : Nat) (h : n < 2 ^ 32) : toWord (n : Int) = n := by
  unfold toWord
  have h1 : ((n : Int) % 2 ^ 32) = (n : Int) := Int.emod_eq_of_lt (by omega) (by exact_mod_cast h)
  rw [h1]; simp

theorem holds_nil (mem : Int → Nat) (p : Int) : Holds mem p [] := by
  intro i hi; simp at hi

theorem holds_append {mem : Int → Nat} {p : Int} {a b : List Nat} :
    Holds mem p (a ++ b) ↔ Holds mem p a ∧ Holds mem (p + (a.length : Int)) b := by
  constructor
  · intro h
    refine ⟨fun i hi => ?_, fun i hi => ?_⟩
    · have := h i (by simp; omega)
      rwa [List.getElem?_append_left hi] at this
    · have := h (a.length + i) (by simp; omega)
      rw [List.getElem?_append_right (by omega)] at this
      simp only [Nat.add_sub_cancel_left] at this
      rw [this]; congr 2; push_cast; ring
  · rintro ⟨ha, hb⟩ i hi
    by_cases hia : i < a.length
    · rw [List.getElem?_append_left hia]; exact ha i hia
    · rw [List.getElem?_append_right (by omega)]
      have := hb (i - a.length) (by simp at hi; omega)
      rw [this]; congr 2; omega

theorem holds_congr {mem mem2 : Int → Nat} {p : Int} {ws : List Nat}
    (h : Holds mem p ws)
    (heq : ∀ a : Int, p ≤ a → a < p + (ws.length : Int) → mem2 a = mem a) :
    Holds mem2 p ws := by
  intro i hi
  rw [h i hi, heq (p + i) (by omega) (by omega)]

theorem segment_of_holds {mem : Int → Nat} {p : Int} {ws : List Nat} (h : Holds mem p ws) :
    segment mem p ws.length = ws := by
  apply List.ext_getElem?
  intro i
  by_cases hi : i < ws.length
  · rw [h i hi]; simp [segment, List.getElem?_map, List.getElem?_range hi]
  · simp [segment, List.getElem?_eq_none (show ws.length ≤ i by omega)]
    omega

theorem isObj_length_pos {E : Env} {o : List Nat} (h : IsObj E o) : 0 < o.length := by
  cases o with
  | nil => exact h.elim
  | cons w r => simp

theorem rplSkipOb_of_holds {E : Env} {mem : Int → Nat} {p : Int} {o : List Nat}
    (ho : IsObj E o) (h : Holds mem p o) : rplSkipOb E mem p = p + (o.length : Int) := by
  cases o with
  | nil => exact ho.elim
  | cons w r =>
    have h0 := h 0 (by simp)
    simp at h0
    have ho2 : r.length = if E.ISPROLOG w then E.OBJSIZE w else 0 := ho
    unfold rplSkipOb
    rw [← h0]
    simp only [List.length_cons]
    rw [ho2]
    by_cases hp : E.ISPROLOG w = true
    · simp only [hp, if_true]; push_cast; ring
    · simp only [hp, if_false]; push_cast; ring

theorem length_le_flatten {E : Env} {os : List (List Nat)} (h : ∀ o ∈ os, IsObj E o) :
    os.length ≤ os.flatten.length := by
  induction os with
  | nil => simp
  | cons o os ih =>
    have h1 := isObj_length_pos (h o (by simp))
    have h2 := ih (fun x hx => h x (by simp [hx]))
    simp only [List.flatten_cons, List.length_append, List.length_cons]
    omega

theorem rplReverseSkipObLoop_spec {E : Env} {mem : Int → Nat} {o : List Nat} (ho : IsObj E o) :
    ∀ (os : List (List Nat)) (p : Int) (fuel : Nat), (∀ x ∈ os, IsObj E x) →
      Holds mem p (os.flatten ++ o) → os.length < fuel →
      rplReverseSkipObLoop E mem (p + (os.flatten.length : Int) + (o.length : Int)) fuel p
        = some (p + (os.flatten.length : Int)) := by
  intro os
  induction os with
  | nil =>
    intro p fuel _ hh hf
    obtain ⟨f, rfl⟩ : ∃ f, fuel = f + 1 := ⟨fuel - 1, by omega⟩
    simp only [List.flatten_nil, List.nil_append] at hh
    have hs := rplSkipOb_of_holds ho hh
    simp [rplReverseSkipObLoop, hs]
  | cons o1 os ih =>
    intro p fuel hall hh hf
    obtain ⟨f, rfl⟩ : ∃ f, fuel = f + 1 := ⟨fuel - 1, by omega⟩
    have ho1 : IsObj E o1 := hall o1 (by simp)
    simp only [List.flatten_cons, List.append_assoc] at hh
    obtain ⟨hh1, hh2⟩ := holds_append.mp hh
    have hs := rplSkipOb_of_holds ho1 hh1
    have hpos := isObj_length_pos ho
    have := ih (p + (o1.length : Int)) f (fun x hx => hall x (by simp [hx])) hh2
      (by simp at hf; omega)
    simp only [rplReverseSkipObLoop, hs, List.flatten_cons, List.length_append]
    rw [if_pos (by push_cast; omega)]
    have e1 : p + ((o1.length + os.flatten.length : Nat) : Int)
        = p + (o1.length : Int) + (os.flatten.length : Int) := by push_cast; ring
    rw [e1]; exact this

theorem rplReverseSkipOb_spec {E : Env} {mem : Int → Nat} {o : List Nat} (ho : IsObj E o)
    (os : List (List Nat)) (p : Int) (hall : ∀ x ∈ os, IsObj E x)
    (hh : Holds mem p (os.flatten ++ o)) :
    rplReverseSkipOb E mem p (p + (os.flatten.length : Int) + (o.length : Int))
      = some (p + (os.flatten.length : Int)) := by
  unfold rplReverseSkipOb
  apply rplReverseSkipObLoop_spec ho os p _ hall hh
  have h1 := length_le_flatten hall
  have h2 := isObj_length_pos ho
  omega

theorem setWord_same (mem : Int → Nat) (p : Int) (w : Nat) : setWord mem p w p = w := by
  simp [setWord]

theorem setWord_other (mem : Int → Nat) (p : Int) (w : Nat) (a : Int) (h : a ≠ p) :
    setWord mem p w a = mem a := by
  simp [setWord, h]

theorem memmovew_inside (mem : Int → Nat) (dest src n a : Int) (h1 : dest ≤ a) (h2 : a < dest + n) :
    memmovew mem dest src n a = mem (a - dest + src) := by
  simp [memmovew, h1, h2]

theorem memmovew_outside (mem : Int → Nat) (dest src n a : Int) (h : a < dest ∨ dest + n ≤ a) :
    memmovew mem dest src n a = mem a := by
  unfold memmovew
  rw [if_neg (by omega)]

theorem holds_cons {mem : Int → Nat} {p : Int} {w : Nat} {ws : List Nat} :
    Holds mem p (w :: ws) ↔ mem p = w ∧ Holds mem (p + 1) ws := by
  have h := @holds_append mem p [w] ws
  simp only [List.singleton_append, List.length_singleton, Nat.cast_one] at h
  rw [h]
  constructor
  · rintro ⟨h1, h2⟩
    refine ⟨?_, h2⟩
    have := h1 0 (by simp)
    simpa using this.symm
  · rintro ⟨h1, h2⟩
    refine ⟨?_, h2⟩
    intro i hi
    have hi0 : i = 0 := by simpa using hi
    subst hi0
    simp [h1]

theorem findArgsStart_spec {E : Env} {mem : Int → Nat} (s : Int) :
    ∀ (n : Nat) (args pre : List (List Nat)), args.length = n →
      (∀ x ∈ pre ++ args, IsObj E x) → Holds mem s (pre ++ args).flatten →
      findArgsStart E mem s n (some (s + ((pre ++ args).flatten.length : Int)))
        = (0, some (s + (pre.flatten.length : Int))) := by
  intro n
  induction n with
  | zero =>
    intro args pre hlen _ _
    have : args = [] := List.length_eq_zero.mp hlen
    subst this
    simp [findArgsStart]
  | succ n ih =>
    intro args pre hlen hall hh
    rcases List.eq_nil_or_concat args with h0 | ⟨init, last, h1⟩
    · subst h0; simp at hlen
    · rw [List.concat_eq_append] at h1
      subst h1
      have hlast : IsObj E last := hall last (by simp)
      have hall2 : ∀ x ∈ pre ++ init, IsObj E x := fun x hx => hall x (by
        simp only [List.mem_append] at hx ⊢
        rcases hx with hx | hx
        · exact Or.inl hx
        · exact Or.inr (Or.inl hx))
      have hfl : (pre ++ (init ++ [last])).flatten = (pre ++ init).flatten ++ last := by
        simp [List.flatten_append]
      rw [hfl] at hh
      have hrs := rplReverseSkipOb_spec hlast (pre ++ init) s hall2 hh
      have hlen2 : init.length = n := by simpa using hlen
      have e1 : s + (((pre ++ (init ++ [last])).flatten.length : Nat) : Int)
          = s + ((pre ++ init).flatten.length : Int) + (last.length : Int) := by
        rw [hfl]; simp only [List.length_append]; push_cast; ring
      rw [e1]
      simp only [findArgsStart, hrs]
      exact ih init pre hlen2 hall2 (holds_append.mp hh).1

theorem isObj_node {E : Env} {bound : Nat} (hlaw : SymbLaws E bound) (opcode : Nat)
    (args : List (List Nat)) (hsz : args.flatten.length + 1 < bound) :
    IsObj E (node E opcode args) := by
  show (opcode :: args.flatten).length = _
  rw [hlaw.isprolog _ hsz, hlaw.objsize _ hsz]
  simp

theorem node_length (E : Env) (opcode : Nat) (args : List (List Nat)) :
    (node E opcode args).length = args.flatten.length + 2 := by
  simp [node]

/-- Effect of `rplInfixApply` on a stream of complete objects: the last `n` objects
are wrapped into one node, everything before them stays, the cursor moves by two. -/
theorem rplInfixApply_spec {E : Env} {bound : Nat} (hlaw : SymbLaws E bound) (g : Globals)
    (s : Int) (opcode n : Nat) (pre args : List (List Nat))
    (hs : g.cells (g.ValidateTop - 1) + 1 = s)
    (hce : g.CompileEnd = s + ((pre ++ args).flatten.length : Int))
    (hall : ∀ x ∈ pre ++ args, IsObj E x)
    (hh : Holds g.mem s (pre ++ args).flatten)
    (hn : args.length = n)
    (hroom : g.CompileEnd + 2 < g.TempObSize)
    (hsz : args.flatten.length + 1 < bound) :
    ∃ m : Int → Nat,
      rplInfixApply E opcode n g = (true, { g with CompileEnd := g.CompileEnd + 2, mem := m })
      ∧ Holds m s (pre ++ [node E opcode args]).flatten
      ∧ (∀ a : Int, a < s + (pre.flatten.length : Int) → m a = g.mem a)
      ∧ (∀ a : Int, g.CompileEnd + 2 ≤ a → m a = g.mem a) := by
  have hfa := @findArgsStart_spec E g.mem s n args pre hn hall hh
  have hlenfl : ((pre ++ args).flatten.length : Int)
      = (pre.flatten.length : Int) + (args.flatten.length : Int) := by
    simp [List.flatten_append]
  have hb := hlaw.small
  set ptr : Int := s + (pre.flatten.length : Int) with hptr
  refine ⟨setWord (setWord (memmovew g.mem (ptr + 2) ptr (g.CompileEnd + 2 - ptr - 2)) ptr
      (E.MKPROLOG E.DOSYMB (args.flatten.length + 1))) (ptr + 1) opcode, ?_, ?_, ?_, ?_⟩
  · unfold rplInfixApply
    simp only [hs, ← hce] at hfa ⊢
    rw [hfa]
    have hno : ¬ (g.CompileEnd + 2 ≥ g.TempObSize) := by omega
    simp only [hno, if_false, false_and]
    have htw : toWord (g.CompileEnd + 2 - ptr - 1) = args.flatten.length + 1 := by
      have : g.CompileEnd + 2 - ptr - 1 = ((args.flatten.length + 1 : Nat) : Int) := by
        rw [hce, hlenfl]; push_cast; ring
      rw [this, toWord_natCast]; omega
    rw [htw]
  · rw [List.flatten_append, holds_append]
    have hpa : Holds g.mem s (pre.flatten ++ args.flatten) := by
      rwa [List.flatten_append] at hh
    obtain ⟨hpre, hargs⟩ := holds_append.mp hpa
    constructor
    · apply holds_congr hpre
      intro a _ ha2
      rw [setWord_other _ _ _ _ (by omega), setWord_other _ _ _ _ (by omega),
        memmovew_outside _ _ _ _ _ (by omega)]
    · simp only [List.flatten_cons, List.flatten_nil, List.append_nil]
      show Holds _ ptr (E.MKPROLOG E.DOSYMB (args.flatten.length + 1) :: opcode :: args.flatten)
      rw [holds_cons, holds_cons]
      refine ⟨?_, ?_, ?_⟩
      · rw [setWord_other _ _ _ _ (by omega), setWord_same]
      · rw [setWord_same]
      · intro i hi
        rw [hargs i hi]
        rw [setWord_other _ _ _ _ (by omega), setWord_other _ _ _ _ (by omega),
          memmovew_inside _ _ _ _ _ (by omega) (by rw [hce, hlenfl]; omega)]
        congr 2; omega
  · intro a ha
    rw [setWord_other _ _ _ _ (by omega), setWord_other _ _ _ _ (by omega),
      memmovew_outside _ _ _ _ _ (by omega)]
  · intro a ha
    rw [hce, hlenfl] at ha
    rw [setWord_other _ _ _ _ (by omega), setWord_other _ _ _ _ (by omega),
      memmovew_outside _ _ _ _ _ (by rw [hce, hlenfl]; omega)]

theorem holds_writeWords (mem : Int → Nat) (p : Int) (ws : List Nat) :
    Holds (writeWords mem p ws) p ws := by
  intro i hi
  unfold writeWords
  rw [if_pos (by omega)]
  have : (p + (i : Int) - p).toNat = i := by
    have : p + (i : Int) - p = (i : Int) := by ring
    rw [this]; simp
  rw [this]
  simp [List.getD_eq_getElem?_getD, List.getElem?_eq_getElem hi]

theorem writeWords_below (mem : Int → Nat) (p : Int) (ws : List Nat) (a : Int) (h : a < p) :
    writeWords mem p ws a = mem a := by
  unfold writeWords
  rw [if_neg (by omega)]

theorem sameFrame_refl (s : St) : SameFrame s s :=
  ⟨rfl, rfl, rfl, rfl, rfl, rfl, rfl⟩

theorem sameFrame_trans {s t u : St} (h1 : SameFrame s t) (h2 : SameFrame t u) : SameFrame s u :=
  ⟨h2.vtop.trans h1.vtop, h2.vbottom.trans h1.vbottom, h2.tsize.trans h1.tsize,
   h2.tend.trans h1.tend, h2.rstk.trans h1.rstk, h2.rsize.trans h1.rsize,
   h2.mode.trans h1.mode⟩

theorem lastObject_stay (E : Env) (mem : Int → Nat) (ce : Int) (fuel : Nat) (p : Int)
    (h : ¬ rplSkipOb E mem p < ce) : lastObject E mem ce fuel p = p := by
  cases fuel with
  | zero => rfl
  | succ f => simp [lastObject, h]

theorem rplSkipOb_gt (E : Env) (mem : Int → Nat) (p : Int) : p < rplSkipOb E mem p := by
  unfold rplSkipOb
  split <;> omega

/-- An operand token: its object stays in the stream, nothing else changes. -/
theorem feed_operand {E : Env} {s : St} {h : Int} {objs : List (List Nat)}
    {ops : List (Int × Int)} (he : Engine E s h objs ops) (A : List Nat) (info : Int)
    (hA : IsObj E A) (hk : ¬ E.TI_TYPE info > E.TITYPE_OPERATORS) :
    ∃ t : St, feed E A info s = Flow.next t ∧ Engine E t h (objs ++ [A]) ops
      ∧ SameFrame s t ∧ t.previous_tokeninfo = info := by
  have hw : Holds (writeWords s.g.mem s.g.CompileEnd A) s.g.CompileEnd A := holds_writeWords _ _ _
  have hskip := rplSkipOb_of_holds hA hw
  refine ⟨{ compiledToken A info s with previous_tokeninfo := info }, ?_, ?_, ?_, ?_⟩
  · unfold feed infixAfterCompile compiledToken
    simp only []
    rw [lastObject_stay _ _ _ _ _ (by rw [hskip]; omega)]
    rw [if_neg hk]
    rfl
  · refine ⟨he.header, ?_, ?_, ?_, ?_, he.noerr⟩
    · show s.g.CompileEnd + (A.length : Int) = _
      rw [he.cursor]; simp [List.flatten_append]; ring
    · intro o ho
      rcases List.mem_append.mp ho with h1 | h1
      · exact he.wf o h1
      · simp at h1; subst h1; exact hA
    · show Holds (writeWords s.g.mem s.g.CompileEnd A) (h + 1) (objs ++ [A]).flatten
      rw [List.flatten_append, holds_append]
      constructor
      · apply holds_congr he.stream
        intro a _ ha
        exact writeWords_below _ _ _ _ (by rw [he.cursor]; omega)
      · simp only [List.flatten_cons, List.flatten_nil, List.append_nil]
        rw [← he.cursor]; exact hw
    · exact he.ops
  · exact ⟨rfl, rfl, rfl, rfl, rfl, rfl, rfl⟩
  · rfl

theorem feed_operator (E : Env) (s : St) (w : Nat) (info : Int)
    (hk : E.TI_TYPE info > E.TITYPE_OPERATORS) :
    feed E [w] info s =
      (let d := disambiguate E w info s.previous_tokeninfo
       let s3 : St := { tookOperator w s with probe_tokeninfo := d.2 }
       if E.TI_TYPE d.2 = E.TITYPE_OPENBRACKET then openBracket E d.1 s3
       else if E.TI_TYPE d.2 = E.TITYPE_CLOSEBRACKET ∨ E.TI_TYPE d.2 = E.TITYPE_COMMA then
         closeBracketOrComma E d.1 s3
       else pushOperator E d.1 s3).bind fun s4 =>
      Flow.next { s4 with previous_tokeninfo := s4.probe_tokeninfo } := by
  have hgt := rplSkipOb_gt E (writeWords s.g.mem s.g.CompileEnd [w]) s.g.CompileEnd
  have hw : writeWords s.g.mem s.g.CompileEnd [w] s.g.CompileEnd = w := by
    simp [writeWords]
  unfold feed infixAfterCompile compiledToken
  simp only [List.length_singleton, Nat.cast_one]
  rw [lastObject_stay _ _ _ _ _ (by omega)]
  rw [if_pos hk]
  simp only [hw]
  rfl

theorem engine_tookOperator {E : Env} {s : St} {h : Int} {objs : List (List Nat)}
    {ops : List (Int × Int)} (he : Engine E s h objs ops) (w : Nat) (info : Int) :
    Engine E { tookOperator w s with probe_tokeninfo := info } h objs ops := by
  refine ⟨he.header, he.cursor, he.wf, ?_, he.ops, he.noerr⟩
  apply holds_congr he.stream
  intro a _ ha
  exact writeWords_below _ _ _ _ (by rw [he.cursor]; omega)

theorem opStack_top {s : St} {ops : List (Int × Int)} {o t : Int}
    (h : OpStack s (ops ++ [(o, t)])) :
    s.InfixOpTop > s.g.ValidateTop ∧ s.g.cells (s.InfixOpTop - 2) = o
      ∧ s.g.cells (s.InfixOpTop - 2 + 1) = t ∧ s.g.cells (s.InfixOpTop - 1) = t := by
  obtain ⟨h1, h2⟩ := h
  have h3 := h2 ops.length (by simp)
  simp only [List.length_append, List.length_singleton] at h1
  rw [List.getElem?_append_right (le_refl _)] at h3
  simp only [Nat.sub_self, List.getElem?_cons_zero, Option.some.injEq, Prod.mk.injEq] at h3
  have e1 : s.InfixOpTop - 2 = s.g.ValidateTop + 2 * (ops.length : Int) := by
    rw [h1]; push_cast; ring
  have e2 : s.InfixOpTop - 1 = s.g.ValidateTop + 2 * (ops.length : Int) + 1 := by
    rw [h1]; push_cast; ring
  refine ⟨by rw [h1]; push_cast; omega, ?_, ?_, ?_⟩
  · rw [e1]; exact h3.1.symm
  · rw [e1]; exact h3.2.symm
  · rw [e2]; exact h3.2.symm

theorem opStack_pop {s t : St} {ops : List (Int × Int)} {x : Int × Int}
    (h : OpStack s (ops ++ [x])) (h1 : t.InfixOpTop = s.InfixOpTop - 2)
    (h2 : t.g.ValidateTop = s.g.ValidateTop) (h3 : t.g.cells = s.g.cells) : OpStack t ops := by
  obtain ⟨ha, hb⟩ := h
  constructor
  · rw [h1, h2, ha]; simp only [List.length_append, List.length_singleton]; push_cast; ring
  · intro i hi
    have := hb i (by simp; omega)
    rw [List.getElem?_append_left hi] at this
    rw [h2, h3]; exact this

theorem opStack_push {s t : St} {ops : List (Int × Int)} (o i : Int)
    (h : OpStack s ops) (h1 : t.InfixOpTop = s.InfixOpTop + 2)
    (h2 : t.g.ValidateTop = s.g.ValidateTop)
    (h3 : t.g.cells = setCell (setCell s.g.cells s.InfixOpTop o) (s.InfixOpTop + 1) i) :
    OpStack t (ops ++ [(o, i)]) := by
  obtain ⟨ha, hb⟩ := h
  constructor
  · rw [h1, h2, ha]; simp only [List.length_append, List.length_singleton]; push_cast; ring
  · intro k hk
    rw [h2, h3]
    by_cases hk2 : k < ops.length
    · rw [List.getElem?_append_left hk2, hb k hk2]
      simp only [setCell]
      rw [if_neg (by omega), if_neg (by omega), if_neg (by omega), if_neg (by omega)]
    · have hk3 : k = ops.length := by simp at hk; omega
      subst hk3
      rw [List.getElem?_append_right (le_refl _)]
      simp only [Nat.sub_self, List.getElem?_cons_zero, setCell]
      rw [if_neg (by omega), if_pos (by omega), if_pos (by omega)]

/-- Popping the top operator and applying it to the last `n` objects of the stream. -/
theorem engine_apply {E : Env} {bound : Nat} (hlaw : SymbLaws E bound) {s : St} {h : Int}
    {pre args : List (List Nat)} {ops : List (Int × Int)} {o t : Int} {n : Nat}
    (he : Engine E s h (pre ++ args) (ops ++ [(o, t)]))
    (hn : args.length = n)
    (hroom : s.g.CompileEnd + 2 < s.g.TempObSize)
    (hsz : args.flatten.length + 1 < bound) :
    ∃ m : Int → Nat,
      rplInfixApply E o.toNat n s.g
        = (true, { s.g with CompileEnd := s.g.CompileEnd + 2, mem := m })
      ∧ Engine E { s with g := { s.g with CompileEnd := s.g.CompileEnd + 2, mem := m },
                          InfixOpTop := s.InfixOpTop - 2 }
          h (pre ++ [node E o.toNat args]) ops := by
  have hcur : s.g.CompileEnd = (h + 1) + ((pre ++ args).flatten.length : Int) := he.cursor
  obtain ⟨m, hm1, hm2, _, _⟩ := rplInfixApply_spec hlaw s.g (h + 1) o.toNat n pre args
    (by rw [he.header]) hcur he.wf he.stream hn hroom hsz
  refine ⟨m, hm1, he.header, ?_, ?_, hm2, opStack_pop he.ops rfl rfl rfl, he.noerr⟩
  · show s.g.CompileEnd + 2 = _
    rw [hcur]
    simp only [List.flatten_append, List.length_append, List.flatten_cons, List.flatten_nil,
      List.append_nil, node_length]
    push_cast; ring
  · intro x hx
    rcases List.mem_append.mp hx with h1 | h1
    · exact he.wf x (List.mem_append.mpr (Or.inl h1))
    · simp at h1; subst h1; exact isObj_node hlaw _ _ hsz

theorem precedenceFlush_empty (E : Env) (fuel : Nat) {s : St} (h : OpStack s []) :
    precedenceFlush E fuel s = Flow.next s := by
  have h1 : ¬ s.InfixOpTop > s.g.ValidateTop := by
    have := h.1; simp at this; omega
  cases fuel with
  | zero => rfl
  | succ f => simp only [precedenceFlush, if_neg h1]

theorem precedenceFlush_stop (E : Env) (fuel : Nat) {s : St} {ops : List (Int × Int)} {o t : Int}
    (h : OpStack s (ops ++ [(o, t)])) (hno : ¬ popsBefore E t s.probe_tokeninfo) :
    precedenceFlush E fuel s = Flow.next s := by
  obtain ⟨h1, _, _, h4⟩ := opStack_top h
  unfold popsBefore at hno
  cases fuel with
  | zero => rfl
  | succ f =>
    simp only [precedenceFlush, if_pos h1, h4]
    rw [if_neg (fun hc => hno (Or.inl hc)), if_neg (fun hc => hno (Or.inr hc))]

theorem precedenceFlush_pop {E : Env} {bound : Nat} (hlaw : SymbLaws E bound) (fuel : Nat)
    {s : St} {h : Int} {pre args : List (List Nat)} {ops : List (Int × Int)} {o t : Int}
    (he : Engine E s h (pre ++ args) (ops ++ [(o, t)]))
    (hpop : popsBefore E t s.probe_tokeninfo)
    (hn : args.length = E.TI_NARGS t)
    (hroom : s.g.CompileEnd + 2 < s.g.TempObSize)
    (hsz : args.flatten.length + 1 < bound) :
    ∃ u : St,
      precedenceFlush E (fuel + 1) s = precedenceFlush E fuel u
      ∧ Engine E u h (pre ++ [node E o.toNat args]) ops
      ∧ SameFrame s u ∧ u.probe_tokeninfo = s.probe_tokeninfo
      ∧ u.InfixOpTop = s.InfixOpTop - 2 := by
  obtain ⟨h1, h2, h3, h4⟩ := opStack_top he.ops
  obtain ⟨m, hm1, hm2⟩ := engine_apply hlaw he hn hroom hsz
  refine ⟨_, ?_, hm2, ⟨rfl, rfl, rfl, rfl, rfl, rfl, rfl⟩, rfl, rfl⟩
  unfold popsBefore at hpop
  simp only [precedenceFlush, if_pos h1, h4, h2, h3, hm1]
  by_cases hc : E.TI_PRECEDENCE t < E.TI_PRECEDENCE s.probe_tokeninfo
  · rw [if_pos hc]
  · rw [if_neg hc]
    rcases hpop with hp | hp
    · exact absurd hp hc
    · rw [if_pos hp]

/-- Pushing an operator on the operator stack. -/
theorem engine_push {E : Env} {s : St} {h : Int} {objs : List (List Nat)}
    {ops : List (Int × Int)} (he : Engine E s h objs ops) (Opcode : Nat)
    (hroom : s.InfixOpTop + 1 - s.g.RStk < s.g.RStkSize) :
    ((reserveOps E 1 s).bind fun s2 => Flow.next (pushOp Opcode s2)) = Flow.next (pushOp Opcode s)
      ∧ Engine E (pushOp Opcode s) h objs (ops ++ [((Opcode : Int), s.probe_tokeninfo)]) := by
  constructor
  · unfold reserveOps
    simp only [if_neg (show ¬ s.g.RStkSize ≤ s.InfixOpTop + 1 - s.g.RStk by omega)]
    rw [if_neg (by rw [he.noerr]; simp)]
    rfl
  · have hiot := he.ops.1
    refine ⟨?_, he.cursor, he.wf, he.stream, opStack_push _ _ he.ops rfl rfl rfl, he.noerr⟩
    show setCell (setCell s.g.cells s.InfixOpTop Opcode) (s.InfixOpTop + 1) s.probe_tokeninfo
      (s.g.ValidateTop - 1) = h
    simp only [setCell]
    rw [if_neg (by omega), if_neg (by omega)]
    exact he.header

theorem flatten_length_take_add_drop (objs : List (List Nat)) (k : Nat) :
    (objs.take k).flatten.length + (objs.drop k).flatten.length = objs.flatten.length := by
  conv_rhs => rw [← List.take_append_drop k objs]
  rw [List.flatten_append, List.length_append]

/-- The flush at the end of an infix expression applies every stacked operator, from
the top down, as long as each finds its arguments and none is an open bracket. -/
theorem infixFlushEnd_spec {E : Env} {bound : Nat} (hlaw : SymbLaws E bound) (h : Int) :
    ∀ (topfirst : List (Int × Int)) (s : St) (objs objs2 : List (List Nat)) (fuel : Nat),
      Engine E s h objs topfirst.reverse →
      (∀ x ∈ topfirst, E.TI_TYPE x.2 ≠ E.TITYPE_OPENBRACKET) →
      applyOps E topfirst objs = some objs2 →
      s.g.CompileEnd + 2 * (topfirst.length : Int) < s.g.TempObSize →
      objs.flatten.length + 2 * topfirst.length < bound →
      topfirst.length ≤ fuel →
      ∃ t : St, infixFlushEnd E fuel s = Flow.next t ∧ Engine E t h objs2 [] ∧ SameFrame s t
        ∧ t.g.CompileEnd = s.g.CompileEnd + 2 * (topfirst.length : Int)
        ∧ t.g.cells = s.g.cells := by
  intro topfirst
  induction topfirst with
  | nil =>
    intro s objs objs2 fuel he _ happ _ _ _
    simp only [applyOps, Option.some.injEq] at happ
    subst happ
    have h1 : ¬ s.InfixOpTop > s.g.ValidateTop := by
      have := he.ops.1; simp at this; omega
    refine ⟨s, ?_, he, sameFrame_refl s, by simp, rfl⟩
    cases fuel with
    | zero => rfl
    | succ f => simp only [infixFlushEnd, if_neg h1]
  | cons x rest ih =>
    intro s objs objs2 fuel he hnb happ hroom hsz hfuel
    obtain ⟨o, t⟩ := x
    obtain ⟨f, rfl⟩ : ∃ f, fuel = f + 1 := ⟨fuel - 1, by simp at hfuel; omega⟩
    simp only [applyOps] at happ
    by_cases hn : E.TI_NARGS t ≤ objs.length
    · rw [if_pos hn] at happ
      simp only [List.reverse_cons] at he
      have hsplit : objs = objs.take (objs.length - E.TI_NARGS t)
          ++ objs.drop (objs.length - E.TI_NARGS t) := (List.take_append_drop _ _).symm
      rw [hsplit] at he
      have hlen : (objs.drop (objs.length - E.TI_NARGS t)).length = E.TI_NARGS t := by
        rw [List.length_drop]; omega
      have hfl := flatten_length_take_add_drop objs (objs.length - E.TI_NARGS t)
      simp only [List.length_cons] at hroom hsz hfuel
      obtain ⟨h1, h2, h3, _⟩ := opStack_top he.ops
      obtain ⟨m, hm1, hm2⟩ := engine_apply hlaw he hlen (by push_cast at hroom; omega) (by omega)
      have hkind : E.TI_TYPE t ≠ E.TITYPE_OPENBRACKET := hnb (o, t) (by simp)
      obtain ⟨u, hu1, hu2, hu3, hu4, hu5⟩ := ih _ _ objs2 f hm2 (fun y hy => hnb y (by simp [hy])) happ
        (by show s.g.CompileEnd + 2 + 2 * (rest.length : Int) < s.g.TempObSize
            push_cast at hroom; omega)
        (by simp only [List.flatten_append, List.length_append, List.flatten_cons,
              List.flatten_nil, List.append_nil, node_length]
            omega)
        (by omega)
      refine ⟨u, ?_, hu2, ?_, ?_, ?_⟩
      · simp only [infixFlushEnd, if_pos h1, h3, if_neg hkind, h2, hm1]
        exact hu1
      · exact sameFrame_trans (t := { s with
            g := { s.g with CompileEnd := s.g.CompileEnd + 2, mem := m },
            InfixOpTop := s.InfixOpTop - 2 }) ⟨rfl, rfl, rfl, rfl, rfl, rfl, rfl⟩ hu3
      · rw [hu4]
        show s.g.CompileEnd + 2 + 2 * (rest.length : Int) = _
        simp only [List.length_cons]; push_cast; ring
      · rw [hu5]
    · rw [if_neg hn] at happ; exact absurd happ (by simp)

theorem bind_next {α β : Type} (a : α) (k : α → Flow β) : (Flow.next a).bind k = k a := rfl

theorem bind_ret {α β : Type} (v : Option Int) (g : Globals) (k : α → Flow β) :
    (Flow.ret v g : Flow α).bind k = Flow.ret v g := rfl

/-- Closing a construct whose entry is on the construct stack: the stack is popped,
the cursor stays, and the only word of the store that can change is the header. -/
theorem endConstruct_ok (E : Env) (s : St) (hopen : s.g.ValidateTop > s.g.ValidateBottom) :
    ∃ t : St, endConstruct E s = Flow.next t
      ∧ t.g.CompileEnd = s.g.CompileEnd
      ∧ t.g.ValidateTop = s.g.ValidateTop - 1
      ∧ t.g.Exceptions = s.g.Exceptions
      ∧ t.infixmode = s.infixmode
      ∧ (∀ a : Int, a ≠ s.g.cells (s.g.ValidateTop - 1) → t.g.mem a = s.g.mem a) := by
  unfold endConstruct
  simp only []
  rw [if_neg (by omega)]
  by_cases hp : E.ISPROLOG (s.g.mem (s.g.cells (s.g.ValidateTop - 1))) = true
  · rw [if_pos hp]
    refine ⟨_, rfl, rfl, rfl, rfl, rfl, ?_⟩
    intro a ha
    show setWord _ _ _ a = _
    exact setWord_other _ _ _ _ ha
  · rw [if_neg hp]
    exact ⟨_, rfl, rfl, rfl, rfl, rfl, fun _ _ => rfl⟩

/-- The end of an infix expression whose pending operators reduce the stream to the
single object `x`: the operators are applied, the symbolic is closed, and the body
of the symbolic is `x`. -/
theorem endConstructInfix_spec {E : Env} {bound : Nat} (hlaw : SymbLaws E bound) {h : Int}
    {s : St} {objs : List (List Nat)} {x : List Nat} (topfirst : List (Int × Int))
    (he : Engine E s h objs topfirst.reverse)
    (hmode : s.infixmode = true)
    (hopen : s.g.ValidateTop > s.g.ValidateBottom)
    (hnb : ∀ y ∈ topfirst, E.TI_TYPE y.2 ≠ E.TITYPE_OPENBRACKET)
    (happ : applyOps E topfirst objs = some [x])
    (hroom : s.g.CompileEnd + 2 * (topfirst.length : Int) < s.g.TempObSize)
    (hsz : objs.flatten.length + 2 * topfirst.length < bound) :
    ∃ t : St, endConstructInfix E s = Flow.next t
      ∧ t.g.CompileEnd = h + 1 + (x.length : Int)
      ∧ segment t.g.mem (h + 1) x.length = x
      ∧ t.infixmode = false
      ∧ t.g.ValidateTop = s.g.ValidateTop - 1
      ∧ t.g.Exceptions = 0 := by
  obtain ⟨u, hu1, hu2, hu3, hu4, hu5⟩ := infixFlushEnd_spec hlaw h topfirst s objs [x]
    (s.InfixOpTop - s.g.ValidateTop).toNat he hnb happ hroom hsz
    (by have := he.ops.1; rw [this]; simp only [List.length_reverse]; omega)
  have hxobj : IsObj E x := hu2.wf x (by simp)
  have hxh : Holds u.g.mem (h + 1) x := by simpa using hu2.stream
  have hcur : u.g.CompileEnd = h + 1 + (x.length : Int) := by simpa using hu2.cursor
  have hskip : rplSkipOb E u.g.mem (u.g.cells (u.g.ValidateTop - 1) + 1) = u.g.CompileEnd := by
    rw [hu2.header, rplSkipOb_of_holds hxobj hxh, hcur]
  obtain ⟨t, ht1, ht2, ht3, ht4, ht5, ht6⟩ := endConstruct_ok E { u with infixmode := false }
    (by show u.g.ValidateTop > u.g.ValidateBottom
        rw [hu3.vtop, hu3.vbottom]; exact hopen)
  refine ⟨{ t with libcnt := EXIT_LOOP, force_libnum := -1 }, ?_, ?_, ?_, ?_, ?_, ?_⟩
  · unfold endConstructInfix
    rw [if_pos hmode, hu1, bind_next]
    simp only [ne_eq, hskip, not_true_eq_false, if_false, bind_next, ht1]
  · show t.g.CompileEnd = _
    rw [ht2]; exact hcur
  · show segment t.g.mem (h + 1) x.length = x
    apply segment_of_holds
    apply holds_congr hxh
    intro a ha _
    apply ht6
    show a ≠ u.g.cells (u.g.ValidateTop - 1)
    rw [hu2.header]; omega
  · show t.infixmode = false
    rw [ht5]
  · show t.g.ValidateTop = _
    rw [ht3]; show u.g.ValidateTop - 1 = _; rw [hu3.vtop]
  · show t.g.Exceptions = 0
    rw [ht4]; exact hu2.noerr

theorem kinds_ne {E : Env} (hk : KindLaws E) (i j : Nat) (hi : i < (operatorKinds E).length)
    (hj : j < (operatorKinds E).length) (hij : i ≠ j) :
    (operatorKinds E)[i] ≠ (operatorKinds E)[j] := fun e =>
  hij ((hk.nodup.getElem_inj_iff).mp e)

theorem kindLaws_facts {E : Env} (hk : KindLaws E) :
    E.TITYPE_OPERATORS < E.TITYPE_BINARYOP_LEFT ∧ E.TITYPE_OPERATORS < E.TITYPE_BINARYOP_RIGHT
    ∧ E.TITYPE_OPERATORS < E.TITYPE_CASBINARYOP_LEFT
    ∧ E.TITYPE_OPERATORS < E.TITYPE_CASBINARYOP_RIGHT
    ∧ E.TITYPE_OPERATORS < E.TITYPE_OPENBRACKET ∧ E.TITYPE_OPERATORS < E.TITYPE_CLOSEBRACKET
    ∧ E.TITYPE_OPERATORS < E.TITYPE_PREFIXOP ∧ E.TITYPE_OPERATORS < E.TITYPE_COMMA
    ∧ E.TITYPE_OPERATORS < E.TITYPE_FUNCTION ∧ E.TITYPE_OPERATORS < E.TITYPE_CASFUNCTION := by
  have h := hk.above
  simp only [operatorKinds, List.mem_cons, List.mem_singleton, forall_eq_or_imp, forall_eq] at h
  tauto

theorem unaryContext_operand {E : Env} (hk : KindLaws E) {info : Int} (hop : IsOperand E info) :
    unaryContext E info = false := by
  obtain ⟨h1, h2, h3, h4, h5, _, h7, h8, _, _⟩ := kindLaws_facts hk
  obtain ⟨ha, hb⟩ := hop
  unfold unaryContext
  simp only [Bool.or_eq_false_iff, decide_eq_false_iff_not]
  refine ⟨⟨⟨⟨⟨⟨⟨?_, ?_⟩, ?_⟩, ?_⟩, ?_⟩, ?_⟩, ?_⟩, ?_⟩ <;> omega

theorem disambiguate_binary (E : Env) (w : Nat) (info prev : Int)
    (h : unaryContext E prev = false) : disambiguate E w info prev = (w, info) := by
  simp [disambiguate, h]

theorem isBinary_kind {E : Env} (hk : KindLaws E) {info : Int} (hb : IsBinary E info) :
    E.TI_TYPE info > E.TITYPE_OPERATORS ∧ E.TI_TYPE info ≠ E.TITYPE_OPENBRACKET
    ∧ E.TI_TYPE info ≠ E.TITYPE_CLOSEBRACKET ∧ E.TI_TYPE info ≠ E.TITYPE_COMMA
    ∧ E.TI_TYPE info ≠ E.TITYPE_PREFIXOP := by
  obtain ⟨h1, h2, h3, h4, _⟩ := kindLaws_facts hk
  have hlen : (operatorKinds E).length = 11 := rfl
  obtain ⟨hb1, _⟩ := hb
  rcases hb1 with e | e | e | e <;> rw [e]
  · exact ⟨h1, kinds_ne hk 0 4 (by omega) (by omega) (by omega),
      kinds_ne hk 0 5 (by omega) (by omega) (by omega),
      kinds_ne hk 0 7 (by omega) (by omega) (by omega),
      kinds_ne hk 0 6 (by omega) (by omega) (by omega)⟩
  · exact ⟨h2, kinds_ne hk 1 4 (by omega) (by omega) (by omega),
      kinds_ne hk 1 5 (by omega) (by omega) (by omega),
      kinds_ne hk 1 7 (by omega) (by omega) (by omega),
      kinds_ne hk 1 6 (by omega) (by omega) (by omega)⟩
  · exact ⟨h3, kinds_ne hk 2 4 (by omega) (by omega) (by omega),
      kinds_ne hk 2 5 (by omega) (by omega) (by omega),
      kinds_ne hk 2 7 (by omega) (by omega) (by omega),
      kinds_ne hk 2 6 (by omega) (by omega) (by omega)⟩
  · exact ⟨h4, kinds_ne hk 3 4 (by omega) (by omega) (by omega),
      kinds_ne hk 3 5 (by omega) (by omega) (by omega),
      kinds_ne hk 3 7 (by omega) (by omega) (by omega),
      kinds_ne hk 3 6 (by omega) (by omega) (by omega)⟩

theorem precedenceFlush_stops (E : Env) (fuel : Nat) {s : St} {ops : List (Int × Int)}
    (h : OpStack s ops) (hs : FlushStops E ops s.probe_tokeninfo) :
    precedenceFlush E fuel s = Flow.next s := by
  rcases hs with h0 | ⟨below, o, t, h1, h2⟩
  · subst h0; exact precedenceFlush_empty E fuel h
  · subst h1; exact precedenceFlush_stop E fuel h h2

/-- A binary operator whose precedence flush pops nothing: it is pushed. -/
theorem feed_binary_push {E : Env} (hk : KindLaws E) {s : St} {h : Int}
    {objs : List (List Nat)} {ops : List (Int × Int)} (he : Engine E s h objs ops)
    (w : Nat) (info : Int) (hb : IsBinary E info)
    (hprev : unaryContext E s.previous_tokeninfo = false)
    (hstop : FlushStops E ops info)
    (hroom : s.InfixOpTop + 1 - s.g.RStk < s.g.RStkSize) :
    ∃ t : St, feed E [w] info s = Flow.next t
      ∧ Engine E t h objs (ops ++ [((w : Int), info)])
      ∧ SameFrame s t ∧ t.previous_tokeninfo = info := by
  obtain ⟨k1, k2, k3, k4, k5⟩ := isBinary_kind hk hb
  have he3 := engine_tookOperator he w info
  obtain ⟨hp1, hp2⟩ := engine_push he3 w hroom
  refine ⟨{ pushOp w { tookOperator w s with probe_tokeninfo := info } with
      previous_tokeninfo := info }, ?_, ?_, ⟨rfl, rfl, rfl, rfl, rfl, rfl, rfl⟩, rfl⟩
  · rw [feed_operator E s w info k1, disambiguate_binary E w info _ hprev]
    simp only []
    rw [if_neg k2, if_neg (by tauto)]
    unfold pushOperator
    rw [if_pos k5, precedenceFlush_stops E _ he3.ops hstop, bind_next, hp1, bind_next]
    rfl
  · exact ⟨hp2.header, hp2.cursor, hp2.wf, hp2.stream, hp2.ops, hp2.noerr⟩

/-- A binary operator whose precedence flush pops exactly the top operator: that one
is applied to its arguments, then the new operator is pushed. -/
theorem feed_binary_pop {E : Env} {bound : Nat} (hk : KindLaws E) (hlaw : SymbLaws E bound)
    {s : St} {h : Int} {pre args : List (List Nat)} {ops : List (Int × Int)} {o t : Int}
    (he : Engine E s h (pre ++ args) (ops ++ [(o, t)]))
    (w : Nat) (info : Int) (hb : IsBinary E info)
    (hprev : unaryContext E s.previous_tokeninfo = false)
    (hpop : popsBefore E t info)
    (hn : args.length = E.TI_NARGS t)
    (hstop : FlushStops E ops info)
    (hroom : s.InfixOpTop + 1 - s.g.RStk < s.g.RStkSize)
    (hstore : s.g.CompileEnd + 2 < s.g.TempObSize)
    (hsz : args.flatten.length + 1 < bound) :
    ∃ u : St, feed E [w] info s = Flow.next u
      ∧ Engine E u h (pre ++ [node E o.toNat args]) (ops ++ [((w : Int), info)])
      ∧ SameFrame s u ∧ u.previous_tokeninfo = info := by
  obtain ⟨k1, k2, k3, k4, k5⟩ := isBinary_kind hk hb
  have he3 := engine_tookOperator he w info
  have hfuel : ({ tookOperator w s with probe_tokeninfo := info } : St).InfixOpTop
      - ({ tookOperator w s with probe_tokeninfo := info } : St).g.ValidateTop
      = ((2 * ops.length + 1 + 1 : Nat) : Int) := by
    have := he3.ops.1
    rw [this]; simp only [List.length_append, List.length_singleton]; push_cast; ring
  obtain ⟨u, hu1, hu2, hu3, hu4, hu5⟩ :=
    precedenceFlush_pop hlaw (2 * ops.length + 1) he3 hpop hn hstore hsz
  obtain ⟨hp1, hp2⟩ := engine_push hu2 w (by
    rw [hu5, hu3.rstk, hu3.rsize]
    show s.InfixOpTop - 2 + 1 - s.g.RStk < s.g.RStkSize
    omega)
  refine ⟨{ pushOp w u with previous_tokeninfo := info }, ?_, ?_, ?_, rfl⟩
  · rw [feed_operator E s w info k1, disambiguate_binary E w info _ hprev]
    simp only []
    rw [if_neg k2, if_neg (by tauto)]
    unfold pushOperator
    rw [if_pos k5, hfuel, Int.toNat_natCast, hu1,
      precedenceFlush_stops E _ hu2.ops (by rw [hu4]; exact hstop), bind_next, hp1, bind_next]
    show Flow.next { pushOp w u with previous_tokeninfo := u.probe_tokeninfo } = _
    rw [hu4]
  · have := hp2
    rw [hu4] at this
    exact ⟨this.header, this.cursor, this.wf, this.stream, this.ops, this.noerr⟩
  · exact ⟨hu3.vtop, hu3.vbottom, hu3.tsize, hu3.tend, hu3.rstk, hu3.rsize, hu3.mode⟩

theorem node_grouping_ne {E : Env} {bound : Nat} (hlaw : SymbLaws E bound) (a b c : List Nat)
    (op1 op2 : Nat) (ha : IsObj E a) (hsz : a.length + b.length + 1 < bound) :
    node E op2 [node E op1 [a, b], c] ≠ node E op1 [a, node E op2 [b, c]] := by
  intro e
  cases a with
  | nil => exact ha
  | cons w r =>
    have hr : r.length = if E.ISPROLOG w then E.OBJSIZE w else 0 := ha
    simp only [node, List.flatten_cons, List.flatten_nil, List.append_nil, List.cons_append,
      List.cons.injEq] at e
    obtain ⟨_, _, e3, _⟩ := e
    have hlt : (w :: (r ++ b)).length + 1 < bound := by
      simp only [List.length_append, List.length_cons] at hsz ⊢; omega
    have hp := hlaw.isprolog _ hlt
    have ho := hlaw.objsize _ hlt
    rw [e3] at hp ho
    rw [hp, ho] at hr
    simp only [if_true, List.length_append, List.length_cons] at hr
    omega

theorem toNat_natCast_int (n : Nat) : ((n : Int)).toNat = n := Int.toNat_natCast n

/-- C1 (infix grouping by precedence and associativity): inside a symbolic, the
tokens `a op1 b op2 c`, for operands `a`, `b`, `c` and binary operators with
token-infos `i1`, `i2`, followed by the end of the expression, compile to the single
node `op2(op1(a,b),c)` exactly when the precedence flush pops `op1` before `op2` is
pushed, that is when the precedence value of `op1` is below that of `op2`, or not above
it with `op2` left-associative; otherwise they compile to `op1(a,op2(b,c))`. -/
theorem infix_grouping_by_precedence (E : Env) (bound : Nat) (hk : KindLaws E)
    (hlaw : SymbLaws E bound) (s : St) (h : Int) (a b c : List Nat) (ia ib ic : Int)
    (op1 op2 : Nat) (i1 i2 : Int)
    (hstart : Engine E s h [] []) (hmode : s.infixmode = true)
    (hopen : s.g.ValidateTop > s.g.ValidateBottom)
    (ha : IsObj E a) (hb : IsObj E b) (hc : IsObj E c)
    (hia : IsOperand E ia) (hib : IsOperand E ib) (hic : IsOperand E ic)
    (h1 : IsBinary E i1) (h2 : IsBinary E i2)
    (hsz : a.length + b.length + c.length + 4 < bound)
    (hstore : h + 1 + ((a.length + b.length + c.length + 4 : Nat) : Int) < s.g.TempObSize)
    (hstack : s.g.ValidateTop + 3 - s.g.RStk < s.g.RStkSize) :
    ∃ t : St, compileInfix3 E a b c ia ib ic op1 op2 i1 i2 s = Flow.next t
      ∧ t.g.CompileEnd = h + 1 + ((a.length + b.length + c.length + 4 : Nat) : Int)
      ∧ (segment t.g.mem (h + 1) (a.length + b.length + c.length + 4)
            = node E op2 [node E op1 [a, b], c] ↔ popsBefore E i1 i2)
      ∧ (¬ popsBefore E i1 i2 →
          segment t.g.mem (h + 1) (a.length + b.length + c.length + 4)
            = node E op1 [a, node E op2 [b, c]]) := by
  have hne := node_grouping_ne hlaw a b c op1 op2 ha (by omega)
  have hopk : ∀ i : Int, IsOperand E i → ¬ E.TI_TYPE i > E.TITYPE_OPERATORS := fun i hi => by
    have := hi.2; omega
  obtain ⟨k1, k2, _⟩ := isBinary_kind hk h1
  obtain ⟨k3, k4, _⟩ := isBinary_kind hk h2
  -- token a
  obtain ⟨s1, e1, he1, f1, p1⟩ := feed_operand hstart a ia ha (hopk ia hia)
  have hiot0 : s.InfixOpTop = s.g.ValidateTop := by have := hstart.ops.1; simpa using this
  have hiot1 : s1.InfixOpTop = s1.g.ValidateTop := by have := he1.ops.1; simpa using this
  -- token op1
  obtain ⟨s2, e2, he2, f2, p2⟩ := feed_binary_push hk he1 op1 i1 h1
    (by rw [p1]; exact unaryContext_operand hk hia) (Or.inl rfl)
    (by rw [hiot1, f1.vtop, f1.rstk, f1.rsize]; omega)
  -- token b
  obtain ⟨s3, e3, he3, f3, p3⟩ := feed_operand he2 b ib hb (hopk ib hib)
  have f03 : SameFrame s s3 := sameFrame_trans (sameFrame_trans f1 f2) f3
  have hiot3 : s3.InfixOpTop = s3.g.ValidateTop + 2 := by have := he3.ops.1; simpa using this
  have hcur3 : s3.g.CompileEnd = h + 1 + ((a.length + b.length : Nat) : Int) := by
    have := he3.cursor; simpa [List.length_append] using this
  have hsame : (h + 1 + ((a.length + b.length + c.length + 4 : Nat) : Int)) = h + 1 +
      ((node E op2 [node E op1 [a, b], c]).length : Int) := by
    simp [node]; ring
  have hlen1 : (node E op2 [node E op1 [a, b], c]).length = a.length + b.length + c.length + 4 := by
    simp [node]; ring
  have hlen2 : (node E op1 [a, node E op2 [b, c]]).length = a.length + b.length + c.length + 4 := by
    simp [node]; ring
  unfold compileInfix3
  rw [e1, bind_next, e2, bind_next, e3, bind_next]
  by_cases hpop : popsBefore E i1 i2
  · -- op2 pops op1
    have he3b : Engine E s3 h ([] ++ [a, b]) ([] ++ [((op1 : Int), i1)]) := by simpa using he3
    obtain ⟨s4, e4, he4, f4, p4⟩ := feed_binary_pop hk hlaw he3b op2 i2 h2
      (by rw [p3]; exact unaryContext_operand hk hib) hpop (by simp [h1.2]) (Or.inl rfl)
      (by rw [hiot3, f03.vtop, f03.rstk, f03.rsize]; omega)
      (by rw [hcur3, f03.tsize]; push_cast at hstore ⊢; omega)
      (by simp; omega)
    obtain ⟨s5, e5, he5, f5, p5⟩ := feed_operand he4 c ic hc (hopk ic hic)
    have f05 : SameFrame s s5 := sameFrame_trans (sameFrame_trans f03 f4) f5
    have he5b : Engine E s5 h [node E op1 [a, b], c] [((op2 : Int), i2)].reverse := by
      simpa [toNat_natCast_int] using he5
    obtain ⟨t, et, ht1, ht2, _, _, _⟩ := @endConstructInfix_spec E bound hlaw h s5
        [node E op1 [a, b], c] (node E op2 [node E op1 [a, b], c]) [((op2 : Int), i2)] he5b
      (by rw [f05.mode]; exact hmode)
      (by rw [f05.vtop, f05.vbottom]; exact hopen)
      (by intro y hy; simp at hy; subst hy; exact k4)
      (by simp [applyOps, h2.2, toNat_natCast_int])
      (by have := he5b.cursor
          rw [this, f05.tsize]
          simp [node] at this ⊢
          push_cast at hstore; omega)
      (by simp [node]; omega)
    rw [e4, bind_next, e5, bind_next]
    refine ⟨t, et, by rw [ht1, hsame], ?_, fun hno => absurd hpop hno⟩
    rw [← hlen1, ht2]
    exact ⟨fun _ => hpop, fun _ => rfl⟩
  · -- op2 is pushed above op1
    obtain ⟨s4, e4, he4, f4, p4⟩ := feed_binary_push hk he3 op2 i2 h2
      (by rw [p3]; exact unaryContext_operand hk hib)
      (Or.inr ⟨[], (op1 : Int), i1, by simp, hpop⟩)
      (by rw [hiot3, f03.vtop, f03.rstk, f03.rsize]; omega)
    obtain ⟨s5, e5, he5, f5, p5⟩ := feed_operand he4 c ic hc (hopk ic hic)
    have f05 : SameFrame s s5 := sameFrame_trans (sameFrame_trans f03 f4) f5
    have he5b : Engine E s5 h [a, b, c] [((op2 : Int), i2), ((op1 : Int), i1)].reverse := by
      simpa using he5
    obtain ⟨t, et, ht1, ht2, _, _, _⟩ := @endConstructInfix_spec E bound hlaw h s5 [a, b, c]
        (node E op1 [a, node E op2 [b, c]]) [((op2 : Int), i2), ((op1 : Int), i1)] he5b
      (by rw [f05.mode]; exact hmode)
      (by rw [f05.vtop, f05.vbottom]; exact hopen)
      (by intro y hy; simp at hy; rcases hy with hy | hy <;> subst hy
          · exact k4
          · exact k2)
      (by simp [applyOps, h1.2, h2.2, toNat_natCast_int])
      (by have := he5b.cursor
          rw [this, f05.tsize]
          simp at this ⊢
          push_cast at hstore; omega)
      (by simp; omega)
    rw [e4, bind_next, e5, bind_next]
    have hseg : segment t.g.mem (h + 1) (a.length + b.length + c.length + 4)
        = node E op1 [a, node E op2 [b, c]] := by rw [← hlen2, ht2]
    refine ⟨t, et, by rw [ht1, hlen2], ?_, fun _ => hseg⟩
    rw [hseg]
    exact ⟨fun e => absurd e.symm hne, fun hp => absurd hp hpop⟩

/-! ## Too few arguments -/
theorem findArgsStart_none (E : Env) (mem : Int → Nat) (s : Int) (n : Nat) :
    findArgsStart E mem s n none = (n, none) := by
  cases n <;> rfl

theorem rplReverseSkipOb_at_start (E : Env) (mem : Int → Nat) (s : Int) :
    rplReverseSkipOb E mem s s = none := by
  have h := rplSkipOb_gt E mem s
  unfold rplReverseSkipOb
  simp only [sub_self, Int.toNat_zero, Nat.zero_add, rplReverseSkipObLoop]
  rw [if_neg (by omega), if_pos (by omega)]

theorem findArgsStart_few {E : Env} {mem : Int → Nat} (s : Int) :
    ∀ (n : Nat) (objs : List (List Nat)), objs.length < n →
      (∀ x ∈ objs, IsObj E x) → Holds mem s objs.flatten →
      ∃ k : Nat, findArgsStart E mem s n (some (s + (objs.flatten.length : Int))) = (k, none) := by
  intro n
  induction n with
  | zero => intro objs h; omega
  | succ n ih =>
    intro objs hlen hall hh
    rcases List.eq_nil_or_concat objs with h0 | ⟨init, last, h1⟩
    · subst h0
      simp only [List.flatten_nil, List.length_nil, Nat.cast_zero, add_zero, findArgsStart,
        rplReverseSkipOb_at_start, findArgsStart_none]
      exact ⟨n, rfl⟩
    · rw [List.concat_eq_append] at h1
      subst h1
      have hlast : IsObj E last := hall last (by simp)
      have hall2 : ∀ x ∈ init, IsObj E x := fun x hx => hall x (by simp [hx])
      have hfl : (init ++ [last]).flatten = init.flatten ++ last := by simp [List.flatten_append]
      rw [hfl] at hh
      have hrs := rplReverseSkipOb_spec hlast init s hall2 hh
      have e1 : s + (((init ++ [last]).flatten.length : Nat) : Int)
          = s + (init.flatten.length : Int) + (last.length : Int) := by
        rw [hfl]; simp only [List.length_append]; push_cast; ring
      rw [e1]
      simp only [findArgsStart, hrs]
      exact ih init (by simp at hlen; omega) hall2 (holds_append.mp hh).1

/-- `rplInfixApply` with more arguments than there are objects in the body of the
symbolic: `ERR_BADARGCOUNT`, nothing else changes. -/
theorem rplInfixApply_few {E : Env} {s : St} {h : Int} {objs : List (List Nat)}
    {ops : List (Int × Int)} (he : Engine E s h objs ops) (opcode n : Nat)
    (hn : objs.length < n) :
    rplInfixApply E opcode n s.g = (false, rplError E E.ERR_BADARGCOUNT s.g) := by
  obtain ⟨k, hk⟩ := @findArgsStart_few E s.g.mem (h + 1) n objs hn he.wf he.stream
  unfold rplInfixApply
  simp only [he.header, he.cursor, hk]

theorem rplError_fields (E : Env) (code : Nat) (g : Globals) :
    (rplError E code g).ErrorCode = code
    ∧ (rplError E code g).Exceptions = g.Exceptions ||| E.EX_ERRORCODE := ⟨rfl, rfl⟩

/-! ## Close brackets and commas -/
theorem popToBracket_step (E : Env) (C : Nat) (fuel : Nat) {s : St} {ops : List (Int × Int)}
    {o t : Int} (h : OpStack s (ops ++ [(o, t)])) (hkind : E.TI_TYPE t ≠ E.TITYPE_OPENBRACKET) :
    popToBracket E C (fuel + 1) s =
      match rplInfixApply E o.toNat (E.TI_NARGS t) s.g with
      | (false, g1) => return0 g1
      | (true, g1) => popToBracket E C fuel { s with g := g1, InfixOpTop := s.InfixOpTop - 2 } := by
  obtain ⟨h1, h2, h3, h4⟩ := opStack_top h
  simp only [popToBracket, if_pos h1, h4, if_neg hkind, h2, h3]

theorem infixFlushEnd_step (E : Env) (fuel : Nat) {s : St} {ops : List (Int × Int)}
    {o t : Int} (h : OpStack s (ops ++ [(o, t)])) (hkind : E.TI_TYPE t ≠ E.TITYPE_OPENBRACKET) :
    infixFlushEnd E (fuel + 1) s =
      match rplInfixApply E o.toNat (E.TI_NARGS t) s.g with
      | (false, g1) => return0 g1
      | (true, g1) => infixFlushEnd E fuel { s with g := g1, InfixOpTop := s.InfixOpTop - 2 } := by
  obtain ⟨h1, h2, h3, h4⟩ := opStack_top h
  simp only [infixFlushEnd, if_pos h1, h3, if_neg hkind, h2]

theorem pop_run {E : Env} {bound : Nat} (hlaw : SymbLaws E bound) (h : Int)
    (run : Nat → St → Flow St)
    (hstep : ∀ (fuel : Nat) (s : St) (ops : List (Int × Int)) (o t : Int),
      OpStack s (ops ++ [(o, t)]) → E.TI_TYPE t ≠ E.TITYPE_OPENBRACKET →
      run (fuel + 1) s =
        match rplInfixApply E o.toNat (E.TI_NARGS t) s.g with
        | (false, g1) => return0 g1
        | (true, g1) => run fuel { s with g := g1, InfixOpTop := s.InfixOpTop - 2 })
    (base : List (Int × Int)) (fuel : Nat) :
    ∀ (topfirst : List (Int × Int)) (s : St) (objs : List (List Nat)),
      Engine E s h objs (base ++ topfirst.reverse) →
      (∀ x ∈ topfirst, E.TI_TYPE x.2 ≠ E.TITYPE_OPENBRACKET) →
      s.g.CompileEnd + 2 * (topfirst.length : Int) < s.g.TempObSize →
      objs.flatten.length + 2 * topfirst.length < bound →
      PopOutcome E run s h topfirst objs base fuel := by
  intro topfirst
  induction topfirst with
  | nil =>
    intro s objs he _ _ _
    unfold PopOutcome
    simp only [applyOps]
    exact ⟨s, rfl, by simpa using he, sameFrame_refl s, rfl, by simp⟩
  | cons x rest ih =>
    intro s objs he hnb hroom hsz
    obtain ⟨o, t⟩ := x
    have hkind : E.TI_TYPE t ≠ E.TITYPE_OPENBRACKET := hnb (o, t) (by simp)
    have he2 : Engine E s h objs ((base ++ rest.reverse) ++ [(o, t)]) := by
      simpa [List.append_assoc] using he
    have hst := hstep (fuel + rest.length) s _ o t he2.ops hkind
    have hfuel : fuel + ((o, t) :: rest).length = fuel + rest.length + 1 := by
      simp only [List.length_cons]; omega
    unfold PopOutcome
    simp only [applyOps]
    by_cases hn : E.TI_NARGS t ≤ objs.length
    · rw [if_pos hn]
      have hsplit : objs = objs.take (objs.length - E.TI_NARGS t)
          ++ objs.drop (objs.length - E.TI_NARGS t) := (List.take_append_drop _ _).symm
      have he3 := he2
      rw [hsplit] at he3
      have hlen : (objs.drop (objs.length - E.TI_NARGS t)).length = E.TI_NARGS t := by
        rw [List.length_drop]; omega
      have hfl := flatten_length_take_add_drop objs (objs.length - E.TI_NARGS t)
      simp only [List.length_cons] at hroom hsz
      obtain ⟨m, hm1, hm2⟩ := engine_apply hlaw he3 hlen (by push_cast at hroom; omega) (by omega)
      have hih := ih _ _ hm2 (fun y hy => hnb y (by simp [hy]))
        (by show s.g.CompileEnd + 2 + 2 * (rest.length : Int) < s.g.TempObSize
            push_cast at hroom; omega)
        (by simp only [List.flatten_append, List.length_append, List.flatten_cons,
              List.flatten_nil, List.append_nil, node_length]
            omega)
      unfold PopOutcome at hih
      have hrun : run (fuel + ((o, t) :: rest).length) s = run (fuel + rest.length)
          { s with g := { s.g with CompileEnd := s.g.CompileEnd + 2, mem := m },
                   InfixOpTop := s.InfixOpTop - 2 } := by
        rw [hfuel, hst, hm1]
      cases happ : applyOps E rest (objs.take (objs.length - E.TI_NARGS t)
          ++ [node E o.toNat (objs.drop (objs.length - E.TI_NARGS t))]) with
      | some objs2 =>
        rw [happ] at hih
        obtain ⟨u, hu1, hu2, hu3, hu4, hu5⟩ := hih
        refine ⟨u, by rw [hrun, hu1], hu2, ?_, by rw [hu4], ?_⟩
        · exact ⟨hu3.vtop, hu3.vbottom, hu3.tsize, hu3.tend, hu3.rstk, hu3.rsize, hu3.mode⟩
        · rw [hu5]
          show s.g.CompileEnd + 2 + 2 * (rest.length : Int) = _
          simp only [List.length_cons]; push_cast; ring
      | none =>
        rw [happ] at hih
        obtain ⟨g, hg1, hg2, hg3⟩ := hih
        exact ⟨g, by rw [hrun, hg1], hg2, hg3⟩
    · rw [if_neg hn]
      refine ⟨{ rplError E E.ERR_BADARGCOUNT s.g with LAMTop := s.g.LAMTopSaved }, ?_, rfl, ?_⟩
      · rw [hfuel, hst, rplInfixApply_few he2 _ _ (by omega)]
        rfl
      · show s.g.Exceptions ||| E.EX_ERRORCODE = E.EX_ERRORCODE
        rw [he.noerr]; simp

theorem popToBracket_empty (E : Env) (C : Nat) (fuel : Nat) {s : St} (h : OpStack s []) :
    popToBracket E C fuel s = Flow.next s := by
  have h1 : ¬ s.InfixOpTop > s.g.ValidateTop := by
    have := h.1; simp at this; omega
  cases fuel with
  | zero => rfl
  | succ f => simp only [popToBracket, if_neg h1]

theorem popToBracket_marker (E : Env) (C : Nat) (fuel : Nat) {s : St} {ops : List (Int × Int)}
    {O mi : Int} (h : OpStack s (ops ++ [(O, mi)])) (hkind : E.TI_TYPE mi = E.TITYPE_OPENBRACKET) :
    popToBracket E C (fuel + 1) s =
      if E.TI_TYPE s.probe_tokeninfo = E.TITYPE_CLOSEBRACKET
          ∧ O ≠ (toWord ((C : Int) - 1) : Int) then
        if ¬ (C = E.CMD_LISTCLOSEBRACKET ∧ O = (E.CMD_CLISTOPENBRACKET : Int)) then
          return0 (rplError E E.ERR_MISSINGBRACKET s.g)
        else Flow.next s
      else Flow.next s := by
  obtain ⟨h1, h2, h3, h4⟩ := opStack_top h
  simp only [popToBracket, if_pos h1, h4, hkind, if_true, h2]

/-- C4 (bracket matching), as amended: a close-bracket or comma token first applies
the operators stacked above the innermost open-bracket marker, from the top down; if
one of them finds too few objects, `rplCompile` fails with the `ERR_BADARGCOUNT` of
`rplInfixApply`; if all are applied and the operator stack holds no marker, it fails
with `ERR_MISSINGBRACKET`; at a marker with opcode `O` a comma goes on, and a close
bracket with opcode `C` is accepted (and goes on to count the arguments) if and only
if `O = C - 1`, or `C = CMD_LISTCLOSEBRACKET` and `O = CMD_CLISTOPENBRACKET`;
otherwise `rplCompile` fails with `ERR_MISSINGBRACKET` and returns null. -/
theorem bracket_matching (E : Env) (bound : Nat) (hk : KindLaws E) (hlaw : SymbLaws E bound)
    (s : St) (h : Int) (objs : List (List Nat)) (above base : List (Int × Int)) (C : Nat)
    (he : Engine E s h objs (base ++ above.reverse))
    (hab : ∀ x ∈ above, E.TI_TYPE x.2 ≠ E.TITYPE_OPENBRACKET)
    (hroom : s.g.CompileEnd + 2 * (above.length : Int) < s.g.TempObSize)
    (hsz : objs.flatten.length + 2 * above.length < bound) :
    (applyOps E above objs = none →
      ∃ g : Globals, closeBracketOrComma E C s = Flow.ret none g
        ∧ g.ErrorCode = E.ERR_BADARGCOUNT ∧ g.Exceptions = E.EX_ERRORCODE)
    ∧ (∀ objs2 : List (List Nat), applyOps E above objs = some objs2 →
      (base = [] →
        ∃ g : Globals, closeBracketOrComma E C s = Flow.ret none g
          ∧ g.ErrorCode = E.ERR_MISSINGBRACKET ∧ g.Exceptions = E.EX_ERRORCODE)
      ∧ (∀ (below : List (Int × Int)) (O mi : Int), base = below ++ [(O, mi)] →
          E.TI_TYPE mi = E.TITYPE_OPENBRACKET →
          ∃ u : St, Engine E u h objs2 base ∧ SameFrame s u
            ∧ u.probe_tokeninfo = s.probe_tokeninfo
            ∧ (E.TI_TYPE s.probe_tokeninfo = E.TITYPE_COMMA →
                closeBracketOrComma E C s = Flow.next u)
            ∧ (E.TI_TYPE s.probe_tokeninfo = E.TITYPE_CLOSEBRACKET →
                (O = (toWord ((C : Int) - 1) : Int)
                    ∨ (C = E.CMD_LISTCLOSEBRACKET ∧ O = (E.CMD_CLISTOPENBRACKET : Int)) →
                  closeBracketOrComma E C s = closeBracket E u)
                ∧ (¬ (O = (toWord ((C : Int) - 1) : Int)
                    ∨ (C = E.CMD_LISTCLOSEBRACKET ∧ O = (E.CMD_CLISTOPENBRACKET : Int))) →
                  ∃ g : Globals, closeBracketOrComma E C s = Flow.ret none g
                    ∧ g.ErrorCode = E.ERR_MISSINGBRACKET
                    ∧ g.Exceptions = E.EX_ERRORCODE)))) := by
  have hlen : (operatorKinds E).length = 11 := rfl
  have hcc : E.TITYPE_COMMA ≠ E.TITYPE_CLOSEBRACKET :=
    kinds_ne hk 7 5 (by omega) (by omega) (by omega)
  have hfuel : (s.InfixOpTop - s.g.ValidateTop).toNat = 2 * base.length + above.length
      + above.length := by
    have := he.ops.1
    rw [this]
    simp only [List.length_append, List.length_reverse]
    have e : s.g.ValidateTop + 2 * ((base.length + above.length : Nat) : Int) - s.g.ValidateTop
        = ((2 * base.length + above.length + above.length : Nat) : Int) := by push_cast; ring
    rw [e, Int.toNat_natCast]
  have hpop := pop_run hlaw h (popToBracket E C)
    (fun fuel s ops o t h1 h2 => popToBracket_step E C fuel h1 h2) base
    (2 * base.length + above.length) above s objs he hab hroom hsz
  unfold PopOutcome at hpop
  constructor
  · intro hnone
    rw [hnone] at hpop
    obtain ⟨g, hg1, hg2, hg3⟩ := hpop
    refine ⟨g, ?_, hg2, hg3⟩
    unfold closeBracketOrComma
    rw [hfuel, hg1, bind_ret]
  · intro objs2 hsome
    rw [hsome] at hpop
    obtain ⟨u, hu1, hu2, hu3, hu4, hu5⟩ := hpop
    constructor
    · intro hb
      subst hb
      refine ⟨{ rplError E E.ERR_MISSINGBRACKET u.g with LAMTop := u.g.LAMTopSaved }, ?_, rfl, ?_⟩
      · unfold closeBracketOrComma
        rw [hfuel, hu1, popToBracket_empty E C _ hu2.ops, bind_next]
        rw [if_pos (by have := hu2.ops.1; simp at this; omega)]
        rfl
      · show u.g.Exceptions ||| E.EX_ERRORCODE = E.EX_ERRORCODE
        rw [hu2.noerr]; simp
    · intro below O mi hb hmi
      subst hb
      have hops := hu2.ops
      have hgt : ¬ u.InfixOpTop ≤ u.g.ValidateTop := by
        have := (opStack_top hops).1; omega
      have hrun := popToBracket_marker E C (2 * below.length + 1 + above.length) hops hmi
      have hfe : 2 * (below ++ [(O, mi)]).length + above.length
          = 2 * below.length + 1 + above.length + 1 := by
        simp only [List.length_append, List.length_singleton]; omega
      refine ⟨u, hu2, hu3, hu4, ?_, ?_⟩
      · intro hcomma
        unfold closeBracketOrComma
        rw [hfuel, hu1, hfe, hrun, hu4, hcomma]
        rw [if_neg (by intro hc; exact hcc hc.1), bind_next, if_neg hgt, hu4, hcomma,
          if_neg hcc]
      · intro hclose
        constructor
        · intro hacc
          unfold closeBracketOrComma
          rw [hfuel, hu1, hfe, hrun, hu4, hclose]
          rcases hacc with h1 | h1
          · rw [if_neg (by intro hc; exact hc.2 h1), bind_next, if_neg hgt, hu4, hclose,
              if_pos rfl]
          · by_cases h0 : O = (toWord ((C : Int) - 1) : Int)
            · rw [if_neg (by intro hc; exact hc.2 h0), bind_next, if_neg hgt, hu4, hclose,
                if_pos rfl]
            · rw [if_pos ⟨rfl, h0⟩, if_neg (by simp only [not_not]; exact h1), bind_next,
                if_neg hgt, hu4, hclose, if_pos rfl]
        · intro hrej
          have h0 : O ≠ (toWord ((C : Int) - 1) : Int) := fun e => hrej (Or.inl e)
          have h1 : ¬ (C = E.CMD_LISTCLOSEBRACKET ∧ O = (E.CMD_CLISTOPENBRACKET : Int)) :=
            fun e => hrej (Or.inr e)
          refine ⟨{ rplError E E.ERR_MISSINGBRACKET u.g with LAMTop := u.g.LAMTopSaved }, ?_,
            rfl, ?_⟩
          · unfold closeBracketOrComma
            rw [hfuel, hu1, hfe, hrun, hu4, hclose, if_pos ⟨rfl, h0⟩, if_pos h1]
            rfl
          · show u.g.Exceptions ||| E.EX_ERRORCODE = E.EX_ERRORCODE
            rw [hu2.noerr]; simp

/-! ## Counting and rotating arguments -/
theorem countArgs_spec {E : Env} {mem : Int → Nat} (list : Int) :
    ∀ (n : Nat) (args : List (List Nat)) (k fuel : Nat), args.length = n →
      (∀ x ∈ args, IsObj E x) → Holds mem list args.flatten → n < fuel →
      countArgs E mem list fuel (list + (args.flatten.length : Int)) k = k + n := by
  intro n
  induction n with
  | zero =>
    intro args k fuel hlen _ _ hf
    have : args = [] := List.length_eq_zero.mp hlen
    subst this
    obtain ⟨f, rfl⟩ : ∃ f, fuel = f + 1 := ⟨fuel - 1, by omega⟩
    simp [countArgs, rplReverseSkipOb_at_start]
  | succ n ih =>
    intro args k fuel hlen hall hh hf
    obtain ⟨f, rfl⟩ : ∃ f, fuel = f + 1 := ⟨fuel - 1, by omega⟩
    rcases List.eq_nil_or_concat args with h0 | ⟨init, last, h1⟩
    · subst h0; simp at hlen
    · rw [List.concat_eq_append] at h1
      subst h1
      have hlast : IsObj E last := hall last (by simp)
      have hall2 : ∀ x ∈ init, IsObj E x := fun x hx => hall x (by simp [hx])
      have hfl : (init ++ [last]).flatten = init.flatten ++ last := by simp [List.flatten_append]
      rw [hfl] at hh
      have hrs := rplReverseSkipOb_spec hlast init list hall2 hh
      have e1 : list + (((init ++ [last]).flatten.length : Nat) : Int)
          = list + (init.flatten.length : Int) + (last.length : Int) := by
        rw [hfl]; simp only [List.length_append]; push_cast; ring
      rw [e1]
      simp only [countArgs, hrs]
      rw [ih init (k + 1) f (by simpa using hlen) hall2 (holds_append.mp hh).1 (by omega)]
      omega

theorem rplObjSize_of_holds {E : Env} {mem : Int → Nat} {p : Int} {o : List Nat}
    (ho : IsObj E o) (h : Holds mem p o) : rplObjSize E mem p = (o.length : Int) := by
  have h1 := rplSkipOb_of_holds ho h
  unfold rplSkipOb at h1
  unfold rplObjSize
  omega

/-- Effect of `rplRotArgs` on a stream of complete objects: of the last `n` objects
the first becomes the last; everything before them and the cursor stay. -/
theorem rplRotArgs_spec {E : Env} (g : Globals) (s : Int) (n : Nat)
    (pre rest : List (List Nat)) (first : List Nat)
    (hs : g.cells (g.ValidateTop - 1) + 1 = s)
    (hce : g.CompileEnd = s + ((pre ++ first :: rest).flatten.length : Int))
    (hall : ∀ x ∈ pre ++ first :: rest, IsObj E x)
    (hh : Holds g.mem s (pre ++ first :: rest).flatten)
    (hn : rest.length + 1 = n)
    (hroom : g.CompileEnd + (first.length : Int) < g.TempObSize) :
    ∃ m : Int → Nat,
      rplRotArgs E n g = (true, { g with mem := m })
      ∧ Holds m s (pre ++ rest ++ [first]).flatten
      ∧ (∀ a : Int, a < s + (pre.flatten.length : Int) → m a = g.mem a) := by
  have hfa := @findArgsStart_spec E g.mem s n (first :: rest) pre (by simpa using hn) hall hh
  have hfirst : IsObj E first := hall first (by simp)
  have hfl : (pre ++ first :: rest).flatten = pre.flatten ++ (first ++ rest.flatten) := by
    simp [List.flatten_append]
  have hlenfl : ((pre ++ first :: rest).flatten.length : Int)
      = (pre.flatten.length : Int) + (first.length : Int) + (rest.flatten.length : Int) := by
    rw [hfl]; simp only [List.length_append]; push_cast; ring
  rw [hfl] at hh
  obtain ⟨hpre, hfr⟩ := holds_append.mp hh
  obtain ⟨hf1, hrest⟩ := holds_append.mp hfr
  set ptr : Int := s + (pre.flatten.length : Int) with hptr
  have hsize := rplObjSize_of_holds hfirst hf1
  have hpos := isObj_length_pos hfirst
  refine ⟨memmovew (memmovew g.mem g.CompileEnd ptr (first.length : Int)) ptr
      (ptr + (first.length : Int)) (g.CompileEnd - ptr), ?_, ?_, ?_⟩
  · unfold rplRotArgs
    simp only [hs, ← hce] at hfa ⊢
    rw [hfa]
    simp only [hsize]
    have hno : ¬ (g.CompileEnd + (first.length : Int) ≥ g.TempObSize) := by omega
    simp only [hno, if_false, false_and]
  · have e : (pre ++ rest ++ [first]).flatten = pre.flatten ++ (rest.flatten ++ first) := by
      simp [List.flatten_append]
    rw [e, holds_append, holds_append]
    refine ⟨?_, ?_, ?_⟩
    · apply holds_congr hpre
      intro a _ ha2
      rw [memmovew_outside _ _ _ _ _ (by omega), memmovew_outside _ _ _ _ _ (by omega)]
    · intro i hi
      rw [hrest i hi]
      rw [memmovew_inside _ _ _ _ _ (by omega) (by rw [hce, hlenfl]; omega),
        memmovew_outside _ _ _ _ _ (by rw [hce, hlenfl]; omega)]
      congr 2; omega
    · intro i hi
      rw [hf1 i hi]
      rw [memmovew_inside _ _ _ _ _ (by omega) (by rw [hce, hlenfl]; omega),
        memmovew_inside _ _ _ _ _ (by rw [hce, hlenfl]; omega) (by rw [hce, hlenfl]; omega)]
      congr 2; rw [hce, hlenfl]; omega
  · intro a ha
    rw [memmovew_outside _ _ _ _ _ (by omega), memmovew_outside _ _ _ _ _ (by rw [hce, hlenfl]; omega)]

/-! ## The arity check of a close bracket -/
theorem opStack_cell {s : St} {ops : List (Int × Int)} (h : OpStack s ops) (i : Nat) (a b : Int)
    (hi : ops[i]? = some (a, b)) :
    s.g.cells (s.g.ValidateTop + 2 * (i : Int)) = a
      ∧ s.g.cells (s.g.ValidateTop + 2 * (i : Int) + 1) = b := by
  have hlt : i < ops.length := by
    by_contra hc
    rw [List.getElem?_eq_none (by omega)] at hi
    cases hi
  have := h.2 i hlt
  rw [hi] at this
  simp only [Option.some.injEq, Prod.mk.injEq] at this
  exact ⟨this.1.symm, this.2.symm⟩

/-- C5 (arity check on close bracket), as amended: when the entry below the marker of
the matched open bracket is of kind function or CAS-function with declared arity `n`,
and `args` are the complete objects between the position recorded in the marker and
the cursor, `rplCompile` fails with `ERR_BADARGCOUNT` if `n` is not 15 and the number
of those objects differs from `n`; otherwise it succeeds and replaces them by one node:
the function applied to exactly those objects, or, when the function is the synthetic
`CMD_OVR_FUNCEVAL`, to those objects followed by the object that preceded the bracket
(the function name), one argument more than were counted. -/
theorem close_bracket_arity (E : Env) (bound : Nat) (hlaw : SymbLaws E bound)
    (s : St) (h : Int) (pre args : List (List Nat)) (below : List (Int × Int))
    (f fi pos mi O mi2 : Int)
    (he : Engine E s h (pre ++ args) (below ++ [(f, fi), (pos, mi), (O, mi2)]))
    (hpos : s.g.TempObEnd + pos = h + 1 + (pre.flatten.length : Int))
    (hfun : E.TI_TYPE fi = E.TITYPE_FUNCTION ∨ E.TI_TYPE fi = E.TITYPE_CASFUNCTION)
    (hroom : s.g.CompileEnd + 2 + ((pre ++ args).flatten.length : Int) < s.g.TempObSize)
    (hsz : (pre ++ args).flatten.length + 1 < bound) :
    (E.TI_NARGS fi ≠ 0xf ∧ args.length ≠ E.TI_NARGS fi →
      ∃ g : Globals, closeBracket E s = Flow.ret none g
        ∧ g.ErrorCode = E.ERR_BADARGCOUNT ∧ g.Exceptions = E.EX_ERRORCODE)
    ∧ (¬ (E.TI_NARGS fi ≠ 0xf ∧ args.length ≠ E.TI_NARGS fi) →
      (f ≠ (E.CMD_OVR_FUNCEVAL : Int) →
        ∃ u : St, closeBracket E s = Flow.next u
          ∧ Engine E u h (pre ++ [node E f.toNat args]) below)
      ∧ (f = (E.CMD_OVR_FUNCEVAL : Int) → ∀ (before : List (List Nat)) (name : List Nat),
          pre = before ++ [name] →
          ∃ u : St, closeBracket E s = Flow.next u
            ∧ Engine E u h (before ++ [node E E.CMD_OVR_FUNCEVAL (args ++ [name])]) below)) := by
  have hops := he.ops
  have hiot : s.InfixOpTop - 4 = s.g.ValidateTop + 2 * ((below.length + 1 : Nat) : Int) := by
    rw [hops.1]; simp only [List.length_append, List.length_cons, List.length_nil]
    push_cast; ring
  obtain ⟨cf, cfi⟩ := opStack_cell hops below.length f fi (by
    rw [List.getElem?_append_right (le_refl _)]; simp)
  obtain ⟨cpos, _⟩ := opStack_cell hops (below.length + 1) pos mi (by
    rw [List.getElem?_append_right (by omega)]; simp)
  obtain ⟨cO, _⟩ := opStack_cell hops (below.length + 2) O mi2 (by
    rw [List.getElem?_append_right (by omega)]; simp)
  have e0 : s.g.cells (s.InfixOpTop - 4) = pos := by rw [hiot, ← cpos]
  have e1 : s.g.cells (s.InfixOpTop - 4 - 1) = fi := by
    rw [← cfi]; congr 1; rw [hiot]; push_cast; ring
  have e2 : s.g.cells (s.InfixOpTop - 4 - 2) = f := by
    rw [← cf]; congr 1; rw [hiot]; push_cast; ring
  have hgt : s.InfixOpTop - 4 > s.g.ValidateTop := by rw [hiot]; push_cast; omega
  have hall := he.wf
  have hstream := he.stream
  rw [List.flatten_append] at hstream
  obtain ⟨hpreh, hargsh⟩ := holds_append.mp hstream
  have hcur : s.g.CompileEnd = h + 1 + (pre.flatten.length : Int) + (args.flatten.length : Int) := by
    rw [he.cursor, List.flatten_append, List.length_append]; push_cast; ring
  have hcount : countArgs E s.g.mem (s.g.TempObEnd + pos)
      ((s.g.CompileEnd - (s.g.TempObEnd + pos)).toNat + 1) s.g.CompileEnd 0 = args.length := by
    rw [hpos, hcur]
    have := @countArgs_spec E s.g.mem (h + 1 + (pre.flatten.length : Int)) args.length args 0
      ((h + 1 + (pre.flatten.length : Int) + (args.flatten.length : Int)
        - (h + 1 + (pre.flatten.length : Int))).toNat + 1) rfl
      (fun x hx => hall x (by simp [hx])) hargsh
      (by have := @length_le_flatten E args (fun x hx => hall x (by simp [hx]))
          have e : h + 1 + (pre.flatten.length : Int) + (args.flatten.length : Int)
              - (h + 1 + (pre.flatten.length : Int)) = (args.flatten.length : Int) := by ring
          rw [e, Int.toNat_natCast]; omega)
    simpa using this
  -- the engine once the marker is removed
  have he1 : Engine E { s with InfixOpTop := s.InfixOpTop - 4 } h (pre ++ args)
      (below ++ [(f, fi)]) := by
    refine ⟨he.header, he.cursor, he.wf, he.stream, ?_, he.noerr⟩
    have hx : below ++ [(f, fi), (pos, mi), (O, mi2)]
        = ((below ++ [(f, fi)]) ++ [(pos, mi)]) ++ [(O, mi2)] := by simp
    rw [hx] at hops
    have h1 := opStack_pop (t := { s with InfixOpTop := s.InfixOpTop - 2 }) hops rfl rfl rfl
    exact opStack_pop h1 (by show s.InfixOpTop - 4 = s.InfixOpTop - 2 - 2; ring) rfl rfl
  have hlenfl : ((pre ++ args).flatten.length : Int)
      = (pre.flatten.length : Int) + (args.flatten.length : Int) := by
    simp [List.flatten_append]
  have hflle : args.flatten.length ≤ (pre ++ args).flatten.length := by
    simp [List.flatten_append]
  constructor
  · intro hbad
    refine ⟨{ rplError E E.ERR_BADARGCOUNT s.g with LAMTop := s.g.LAMTopSaved }, ?_, rfl, ?_⟩
    · unfold closeBracket
      simp only [e0, e1, hcount]
      rw [if_pos ⟨hgt, hfun⟩, if_pos hbad]
      rfl
    · show s.g.Exceptions ||| E.EX_ERRORCODE = E.EX_ERRORCODE
      rw [he.noerr]; simp
  · intro hok
    constructor
    · intro hne
      obtain ⟨m, hm1, hm2⟩ := engine_apply (n := args.length) hlaw he1 rfl
        (by show s.g.CompileEnd + 2 < s.g.TempObSize; omega) (by omega)
      refine ⟨_, ?_, hm2⟩
      unfold closeBracket
      simp only [e0, e1, e2, hcount]
      rw [if_pos ⟨hgt, hfun⟩, if_neg hok, if_neg hne]
      have hm1b : rplInfixApply E f.toNat args.length s.g = _ := hm1
      rw [hm1b]
    · intro hfe before name hpre
      subst hpre
      have hname : IsObj E name := hall name (by simp)
      have hnl : name.length ≤ (before ++ [name] ++ args).flatten.length := by
        simp [List.flatten_append]; omega
      obtain ⟨m, hm1, hm2, hm3⟩ := @rplRotArgs_spec E s.g (h + 1) (args.length + 1) before args
        name (by rw [he.header])
        (by rw [he.cursor]; simp [List.flatten_append])
        (fun x hx => hall x (by simpa [List.append_assoc] using hx))
        (by have := he.stream; simpa [List.append_assoc] using this)
        rfl (by omega)
      have he2 : Engine E { s with g := { s.g with mem := m }, InfixOpTop := s.InfixOpTop - 4 }
          h (before ++ (args ++ [name])) (below ++ [(f, fi)]) := by
        refine ⟨he.header, ?_, ?_, ?_, he1.ops, he.noerr⟩
        · show s.g.CompileEnd = _
          rw [he.cursor]; simp [List.flatten_append]; ring
        · intro x hx
          apply hall x
          simp only [List.mem_append, List.mem_singleton] at hx ⊢
          tauto
        · show Holds m (h + 1) (before ++ (args ++ [name])).flatten
          simpa [List.append_assoc] using hm2
      obtain ⟨m2, hn1, hn2⟩ := engine_apply (n := args.length + 1) hlaw he2 (by simp)
        (by show s.g.CompileEnd + 2 < s.g.TempObSize; omega)
        (by have : (args ++ [name]).flatten.length ≤ (before ++ [name] ++ args).flatten.length := by
              simp [List.flatten_append]; omega
            omega)
      rw [hfe, toNat_natCast_int] at hn1 hn2
      refine ⟨_, ?_, hn2⟩
      unfold closeBracket
      simp only [e0, e1, e2, hcount]
      rw [if_pos ⟨hgt, hfun⟩, if_neg hok, if_pos hfe, hm1]
      simp only [e2, hfe, toNat_natCast_int]
      have hn1b : rplInfixApply E E.CMD_OVR_FUNCEVAL (args.length + 1) { s.g with mem := m }
          = _ := hn1
      rw [hn1b]

/-! ## The end of an infix expression -/
theorem infixFlushEnd_empty (E : Env) (fuel : Nat) {s : St} (h : OpStack s []) :
    infixFlushEnd E fuel s = Flow.next s := by
  have h1 : ¬ s.InfixOpTop > s.g.ValidateTop := by
    have := h.1; simp at this; omega
  cases fuel with
  | zero => rfl
  | succ f => simp only [infixFlushEnd, if_neg h1]

theorem infixFlushEnd_marker (E : Env) (fuel : Nat) {s : St} {ops : List (Int × Int)}
    {O mi : Int} (h : OpStack s (ops ++ [(O, mi)])) (hkind : E.TI_TYPE mi = E.TITYPE_OPENBRACKET) :
    infixFlushEnd E (fuel + 1) s = return0 (rplError E E.ERR_MISSINGBRACKET s.g) := by
  obtain ⟨h1, h2, h3, h4⟩ := opStack_top h
  simp only [infixFlushEnd, if_pos h1, h3, hkind, if_true]

theorem skip_ne_cursor {E : Env} {u : St} {h : Int} {objs : List (List Nat)}
    (he : Engine E u h objs []) (hlen : objs.length ≠ 1) :
    rplSkipOb E u.g.mem (u.g.cells (u.g.ValidateTop - 1) + 1) ≠ u.g.CompileEnd := by
  rw [he.header, he.cursor]
  cases objs with
  | nil =>
    have := rplSkipOb_gt E u.g.mem (h + 1)
    simp only [List.flatten_nil, List.length_nil, Nat.cast_zero, add_zero]
    omega
  | cons o1 rest =>
    cases rest with
    | nil => simp at hlen
    | cons o2 rest2 =>
      have ho1 : IsObj E o1 := he.wf o1 (by simp)
      have ho2 : IsObj E o2 := he.wf o2 (by simp)
      have hh := he.stream
      simp only [List.flatten_cons] at hh
      rw [rplSkipOb_of_holds ho1 (holds_append.mp hh).1]
      have := isObj_length_pos ho2
      simp only [List.flatten_cons, List.length_append]
      push_cast; omega

/-- C6 (end of an infix expression), as amended: on `END_CONSTRUCT_INFIX` in infix
mode `rplCompile` applies the operators left on the operator stack from the top down;
if one of them finds too few objects it fails with the `ERR_BADARGCOUNT` of
`rplInfixApply`; if it reaches an open-bracket marker it fails with
`ERR_MISSINGBRACKET`; when the stack is flushed it fails with `ERR_SYNTAXERROR` unless
exactly one object spans from the word after the header of the symbolic to the
cursor; only then does it leave infix mode and close the construct. -/
theorem end_of_infix_expression (E : Env) (bound : Nat) (hlaw : SymbLaws E bound)
    (s : St) (h : Int) (objs : List (List Nat)) (above base : List (Int × Int))
    (he : Engine E s h objs (base ++ above.reverse)) (hmode : s.infixmode = true)
    (hopen : s.g.ValidateTop > s.g.ValidateBottom)
    (hab : ∀ x ∈ above, E.TI_TYPE x.2 ≠ E.TITYPE_OPENBRACKET)
    (hroom : s.g.CompileEnd + 2 * (above.length : Int) < s.g.TempObSize)
    (hsz : objs.flatten.length + 2 * above.length < bound) :
    (applyOps E above objs = none →
      ∃ g : Globals, endConstructInfix E s = Flow.ret none g
        ∧ g.ErrorCode = E.ERR_BADARGCOUNT ∧ g.Exceptions = E.EX_ERRORCODE)
    ∧ (∀ objs2 : List (List Nat), applyOps E above objs = some objs2 →
      (∀ (below : List (Int × Int)) (O mi : Int), base = below ++ [(O, mi)] →
          E.TI_TYPE mi = E.TITYPE_OPENBRACKET →
          ∃ g : Globals, endConstructInfix E s = Flow.ret none g
            ∧ g.ErrorCode = E.ERR_MISSINGBRACKET ∧ g.Exceptions = E.EX_ERRORCODE)
      ∧ (base = [] →
          (objs2.length ≠ 1 →
            ∃ g : Globals, endConstructInfix E s = Flow.ret none g
              ∧ g.ErrorCode = E.ERR_SYNTAXERROR ∧ g.Exceptions = E.EX_ERRORCODE)
          ∧ (∀ x : List Nat, objs2 = [x] →
            ∃ t : St, endConstructInfix E s = Flow.next t
              ∧ t.infixmode = false
              ∧ t.g.ValidateTop = s.g.ValidateTop - 1
              ∧ t.g.CompileEnd = h + 1 + (x.length : Int)
              ∧ segment t.g.mem (h + 1) x.length = x
              ∧ t.g.Exceptions = 0))) := by
  have hfuel : (s.InfixOpTop - s.g.ValidateTop).toNat = 2 * base.length + above.length
      + above.length := by
    have := he.ops.1
    rw [this]
    simp only [List.length_append, List.length_reverse]
    have e : s.g.ValidateTop + 2 * ((base.length + above.length : Nat) : Int) - s.g.ValidateTop
        = ((2 * base.length + above.length + above.length : Nat) : Int) := by push_cast; ring
    rw [e, Int.toNat_natCast]
  have hpop := pop_run hlaw h (infixFlushEnd E)
    (fun fuel s ops o t h1 h2 => infixFlushEnd_step E fuel h1 h2) base
    (2 * base.length + above.length) above s objs he hab hroom hsz
  unfold PopOutcome at hpop
  constructor
  · intro hnone
    rw [hnone] at hpop
    obtain ⟨g, hg1, hg2, hg3⟩ := hpop
    refine ⟨g, ?_, hg2, hg3⟩
    unfold endConstructInfix
    rw [if_pos hmode, hfuel, hg1]
    rfl
  · intro objs2 hsome
    rw [hsome] at hpop
    obtain ⟨u, hu1, hu2, hu3, hu4, hu5⟩ := hpop
    have hex : u.g.Exceptions ||| E.EX_ERRORCODE = E.EX_ERRORCODE := by
      rw [hu2.noerr]; simp
    constructor
    · intro below O mi hb hmi
      subst hb
      have hfe : 2 * (below ++ [(O, mi)]).length + above.length
          = 2 * below.length + 1 + above.length + 1 := by
        simp only [List.length_append, List.length_singleton]; omega
      refine ⟨{ rplError E E.ERR_MISSINGBRACKET u.g with LAMTop := u.g.LAMTopSaved }, ?_, rfl,
        hex⟩
      unfold endConstructInfix
      rw [if_pos hmode, hfuel, hu1, hfe, infixFlushEnd_marker E _ hu2.ops hmi]
      rfl
    · intro hb
      subst hb
      have hrun : infixFlushEnd E (s.InfixOpTop - s.g.ValidateTop).toNat s = Flow.next u := by
        rw [hfuel, hu1, infixFlushEnd_empty E _ hu2.ops]
      constructor
      · intro hlen
        refine ⟨{ rplError E E.ERR_SYNTAXERROR u.g with LAMTop := u.g.LAMTopSaved }, ?_, rfl,
          hex⟩
        unfold endConstructInfix
        rw [if_pos hmode, hrun, bind_next, if_pos (skip_ne_cursor hu2 hlen)]
        rfl
      · intro x hx
        subst hx
        have he0 : Engine E s h objs above.reverse := by simpa using he
        obtain ⟨t, ht1, ht2, ht3, ht4, ht5, ht6⟩ := @endConstructInfix_spec E bound hlaw h s objs
          x above he0 hmode hopen hab hsome hroom hsz
        exact ⟨t, ht1, ht4, ht5, ht2, ht3, ht6⟩

/-! ## Unary minus and plus -/
theorem disambiguate_sub (E : Env) (hu : UnaryLaws E) (probe prev : Int) :
    disambiguate E E.CMD_OVR_SUB probe prev
      = if unaryContext E prev = true then (E.CMD_OVR_UMINUS, unaryInfo E)
        else (E.CMD_OVR_SUB, probe) := by
  unfold disambiguate unaryInfo
  by_cases hc : unaryContext E prev = true
  · simp [hc, hu.uminus_ne_add]
  · simp [hc]

theorem disambiguate_add (E : Env) (hu : UnaryLaws E) (probe prev : Int) :
    disambiguate E E.CMD_OVR_ADD probe prev
      = if unaryContext E prev = true then (E.CMD_OVR_UPLUS, unaryInfo E)
        else (E.CMD_OVR_ADD, probe) := by
  unfold disambiguate unaryInfo
  have h := hu.sub_ne_add
  by_cases hc : unaryContext E prev = true
  · simp [hc, h.symm]
  · simp [hc]

theorem unaryContext_iff (E : Env) (prev : Int) :
    unaryContext E prev = true ↔
      (E.TI_TYPE prev = 0 ∨ E.TI_TYPE prev = E.TITYPE_BINARYOP_LEFT
        ∨ E.TI_TYPE prev = E.TITYPE_BINARYOP_RIGHT ∨ E.TI_TYPE prev = E.TITYPE_CASBINARYOP_LEFT
        ∨ E.TI_TYPE prev = E.TITYPE_CASBINARYOP_RIGHT ∨ E.TI_TYPE prev = E.TITYPE_OPENBRACKET
        ∨ E.TI_TYPE prev = E.TITYPE_PREFIXOP ∨ E.TI_TYPE prev = E.TITYPE_COMMA) := by
  unfold unaryContext
  simp only [Bool.or_eq_true, decide_eq_true_eq, or_assoc]

/-- An operator token that the compiler turned into the prefix operator `u`: it is
pushed without any flush. -/
theorem feed_unary {E : Env} (hk : KindLaws E) (hu : UnaryLaws E) {s : St} {h : Int}
    {objs : List (List Nat)} {ops : List (Int × Int)} (he : Engine E s h objs ops)
    (w u : Nat) (info : Int) (hkind : E.TI_TYPE info > E.TITYPE_OPERATORS)
    (hd : disambiguate E w info s.previous_tokeninfo = (u, unaryInfo E))
    (hroom : s.InfixOpTop + 1 - s.g.RStk < s.g.RStkSize) :
    ∃ t : St, feed E [w] info s = Flow.next t
      ∧ Engine E t h objs (ops ++ [((u : Int), unaryInfo E)])
      ∧ SameFrame s t ∧ t.previous_tokeninfo = unaryInfo E := by
  have hlen : (operatorKinds E).length = 11 := rfl
  have n1 : E.TITYPE_PREFIXOP ≠ E.TITYPE_OPENBRACKET :=
    kinds_ne hk 6 4 (by omega) (by omega) (by omega)
  have n2 : E.TITYPE_PREFIXOP ≠ E.TITYPE_CLOSEBRACKET :=
    kinds_ne hk 6 5 (by omega) (by omega) (by omega)
  have n3 : E.TITYPE_PREFIXOP ≠ E.TITYPE_COMMA :=
    kinds_ne hk 6 7 (by omega) (by omega) (by omega)
  have hki : E.TI_TYPE (unaryInfo E) = E.TITYPE_PREFIXOP := hu.kind
  have he3 := engine_tookOperator he w (unaryInfo E)
  obtain ⟨hp1, hp2⟩ := engine_push he3 u hroom
  refine ⟨{ pushOp u { tookOperator w s with probe_tokeninfo := unaryInfo E } with
      previous_tokeninfo := unaryInfo E }, ?_, ?_, ⟨rfl, rfl, rfl, rfl, rfl, rfl, rfl⟩, rfl⟩
  · rw [feed_operator E s w info hkind, hd]
    simp only []
    rw [if_neg (by rw [hki]; exact n1), if_neg (by rw [hki]; tauto)]
    unfold pushOperator
    rw [if_neg (by simp only [ne_eq, not_not]; exact hki), bind_next, hp1, bind_next]
    rfl
  · exact ⟨hp2.header, hp2.cursor, hp2.wf, hp2.stream, hp2.ops, hp2.noerr⟩

/-- An operator token that the compiler turns into the prefix operator `u`, in any
state of the compiler with room on the operator stack: the pair of `u` and the
token-info of a unary operator is pushed, and nothing is flushed. -/
theorem feed_sign {E : Env} (hk : KindLaws E) (hu : UnaryLaws E) (s : St)
    (w u : Nat) (info : Int) (hkind : E.TI_TYPE info > E.TITYPE_OPERATORS)
    (hd : disambiguate E w info s.previous_tokeninfo = (u, unaryInfo E))
    (hroom : s.InfixOpTop + 1 - s.g.RStk < s.g.RStkSize) (hex : s.g.Exceptions = 0) :
    feed E [w] info s = Flow.next { pushOp u { tookOperator w s with probe_tokeninfo := unaryInfo E }
      with previous_tokeninfo := unaryInfo E } := by
  have hlen : (operatorKinds E).length = 11 := rfl
  have n1 : E.TITYPE_PREFIXOP ≠ E.TITYPE_OPENBRACKET :=
    kinds_ne hk 6 4 (by omega) (by omega) (by omega)
  have n2 : E.TITYPE_PREFIXOP ≠ E.TITYPE_CLOSEBRACKET :=
    kinds_ne hk 6 5 (by omega) (by omega) (by omega)
  have n3 : E.TITYPE_PREFIXOP ≠ E.TITYPE_COMMA :=
    kinds_ne hk 6 7 (by omega) (by omega) (by omega)
  have hki : E.TI_TYPE (unaryInfo E) = E.TITYPE_PREFIXOP := hu.kind
  rw [feed_operator E s w info hkind, hd]
  simp only []
  rw [if_neg (by rw [hki]; exact n1), if_neg (by rw [hki]; tauto)]
  unfold pushOperator
  rw [if_neg (by simp only [ne_eq, not_not]; exact hki), bind_next]
  unfold reserveOps
  simp only [if_neg (show ¬ ({ tookOperator w s with probe_tokeninfo := unaryInfo E } : St).g.RStkSize
    ≤ ({ tookOperator w s with probe_tokeninfo := unaryInfo E } : St).InfixOpTop + 1
      - ({ tookOperator w s with probe_tokeninfo := unaryInfo E } : St).g.RStk from by
        show ¬ s.g.RStkSize ≤ s.InfixOpTop + 1 - s.g.RStk
        omega)]
  rw [if_neg (by show ¬ s.g.Exceptions ≠ 0; rw [hex]; simp)]
  rfl

/-- A sign after which the compiler left the opcode and the token-info alone, in any
state of the compiler: the token goes the way of every other operator, a flush by
precedence and a push. -/
theorem feed_sign_binary {E : Env} (hk : KindLaws E) (s : St) (w : Nat) (info : Int)
    (hb : IsBinary E info) (hprev : unaryContext E s.previous_tokeninfo = false) :
    feed E [w] info s
      = (pushOperator E w { tookOperator w s with probe_tokeninfo := info }).bind fun s4 =>
          Flow.next { s4 with previous_tokeninfo := s4.probe_tokeninfo } := by
  obtain ⟨k1, k2, k3, k4, k5⟩ := isBinary_kind hk hb
  rw [feed_operator E s w info k1, disambiguate_binary E w info _ hprev]
  simp only []
  rw [if_neg k2, if_neg (by tauto)]

/-- C2 (unary disambiguation): in the operator branch of infix mode an opcode
`CMD_OVR_SUB` (resp. `CMD_OVR_ADD`) becomes the prefix operator `CMD_OVR_UMINUS`
(resp. `CMD_OVR_UPLUS`) with the token-info `MKTOKENINFO(1, TITYPE_PREFIXOP, 1, 4)`
exactly when the previous token-info has one of the kinds that leave no left
operand: kind 0 (no token yet, the start of the expression), a binary operator, an
open bracket, a prefix operator or a comma; after an operand nothing changes.  This
holds of the two `switch` statements (`disambiguate`, `unaryContext`) and of the
engine in every state `s1` of the compiler: when the kind of `s1.previous_tokeninfo`
is one of those, the token `-` (resp. `+`) leaves the pair of `CMD_OVR_UMINUS`
(resp. `CMD_OVR_UPLUS`) and the unary token-info on top of the operator stack,
nothing being flushed and the stream unchanged, and that token-info is remembered
as the previous one; when it is not, the token goes the way of every binary
operator with its own opcode and token-info, a flush by precedence and a push.  So
`a - b` compiles to the node `SUB(a,b)`, `- b` at the start of the expression to the
node `UMINUS(b)` (and the same for `+`), and `a op1 - b`, after any binary operator
`op1`, to the node `op1(a, UMINUS(b))`. -/
theorem unary_disambiguation (E : Env) (bound : Nat) (hk : KindLaws E) (hu : UnaryLaws E)
    (hlaw : SymbLaws E bound) (hzero : E.TI_TYPE 0 = 0)
    (s : St) (h : Int) (a b : List Nat) (ia ib i : Int)
    (hstart : Engine E s h [] []) (hmode : s.infixmode = true)
    (hprev : s.previous_tokeninfo = 0)
    (hopen : s.g.ValidateTop > s.g.ValidateBottom)
    (ha : IsObj E a) (hb : IsObj E b) (hia : IsOperand E ia) (hib : IsOperand E ib)
    (hi : IsBinary E i)
    (hsz : a.length + b.length + 2 < bound)
    (hstore : h + 1 + ((a.length + b.length + 2 : Nat) : Int) < s.g.TempObSize)
    (hstack : s.g.ValidateTop + 1 - s.g.RStk < s.g.RStkSize) :
    (∀ probe prev : Int, disambiguate E E.CMD_OVR_SUB probe prev
        = if unaryContext E prev = true then (E.CMD_OVR_UMINUS, E.MKTOKENINFO 1 E.TITYPE_PREFIXOP 1 4)
          else (E.CMD_OVR_SUB, probe))
    ∧ (∀ probe prev : Int, disambiguate E E.CMD_OVR_ADD probe prev
        = if unaryContext E prev = true then (E.CMD_OVR_UPLUS, E.MKTOKENINFO 1 E.TITYPE_PREFIXOP 1 4)
          else (E.CMD_OVR_ADD, probe))
    ∧ (∀ prev : Int, unaryContext E prev = true ↔
        (E.TI_TYPE prev = 0 ∨ E.TI_TYPE prev = E.TITYPE_BINARYOP_LEFT
          ∨ E.TI_TYPE prev = E.TITYPE_BINARYOP_RIGHT ∨ E.TI_TYPE prev = E.TITYPE_CASBINARYOP_LEFT
          ∨ E.TI_TYPE prev = E.TITYPE_CASBINARYOP_RIGHT ∨ E.TI_TYPE prev = E.TITYPE_OPENBRACKET
          ∨ E.TI_TYPE prev = E.TITYPE_PREFIXOP ∨ E.TI_TYPE prev = E.TITYPE_COMMA))
    ∧ (∀ prev : Int, IsOperand E prev → unaryContext E prev = false)
    ∧ (∀ op : Nat, op = E.CMD_OVR_SUB ∨ op = E.CMD_OVR_ADD →
        ∃ t : St, compileInfix2 E a b ia ib op i s = Flow.next t
          ∧ segment t.g.mem (h + 1) (a.length + b.length + 2) = node E op [a, b])
    ∧ (∃ t : St, compileInfix1 E b ib E.CMD_OVR_SUB i s = Flow.next t
          ∧ segment t.g.mem (h + 1) (b.length + 2) = node E E.CMD_OVR_UMINUS [b])
    ∧ (∃ t : St, compileInfix1 E b ib E.CMD_OVR_ADD i s = Flow.next t
          ∧ segment t.g.mem (h + 1) (b.length + 2) = node E E.CMD_OVR_UPLUS [b])
    ∧ (∀ (s1 : St) (op u : Nat) (j : Int),
        (op = E.CMD_OVR_SUB ∧ u = E.CMD_OVR_UMINUS) ∨ (op = E.CMD_OVR_ADD ∧ u = E.CMD_OVR_UPLUS) →
        E.TI_TYPE j > E.TITYPE_OPERATORS →
        unaryContext E s1.previous_tokeninfo = true →
        s1.InfixOpTop + 1 - s1.g.RStk < s1.g.RStkSize → s1.g.Exceptions = 0 →
        feed E [op] j s1
          = Flow.next { pushOp u { tookOperator op s1 with probe_tokeninfo := unaryInfo E } with
              previous_tokeninfo := unaryInfo E }
        ∧ ∀ (h1 : Int) (objs : List (List Nat)) (ops : List (Int × Int)),
            Engine E s1 h1 objs ops →
            Engine E { pushOp u { tookOperator op s1 with probe_tokeninfo := unaryInfo E } with
              previous_tokeninfo := unaryInfo E } h1 objs (ops ++ [((u : Int), unaryInfo E)]))
    ∧ (∀ (s1 : St) (op : Nat) (j : Int), op = E.CMD_OVR_SUB ∨ op = E.CMD_OVR_ADD →
        IsBinary E j → unaryContext E s1.previous_tokeninfo = false →
        feed E [op] j s1
          = ((pushOperator E op { tookOperator op s1 with probe_tokeninfo := j }).bind fun s4 =>
              Flow.next { s4 with previous_tokeninfo := s4.probe_tokeninfo })
        ∧ ∀ (h1 : Int) (objs : List (List Nat)) (ops : List (Int × Int)),
            Engine E s1 h1 objs ops → FlushStops E ops j →
            s1.InfixOpTop + 1 - s1.g.RStk < s1.g.RStkSize →
            ∃ t : St, feed E [op] j s1 = Flow.next t
              ∧ Engine E t h1 objs (ops ++ [((op : Int), j)]) ∧ t.previous_tokeninfo = j)
    ∧ (∀ (op1 : Nat) (i1 : Int) (op u : Nat), IsBinary E i1 →
        (op = E.CMD_OVR_SUB ∧ u = E.CMD_OVR_UMINUS) ∨ (op = E.CMD_OVR_ADD ∧ u = E.CMD_OVR_UPLUS) →
        a.length + b.length + 4 < bound →
        h + 1 + ((a.length + b.length + 4 : Nat) : Int) < s.g.TempObSize →
        s.g.ValidateTop + 3 - s.g.RStk < s.g.RStkSize →
        ∃ t : St, compileInfixSigned E a b ia ib op1 i1 op i s = Flow.next t
          ∧ segment t.g.mem (h + 1) (a.length + b.length + 4)
              = node E op1 [a, node E u [b]]) := by
  have hopk : ∀ j : Int, IsOperand E j → ¬ E.TI_TYPE j > E.TITYPE_OPERATORS := fun j hj => by
    have := hj.2; omega
  obtain ⟨k1, k2, _⟩ := isBinary_kind hk hi
  have hiot0 : s.InfixOpTop = s.g.ValidateTop := by have := hstart.ops.1; simpa using this
  have hctx0 : unaryContext E s.previous_tokeninfo = true := by
    rw [hprev, unaryContext_iff]; exact Or.inl hzero
  have hunk : E.TI_TYPE (unaryInfo E) ≠ E.TITYPE_OPENBRACKET := by
    have hlen : (operatorKinds E).length = 11 := rfl
    rw [show E.TI_TYPE (unaryInfo E) = E.TITYPE_PREFIXOP from hu.kind]
    exact kinds_ne hk 6 4 (by omega) (by omega) (by omega)
  -- the prefix scenario, for an operator `w` turned into `u`
  have hunary : ∀ w u : Nat, disambiguate E w i s.previous_tokeninfo = (u, unaryInfo E) →
      ∃ t : St, compileInfix1 E b ib w i s = Flow.next t
        ∧ segment t.g.mem (h + 1) (b.length + 2) = node E u [b] := by
    intro w u hd
    obtain ⟨s1, e1, he1, f1, p1⟩ := feed_unary hk hu hstart w u i k1 hd (by rw [hiot0]; omega)
    obtain ⟨s2, e2, he2, f2, p2⟩ := feed_operand he1 b ib hb (hopk ib hib)
    have f02 := sameFrame_trans f1 f2
    have he2b : Engine E s2 h [b] [((u : Int), unaryInfo E)].reverse := by simpa using he2
    obtain ⟨t, et, ht1, ht2, _, _, _⟩ := @endConstructInfix_spec E bound hlaw h s2 [b]
      (node E u [b]) [((u : Int), unaryInfo E)] he2b (by rw [f02.mode]; exact hmode)
      (by rw [f02.vtop, f02.vbottom]; exact hopen)
      (by intro y hy; simp at hy; subst hy; exact hunk)
      (by have : E.TI_NARGS (unaryInfo E) = 1 := hu.nargs
          simp [applyOps, this, toNat_natCast_int])
      (by have := he2b.cursor
          rw [this, f02.tsize]
          simp at this ⊢
          push_cast at hstore; omega)
      (by simp; omega)
    refine ⟨t, ?_, ?_⟩
    · unfold compileInfix1
      rw [e1, bind_next, e2, bind_next, et]
    · have hl : (node E u [b]).length = b.length + 2 := by simp [node]
      rw [← hl, ht2]
  refine ⟨fun probe prev => disambiguate_sub E hu probe prev,
    fun probe prev => disambiguate_add E hu probe prev,
    fun prev => unaryContext_iff E prev,
    fun prev hp => unaryContext_operand hk hp, ?_, ?_, ?_, ?_, ?_, ?_⟩
  · intro op _
    obtain ⟨s1, e1, he1, f1, p1⟩ := feed_operand hstart a ia ha (hopk ia hia)
    have hiot1 : s1.InfixOpTop = s1.g.ValidateTop := by have := he1.ops.1; simpa using this
    obtain ⟨s2, e2, he2, f2, p2⟩ := feed_binary_push hk he1 op i hi
      (by rw [p1]; exact unaryContext_operand hk hia) (Or.inl rfl)
      (by rw [hiot1, f1.vtop, f1.rstk, f1.rsize]; omega)
    obtain ⟨s3, e3, he3, f3, p3⟩ := feed_operand he2 b ib hb (hopk ib hib)
    have f03 : SameFrame s s3 := sameFrame_trans (sameFrame_trans f1 f2) f3
    have he3b : Engine E s3 h [a, b] [((op : Int), i)].reverse := by simpa using he3
    obtain ⟨t, et, ht1, ht2, _, _, _⟩ := @endConstructInfix_spec E bound hlaw h s3 [a, b]
      (node E op [a, b]) [((op : Int), i)] he3b (by rw [f03.mode]; exact hmode)
      (by rw [f03.vtop, f03.vbottom]; exact hopen)
      (by intro y hy; simp at hy; subst hy; exact k2)
      (by simp [applyOps, hi.2, toNat_natCast_int])
      (by have := he3b.cursor
          rw [this, f03.tsize]
          simp at this ⊢
          push_cast at hstore; omega)
      (by simp; omega)
    refine ⟨t, ?_, ?_⟩
    · unfold compileInfix2
      rw [e1, bind_next, e2, bind_next, e3, bind_next, et]
    · have hl : (node E op [a, b]).length = a.length + b.length + 2 := by simp [node]
      rw [← hl, ht2]
  · apply hunary
    rw [disambiguate_sub E hu, if_pos hctx0]
  · apply hunary
    rw [disambiguate_add E hu, if_pos hctx0]
  · intro s1 op u j hop hj hctx hroom hex
    have hd : disambiguate E op j s1.previous_tokeninfo = (u, unaryInfo E) := by
      rcases hop with ⟨e1, e2⟩ | ⟨e1, e2⟩
      · rw [e1, e2, disambiguate_sub E hu, if_pos hctx]
      · rw [e1, e2, disambiguate_add E hu, if_pos hctx]
    have hfeed := feed_sign hk hu s1 op u j hj hd hroom hex
    refine ⟨hfeed, ?_⟩
    intro h1 objs ops he
    obtain ⟨t, e1, he1, _, _⟩ := feed_unary hk hu he op u j hj hd hroom
    rw [hfeed] at e1
    cases e1
    exact he1
  · intro s1 op j _ hj hctx
    refine ⟨feed_sign_binary hk s1 op j hj hctx, ?_⟩
    intro h1 objs ops he hstop hroom
    obtain ⟨t, e1, he1, _, p1⟩ := feed_binary_push hk he op j hj hctx hstop hroom
    exact ⟨t, e1, he1, p1⟩
  · intro op1 i1 op u hi1 hop hsz4 hstore4 hstack3
    obtain ⟨s1, e1, he1, f1, p1⟩ := feed_operand hstart a ia ha (hopk ia hia)
    have hiot1 : s1.InfixOpTop = s1.g.ValidateTop := by have := he1.ops.1; simpa using this
    obtain ⟨s2, e2, he2, f2, p2⟩ := feed_binary_push hk he1 op1 i1 hi1
      (by rw [p1]; exact unaryContext_operand hk hia) (Or.inl rfl)
      (by rw [hiot1, f1.vtop, f1.rstk, f1.rsize]; omega)
    have hiot2 : s2.InfixOpTop = s2.g.ValidateTop + 2 := by have := he2.ops.1; simpa using this
    have hctx : unaryContext E s2.previous_tokeninfo = true := by
      rw [p2, unaryContext_iff]
      rcases hi1.1 with e | e | e | e <;> simp [e]
    have hd : disambiguate E op i s2.previous_tokeninfo = (u, unaryInfo E) := by
      rcases hop with ⟨e1, e2⟩ | ⟨e1, e2⟩
      · rw [e1, e2, disambiguate_sub E hu, if_pos hctx]
      · rw [e1, e2, disambiguate_add E hu, if_pos hctx]
    have f02 := sameFrame_trans f1 f2
    obtain ⟨s3, e3, he3, f3, p3⟩ := feed_unary hk hu he2 op u i k1 hd
      (by rw [hiot2, f02.vtop, f02.rstk, f02.rsize]; omega)
    obtain ⟨s4, e4, he4, f4, p4⟩ := feed_operand he3 b ib hb (hopk ib hib)
    have f04 : SameFrame s s4 := sameFrame_trans (sameFrame_trans f02 f3) f4
    have hk1 : E.TI_TYPE i1 ≠ E.TITYPE_OPENBRACKET := (isBinary_kind hk hi1).2.1
    have he4b : Engine E s4 h [a, b] [((u : Int), unaryInfo E), ((op1 : Int), i1)].reverse := by
      simpa using he4
    obtain ⟨t, et, ht1, ht2, _, _, _⟩ := @endConstructInfix_spec E bound hlaw h s4 [a, b]
      (node E op1 [a, node E u [b]]) [((u : Int), unaryInfo E), ((op1 : Int), i1)] he4b
      (by rw [f04.mode]; exact hmode)
      (by rw [f04.vtop, f04.vbottom]; exact hopen)
      (by intro y hy
          simp only [List.mem_cons, List.mem_singleton, List.not_mem_nil, or_false] at hy
          rcases hy with rfl | rfl
          · exact hunk
          · exact hk1)
      (by have n1 : E.TI_NARGS (unaryInfo E) = 1 := hu.nargs
          simp [applyOps, n1, hi1.2, toNat_natCast_int])
      (by have := he4b.cursor
          rw [this, f04.tsize]
          simp at this ⊢
          push_cast at hstore4; omega)
      (by simp; omega)
    refine ⟨t, ?_, ?_⟩
    · unfold compileInfixSigned
      rw [e1, bind_next, e2, bind_next, e3, bind_next, e4, bind_next, et]
    · have hl : (node E op1 [a, node E u [b]]).length = a.length + b.length + 4 := by
        simp [node]; omega
      rw [← hl, ht2]

/-! ## The library scan in infix mode -/
theorem dispatch_notmine (E : Env) (s : St) (h : s.g.RetNum = RetCode.ERR_NOTMINE) :
    dispatch E s = Flow.next s := by
  unfold dispatch; rw [h]

theorem dispatch_tokeninfo (E : Env) (s : St) (w : Int) (h : s.g.RetNum = RetCode.OK_TOKENINFO w) :
    dispatch E s = if E.TI_LENGTH w > E.TI_LENGTH s.probe_tokeninfo then
        Flow.next { s with probe_libnum := s.libnum, probe_tokeninfo := w }
      else Flow.next s := by
  unfold dispatch; rw [h]

theorem handlerCall_retnum_probe (E : Env) (handler : LIBHANDLER) (libnum : Int) (s : St)
    (answer : RetCode) (hmode : s.infixmode = true)
    (hans : ∀ g : Globals, g.CurOpcode = E.MKOPCODE libnum E.OPCODE_PROBETOKEN →
      (handler g).RetNum = answer) :
    (handlerCall E handler libnum s).g.RetNum = answer := by
  unfold handlerCall
  simp only [hmode, if_true]
  exact hans _ rfl

theorem scanBody_probe {E : Env} {resp : Int → RetCode} (hf : ProbeFamily E resp) {s : St}
    {k : Int} (hk0 : 0 ≤ k) (hkm : k ≤ (E.MAXLIBNUMBER : Int)) (hi : ProbeInv E resp s k) :
    ∃ t : St, scanBody E s = Flow.next t ∧ ProbeInv E resp t (k - 1) := by
  obtain ⟨hmode, hforce, hcnt, hbest, hsel⟩ := hi
  have hsel2 : ∀ u : St, u.probe_libnum = s.probe_libnum → u.probe_tokeninfo = s.probe_tokeninfo →
      (u.probe_libnum = -1 ∧ E.TI_LENGTH u.probe_tokeninfo = 0)
      ∨ (k - 1 < u.probe_libnum ∧ Offers E resp u.probe_libnum u.probe_tokeninfo
        ∧ (∀ n w, u.probe_libnum < n → Offers E resp n w →
            E.TI_LENGTH w < E.TI_LENGTH u.probe_tokeninfo)
        ∧ 0 < E.TI_LENGTH u.probe_tokeninfo) := by
    intro u h1 h2
    rw [h1, h2]
    rcases hsel with h | ⟨ha, hb, hc⟩
    · exact Or.inl h
    · exact Or.inr ⟨by omega, hb, hc⟩
  unfold scanBody
  simp only [if_pos hforce, hcnt, rplGetNextLib]
  cases hh : E.rplGetLibHandler k with
  | none =>
    refine ⟨{ s with libnum := k, libcnt := k - 1 }, rfl, hmode, hforce, rfl, ?_, hsel2 _ rfl rfl⟩
    intro n w hn ho
    by_cases hnk : n = k
    · subst hnk
      have := ho.2.2.1
      rw [hh] at this
      simp at this
    · exact hbest n w (by omega) ho
  | some handler =>
    simp only []
    have hans := hf.1 k handler hh
    have hret := fun answer hans2 => handlerCall_retnum_probe E handler k
      { s with libnum := k, libcnt := k - 1 } answer hmode hans2
    rcases hf.2 k with hr | ⟨w, hr⟩
    · -- the library declines
      rw [hr] at hans
      rw [dispatch_notmine E _ (hret _ hans)]
      refine ⟨_, rfl, hmode, hforce, rfl, ?_, hsel2 _ rfl rfl⟩
      intro n w hn ho
      by_cases hnk : n = k
      · subst hnk
        have := ho.2.2.2
        rw [hr] at this
        cases this
      · exact hbest n w (by omega) ho
    · -- the library answers with the token-info `w`
      have hoff : Offers E resp k w := ⟨hk0, hkm, by rw [hh]; rfl, hr⟩
      rw [hr] at hans
      rw [dispatch_tokeninfo E _ w (hret _ hans)]
      by_cases hlen : E.TI_LENGTH w > E.TI_LENGTH s.probe_tokeninfo
      · have hlen2 : E.TI_LENGTH w > E.TI_LENGTH (handlerCall E handler k
            { s with libnum := k, libcnt := k - 1 }).probe_tokeninfo := hlen
        rw [if_pos hlen2]
        refine ⟨_, rfl, hmode, hforce, rfl, ?_, ?_⟩
        · intro n w2 hn ho
          show E.TI_LENGTH w2 ≤ E.TI_LENGTH w
          by_cases hnk : n = k
          · subst hnk
            have := ho.2.2.2
            rw [hr] at this
            cases this
            exact le_refl _
          · have := hbest n w2 (by omega) ho
            omega
        · refine Or.inr ⟨by show k - 1 < k; omega, hoff, ?_, by show 0 < E.TI_LENGTH w; omega⟩
          intro n w2 hn ho
          show E.TI_LENGTH w2 < E.TI_LENGTH w
          have := hbest n w2 hn ho
          omega
      · have hlen2 : ¬ E.TI_LENGTH w > E.TI_LENGTH (handlerCall E handler k
            { s with libnum := k, libcnt := k - 1 }).probe_tokeninfo := hlen
        rw [if_neg hlen2]
        refine ⟨_, rfl, hmode, hforce, rfl, ?_, hsel2 _ rfl rfl⟩
        intro n w2 hn ho
        by_cases hnk : n = k
        · subst hnk
          have := ho.2.2.2
          rw [hr] at this
          cases this
          show E.TI_LENGTH w ≤ E.TI_LENGTH s.probe_tokeninfo
          omega
        · exact hbest n w2 (by omega) ho

theorem scanLibs_probe {E : Env} {resp : Int → RetCode} (hf : ProbeFamily E resp) :
    ∀ (fuel : Nat) (s : St) (k : Int), k ≤ (E.MAXLIBNUMBER : Int) → k + 1 = (fuel : Int) →
      ProbeInv E resp s k →
      ∃ t : St, scanLibs E fuel s = Flow.next t ∧ ProbeInv E resp t (-1) := by
  intro fuel
  induction fuel with
  | zero =>
    intro s k _ hk hi
    have hk1 : k = -1 := by push_cast at hk; omega
    subst hk1
    exact ⟨s, rfl, hi⟩
  | succ f ih =>
    intro s k hkm hk hi
    have hk0 : 0 ≤ k := by push_cast at hk; omega
    obtain ⟨t, ht1, ht2⟩ := scanBody_probe hf hk0 hkm hi
    obtain ⟨u, hu1, hu2⟩ := ih t (k - 1) (by omega) (by push_cast at hk ⊢; omega) ht2
    refine ⟨u, ?_, hu2⟩
    simp only [scanLibs]
    rw [if_pos (by rw [hi.cnt]; exact hk0), ht1, bind_next, hu1]

/-- C3 (maximal munch), as amended: in infix mode, for every family of `PROBETOKEN`
responses in which each registered library answers a token-info value or `NOT_MINE`
and at least one token-info has a positive length, the scan ends without any library
having stopped it, and the library and token-info it selects are those of greatest
`TI_LENGTH` among all token-info responses, the highest library identifier being
kept among those of that length; the token is then cut at `utf8nskip` of that many
code points from the token start. -/
theorem maximal_munch (E : Env) (resp : Int → RetCode) (s : St)
    (hzero : E.TI_LENGTH 0 = 0) (hf : ProbeFamily E resp) (hs : ProbeStart E s)
    (hsome : ∃ n w, Offers E resp n w ∧ 0 < E.TI_LENGTH w) :
    ∃ t : St, scanLibs E (s.libcnt.toNat + 1) s = Flow.next t
      ∧ t.libcnt > EXIT_LOOP
      ∧ Offers E resp t.probe_libnum t.probe_tokeninfo
      ∧ (∀ n w, Offers E resp n w → E.TI_LENGTH w ≤ E.TI_LENGTH t.probe_tokeninfo)
      ∧ (∀ n w, t.probe_libnum < n → Offers E resp n w →
          E.TI_LENGTH w < E.TI_LENGTH t.probe_tokeninfo)
      ∧ afterScan E t = infixToken E t
      ∧ (cutToken E t).BlankStart
          = E.utf8nskip t.g.string t.g.TokenStart t.g.BlankStart (E.TI_LENGTH t.probe_tokeninfo)
      ∧ (cutToken E t).TokenStart = t.g.TokenStart := by
  obtain ⟨hmode, hforce, hcnt, hpl, hpt⟩ := hs
  have hinit : ProbeInv E resp s (E.MAXLIBNUMBER : Int) := by
    refine ⟨hmode, hforce, hcnt, ?_, Or.inl ⟨hpl, by rw [hpt]; exact hzero⟩⟩
    intro n w hn ho
    have := ho.2.1
    omega
  obtain ⟨t, ht1, ht2⟩ := scanLibs_probe hf (s.libcnt.toNat + 1) s (E.MAXLIBNUMBER : Int)
    (le_refl _) (by rw [hcnt]; simp) hinit
  obtain ⟨n0, w0, ho0, hpos⟩ := hsome
  have hbest : ∀ n w, Offers E resp n w → E.TI_LENGTH w ≤ E.TI_LENGTH t.probe_tokeninfo :=
    fun n w ho => ht2.best n w (by have := ho.1; omega) ho
  have hlen := hbest n0 w0 ho0
  rcases ht2.sel with ⟨_, h2⟩ | ⟨h1, h2, h3, _⟩
  · omega
  · refine ⟨t, ht1, by rw [ht2.cnt]; decide, h2, hbest, h3, ?_, rfl, rfl⟩
    unfold afterScan
    rw [if_pos (by rw [ht2.cnt]; decide), ht2.mode]
    simp only [if_true]
    rw [if_neg (by omega)]

/-! ## Every return inside the main loop is a flagged failure -/
theorem or_ne_zero_right (a b : Nat) (h : b ≠ 0) : a ||| b ≠ 0 := by
  intro e
  apply h
  apply Nat.eq_of_testBit_eq
  intro i
  have := congrArg (fun n => n.testBit i) e
  simp only [Nat.testBit_or, Nat.zero_testBit, Bool.or_eq_false_iff] at this
  rw [this.2]; simp

theorem rplError_flag {E : Env} (hE : E.EX_ERRORCODE ≠ 0) (c : Nat) (g : Globals) :
    (rplError E c g).Exceptions ≠ 0 :=
  or_ne_zero_right _ _ hE

theorem flagged_next {α : Type} (a : α) : Flagged (Flow.next a) := by
  intro v g h; cases h

theorem flagged_return0 {α : Type} {g : Globals} (h : g.Exceptions ≠ 0) :
    Flagged (return0 g : Flow α) := by
  intro v g1 e
  unfold return0 at e
  cases e
  exact ⟨rfl, h⟩

theorem flagged_raise {α : Type} {E : Env} (hE : E.EX_ERRORCODE ≠ 0) (c : Nat) (g : Globals) :
    Flagged (return0 (if g.Exceptions = 0 then rplError E c g else g) : Flow α) := by
  apply flagged_return0
  by_cases h : g.Exceptions = 0
  · rw [if_pos h]; exact rplError_flag hE c g
  · rw [if_neg h]; exact h

theorem flagged_bind {α β : Type} {f : Flow α} {k : α → Flow β} (hf : Flagged f)
    (hk : ∀ a, Flagged (k a)) : Flagged (f.bind k) := by
  cases f with
  | next a => exact hk a
  | ret v g =>
    intro v1 g1 e
    simp only [Flow.bind] at e
    cases e
    exact hf v g rfl

theorem rplInfixApply_false {E : Env} (hE : E.EX_ERRORCODE ≠ 0) {op nargs : Nat} {g g1 : Globals}
    (h : rplInfixApply E op nargs g = (false, g1)) : g1.Exceptions ≠ 0 := by
  rcases hfa : findArgsStart E g.mem (g.cells (g.ValidateTop - 1) + 1) nargs (some g.CompileEnd)
    with ⟨n, p⟩
  have hbad : (false, rplError E E.ERR_BADARGCOUNT g) = (false, g1) → g1.Exceptions ≠ 0 := by
    intro e; cases e; exact rplError_flag hE _ _
  cases n with
  | succ m => simp only [rplInfixApply, hfa] at h; exact hbad h
  | zero =>
    cases p with
    | none => simp only [rplInfixApply, hfa] at h; exact hbad h
    | some ptr =>
      simp only [rplInfixApply, hfa] at h
      generalize (if g.CompileEnd + 2 ≥ g.TempObSize then _ else _ : Globals) = g2 at h
      split at h
      · rename_i hc
        cases h
        exact hc.2
      · cases h

theorem rplRotArgs_false {E : Env} (hE : E.EX_ERRORCODE ≠ 0) {nargs : Nat} {g g1 : Globals}
    (h : rplRotArgs E nargs g = (false, g1)) : g1.Exceptions ≠ 0 := by
  rcases hfa : findArgsStart E g.mem (g.cells (g.ValidateTop - 1) + 1) nargs (some g.CompileEnd)
    with ⟨n, p⟩
  have hbad : (false, rplError E E.ERR_BADARGCOUNT g) = (false, g1) → g1.Exceptions ≠ 0 := by
    intro e; cases e; exact rplError_flag hE _ _
  cases n with
  | succ m => simp only [rplRotArgs, hfa] at h; exact hbad h
  | zero =>
    cases p with
    | none => simp only [rplRotArgs, hfa] at h; exact hbad h
    | some ptr =>
      simp only [rplRotArgs, hfa] at h
      generalize (if g.CompileEnd + rplObjSize E g.mem ptr ≥ g.TempObSize then _ else _ : Globals)
        = g2 at h
      split at h
      · rename_i hc
        cases h
        exact hc.2
      · cases h
theorem flagged_pushConstruct (E : Env) (g : Globals) : Flagged (pushConstruct E g) := by
  unfold pushConstruct
  dsimp only
  generalize (if g.RStkSize ≤ g.ValidateTop - g.RStk then _ else g) = g1
  split
  · rename_i hc
    exact flagged_return0 hc
  · exact flagged_next _

theorem flagged_endConstruct {E : Env} (hE : E.EX_ERRORCODE ≠ 0) (s : St) :
    Flagged (endConstruct E s) := by
  unfold endConstruct
  dsimp only
  split
  · exact flagged_return0 (rplError_flag hE _ _)
  · split
    · exact flagged_next _
    · exact flagged_next _

theorem flagged_infixFlushEnd {E : Env} (hE : E.EX_ERRORCODE ≠ 0) :
    ∀ (fuel : Nat) (s : St), Flagged (infixFlushEnd E fuel s) := by
  intro fuel
  induction fuel with
  | zero => intro s; exact flagged_next _
  | succ f ih =>
    intro s
    simp only [infixFlushEnd]
    split
    · split
      · exact flagged_return0 (rplError_flag hE _ _)
      · split
        · rename_i hc
          exact flagged_return0 (rplInfixApply_false hE hc)
        · exact ih _
    · exact flagged_next _

theorem flagged_endConstructInfix {E : Env} (hE : E.EX_ERRORCODE ≠ 0) (s : St) :
    Flagged (endConstructInfix E s) := by
  unfold endConstructInfix
  refine flagged_bind ?_ fun s2 => flagged_bind (flagged_endConstruct hE s2) fun _ => flagged_next _
  split
  · refine flagged_bind (flagged_infixFlushEnd hE _ _) fun s1 => ?_
    split
    · exact flagged_return0 (rplError_flag hE _ _)
    · exact flagged_next _
  · exact flagged_next _

theorem flagged_dispatch {E : Env} (hE : E.EX_ERRORCODE ≠ 0) (s : St) :
    Flagged (dispatch E s) := by
  unfold dispatch
  split
  all_goals first
    | exact flagged_next _
    | exact flagged_bind (flagged_pushConstruct E _) fun _ => flagged_next _
    | exact flagged_bind (flagged_endConstruct hE _) fun _ => flagged_next _
    | exact flagged_endConstructInfix hE _
    | exact flagged_raise hE _ _
    | (split <;> exact flagged_next _)

theorem flagged_scanBody {E : Env} (hE : E.EX_ERRORCODE ≠ 0) (s : St) :
    Flagged (scanBody E s) := by
  unfold scanBody
  dsimp only
  split
  · exact flagged_next _
  · exact flagged_dispatch hE _

theorem flagged_scanLibs {E : Env} (hE : E.EX_ERRORCODE ≠ 0) :
    ∀ (fuel : Nat) (s : St), Flagged (scanLibs E fuel s) := by
  intro fuel
  induction fuel with
  | zero => intro s; exact flagged_next _
  | succ f ih =>
    intro s
    simp only [scanLibs]
    split
    · exact flagged_bind (flagged_scanBody hE s) fun a => ih a
    · exact flagged_next _

theorem flagged_reserveOps (E : Env) (n : Int) (s : St) : Flagged (reserveOps E n s) := by
  unfold reserveOps
  dsimp only
  generalize (if s.g.RStkSize ≤ s.InfixOpTop + n - s.g.RStk then _ else s.g) = g1
  split
  · rename_i hc
    exact flagged_return0 hc
  · exact flagged_next _

theorem flagged_openBracket (E : Env) (Opcode : Nat) (s : St) :
    Flagged (openBracket E Opcode s) := by
  unfold openBracket
  split
  · exact flagged_bind (flagged_reserveOps E _ _) fun _ => flagged_next _
  · exact flagged_bind (flagged_reserveOps E _ _) fun _ => flagged_next _

theorem flagged_popToBracket {E : Env} (hE : E.EX_ERRORCODE ≠ 0) (Opcode : Nat) :
    ∀ (fuel : Nat) (s : St), Flagged (popToBracket E Opcode fuel s) := by
  intro fuel
  induction fuel with
  | zero => intro s; exact flagged_next _
  | succ f ih =>
    intro s
    simp only [popToBracket]
    split
    · split
      · split
        · split
          · exact flagged_return0 (rplError_flag hE _ _)
          · exact flagged_next _
        · exact flagged_next _
      · split
        · rename_i hc
          exact flagged_return0 (rplInfixApply_false hE hc)
        · exact ih _
    · exact flagged_next _

theorem flagged_closeBracket {E : Env} (hE : E.EX_ERRORCODE ≠ 0) (s : St) :
    Flagged (closeBracket E s) := by
  unfold closeBracket
  dsimp only
  split
  · split
    · exact flagged_return0 (rplError_flag hE _ _)
    · split
      · split
        · rename_i hc
          exact flagged_return0 (rplRotArgs_false hE hc)
        · split
          · rename_i hc
            exact flagged_return0 (rplInfixApply_false hE hc)
          · exact flagged_next _
      · split
        · rename_i hc
          exact flagged_return0 (rplInfixApply_false hE hc)
        · exact flagged_next _
  · split
    · split
      · rename_i hc
        exact flagged_return0 (rplInfixApply_false hE hc)
      · exact flagged_next _
    · exact flagged_next _

theorem flagged_closeBracketOrComma {E : Env} (hE : E.EX_ERRORCODE ≠ 0) (Opcode : Nat) (s : St) :
    Flagged (closeBracketOrComma E Opcode s) := by
  unfold closeBracketOrComma
  refine flagged_bind (flagged_popToBracket hE _ _ _) fun s1 => ?_
  split
  · exact flagged_return0 (rplError_flag hE _ _)
  · split
    · exact flagged_closeBracket hE _
    · exact flagged_next _

theorem flagged_precedenceFlush {E : Env} (hE : E.EX_ERRORCODE ≠ 0) :
    ∀ (fuel : Nat) (s : St), Flagged (precedenceFlush E fuel s) := by
  intro fuel
  induction fuel with
  | zero => intro s; exact flagged_next _
  | succ f ih =>
    intro s
    simp only [precedenceFlush]
    split
    · split
      · split
        · rename_i hc
          exact flagged_return0 (rplInfixApply_false hE hc)
        · exact ih _
      · split
        · split
          · rename_i hc
            exact flagged_return0 (rplInfixApply_false hE hc)
          · exact ih _
        · exact flagged_next _
    · exact flagged_next _

theorem flagged_pushOperator {E : Env} (hE : E.EX_ERRORCODE ≠ 0) (Opcode : Nat) (s : St) :
    Flagged (pushOperator E Opcode s) := by
  unfold pushOperator
  refine flagged_bind ?_ fun s1 => flagged_bind (flagged_reserveOps E _ _) fun _ => flagged_next _
  split
  · exact flagged_precedenceFlush hE _ _
  · exact flagged_next _

theorem flagged_infixAfterCompile {E : Env} (hE : E.EX_ERRORCODE ≠ 0) (s : St) :
    Flagged (infixAfterCompile E s) := by
  unfold infixAfterCompile
  dsimp only
  refine flagged_bind ?_ fun _ => flagged_next _
  split
  · split
    · exact flagged_openBracket E _ _
    · split
      · exact flagged_closeBracketOrComma hE _ _
      · exact flagged_pushOperator hE _ _
  · exact flagged_next _

theorem flagged_infixToken {E : Env} (hE : E.EX_ERRORCODE ≠ 0) (s : St) :
    Flagged (infixToken E s) := by
  unfold infixToken
  split
  · exact flagged_return0 (rplError_flag hE _ _)
  · simp only []
    split
    · exact flagged_raise hE _ _
    · exact flagged_infixAfterCompile hE _

theorem flagged_afterScan {E : Env} (hE : E.EX_ERRORCODE ≠ 0) (s : St) :
    Flagged (afterScan E s) := by
  unfold afterScan
  split
  · split
    · split
      · exact flagged_next _
      · exact flagged_infixToken hE _
    · exact flagged_return0 (rplError_flag hE _ _)
  · exact flagged_next _

theorem flagged_validateCall {E : Env} (hE : E.EX_ERRORCODE ≠ 0) (s : St) :
    Flagged (validateCall E s) := by
  unfold validateCall
  split
  · simp only []
    split
    · exact flagged_next _
    · exact flagged_raise hE _ _
    · exact flagged_endConstruct hE _
    · exact flagged_next _
  · exact flagged_next _

theorem flagged_validateStep {E : Env} (hE : E.EX_ERRORCODE ≠ 0) (s : St) :
    Flagged (validateStep E s) := by
  unfold validateStep
  split
  · exact flagged_bind (flagged_validateCall hE _) fun _ => flagged_next _
  · exact flagged_next _

theorem flagged_loopRest {E : Env} (hE : E.EX_ERRORCODE ≠ 0) (s : St) :
    Flagged (loopRest E s) := by
  unfold loopRest
  exact flagged_bind (flagged_scanLibs hE _ _) fun s1 =>
    flagged_bind (flagged_afterScan hE s1) fun s2 => flagged_validateStep hE s2

theorem flagged_compileLoop {E : Env} (hE : E.EX_ERRORCODE ≠ 0) :
    ∀ (fuel : Nat) (s : St) (f : Flow St), compileLoop E fuel s = some f → Flagged f := by
  intro fuel
  induction fuel with
  | zero => intro s f h; cases h
  | succ n ih =>
    intro s f h
    simp only [compileLoop] at h
    split at h
    · cases h; exact flagged_next _
    · rename_i s1 hh
      split at h
      · rename_i v g hr
        cases h
        rw [← hr]
        exact flagged_loopRest hE s1
      · split at h
        · exact ih _ _ h
        · cases h; exact flagged_next _

theorem flagged_compileInit (E : Env) (string : Nat → Nat) (length : Nat) (addwrapper : Bool)
    (g : Globals) : Flagged (compileInit E string length addwrapper g) := by
  unfold compileInit
  dsimp only
  refine flagged_bind ?_ fun _ => flagged_next _
  split
  · exact flagged_pushConstruct E _
  · exact flagged_next _

/-! ## The end of `rplCompile` -/
theorem growTempOb_frame (E : Env) (n : Int) (g : Globals) :
    (growTempOb E n g).ValidateTop = g.ValidateTop
    ∧ (growTempOb E n g).ValidateBottom = g.ValidateBottom
    ∧ (growTempOb E n g).cells = g.cells
    ∧ (growTempOb E n g).mem = g.mem
    ∧ (growTempOb E n g).CompileEnd = g.CompileEnd
    ∧ (growTempOb E n g).ErrorCode = g.ErrorCode := by
  unfold growTempOb
  split <;> exact ⟨rfl, rfl, rfl, rfl, rfl, rfl⟩

theorem rplCompileAppend_frame (E : Env) (w : Nat) (g : Globals) :
    (rplCompileAppend E w g).ValidateTop = g.ValidateTop
    ∧ (rplCompileAppend E w g).ValidateBottom = g.ValidateBottom
    ∧ (rplCompileAppend E w g).cells = g.cells
    ∧ (rplCompileAppend E w g).ErrorCode = g.ErrorCode := by
  unfold rplCompileAppend
  dsimp only
  split
  · obtain ⟨h1, h2, h3, _, _, h6⟩ := growTempOb_frame E
      ((toWord (g.CompileEnd + 1 - g.TempOb) : Int) + E.TEMPOBSLACK)
      { g with mem := setWord g.mem g.CompileEnd w, CompileEnd := g.CompileEnd + 1 }
    exact ⟨h1, h2, h3, h6⟩
  · exact ⟨rfl, rfl, rfl, rfl⟩

theorem rplCompileAppend_room (E : Env) (w : Nat) (g : Globals)
    (h : g.CompileEnd + 1 < g.TempObSize) :
    rplCompileAppend E w g
      = { g with mem := setWord g.mem g.CompileEnd w, CompileEnd := g.CompileEnd + 1 } := by
  unfold rplCompileAppend
  dsimp only
  rw [if_neg (by omega)]

theorem closeWrapper_skip (E : Env) (addwrapper : Bool) (g : Globals)
    (h : g.Exceptions ≠ 0 ∨ addwrapper = false) : closeWrapper E addwrapper g = Flow.next g := by
  unfold closeWrapper
  rw [if_neg]
  rintro ⟨h1, h2⟩
  rcases h with h | h
  · exact h h1
  · rw [h] at h2; cases h2

theorem closeWrapper_frame (E : Env) (g g4 : Globals) (hex : g.Exceptions = 0)
    (h : closeWrapper E true g = Flow.next g4) :
    g4.ValidateTop = g.ValidateTop - 1 ∧ g4.ValidateBottom = g.ValidateBottom
      ∧ (g4.Exceptions = 0 → g4.ErrorCode = g.ErrorCode) := by
  unfold closeWrapper at h
  rw [if_pos ⟨hex, rfl⟩] at h
  dsimp only at h
  obtain ⟨a1, a2, a3, a4⟩ := rplCompileAppend_frame E E.CMD_SEMI g
  split at h
  · cases h
  · cases h
    split
    · refine ⟨?_, ?_, fun _ => ?_⟩
      · rw [(rplCompileAppend_frame E _ _).1, a1]
      · rw [(rplCompileAppend_frame E _ _).2.1, a2]
      · rw [(rplCompileAppend_frame E _ _).2.2.2, a4]
    · refine ⟨?_, ?_, fun _ => ?_⟩
      · rw [(rplCompileAppend_frame E _ _).1, a1]
      · rw [(rplCompileAppend_frame E _ _).2.1, a2]
      · rw [(rplCompileAppend_frame E _ _).2.2.2, a4]

theorem closeWrapper_room (E : Env) (g : Globals) (hex : g.Exceptions = 0)
    (hroom : g.CompileEnd + 2 < g.TempObSize) (hopen : g.ValidateTop > g.ValidateBottom) :
    ∃ g4 : Globals, closeWrapper E true g = Flow.next g4 ∧ g4.Exceptions = 0 := by
  unfold closeWrapper
  rw [if_pos ⟨hex, rfl⟩, rplCompileAppend_room E _ g (by omega)]
  dsimp only
  rw [if_neg (by omega)]
  refine ⟨_, rfl, ?_⟩
  rw [rplCompileAppend_room E _ _ (by split <;> (show g.CompileEnd + 1 + 1 < g.TempObSize) <;> omega)]
  split <;> exact hex

/-- What the end of `rplCompile` returns once the wrapper is closed. -/
theorem compileFinish_next (E : Env) (addwrapper : Bool) (s : St) (g4 : Globals)
    (hf : s.force_libnum < 0) (hc : closeWrapper E addwrapper s.g = Flow.next g4) :
    (g4.Exceptions ≠ 0 →
      (compileFinish E addwrapper s).value = none
      ∧ (compileFinish E addwrapper s).g.Exceptions = g4.Exceptions
      ∧ (compileFinish E addwrapper s).g.ErrorCode = g4.ErrorCode)
    ∧ (g4.Exceptions = 0 → g4.ValidateTop > g4.ValidateBottom → E.EX_ERRORCODE ≠ 0 →
      (compileFinish E addwrapper s).value = none
      ∧ (compileFinish E addwrapper s).g.Exceptions ≠ 0
      ∧ (compileFinish E addwrapper s).g.ErrorCode = E.ERR_STARTWITHOUTEND) := by
  unfold compileFinish
  rw [if_neg (by omega), hc]
  dsimp only
  constructor
  · intro hex
    rw [if_neg hex, if_neg (by rintro ⟨_, h⟩; exact hex h)]
    exact ⟨rfl, rfl, rfl⟩
  · intro hex hopen hE
    have hlt : ¬ g4.ValidateTop < g4.ValidateBottom := by omega
    simp only [if_pos hex, if_neg hlt, if_pos hopen]
    have hfl := rplError_flag hE E.ERR_STARTWITHOUTEND g4
    rw [if_neg (by rintro ⟨_, h⟩; exact hfl h)]
    exact ⟨rfl, hfl, rfl⟩

/-- C8 (unterminated construct), as amended: when the main loop of `rplCompile` is
left (the input is used up, or an error is flagged) with a library still waiting for
more input after `NEED_MORE`, or with a construct still open on the construct stack
(one besides the program wrapper, when there is one), `rplCompile` returns null with
the error flag raised.  The error is `ERR_STARTWITHOUTEND` when a library is still
waiting, and also when no error was flagged before and closing the wrapper did not
run out of memory; an error flagged before is kept as it is. -/
theorem unterminated_construct (E : Env) (hE : E.EX_ERRORCODE ≠ 0) (fuel : Nat)
    (addwrapper : Bool) (s0 s : St) (hloop : compileLoop E fuel s0 = some (Flow.next s))
    (hopen : s.force_libnum ≥ 0
      ∨ s.g.ValidateTop > s.g.ValidateBottom + (if addwrapper = true then 1 else 0)) :
    ∃ r : Result, compileFrom E fuel addwrapper s0 = some r
      ∧ r.value = none ∧ r.g.Exceptions ≠ 0
      ∧ (s.force_libnum ≥ 0 → r.g.ErrorCode = E.ERR_STARTWITHOUTEND)
      ∧ (s.g.Exceptions = 0 → (addwrapper = true → s.g.CompileEnd + 2 < s.g.TempObSize) →
          r.g.ErrorCode = E.ERR_STARTWITHOUTEND)
      ∧ (s.force_libnum < 0 → s.g.Exceptions ≠ 0 →
          r.g.ErrorCode = s.g.ErrorCode ∧ r.g.Exceptions = s.g.Exceptions) := by
  refine ⟨compileFinish E addwrapper s, by unfold compileFrom; rw [hloop], ?_⟩
  by_cases hf : s.force_libnum ≥ 0
  · have e : compileFinish E addwrapper s
        = { value := none, g := { rplError E E.ERR_STARTWITHOUTEND s.g with
              LAMTop := (rplError E E.ERR_STARTWITHOUTEND s.g).LAMTopSaved } } := by
      unfold compileFinish
      rw [if_pos hf]
    rw [e]
    exact ⟨rfl, rplError_flag hE E.ERR_STARTWITHOUTEND s.g, fun _ => rfl, fun _ _ => rfl,
      fun h => absurd hf (by omega)⟩
  · have hf2 : s.force_libnum < 0 := by omega
    have hst : s.g.ValidateTop > s.g.ValidateBottom + (if addwrapper = true then 1 else 0) := by
      rcases hopen with h | h
      · exact absurd h hf
      · exact h
    by_cases hex : s.g.Exceptions = 0
    · -- no error so far
      cases addwrapper with
      | false =>
        have hc := closeWrapper_skip E false s.g (Or.inr rfl)
        obtain ⟨_, h2⟩ := compileFinish_next E false s s.g hf2 hc
        obtain ⟨a, b, c⟩ := h2 hex (by simpa using hst) hE
        exact ⟨a, b, fun h => absurd h hf, fun _ _ => c, fun _ h => absurd hex h⟩
      | true =>
        have hst2 : s.g.ValidateTop > s.g.ValidateBottom + 1 := by simpa using hst
        cases hcw : closeWrapper E true s.g with
        | ret v g =>
          -- the wrapper cannot be missing: the stack is not empty
          exfalso
          unfold closeWrapper at hcw
          rw [if_pos ⟨hex, rfl⟩] at hcw
          dsimp only at hcw
          rw [if_neg (by rw [(rplCompileAppend_frame E _ _).1, (rplCompileAppend_frame E _ _).2.1]
                         omega)] at hcw
          cases hcw
        | next g4 =>
          obtain ⟨f1, f2, f3⟩ := closeWrapper_frame E s.g g4 hex hcw
          obtain ⟨h1, h2⟩ := compileFinish_next E true s g4 hf2 hcw
          by_cases hex4 : g4.Exceptions = 0
          · obtain ⟨a, b, c⟩ := h2 hex4 (by omega) hE
            exact ⟨a, b, fun h => absurd h hf, fun _ _ => c, fun _ h => absurd hex h⟩
          · obtain ⟨a, b, c⟩ := h1 hex4
            refine ⟨a, by rw [b]; exact hex4, fun h => absurd h hf, fun _ hroom => ?_,
              fun _ h => absurd hex h⟩
            obtain ⟨g5, e5, x5⟩ := closeWrapper_room E s.g hex (hroom rfl) (by omega)
            rw [hcw] at e5
            cases e5
            exact absurd x5 hex4
    · have hc := closeWrapper_skip E addwrapper s.g (Or.inl hex)
      obtain ⟨h1, _⟩ := compileFinish_next E addwrapper s s.g hf2 hc
      obtain ⟨a, b, c⟩ := h1 hex
      exact ⟨a, by rw [b]; exact hex, fun h => absurd h hf, fun h => absurd h hex, fun _ _ => ⟨c, b⟩⟩

/-! ## Underflow of the construct stack -/
theorem rplInfixApply_frame (E : Env) (op nargs : Nat) (g : Globals) :
    (rplInfixApply E op nargs g).2.ValidateTop = g.ValidateTop
    ∧ (rplInfixApply E op nargs g).2.ValidateBottom = g.ValidateBottom := by
  rcases hfa : findArgsStart E g.mem (g.cells (g.ValidateTop - 1) + 1) nargs (some g.CompileEnd)
    with ⟨n, p⟩
  cases n with
  | succ m => simp only [rplInfixApply, hfa]; exact ⟨rfl, rfl⟩
  | zero =>
    cases p with
    | none => simp only [rplInfixApply, hfa]; exact ⟨rfl, rfl⟩
    | some ptr =>
      simp only [rplInfixApply, hfa]
      have hg : ∀ x : Globals, x.ValidateTop = g.ValidateTop → x.ValidateBottom = g.ValidateBottom →
          (if g.CompileEnd + 2 ≥ g.TempObSize then growTempOb E
            ((toWord (g.CompileEnd + 2 - g.TempOb) : Int) + E.TEMPOBSLACK) x else x).ValidateTop
            = g.ValidateTop
          ∧ (if g.CompileEnd + 2 ≥ g.TempObSize then growTempOb E
            ((toWord (g.CompileEnd + 2 - g.TempOb) : Int) + E.TEMPOBSLACK) x else x).ValidateBottom
            = g.ValidateBottom := by
        intro x h1 h2
        split
        · rw [(growTempOb_frame E _ x).1, (growTempOb_frame E _ x).2.1]; exact ⟨h1, h2⟩
        · exact ⟨h1, h2⟩
      have hg2 := hg { g with CompileEnd := g.CompileEnd + 2 } rfl rfl
      generalize hg2e : (if g.CompileEnd + 2 ≥ g.TempObSize then _ else _ : Globals) = g2
      rw [hg2e] at hg2
      split
      · exact hg2
      · exact hg2

theorem infixFlushEnd_frame (E : Env) :
    ∀ (fuel : Nat) (s t : St), infixFlushEnd E fuel s = Flow.next t →
      t.g.ValidateTop = s.g.ValidateTop ∧ t.g.ValidateBottom = s.g.ValidateBottom := by
  intro fuel
  induction fuel with
  | zero => intro s t h; cases h; exact ⟨rfl, rfl⟩
  | succ f ih =>
    intro s t h
    simp only [infixFlushEnd] at h
    split at h
    · split at h
      · cases h
      · split at h
        · cases h
        · rename_i g1 hc
          obtain ⟨a, b⟩ := ih _ _ h
          have hfr := rplInfixApply_frame E (s.g.cells (s.InfixOpTop - 2)).toNat
            (E.TI_NARGS (s.g.cells (s.InfixOpTop - 2 + 1))) s.g
          rw [hc] at hfr
          exact ⟨a.trans hfr.1, b.trans hfr.2⟩
    · cases h; exact ⟨rfl, rfl⟩

theorem endConstruct_underflow (E : Env) (s : St) (h : s.g.ValidateTop ≤ s.g.ValidateBottom) :
    endConstruct E s
      = return0 (rplError E E.ERR_ENDWITHOUTSTART { s.g with ValidateTop := s.g.ValidateTop - 1 }) := by
  unfold endConstruct
  dsimp only
  rw [if_pos (by omega)]

/-- Construct-stack underflow on the paths that test it: when an `END_CONSTRUCT`
action is processed while the construct stack is empty, `rplCompile` returns null
with the error flag raised and never carries on.  The error is `ERR_ENDWITHOUTSTART`
for the plain action, for the one a `VALIDATE` handler returns, and for the infix
variant outside infix mode: there `--ValidateTop` and the test of the stack bottom
come first.  In infix mode the infix variant runs the flush of the operator stack
and the check for a single object before that test; of this case the statement only
says that the error flag is raised. -/
theorem construct_underflow (E : Env) (hE : E.EX_ERRORCODE ≠ 0) (s : St) :
    (s.g.RetNum = RetCode.OK_ENDCONSTRUCT → s.g.ValidateTop = s.g.ValidateBottom →
      ∃ g : Globals, dispatch E s = Flow.ret none g
        ∧ g.ErrorCode = E.ERR_ENDWITHOUTSTART ∧ g.Exceptions ≠ 0)
    ∧ (s.g.RetNum = RetCode.OK_ENDCONSTRUCT_INFIX
        ∨ s.g.RetNum = RetCode.OK_ENDCONSTRUCT_INFIX_SPLITTOKEN →
      s.g.ValidateTop = s.g.ValidateBottom →
      (∃ g : Globals, dispatch E s = Flow.ret none g ∧ g.Exceptions ≠ 0)
      ∧ (s.infixmode = false → ∃ g : Globals, dispatch E s = Flow.ret none g
          ∧ g.ErrorCode = E.ERR_ENDWITHOUTSTART ∧ g.Exceptions ≠ 0))
    ∧ (∀ (vh : LIBHANDLER) (g1 : Globals), s.ValidateHandler = some vh →
      g1 = vh { s.g with CurOpcode := E.MKOPCODE (E.LIBNUM s.g.CurrentConstruct) E.OPCODE_VALIDATE } →
      g1.RetNum = RetCode.OK_ENDCONSTRUCT → g1.ValidateTop = g1.ValidateBottom →
      ∃ g : Globals, validateCall E s = Flow.ret none g
        ∧ g.ErrorCode = E.ERR_ENDWITHOUTSTART ∧ g.Exceptions ≠ 0) := by
  have hinf : ∀ u : St, u.g.ValidateTop = u.g.ValidateBottom →
      (∃ g : Globals, endConstructInfix E u = Flow.ret none g ∧ g.Exceptions ≠ 0)
      ∧ (u.infixmode = false → ∃ g : Globals, endConstructInfix E u = Flow.ret none g
          ∧ g.ErrorCode = E.ERR_ENDWITHOUTSTART ∧ g.Exceptions ≠ 0) := by
    intro u hu
    have hout : ∀ w : St, w.g.ValidateTop = w.g.ValidateBottom →
        ∃ g : Globals, ((endConstruct E w).bind fun s3 =>
            (Flow.next { s3 with libcnt := EXIT_LOOP, force_libnum := -1 } : Flow St))
          = Flow.ret none g ∧ g.ErrorCode = E.ERR_ENDWITHOUTSTART ∧ g.Exceptions ≠ 0 := by
      intro w hw
      rw [endConstruct_underflow E w (by omega)]
      exact ⟨_, rfl, rfl, rplError_flag hE E.ERR_ENDWITHOUTSTART _⟩
    constructor
    · cases hm : u.infixmode with
      | false =>
        obtain ⟨g, h1, _, h3⟩ := hout u hu
        refine ⟨g, ?_, h3⟩
        unfold endConstructInfix
        rw [hm]
        exact h1
      | true =>
        have hfl := flagged_endConstructInfix hE u
        cases hr : endConstructInfix E u with
        | ret v g =>
          obtain ⟨a, b⟩ := hfl v g hr
          subst a
          exact ⟨g, rfl, b⟩
        | next t =>
          exfalso
          unfold endConstructInfix at hr
          rw [hm] at hr
          simp only [if_true] at hr
          cases hfe : infixFlushEnd E (u.InfixOpTop - u.g.ValidateTop).toNat u with
          | ret v g => rw [hfe] at hr; cases hr
          | next s1 =>
            obtain ⟨f1, f2⟩ := infixFlushEnd_frame E _ _ _ hfe
            rw [hfe, bind_next] at hr
            split at hr
            · cases hr
            · have hle : ({ s1 with infixmode := false } : St).g.ValidateTop
                  ≤ ({ s1 with infixmode := false } : St).g.ValidateBottom := by
                show s1.g.ValidateTop ≤ s1.g.ValidateBottom
                omega
              rw [bind_next, endConstruct_underflow E _ hle] at hr
              cases hr
    · intro hm
      obtain ⟨g, h1, h2, h3⟩ := hout u hu
      refine ⟨g, ?_, h2, h3⟩
      unfold endConstructInfix
      rw [hm]
      exact h1
  refine ⟨?_, ?_, ?_⟩
  · intro hr he
    unfold dispatch
    rw [hr]
    dsimp only
    rw [endConstruct_underflow E s (by omega)]
    exact ⟨_, rfl, rfl, rplError_flag hE E.ERR_ENDWITHOUTSTART _⟩
  · intro hr he
    rcases hr with hr | hr
    · have e : dispatch E s = endConstructInfix E s := by unfold dispatch; rw [hr]
      rw [e]
      exact hinf s he
    · have e : dispatch E s = endConstructInfix E { s with splittoken := true } := by
        unfold dispatch; rw [hr]
      rw [e]
      exact hinf { s with splittoken := true } he
  · intro vh g1 hvh hg1 hr he
    unfold validateCall
    rw [hvh]
    dsimp only
    rw [← hg1, hr]
    dsimp only
    rw [endConstruct_underflow E _ (by show g1.ValidateTop ≤ g1.ValidateBottom; omega)]
    exact ⟨_, rfl, rfl, rplError_flag hE E.ERR_ENDWITHOUTSTART _⟩

/-! ## Unknown tokens -/
theorem loopHead_token (E : Env) (s : St) (h : TokenLeft s) :
    ∃ s1 : St, loopHead E s = (s1, false)
      ∧ s1.infixmode = s.infixmode ∧ s1.force_libnum = s.force_libnum
      ∧ s1.libcnt = (if s.force_libnum < 0 then (E.MAXLIBNUMBER : Int) else 0)
      ∧ (s.infixmode = true → s1.probe_libnum = -1 ∧ s1.probe_tokeninfo = 0) := by
  unfold TokenLeft at h
  unfold loopHead
  cases hs : s.splittoken with
  | true =>
    rw [hs] at h
    simp only [if_true] at h
    have hlt : ¬ s.g.TokenStart ≥ s.g.CompileStringEnd := by omega
    simp only [Bool.not_eq_true, Bool.true_eq_false, if_false, not_false_eq_true, not_true_eq_false,
      if_neg hlt]
    cases hi : s.infixmode with
    | true => exact ⟨_, rfl, rfl, rfl, rfl, fun _ => ⟨rfl, rfl⟩⟩
    | false =>
      refine ⟨_, rfl, rfl, rfl, rfl, fun h => ?_⟩
      cases h
  | false =>
    rw [hs] at h
    simp only [Bool.false_eq_true, if_false] at h
    have hlt : ¬ s.g.NextTokenStart ≥ s.g.CompileStringEnd := by omega
    simp only [Bool.false_eq_true, not_false_eq_true, if_true, if_neg hlt]
    cases hi : s.infixmode with
    | true => exact ⟨_, rfl, rfl, rfl, rfl, fun _ => ⟨rfl, rfl⟩⟩
    | false =>
      refine ⟨_, rfl, rfl, rfl, rfl, fun h => ?_⟩
      cases h

theorem scanBody_notmine {E : Env}
    (hnm : ∀ (n : Int) (h : LIBHANDLER), E.rplGetLibHandler n = some h →
      ∀ g : Globals, g.CurOpcode = E.MKOPCODE n E.OPCODE_COMPILE → (h g).RetNum = RetCode.ERR_NOTMINE)
    (s : St) (hmode : s.infixmode = false) (hforce : s.force_libnum = -1) :
    ∃ t : St, scanBody E s = Flow.next t ∧ t.infixmode = false ∧ t.force_libnum = -1
      ∧ t.libcnt = s.libcnt - 1 := by
  unfold scanBody
  have hf : s.force_libnum < 0 := by omega
  simp only [if_pos hf, rplGetNextLib]
  cases hh : E.rplGetLibHandler s.libcnt with
  | none => exact ⟨_, rfl, hmode, hforce, rfl⟩
  | some handler =>
    dsimp only
    have hret : (handlerCall E handler s.libcnt
        { s with libnum := s.libcnt, libcnt := s.libcnt - 1 }).g.RetNum = RetCode.ERR_NOTMINE := by
      unfold handlerCall
      simp only [hmode, hforce, Bool.false_eq_true, if_false, ne_eq, not_true_eq_false]
      exact hnm s.libcnt handler hh _ rfl
    rw [dispatch_notmine E _ hret]
    exact ⟨_, rfl, hmode, hforce, rfl⟩

theorem scanLibs_notmine {E : Env}
    (hnm : ∀ (n : Int) (h : LIBHANDLER), E.rplGetLibHandler n = some h →
      ∀ g : Globals, g.CurOpcode = E.MKOPCODE n E.OPCODE_COMPILE → (h g).RetNum = RetCode.ERR_NOTMINE) :
    ∀ (fuel : Nat) (s : St), s.infixmode = false → s.force_libnum = -1 →
      s.libcnt + 1 = (fuel : Int) →
      ∃ t : St, scanLibs E fuel s = Flow.next t ∧ t.infixmode = false ∧ t.libcnt = -1 := by
  intro fuel
  induction fuel with
  | zero =>
    intro s hm _ hk
    refine ⟨s, rfl, hm, ?_⟩
    push_cast at hk; omega
  | succ f ih =>
    intro s hm hf hk
    obtain ⟨t, ht1, ht2, ht3, ht4⟩ := scanBody_notmine hnm s hm hf
    obtain ⟨u, hu1, hu2, hu3⟩ := ih t ht2 ht3 (by rw [ht4]; push_cast at hk ⊢; omega)
    refine ⟨u, ?_, hu2, hu3⟩
    simp only [scanLibs]
    rw [if_pos (by push_cast at hk; omega), ht1, bind_next, hu1]

/-- C10 (unknown token), as amended: when a token is left and no library is in the
middle of a continuation, `rplCompile` sets `ERR_INVALIDTOKEN` and returns null if,
outside infix mode, every registered library answers `NOT_MINE` to `COMPILE`, or if,
inside infix mode, every registered library answers `PROBETOKEN` with `NOT_MINE` or
with a token-info whose length is zero. -/
theorem unknown_token (E : Env) (hE : E.EX_ERRORCODE ≠ 0) (hzero : E.TI_LENGTH 0 = 0)
    (fuel : Nat) (addwrapper : Bool) (s : St) (htok : TokenLeft s) :
    (s.infixmode = false → s.force_libnum = -1 →
      (∀ (n : Int) (h : LIBHANDLER), E.rplGetLibHandler n = some h →
        ∀ g : Globals, g.CurOpcode = E.MKOPCODE n E.OPCODE_COMPILE →
          (h g).RetNum = RetCode.ERR_NOTMINE) →
      ∃ r : Result, compileFrom E (fuel + 1) addwrapper s = some r ∧ r.value = none
        ∧ r.g.ErrorCode = E.ERR_INVALIDTOKEN ∧ r.g.Exceptions ≠ 0)
    ∧ (s.infixmode = true → s.force_libnum < 0 →
      ∀ resp : Int → RetCode, ProbeFamily E resp →
        (∀ n w, Offers E resp n w → E.TI_LENGTH w = 0) →
      ∃ r : Result, compileFrom E (fuel + 1) addwrapper s = some r ∧ r.value = none
        ∧ r.g.ErrorCode = E.ERR_INVALIDTOKEN ∧ r.g.Exceptions ≠ 0) := by
  obtain ⟨s1, hh, hm1, hf1, hc1, hp1⟩ := loopHead_token E s htok
  constructor
  · intro hmode hforce hnm
    have hc2 : s1.libcnt = (E.MAXLIBNUMBER : Int) := by rw [hc1, if_pos (by omega)]
    obtain ⟨t, ht1, ht2, ht3⟩ := scanLibs_notmine hnm (s1.libcnt.toNat + 1) s1 (hm1.trans hmode)
      (hf1.trans hforce) (by rw [hc2]; simp)
    have hrest : loopRest E s1 = return0 (rplError E E.ERR_INVALIDTOKEN t.g) := by
      unfold loopRest
      rw [ht1, bind_next]
      unfold afterScan
      rw [if_pos (by rw [ht3]; decide), ht2]
      rfl
    refine ⟨{ value := none, g := { rplError E E.ERR_INVALIDTOKEN t.g with
      LAMTop := (rplError E E.ERR_INVALIDTOKEN t.g).LAMTopSaved } }, ?_, rfl, rfl,
      rplError_flag hE E.ERR_INVALIDTOKEN t.g⟩
    unfold compileFrom
    simp only [compileLoop, hh, hrest]
    rfl
  · intro hmode hforce resp hfam hnone
    have hc2 : s1.libcnt = (E.MAXLIBNUMBER : Int) := by rw [hc1, if_pos hforce]
    have hinit : ProbeInv E resp s1 (E.MAXLIBNUMBER : Int) := by
      refine ⟨hm1.trans hmode, by rw [hf1]; exact hforce, hc2, ?_,
        Or.inl ⟨(hp1 hmode).1, by rw [(hp1 hmode).2]; exact hzero⟩⟩
      intro n w hn ho
      have := ho.2.1
      omega
    obtain ⟨t, ht1, ht2⟩ := scanLibs_probe hfam (s1.libcnt.toNat + 1) s1 (E.MAXLIBNUMBER : Int)
      (le_refl _) (by rw [hc2]; simp) hinit
    have hsel : t.probe_libnum < 0 := by
      rcases ht2.sel with ⟨h1, _⟩ | ⟨_, h2, _, h4⟩
      · omega
      · have := hnone _ _ h2
        omega
    have hfl := rplError_flag hE E.ERR_INVALIDTOKEN t.g
    have hrest : loopRest E s1 = Flow.next { t with g := rplError E E.ERR_INVALIDTOKEN t.g } := by
      unfold loopRest
      rw [ht1, bind_next]
      unfold afterScan
      rw [if_pos (by rw [ht2.cnt]; decide), ht2.mode]
      simp only [if_true]
      rw [if_pos hsel, bind_next]
      unfold validateStep
      rw [if_neg (by rintro ⟨_, h⟩; exact h rfl)]
    have hloop : compileLoop E (fuel + 1) s
        = some (Flow.next { t with g := rplError E E.ERR_INVALIDTOKEN t.g }) := by
      simp only [compileLoop, hh, hrest]
      rw [if_neg (by rintro ⟨_, h⟩; exact hfl h)]
    have hc := closeWrapper_skip E addwrapper (rplError E E.ERR_INVALIDTOKEN t.g) (Or.inl hfl)
    obtain ⟨h1, _⟩ := compileFinish_next E addwrapper
      { t with g := rplError E E.ERR_INVALIDTOKEN t.g } _ ht2.force hc
    obtain ⟨a, b, c⟩ := h1 hfl
    refine ⟨compileFinish E addwrapper { t with g := rplError E E.ERR_INVALIDTOKEN t.g }, ?_, a, c,
      by rw [b]; exact hfl⟩
    unfold compileFrom
    rw [hloop]

/-! ## Termination of the main loop -/
theorem keptG_refl (g : Globals) : KeptG g g := ⟨rfl, rfl, rfl, rfl, le_refl _⟩

theorem keptG_trans {a b c : Globals} (h1 : KeptG a b) (h2 : KeptG b c) : KeptG a c :=
  ⟨h2.string.trans h1.string, h2.stop.trans h1.stop, h2.tok.trans h1.tok,
    h2.blank.trans h1.blank, le_trans h1.next h2.next⟩

theorem kept_refl (E : Env) (s : St) : Kept E s s := ⟨keptG_refl _, rfl, Or.inl rfl⟩

theorem kept_trans {E : Env} {a b c : St} (h1 : Kept E a b) (h2 : Kept E b c) : Kept E a c := by
  refine ⟨keptG_trans h1.text h2.text, h2.split.trans h1.split, ?_⟩
  rcases h2.vh with h | h
  · rw [h]; exact h1.vh
  · exact Or.inr h

theorem keeps_next {E : Env} {s a : St} (h : Kept E s a) : Keeps E s (Flow.next a) := by
  intro t e; cases e; exact h

theorem keeps_ret (E : Env) (s : St) (v : Option Int) (g : Globals) :
    Keeps E s (Flow.ret v g) := by
  intro t e; cases e

theorem keeps_return0 (E : Env) (s : St) (g : Globals) : Keeps E s (return0 g) := by
  intro t e; cases e

theorem keeps_bind {E : Env} {s : St} {f : Flow St} {k : St → Flow St} (hf : Keeps E s f)
    (hk : ∀ a, Kept E s a → Keeps E a (k a)) : Keeps E s (f.bind k) := by
  cases f with
  | next a =>
    intro t e
    exact kept_trans (hf a rfl) (hk a (hf a rfl) t e)
  | ret v g => intro t e; cases e

theorem keptG_rplError (E : Env) (c : Nat) (g : Globals) : KeptG g (rplError E c g) :=
  ⟨rfl, rfl, rfl, rfl, le_refl _⟩

theorem keptG_growTempOb (E : Env) (n : Int) (g : Globals) : KeptG g (growTempOb E n g) := by
  unfold growTempOb
  split <;> exact ⟨rfl, rfl, rfl, rfl, le_refl _⟩

theorem keptG_growTempOb_of {g x : Globals} (h : KeptG g x) (E : Env) (n : Int) :
    KeptG g (growTempOb E n x) :=
  keptG_trans h (keptG_growTempOb E n x)

theorem keptG_growRStk (E : Env) (n : Int) (g : Globals) : KeptG g (growRStk E n g) := by
  unfold growRStk
  split <;> exact ⟨rfl, rfl, rfl, rfl, le_refl _⟩

theorem keptG_rplCompileAppend (E : Env) (w : Nat) (g : Globals) :
    KeptG g (rplCompileAppend E w g) := by
  unfold rplCompileAppend
  dsimp only
  split
  · refine keptG_growTempOb_of ?_ E _
    exact ⟨rfl, rfl, rfl, rfl, le_refl _⟩
  · exact ⟨rfl, rfl, rfl, rfl, le_refl _⟩

theorem keptG_rplInfixApply (E : Env) (op nargs : Nat) (g : Globals) :
    KeptG g (rplInfixApply E op nargs g).2 := by
  rcases hfa : findArgsStart E g.mem (g.cells (g.ValidateTop - 1) + 1) nargs (some g.CompileEnd)
    with ⟨n, p⟩
  cases n with
  | succ m => simp only [rplInfixApply, hfa]; exact keptG_rplError E _ g
  | zero =>
    cases p with
    | none => simp only [rplInfixApply, hfa]; exact keptG_rplError E _ g
    | some ptr =>
      simp only [rplInfixApply, hfa]
      have hg2 : KeptG g (if g.CompileEnd + 2 ≥ g.TempObSize then growTempOb E
            ((toWord (g.CompileEnd + 2 - g.TempOb) : Int) + E.TEMPOBSLACK)
            { g with CompileEnd := g.CompileEnd + 2 } else { g with CompileEnd := g.CompileEnd + 2 }) := by
        split
        · refine keptG_growTempOb_of ?_ E _
          exact ⟨rfl, rfl, rfl, rfl, le_refl _⟩
        · exact ⟨rfl, rfl, rfl, rfl, le_refl _⟩
      generalize hg2e : (if g.CompileEnd + 2 ≥ g.TempObSize then _ else _ : Globals) = g2
      rw [hg2e] at hg2
      split
      · exact hg2
      · exact ⟨hg2.string, hg2.stop, hg2.tok, hg2.blank, hg2.next⟩

theorem keptG_rplRotArgs (E : Env) (nargs : Nat) (g : Globals) :
    KeptG g (rplRotArgs E nargs g).2 := by
  rcases hfa : findArgsStart E g.mem (g.cells (g.ValidateTop - 1) + 1) nargs (some g.CompileEnd)
    with ⟨n, p⟩
  cases n with
  | succ m => simp only [rplRotArgs, hfa]; exact keptG_rplError E _ g
  | zero =>
    cases p with
    | none => simp only [rplRotArgs, hfa]; exact keptG_rplError E _ g
    | some ptr =>
      simp only [rplRotArgs, hfa]
      have hg2 : KeptG g (if g.CompileEnd + rplObjSize E g.mem ptr ≥ g.TempObSize then growTempOb E
            ((toWord (g.CompileEnd + rplObjSize E g.mem ptr - g.TempOb) : Int) + E.TEMPOBSLACK) g
            else g) := by
        split
        · exact keptG_growTempOb E _ _
        · exact keptG_refl g
      generalize hg2e : (if g.CompileEnd + rplObjSize E g.mem ptr ≥ g.TempObSize then _ else _
        : Globals) = g2
      rw [hg2e] at hg2
      split
      · exact hg2
      · exact ⟨hg2.string, hg2.stop, hg2.tok, hg2.blank, hg2.next⟩

theorem keptG_pushConstruct (E : Env) (g g1 : Globals) (h : pushConstruct E g = Flow.next g1) :
    KeptG g g1 := by
  unfold pushConstruct at h
  dsimp only at h
  have hg2 : KeptG g (if g.RStkSize ≤ g.ValidateTop - g.RStk then
      growRStk E (g.ValidateTop - g.RStk + E.RSTKSLACK) g else g) := by
    split
    · exact keptG_growRStk E _ _
    · exact keptG_refl g
  generalize hg2e : (if g.RStkSize ≤ g.ValidateTop - g.RStk then _ else g) = g2 at h
  rw [hg2e] at hg2
  split at h
  · cases h
  · cases h
    exact ⟨hg2.string, hg2.stop, hg2.tok, hg2.blank, hg2.next⟩

theorem keeps_endConstruct (E : Env) (s : St) : Keeps E s (endConstruct E s) := by
  unfold endConstruct
  dsimp only
  split
  · exact keeps_return0 _ _ _
  · split
    · exact keeps_next ⟨⟨rfl, rfl, rfl, rfl, le_refl _⟩, rfl, Or.inr ⟨_, rfl⟩⟩
    · exact keeps_next ⟨⟨rfl, rfl, rfl, rfl, le_refl _⟩, rfl, Or.inl rfl⟩

theorem kept_apply (E : Env) (s : St) (op nargs : Nat) (top : Int) (g1 : Globals)
    (b : Bool) (h : rplInfixApply E op nargs s.g = (b, g1)) :
    Kept E s { s with g := g1, InfixOpTop := top } := by
  have := keptG_rplInfixApply E op nargs s.g
  rw [h] at this
  exact ⟨this, rfl, Or.inl rfl⟩

theorem keeps_infixFlushEnd (E : Env) :
    ∀ (fuel : Nat) (s : St), Keeps E s (infixFlushEnd E fuel s) := by
  intro fuel
  induction fuel with
  | zero => intro s; exact keeps_next (kept_refl E s)
  | succ f ih =>
    intro s
    simp only [infixFlushEnd]
    split
    · split
      · exact keeps_return0 _ _ _
      · split
        · exact keeps_return0 _ _ _
        · rename_i g1 hc
          intro t e
          exact kept_trans (kept_apply E s _ _ _ g1 true hc) (ih _ t e)
    · exact keeps_next (kept_refl E s)

theorem keeps_endConstructInfix (E : Env) (s : St) : Keeps E s (endConstructInfix E s) := by
  unfold endConstructInfix
  refine keeps_bind ?_ fun s2 _ => keeps_bind (keeps_endConstruct E s2) fun s3 _ =>
    keeps_next ⟨keptG_refl _, rfl, Or.inl rfl⟩
  split
  · refine keeps_bind (keeps_infixFlushEnd E _ _) fun s1 _ => ?_
    split
    · exact keeps_return0 _ _ _
    · exact keeps_next ⟨keptG_refl _, rfl, Or.inl rfl⟩
  · exact keeps_next (kept_refl E s)

theorem endConstruct_fields (E : Env) (s t : St) (h : endConstruct E s = Flow.next t) :
    t.infixmode = s.infixmode ∧ t.probe_libnum = s.probe_libnum
      ∧ t.probe_tokeninfo = s.probe_tokeninfo := by
  unfold endConstruct at h
  dsimp only at h
  split at h
  · cases h
  · split at h <;> (cases h; exact ⟨rfl, rfl, rfl⟩)

theorem endConstructInfix_mode (E : Env) (s t : St) (h : endConstructInfix E s = Flow.next t) :
    t.infixmode = false := by
  unfold endConstructInfix at h
  cases hm : s.infixmode with
  | true =>
    rw [hm] at h
    simp only [if_true] at h
    cases hfe : infixFlushEnd E (s.InfixOpTop - s.g.ValidateTop).toNat s with
    | ret v g => rw [hfe] at h; cases h
    | next s1 =>
      rw [hfe, bind_next] at h
      split at h
      · cases h
      · rw [bind_next] at h
        cases he : endConstruct E { s1 with infixmode := false } with
        | ret v g => rw [he] at h; cases h
        | next s3 =>
          rw [he, bind_next] at h
          cases h
          exact (endConstruct_fields E _ _ he).1
  | false =>
    rw [hm] at h
    simp only [Bool.false_eq_true, if_false, bind_next] at h
    cases he : endConstruct E s with
    | ret v g => rw [he] at h; cases h
    | next s3 =>
      rw [he, bind_next] at h
      cases h
      exact (endConstruct_fields E _ _ he).1.trans hm

theorem keeps_pushBind (E : Env) (s : St) (k : Globals → St)
    (hk : ∀ g1, KeptG s.g g1 → Kept E s (k g1)) :
    Keeps E s ((pushConstruct E s.g).bind fun g1 => Flow.next (k g1)) := by
  intro t e
  cases hp : pushConstruct E s.g with
  | ret v g => rw [hp] at e; cases e
  | next g1 =>
    rw [hp] at e
    cases e
    exact hk g1 (keptG_pushConstruct E s.g g1 hp)

theorem selected_pushBind (E : Env) (g : Globals) (k : Globals → St)
    (hk : ∀ g1, Selected E (k g1)) (t : St)
    (e : ((pushConstruct E g).bind fun g1 => Flow.next (k g1)) = Flow.next t) : Selected E t := by
  cases hp : pushConstruct E g with
  | ret v g => rw [hp] at e; cases e
  | next g1 =>
    rw [hp] at e
    cases e
    exact hk g1

theorem keeps_dispatch (E : Env) (s : St) (hns : NoSplit s.g.RetNum) :
    Keeps E s (dispatch E s) := by
  obtain ⟨n1, n2, n3, n4⟩ := hns
  unfold dispatch
  split
  · split <;> exact keeps_next ⟨keptG_refl _, rfl, Or.inl rfl⟩
  · exact keeps_next ⟨keptG_refl _, rfl, Or.inl rfl⟩
  · exact keeps_next ⟨keptG_refl _, rfl, Or.inl rfl⟩
  · exact keeps_pushBind E s _ fun g1 h => ⟨h, rfl, Or.inl rfl⟩
  · exact keeps_next ⟨⟨rfl, rfl, rfl, rfl, le_refl _⟩, rfl, Or.inl rfl⟩
  · exact keeps_next ⟨⟨rfl, rfl, rfl, rfl, le_refl _⟩, rfl, Or.inl rfl⟩
  · exact keeps_bind (keeps_endConstruct E s) fun a _ => keeps_next ⟨keptG_refl _, rfl, Or.inl rfl⟩
  · exact keeps_next ⟨keptG_refl _, rfl, Or.inl rfl⟩
  · exact keeps_pushBind E s _ fun g1 h => ⟨h, rfl, Or.inl rfl⟩
  · rename_i h; exact absurd h n1
  · rename_i h; exact absurd h n2
  · exact keeps_pushBind E s _ fun g1 h => ⟨h, rfl, Or.inl rfl⟩
  · rename_i h; exact absurd h n3
  · exact keeps_endConstructInfix E s
  · exact keeps_next (kept_refl E s)
  · rename_i h; exact absurd h n4
  · exact keeps_return0 _ _ _
  · exact keeps_return0 _ _ _
  · exact keeps_next (kept_refl E s)

theorem selected_dispatch (E : Env) (s : St) (hs : Selected E s) (t : St)
    (e : dispatch E s = Flow.next t) : Selected E t := by
  unfold dispatch at e
  have hsame : ∀ u : St, u.infixmode = s.infixmode → u.probe_libnum = s.probe_libnum →
      u.probe_tokeninfo = s.probe_tokeninfo → Selected E u := by
    intro u h1 h2 h3
    unfold Selected
    rw [h1, h2, h3]
    exact hs
  split at e
  · rename_i info _
    split at e
    · cases e
      intro _ _
      show 0 < E.TI_LENGTH info
      omega
    · cases e; exact hs
  · cases e; exact hsame _ rfl rfl rfl
  · cases e; exact hsame _ rfl rfl rfl
  · refine selected_pushBind E s.g _ ?_ t e
    intro g1
    exact hsame _ rfl rfl rfl
  · cases e; exact hsame _ rfl rfl rfl
  · cases e; exact hsame _ rfl rfl rfl
  · cases he : endConstruct E s with
    | ret v g => rw [he] at e; cases e
    | next s1 =>
      rw [he, bind_next] at e
      cases e
      obtain ⟨a, b, c⟩ := endConstruct_fields E s s1 he
      exact hsame _ a b c
  · cases e; exact hsame _ rfl rfl rfl
  · refine selected_pushBind E s.g _ ?_ t e
    intro g1
    exact hsame _ rfl rfl rfl
  · cases e; exact hsame _ rfl rfl rfl
  · refine selected_pushBind E s.g _ ?_ t e
    intro g1
    exact hsame _ rfl rfl rfl
  · refine selected_pushBind E s.g _ ?_ t e
    intro g1 _ h
    have h2 : ((-1 : Int) ≥ 0) := h
    omega
  · intro h
    rw [endConstructInfix_mode E _ t e] at h
    cases h
  · intro h
    rw [endConstructInfix_mode E _ t e] at h
    cases h
  · cases e; exact hs
  · cases e; exact hsame _ rfl rfl rfl
  · cases e
  · cases e
  · cases e; exact hs

theorem kept_handlerCall {E : Env} (hT : Tame E) (handler : LIBHANDLER) (libnum n : Int)
    (hh : E.rplGetLibHandler n = some handler) (s : St) :
    Kept E s (handlerCall E handler libnum s)
    ∧ NoSplit (handlerCall E handler libnum s).g.RetNum
    ∧ (Selected E s → Selected E (handlerCall E handler libnum s)) := by
  unfold handlerCall
  dsimp only
  generalize hg1 : ({ s.g with
      CurOpcode := if s.infixmode = true then E.MKOPCODE libnum E.OPCODE_PROBETOKEN
        else if s.force_libnum ≠ -1 then E.MKOPCODE libnum E.OPCODE_COMPILECONT
        else E.MKOPCODE libnum E.OPCODE_COMPILE,
      RSTop := if s.infixmode = true then s.InfixOpTop else s.g.ValidateTop } : Globals) = g1
  have h0 : KeptG s.g g1 := by rw [← hg1]; exact ⟨rfl, rfl, rfl, rfl, le_refl _⟩
  obtain ⟨a, b⟩ := hT.handlers n handler hh g1
  have h1 := keptG_trans h0 a
  exact ⟨⟨⟨h1.string, h1.stop, h1.tok, h1.blank, h1.next⟩, rfl, Or.inl rfl⟩, b, fun hs => hs⟩

theorem keeps_scanBody {E : Env} (hT : Tame E) (s : St) :
    Keeps E s (scanBody E s)
    ∧ (Selected E s → ∀ t, scanBody E s = Flow.next t → Selected E t) := by
  unfold scanBody
  dsimp only
  split
  · refine ⟨keeps_next ⟨keptG_refl _, rfl, Or.inl rfl⟩, fun hs t e => ?_⟩
    cases e
    exact hs
  · rename_i handler hh
    obtain ⟨a, b, c⟩ := kept_handlerCall hT handler
      (if s.force_libnum < 0 then s.libcnt else s.force_libnum)
      (if s.force_libnum < 0 then s.libcnt else s.force_libnum) hh
      { s with libnum := if s.force_libnum < 0 then s.libcnt else s.force_libnum,
               libcnt := rplGetNextLib s.libcnt }
    refine ⟨fun t e => ?_, fun hs t e => ?_⟩
    · have h1 := keeps_dispatch E _ b t e
      have h2 := kept_trans a h1
      exact ⟨h2.text, h2.split, h2.vh⟩
    · exact selected_dispatch E _ (c hs) t e

theorem keeps_scanLibs {E : Env} (hT : Tame E) :
    ∀ (fuel : Nat) (s : St), Keeps E s (scanLibs E fuel s)
      ∧ (Selected E s → ∀ t, scanLibs E fuel s = Flow.next t → Selected E t) := by
  intro fuel
  induction fuel with
  | zero =>
    intro s
    refine ⟨keeps_next (kept_refl E s), fun hs t e => ?_⟩
    cases e
    exact hs
  | succ f ih =>
    intro s
    simp only [scanLibs]
    split
    · obtain ⟨a, b⟩ := keeps_scanBody hT s
      refine ⟨keeps_bind a fun x _ => (ih x).1, fun hs t e => ?_⟩
      cases hb : scanBody E s with
      | ret v g => rw [hb] at e; cases e
      | next x =>
        rw [hb, bind_next] at e
        exact (ih x).2 (b hs x hb) t e
    · refine ⟨keeps_next (kept_refl E s), fun hs t e => ?_⟩
      cases e
      exact hs

theorem keeps_reserveOps (E : Env) (n : Int) (s : St) : Keeps E s (reserveOps E n s) := by
  unfold reserveOps
  dsimp only
  have hg2 : KeptG s.g (if s.g.RStkSize ≤ s.InfixOpTop + n - s.g.RStk then
      growRStk E (s.InfixOpTop - s.g.RStk + E.RSTKSLACK) s.g else s.g) := by
    split
    · exact keptG_growRStk E _ _
    · exact keptG_refl _
  generalize hg2e : (if s.g.RStkSize ≤ s.InfixOpTop + n - s.g.RStk then _ else s.g) = g2
  rw [hg2e] at hg2
  split
  · exact keeps_return0 _ _ _
  · exact keeps_next ⟨hg2, rfl, Or.inl rfl⟩

theorem kept_pushMarker (E : Env) (Opcode : Nat) (s : St) : Kept E s (pushMarker Opcode s) :=
  ⟨⟨rfl, rfl, rfl, rfl, le_refl _⟩, rfl, Or.inl rfl⟩

theorem kept_pushMarker_of {E : Env} {s a : St} (Opcode : Nat) (h : Kept E s a) :
    Kept E s (pushMarker Opcode a) :=
  kept_trans h (kept_pushMarker E _ _)

theorem kept_pushOp (E : Env) (Opcode : Nat) (s : St) : Kept E s (pushOp Opcode s) :=
  ⟨⟨rfl, rfl, rfl, rfl, le_refl _⟩, rfl, Or.inl rfl⟩

theorem keeps_openBracket (E : Env) (Opcode : Nat) (s : St) :
    Keeps E s (openBracket E Opcode s) := by
  unfold openBracket
  split
  · exact keeps_bind (keeps_reserveOps E _ _) fun a _ => keeps_next (kept_pushMarker E _ _)
  · refine keeps_bind (keeps_reserveOps E _ _) fun a _ => keeps_next ?_
    refine kept_pushMarker_of _ ?_
    exact ⟨⟨rfl, rfl, rfl, rfl, le_refl _⟩, rfl, Or.inl rfl⟩

theorem keeps_popToBracket (E : Env) (Opcode : Nat) :
    ∀ (fuel : Nat) (s : St), Keeps E s (popToBracket E Opcode fuel s) := by
  intro fuel
  induction fuel with
  | zero => intro s; exact keeps_next (kept_refl E s)
  | succ f ih =>
    intro s
    simp only [popToBracket]
    split
    · split
      · split
        · split
          · exact keeps_return0 _ _ _
          · exact keeps_next (kept_refl E s)
        · exact keeps_next (kept_refl E s)
      · split
        · exact keeps_return0 _ _ _
        · rename_i g1 hc
          intro t e
          exact kept_trans (kept_apply E s _ _ _ g1 true hc) (ih _ t e)
    · exact keeps_next (kept_refl E s)

theorem keeps_precedenceFlush (E : Env) :
    ∀ (fuel : Nat) (s : St), Keeps E s (precedenceFlush E fuel s) := by
  intro fuel
  induction fuel with
  | zero => intro s; exact keeps_next (kept_refl E s)
  | succ f ih =>
    intro s
    simp only [precedenceFlush]
    split
    · split
      · split
        · exact keeps_return0 _ _ _
        · rename_i g1 hc
          intro t e
          exact kept_trans (kept_apply E s _ _ _ g1 true hc) (ih _ t e)
      · split
        · split
          · exact keeps_return0 _ _ _
          · rename_i g1 hc
            intro t e
            exact kept_trans (kept_apply E s _ _ _ g1 true hc) (ih _ t e)
        · exact keeps_next (kept_refl E s)
    · exact keeps_next (kept_refl E s)

theorem kept_of_apply (E : Env) (s : St) (g0 : Globals) (h0 : KeptG s.g g0) (op nargs : Nat)
    (b : Bool) (g1 : Globals) (h : rplInfixApply E op nargs g0 = (b, g1)) : KeptG s.g g1 := by
  have := keptG_rplInfixApply E op nargs g0
  rw [h] at this
  exact keptG_trans h0 this

theorem kept_of_rot (E : Env) (s : St) (g0 : Globals) (h0 : KeptG s.g g0) (nargs : Nat)
    (b : Bool) (g1 : Globals) (h : rplRotArgs E nargs g0 = (b, g1)) : KeptG s.g g1 := by
  have := keptG_rplRotArgs E nargs g0
  rw [h] at this
  exact keptG_trans h0 this

theorem keeps_closeBracket (E : Env) (s : St) : Keeps E s (closeBracket E s) := by
  unfold closeBracket
  dsimp only
  split
  · split
    · exact keeps_return0 _ _ _
    · split
      · split
        · exact keeps_return0 _ _ _
        · rename_i g1 hc
          split
          · exact keeps_return0 _ _ _
          · rename_i g2 hc2
            exact keeps_next ⟨kept_of_apply E s g1 (kept_of_rot E s s.g (keptG_refl _) _ _ g1 hc)
              _ _ _ g2 hc2, rfl, Or.inl rfl⟩
      · split
        · exact keeps_return0 _ _ _
        · rename_i g2 hc2
          exact keeps_next ⟨kept_of_apply E s s.g (keptG_refl _) _ _ _ g2 hc2, rfl, Or.inl rfl⟩
  · split
    · split
      · exact keeps_return0 _ _ _
      · rename_i g2 hc2
        exact keeps_next ⟨kept_of_apply E s s.g (keptG_refl _) _ _ _ g2 hc2, rfl, Or.inl rfl⟩
    · exact keeps_next ⟨keptG_refl _, rfl, Or.inl rfl⟩

theorem keeps_closeBracketOrComma (E : Env) (Opcode : Nat) (s : St) :
    Keeps E s (closeBracketOrComma E Opcode s) := by
  unfold closeBracketOrComma
  refine keeps_bind (keeps_popToBracket E _ _ _) fun s1 _ => ?_
  split
  · exact keeps_return0 _ _ _
  · split
    · exact keeps_closeBracket E _
    · exact keeps_next (kept_refl E _)

theorem keeps_pushOperator (E : Env) (Opcode : Nat) (s : St) :
    Keeps E s (pushOperator E Opcode s) := by
  unfold pushOperator
  refine keeps_bind ?_ fun s1 _ => keeps_bind (keeps_reserveOps E _ _) fun s2 _ =>
    keeps_next (kept_pushOp E _ _)
  split
  · exact keeps_precedenceFlush E _ _
  · exact keeps_next (kept_refl E _)

theorem keeps_infixAfterCompile (E : Env) (s : St) : Keeps E s (infixAfterCompile E s) := by
  unfold infixAfterCompile
  dsimp only
  intro t e
  generalize hlast : lastObject E s.g.mem s.g.CompileEnd
    (s.g.CompileEnd - s.g.LastCompiledObject).toNat s.g.LastCompiledObject = last at e
  split at e
  · generalize hd : disambiguate E _ _ _ = d at e
    split at e
    · cases hf : openBracket E d.1 _ with
      | ret v g => rw [hf] at e; cases e
      | next a =>
        rw [hf, bind_next] at e
        cases e
        have := keeps_openBracket E _ _ a hf
        exact ⟨⟨this.text.string, this.text.stop, this.text.tok, this.text.blank, this.text.next⟩,
          this.split, this.vh⟩
    · split at e
      · cases hf : closeBracketOrComma E d.1 _ with
        | ret v g => rw [hf] at e; cases e
        | next a =>
          rw [hf, bind_next] at e
          cases e
          have := keeps_closeBracketOrComma E _ _ a hf
          exact ⟨⟨this.text.string, this.text.stop, this.text.tok, this.text.blank, this.text.next⟩,
            this.split, this.vh⟩
      · cases hf : pushOperator E d.1 _ with
        | ret v g => rw [hf] at e; cases e
        | next a =>
          rw [hf, bind_next] at e
          cases e
          have := keeps_pushOperator E _ _ a hf
          exact ⟨⟨this.text.string, this.text.stop, this.text.tok, this.text.blank, this.text.next⟩,
            this.split, this.vh⟩
  · rw [bind_next] at e
    cases e
    exact ⟨⟨rfl, rfl, rfl, rfl, le_refl _⟩, rfl, Or.inl rfl⟩

theorem registered_of_kept {E : Env} {s t : St} (hr : Registered E s) (hk : Kept E s t) :
    Registered E t := by
  intro h e
  rcases hk.vh with h1 | ⟨n, h1⟩
  · exact hr h (h1 ▸ e)
  · exact ⟨n, h1 ▸ e⟩

theorem keeps_validateCall {E : Env} (hT : Tame E) (s : St) (hr : Registered E s) :
    Keeps E s (validateCall E s) := by
  unfold validateCall
  split
  · rename_i vh hv
    obtain ⟨n, hn⟩ := hr vh hv
    dsimp only
    obtain ⟨a, _⟩ := hT.handlers n vh hn
      { s.g with CurOpcode := E.MKOPCODE (E.LIBNUM s.g.CurrentConstruct) E.OPCODE_VALIDATE }
    have a2 : KeptG s.g (vh { s.g with
        CurOpcode := E.MKOPCODE (E.LIBNUM s.g.CurrentConstruct) E.OPCODE_VALIDATE }) :=
      ⟨a.string, a.stop, a.tok, a.blank, a.next⟩
    generalize vh { s.g with
        CurOpcode := E.MKOPCODE (E.LIBNUM s.g.CurrentConstruct) E.OPCODE_VALIDATE } = g1 at a2
    split
    · exact keeps_next ⟨⟨a2.string, a2.stop, a2.tok, a2.blank, a2.next⟩, rfl, Or.inl rfl⟩
    · exact keeps_return0 _ _ _
    · intro t e
      have h1 : Kept E s { s with g := g1 } := ⟨a2, rfl, Or.inl rfl⟩
      exact kept_trans h1 (keeps_endConstruct E _ t e)
    · exact keeps_next ⟨a2, rfl, Or.inl rfl⟩
  · exact keeps_next (kept_refl E s)

theorem keeps_validateStep {E : Env} (hT : Tame E) (s : St) (hr : Registered E s) :
    Keeps E s (validateStep E s) := by
  unfold validateStep
  split
  · exact keeps_bind (keeps_validateCall hT s hr) fun a _ =>
      keeps_next ⟨keptG_refl _, rfl, Or.inl rfl⟩
  · exact keeps_next (kept_refl E s)

theorem skipBlanks_ge (str : Nat → Nat) (stop : Nat) :
    ∀ (fuel p : Nat), p ≤ skipBlanks str stop fuel p := by
  intro fuel
  induction fuel with
  | zero => intro p; exact le_refl _
  | succ f ih =>
    intro p
    simp only [skipBlanks]
    split
    · exact le_trans (Nat.le_succ p) (ih (p + 1))
    · exact le_refl _

theorem skipNonBlanks_ge (str : Nat → Nat) (stop : Nat) :
    ∀ (fuel p : Nat), p ≤ skipNonBlanks str stop fuel p := by
  intro fuel
  induction fuel with
  | zero => intro p; exact le_refl _
  | succ f ih =>
    intro p
    simp only [skipNonBlanks]
    split
    · exact le_trans (Nat.le_succ p) (ih (p + 1))
    · exact le_refl _

theorem skipBlanks_step (str : Nat → Nat) (stop fuel p : Nat) (h1 : p < stop)
    (h2 : isBlank (str p) = true) : p < skipBlanks str stop (fuel + 1) p := by
  simp only [skipBlanks]
  rw [if_pos ⟨h1, h2⟩]
  exact skipBlanks_ge str stop fuel (p + 1)

theorem skipNonBlanks_step (str : Nat → Nat) (stop fuel p : Nat) (h1 : p < stop)
    (h2 : isBlank (str p) = false) : p < skipNonBlanks str stop (fuel + 1) p := by
  simp only [skipNonBlanks]
  rw [if_pos ⟨h1, h2⟩]
  exact skipNonBlanks_ge str stop fuel (p + 1)

/-- Scanning a token and the blanks after it moves forward when text is left. -/
theorem scan_progress (str : Nat → Nat) (stop p : Nat) (h : p < stop) :
    p < skipBlanks str stop (stop - skipNonBlanks str stop (stop - p) p)
      (skipNonBlanks str stop (stop - p) p) := by
  have hge := skipNonBlanks_ge str stop (stop - p) p
  have hge2 := skipBlanks_ge str stop (stop - skipNonBlanks str stop (stop - p) p)
    (skipNonBlanks str stop (stop - p) p)
  by_cases hb : p < skipNonBlanks str stop (stop - p) p
  · omega
  · have e : skipNonBlanks str stop (stop - p) p = p := by omega
    rw [e]
    cases hbl : isBlank (str p) with
    | true =>
      obtain ⟨f, hf⟩ : ∃ f, stop - p = f + 1 := ⟨stop - p - 1, by omega⟩
      rw [hf]
      exact skipBlanks_step str stop f p h hbl
    | false =>
      obtain ⟨f, hf⟩ : ∃ f, stop - p = f + 1 := ⟨stop - p - 1, by omega⟩
      rw [hf] at e
      have := skipNonBlanks_step str stop f p h hbl
      omega

/-- Cutting a token at a positive number of code points and skipping the blanks
after it moves forward. -/
theorem cut_progress {E : Env} (hT : Tame E) (str : Nat → Nat) (stop p n : Nat) (h : p < stop)
    (hn : 0 < n) :
    p < skipBlanks str stop
      (stop - E.utf8nskip str p (skipNonBlanks str stop (stop - p) p) n)
      (E.utf8nskip str p (skipNonBlanks str stop (stop - p) p) n) := by
  have hge := skipNonBlanks_ge str stop (stop - p) p
  have hle := hT.skip_le str p (skipNonBlanks str stop (stop - p) p) n hge
  have hge2 := skipBlanks_ge str stop
    (stop - E.utf8nskip str p (skipNonBlanks str stop (stop - p) p) n)
    (E.utf8nskip str p (skipNonBlanks str stop (stop - p) p) n)
  by_cases hb : p < E.utf8nskip str p (skipNonBlanks str stop (stop - p) p) n
  · omega
  · have e : E.utf8nskip str p (skipNonBlanks str stop (stop - p) p) n = p := by omega
    rw [e]
    obtain ⟨f, hf⟩ : ∃ f, stop - p = f + 1 := ⟨stop - p - 1, by omega⟩
    cases hbl : isBlank (str p) with
    | true =>
      rw [hf]
      exact skipBlanks_step str stop f p h hbl
    | false =>
      have h1 : p < skipNonBlanks str stop (stop - p) p := by
        rw [hf]
        exact skipNonBlanks_step str stop f p h hbl
      have := hT.skip_lt str p _ n h1 hn
      omega

theorem loopHead_facts (E : Env) (s s1 : St) (hs : s.splittoken = false)
    (h : loopHead E s = (s1, false)) :
    s.g.NextTokenStart < s.g.CompileStringEnd
    ∧ s1.g.string = s.g.string ∧ s1.g.CompileStringEnd = s.g.CompileStringEnd
    ∧ s1.g.TokenStart = s.g.NextTokenStart
    ∧ s1.g.BlankStart = skipNonBlanks s.g.string s.g.CompileStringEnd
        (s.g.CompileStringEnd - s.g.NextTokenStart) s.g.NextTokenStart
    ∧ s1.g.NextTokenStart = skipBlanks s.g.string s.g.CompileStringEnd
        (s.g.CompileStringEnd - skipNonBlanks s.g.string s.g.CompileStringEnd
          (s.g.CompileStringEnd - s.g.NextTokenStart) s.g.NextTokenStart)
        (skipNonBlanks s.g.string s.g.CompileStringEnd
          (s.g.CompileStringEnd - s.g.NextTokenStart) s.g.NextTokenStart)
    ∧ s1.splittoken = false ∧ Selected E s1 ∧ Registered E s1 := by
  unfold loopHead at h
  simp only [hs, Bool.false_eq_true, not_false_eq_true, if_true] at h
  split at h
  · cases h
  · rename_i hlt
    have hlt2 : s.g.NextTokenStart < s.g.CompileStringEnd := by
      have : ¬ s.g.NextTokenStart ≥ s.g.CompileStringEnd := hlt
      omega
    split at h
    · cases h
      refine ⟨hlt2, rfl, rfl, rfl, rfl, rfl, rfl, ?_, ?_⟩
      · intro _ hp
        have hp2 : ((-1 : Int) ≥ 0) := hp
        omega
      · intro vh hv
        exact ⟨_, hv⟩
    · rename_i hm
      cases h
      refine ⟨hlt2, rfl, rfl, rfl, rfl, rfl, rfl, ?_, ?_⟩
      · intro hm2
        exact absurd hm2 hm
      · intro vh hv
        exact ⟨_, hv⟩

theorem infixToken_progress {E : Env} (hT : Tame E) (t u : St)
    (hlen : 0 < E.TI_LENGTH t.probe_tokeninfo) (htok : t.g.TokenStart < t.g.CompileStringEnd)
    (hblank : t.g.BlankStart = skipNonBlanks t.g.string t.g.CompileStringEnd
      (t.g.CompileStringEnd - t.g.TokenStart) t.g.TokenStart)
    (h : infixToken E t = Flow.next u) :
    u.splittoken = t.splittoken ∧ u.g.CompileStringEnd = t.g.CompileStringEnd
      ∧ t.g.TokenStart < u.g.NextTokenStart
      ∧ (u.ValidateHandler = t.ValidateHandler ∨ ∃ n, u.ValidateHandler = E.rplGetLibHandler n) := by
  unfold infixToken at h
  split at h
  · cases h
  · dsimp only at h
    have hcut : (cutToken E t).string = t.g.string
        ∧ (cutToken E t).CompileStringEnd = t.g.CompileStringEnd
        ∧ t.g.TokenStart < (cutToken E t).NextTokenStart := by
      refine ⟨rfl, rfl, ?_⟩
      show t.g.TokenStart < skipBlanks t.g.string t.g.CompileStringEnd
        (t.g.CompileStringEnd - E.utf8nskip t.g.string t.g.TokenStart t.g.BlankStart
          (E.TI_LENGTH t.probe_tokeninfo))
        (E.utf8nskip t.g.string t.g.TokenStart t.g.BlankStart (E.TI_LENGTH t.probe_tokeninfo))
      rw [hblank]
      exact cut_progress hT t.g.string t.g.CompileStringEnd t.g.TokenStart _ htok hlen
    generalize cutToken E t = g3 at h hcut
    cases hh : E.rplGetLibHandler t.probe_libnum with
    | none =>
      rw [hh] at h
      dsimp only at h
      split at h
      · cases h
      · have := keeps_infixAfterCompile E _ u h
        refine ⟨this.split, this.text.stop.trans hcut.2.1, ?_, this.vh⟩
        have h1 : g3.NextTokenStart ≤ u.g.NextTokenStart := this.text.next
        have h3 := hcut.2.2
        omega
    | some hd =>
      rw [hh] at h
      dsimp only at h
      obtain ⟨a, _⟩ := hT.handlers _ hd hh { g3 with RSTop := t.InfixOpTop }
      split at h
      · cases h
      · have := keeps_infixAfterCompile E _ u h
        refine ⟨this.split, this.text.stop.trans (a.stop.trans hcut.2.1), ?_, this.vh⟩
        have h1 : (hd { g3 with RSTop := t.InfixOpTop }).NextTokenStart ≤ u.g.NextTokenStart :=
          this.text.next
        have h2 : g3.NextTokenStart ≤ (hd { g3 with RSTop := t.InfixOpTop }).NextTokenStart :=
          a.next
        have h3 := hcut.2.2
        omega

/-- With tame libraries a pass of the main loop that goes on has moved
`NextTokenStart` forward. -/
theorem pass_progress {E : Env} (hT : Tame E) (s s1 s2 : St) (hs : s.splittoken = false)
    (h1 : loopHead E s = (s1, false)) (h2 : loopRest E s1 = Flow.next s2) :
    s2.splittoken = false ∧ s2.g.CompileStringEnd = s.g.CompileStringEnd
      ∧ s.g.NextTokenStart < s2.g.NextTokenStart := by
  obtain ⟨f1, f2, f3, f4, f5, f6, f7, f8, f9⟩ := loopHead_facts E s s1 hs h1
  have hadv : s.g.NextTokenStart < s1.g.NextTokenStart := by
    rw [f6]
    exact scan_progress s.g.string s.g.CompileStringEnd s.g.NextTokenStart f1
  unfold loopRest at h2
  cases hsc : scanLibs E (s1.libcnt.toNat + 1) s1 with
  | ret v g => rw [hsc] at h2; cases h2
  | next t =>
    rw [hsc, bind_next] at h2
    obtain ⟨k1, k2⟩ := keeps_scanLibs hT (s1.libcnt.toNat + 1) s1
    have kt := k1 t hsc
    have selt := k2 f8 t hsc
    -- the state after the scan and the infix step
    have hafter : ∀ u, afterScan E t = Flow.next u →
        u.splittoken = false ∧ u.g.CompileStringEnd = s.g.CompileStringEnd
          ∧ s.g.NextTokenStart < u.g.NextTokenStart ∧ Registered E u := by
      intro u hu
      have hreg : Registered E t := registered_of_kept f9 kt
      have hbase : t.splittoken = false ∧ t.g.CompileStringEnd = s.g.CompileStringEnd
          ∧ s.g.NextTokenStart < t.g.NextTokenStart := by
        refine ⟨kt.split.trans f7, kt.text.stop.trans f3, ?_⟩
        have := kt.text.next
        omega
      unfold afterScan at hu
      split at hu
      · split at hu
        · rename_i hmode
          split at hu
          · cases hu
            exact ⟨hbase.1, hbase.2.1, hbase.2.2, hreg⟩
          · rename_i hsel
            have hlen := selt hmode (by omega)
            have htok : t.g.TokenStart < t.g.CompileStringEnd := by
              rw [kt.text.tok, kt.text.stop, f4, f3]; exact f1
            have hblank : t.g.BlankStart = skipNonBlanks t.g.string t.g.CompileStringEnd
                (t.g.CompileStringEnd - t.g.TokenStart) t.g.TokenStart := by
              rw [kt.text.blank, kt.text.string, kt.text.tok, kt.text.stop, f5, f2, f3, f4]
            obtain ⟨a, b, c, d⟩ := infixToken_progress hT t u hlen htok hblank hu
            refine ⟨a.trans hbase.1, b.trans hbase.2.1, ?_, ?_⟩
            · rw [kt.text.tok, f4] at c
              exact c
            · intro vh e
              rcases d with d | ⟨n, d⟩
              · exact hreg vh (d ▸ e)
              · exact ⟨n, d ▸ e⟩
        · cases hu
      · cases hu
        exact ⟨hbase.1, hbase.2.1, hbase.2.2, hreg⟩
    cases hau : afterScan E t with
    | ret v g => rw [hau] at h2; cases h2
    | next u =>
      rw [hau, bind_next] at h2
      obtain ⟨a, b, c, d⟩ := hafter u hau
      have kv := keeps_validateStep hT u d s2 h2
      refine ⟨kv.split.trans a, kv.text.stop.trans b, ?_⟩
      have := kv.text.next
      omega

/-- With tame libraries the main loop ends within as many passes as bytes are left,
plus one. -/
theorem compileLoop_total {E : Env} (hT : Tame E) :
    ∀ (fuel : Nat) (s : St), s.splittoken = false →
      s.g.CompileStringEnd - s.g.NextTokenStart < fuel →
      ∃ f : Flow St, compileLoop E fuel s = some f := by
  intro fuel
  induction fuel with
  | zero => intro s _ h; omega
  | succ n ih =>
    intro s hs hfuel
    simp only [compileLoop]
    rcases hh : loopHead E s with ⟨s1, b⟩
    cases b with
    | true => exact ⟨_, rfl⟩
    | false =>
      dsimp only
      cases hr : loopRest E s1 with
      | ret v g => exact ⟨_, rfl⟩
      | next s2 =>
        dsimp only
        obtain ⟨a, b, c⟩ := pass_progress hT s s1 s2 hs hh hr
        split
        · rename_i hc
          refine ih s2 a ?_
          rcases hc.1 with h | h
          · rw [a] at h; cases h
          · omega
        · exact ⟨_, rfl⟩

theorem compileInit_text (E : Env) (string : Nat → Nat) (length : Nat) (addwrapper : Bool)
    (g : Globals) (s0 : St) (h : compileInit E string length addwrapper g = Flow.next s0) :
    s0.splittoken = false ∧ s0.g.CompileStringEnd = length := by
  unfold compileInit at h
  dsimp only at h
  cases addwrapper with
  | true =>
    simp only [if_true] at h
    cases hp : pushConstruct E (rplCompileAppend E (E.MKPROLOG E.DOCOL 0)
        { g with CompileEnd := g.TempObEnd, LAMTopSaved := g.LAMTop, ValidateTop := g.RSTop,
                 ValidateBottom := g.RSTop, string := string, NextTokenStart := 0,
                 CompileStringEnd := length }) with
    | ret v g1 => rw [hp] at h; cases h
    | next g3 =>
      rw [hp] at h
      simp only [Flow.bind] at h
      cases h
      have k1 := keptG_pushConstruct E _ _ hp
      have k2 := keptG_rplCompileAppend E (E.MKPROLOG E.DOCOL 0)
        { g with CompileEnd := g.TempObEnd, LAMTopSaved := g.LAMTop, ValidateTop := g.RSTop,
                 ValidateBottom := g.RSTop, string := string, NextTokenStart := 0,
                 CompileStringEnd := length }
      exact ⟨rfl, k1.stop.trans k2.stop⟩
  | false =>
    simp only [Bool.false_eq_true, if_false, Flow.bind] at h
    cases h
    exact ⟨rfl, rfl⟩

/-- With tame libraries `rplCompile` returns, within as many passes of its main loop
as the text has bytes, plus one. -/
theorem rplCompile_total {E : Env} (hT : Tame E) (fuel : Nat) (string : Nat → Nat)
    (length : Nat) (addwrapper : Bool) (g : Globals) (hfuel : length < fuel) :
    ∃ r : Result, rplCompile E fuel string length addwrapper g = some r := by
  unfold rplCompile
  cases hi : compileInit E string length addwrapper g with
  | ret v g1 => exact ⟨_, rfl⟩
  | next s0 =>
    dsimp only
    obtain ⟨a, b⟩ := compileInit_text E string length addwrapper g s0 hi
    obtain ⟨f, hf⟩ := compileLoop_total hT fuel s0 a (by rw [b]; omega)
    unfold compileFrom
    rw [hf]
    cases f with
    | next s1 => exact ⟨_, rfl⟩
    | ret v g1 => exact ⟨_, rfl⟩

/-! ## The result of `rplCompile` -/
theorem flagged_closeWrapper {E : Env} (hE : E.EX_ERRORCODE ≠ 0) (addwrapper : Bool)
    (g : Globals) : Flagged (closeWrapper E addwrapper g) := by
  unfold closeWrapper
  split
  · dsimp only
    split
    · exact flagged_return0 (rplError_flag hE _ _)
    · exact flagged_next _
  · exact flagged_next _

theorem compileFinish_contract {E : Env} (hE : E.EX_ERRORCODE ≠ 0) (addwrapper : Bool) (s : St) :
    (∃ p, (compileFinish E addwrapper s).value = some p)
    ∨ ((compileFinish E addwrapper s).value = none
        ∧ (compileFinish E addwrapper s).g.Exceptions ≠ 0)
    ∨ ((compileFinish E addwrapper s).value = none
        ∧ (compileFinish E addwrapper s).g.Exceptions = 0
        ∧ (compileFinish E addwrapper s).g.CompileEnd
            = (compileFinish E addwrapper s).g.TempObEnd) := by
  unfold compileFinish
  split
  · exact Or.inr (Or.inl ⟨rfl, rplError_flag hE E.ERR_STARTWITHOUTEND s.g⟩)
  · cases hcw : closeWrapper E addwrapper s.g with
    | ret v g =>
      obtain ⟨a, b⟩ := flagged_closeWrapper hE addwrapper s.g v g hcw
      subst a
      exact Or.inr (Or.inl ⟨rfl, b⟩)
    | next g4 =>
      dsimp only
      generalize (if g4.Exceptions = 0 then
          if g4.ValidateTop < g4.ValidateBottom then rplError E E.ERR_ENDWITHOUTSTART g4
          else if g4.ValidateTop > g4.ValidateBottom then rplError E E.ERR_STARTWITHOUTEND g4
          else g4
        else g4) = g5
      by_cases hc : g5.CompileEnd ≠ g5.TempObEnd ∧ g5.Exceptions = 0
      · rw [if_pos hc]
        generalize (if g5.CompileEnd + E.TEMPOBSLACK > g5.TempObSize then _ else _ : Globals) = g7
        split
        · rename_i h7
          exact Or.inr (Or.inl ⟨rfl, h7.2⟩)
        · exact Or.inl ⟨_, rfl⟩
      · rw [if_neg hc]
        by_cases hex : g5.Exceptions = 0
        · refine Or.inr (Or.inr ⟨rfl, hex, ?_⟩)
          by_contra hne
          exact hc ⟨hne, hex⟩
        · exact Or.inr (Or.inl ⟨rfl, hex⟩)

/-- C7 (result contract), as amended: whenever `rplCompile` returns, it returns a
non-null pointer, or null with the error flag raised, or null with no error flagged
and nothing compiled (`CompileEnd` is still `TempObEnd`, as for an empty text without
wrapper).  And it does return, within as many passes of its main loop as the text has
bytes plus one, when the libraries are tame: they leave the text and the token bounds
alone, move `NextTokenStart` forward only, and never ask for a token split. -/
theorem result_contract (E : Env) (hE : E.EX_ERRORCODE ≠ 0) (fuel : Nat) (string : Nat → Nat)
    (length : Nat) (addwrapper : Bool) (g : Globals) :
    (∀ r : Result, rplCompile E fuel string length addwrapper g = some r →
      (∃ p, r.value = some p)
      ∨ (r.value = none ∧ r.g.Exceptions ≠ 0)
      ∨ (r.value = none ∧ r.g.Exceptions = 0 ∧ r.g.CompileEnd = r.g.TempObEnd))
    ∧ (Tame E → length < fuel →
      ∃ r : Result, rplCompile E fuel string length addwrapper g = some r) := by
  refine ⟨?_, fun hT hfuel => rplCompile_total hT fuel string length addwrapper g hfuel⟩
  intro r hr
  unfold rplCompile at hr
  cases hi : compileInit E string length addwrapper g with
  | ret v g1 =>
    rw [hi] at hr
    cases hr
    obtain ⟨a, b⟩ := flagged_compileInit E string length addwrapper g v g1 hi
    exact Or.inr (Or.inl ⟨a, b⟩)
  | next s0 =>
    rw [hi] at hr
    dsimp only at hr
    unfold compileFrom at hr
    cases hl : compileLoop E fuel s0 with
    | none => rw [hl] at hr; cases hr
    | some f =>
      rw [hl] at hr
      cases f with
      | ret v g1 =>
        cases hr
        obtain ⟨a, b⟩ := flagged_compileLoop hE fuel s0 _ hl v g1 rfl
        exact Or.inr (Or.inl ⟨a, b⟩)
      | next s1 =>
        cases hr
        exact compileFinish_contract hE addwrapper s1

/-! ## The concrete environment satisfies the assumptions -/
theorem mkEnv_kindLaws (maxlib : Nat) (table : Int → Option LIBHANDLER) :
    KindLaws (mkEnv maxlib table) := by
  constructor
  · show [19, 20, 27, 28, 22, 23, 17, 24, 21, 26, 25].Nodup
    decide
  · show ∀ k ∈ [19, 20, 27, 28, 22, 23, 17, 24, 21, 26, 25], 16 < k
    decide

theorem mkEnv_symbLaws (maxlib : Nat) (table : Int → Option LIBHANDLER) :
    SymbLaws (mkEnv maxlib table) (2 ^ 18) := by
  refine ⟨by norm_num, ?_, ?_⟩
  · intro n hn
    show (56 * 2 ^ 20 + 2 ^ 19 + n % 2 ^ 18) % 2 ^ 18 = n
    omega
  · intro n hn
    show decide ((56 * 2 ^ 20 + 2 ^ 19 + n % 2 ^ 18) / 2 ^ 19 % 2 = 1) = true
    simp only [decide_eq_true_eq]
    omega

theorem mkEnv_unaryLaws (maxlib : Nat) (table : Int → Option LIBHANDLER) :
    UnaryLaws (mkEnv maxlib table) := by
  have e : (mkEnv maxlib table).MKTOKENINFO 1 (mkEnv maxlib table).TITYPE_PREFIXOP 1 4
      = ((1 + 17 * 2 ^ 14 + 1 * 2 ^ 20 + 4 * 2 ^ 24 + 2 ^ 30 : Nat) : Int) := rfl
  constructor
  · rw [e]; show ((1 + 17 * 2 ^ 14 + 1 * 2 ^ 20 + 4 * 2 ^ 24 + 2 ^ 30 : Nat) : Int).toNat
      / 2 ^ 14 % 64 = 17
    rw [Int.toNat_natCast]; norm_num
  · rw [e]; show ((1 + 17 * 2 ^ 14 + 1 * 2 ^ 20 + 4 * 2 ^ 24 + 2 ^ 30 : Nat) : Int).toNat
      / 2 ^ 20 % 16 = 1
    rw [Int.toNat_natCast]; norm_num
  · rw [e]; show ((1 + 17 * 2 ^ 14 + 1 * 2 ^ 20 + 4 * 2 ^ 24 + 2 ^ 30 : Nat) : Int).toNat
      / 2 ^ 24 % 64 = 4
    rw [Int.toNat_natCast]; norm_num
  · rw [e]; show ((1 + 17 * 2 ^ 14 + 1 * 2 ^ 20 + 4 * 2 ^ 24 + 2 ^ 30 : Nat) : Int).toNat
      % 2 ^ 14 = 1
    rw [Int.toNat_natCast]; norm_num
  · show (0x100003 : Nat) ≠ 0x100001
    decide
  · show (0x100002 : Nat) ≠ 0x100001
    decide

theorem infixStart_engine : Engine E0 infixStart 100 [] [] :=
  ⟨by decide, by decide, by simp, holds_nil _ _, ⟨by decide, by simp⟩, by decide⟩

theorem isObj_sint (n : Nat) (h : n < 2 ^ 19) : IsObj E0 [sint n] := by
  show [].length = if decide ((12 * 2 ^ 20 + n) / 2 ^ 19 % 2 = 1) = true then _ else 0
  rw [if_neg (by simp only [decide_eq_true_eq]; omega)]
  rfl

/-- Witness of C1: `1+2*3`, with `*` binding tighter than `+`, compiles to the node
`+(1, *(2,3))`. -/
theorem infix_grouping_by_precedence_witness :
    ¬ popsBefore E0 tiPlus tiTimes ∧
    ∃ t : St, compileInfix3 E0 [sint 1] [sint 2] [sint 3] tiNumber tiNumber tiNumber
        E0.CMD_OVR_ADD cmdMul tiPlus tiTimes infixStart = Flow.next t
      ∧ segment t.g.mem 101 7
          = node E0 E0.CMD_OVR_ADD [[sint 1], node E0 cmdMul [[sint 2], [sint 3]]] := by
  have hno : ¬ popsBefore E0 tiPlus tiTimes := by unfold popsBefore; decide
  obtain ⟨t, h1, _, _, h4⟩ := infix_grouping_by_precedence E0 (2 ^ 18) (mkEnv_kindLaws _ _)
    (mkEnv_symbLaws _ _) infixStart 100 [sint 1] [sint 2] [sint 3] tiNumber tiNumber tiNumber
    E0.CMD_OVR_ADD cmdMul tiPlus tiTimes infixStart_engine (by decide) (by decide)
    (isObj_sint 1 (by norm_num)) (isObj_sint 2 (by norm_num)) (isObj_sint 3 (by norm_num))
    (by unfold IsOperand; decide) (by unfold IsOperand; decide) (by unfold IsOperand; decide)
    (by unfold IsBinary; decide) (by unfold IsBinary; decide)
    (by norm_num) (by decide) (by decide)
  exact ⟨hno, t, h1, h4 hno⟩

/-- Counterexample to C3 as stated: the only library answers `PROBETOKEN` with a
token-info value, of length zero; the scan selects no library (`probe_libnum` stays
`-1`) and the token is rejected with `ERR_INVALIDTOKEN`. -/
theorem maximal_munch_zero_length :
    Offers EemptyProbe respEmpty 1 tiEmpty
    ∧ ∃ t : St, scanLibs EemptyProbe (probeStart.libcnt.toNat + 1) probeStart = Flow.next t
      ∧ t.probe_libnum = -1
      ∧ ¬ Offers EemptyProbe respEmpty t.probe_libnum t.probe_tokeninfo
      ∧ ∃ u : St, afterScan EemptyProbe t = Flow.next u
          ∧ u.g.ErrorCode = EemptyProbe.ERR_INVALIDTOKEN := by
  refine ⟨⟨by decide, by decide, rfl, rfl⟩, _, rfl, rfl, ?_, _, rfl, rfl⟩
  intro h
  exact absurd h.1 (by decide)

theorem respTwo_family : ProbeFamily EtwoProbes respTwo := by
  constructor
  · intro n h hh g _
    have hh2 : (if n = 2 then some (answering (RetCode.OK_TOKENINFO tiNumber))
        else if n = 1 then some (answering (RetCode.OK_TOKENINFO tiNumber2)) else none)
        = some h := hh
    unfold respTwo
    by_cases h2 : n = 2
    · rw [if_pos h2] at hh2 ⊢
      cases hh2; rfl
    · rw [if_neg h2] at hh2 ⊢
      by_cases h1 : n = 1
      · rw [if_pos h1] at hh2 ⊢
        cases hh2; rfl
      · rw [if_neg h1] at hh2
        cases hh2
  · intro n
    unfold respTwo
    by_cases h2 : n = 2
    · rw [if_pos h2]; exact Or.inr ⟨_, rfl⟩
    · rw [if_neg h2]
      by_cases h1 : n = 1
      · rw [if_pos h1]; exact Or.inr ⟨_, rfl⟩
      · rw [if_neg h1]; exact Or.inl rfl

/-- Witness of the amended C3: of two libraries claiming one and two characters, the
scan selects the one claiming two. -/
theorem maximal_munch_witness :
    ∃ t : St, scanLibs EtwoProbes (probeStart.libcnt.toNat + 1) probeStart = Flow.next t
      ∧ Offers EtwoProbes respTwo t.probe_libnum t.probe_tokeninfo
      ∧ (∀ n w, Offers EtwoProbes respTwo n w →
          EtwoProbes.TI_LENGTH w ≤ EtwoProbes.TI_LENGTH t.probe_tokeninfo) := by
  obtain ⟨t, h1, _, h3, h4, _⟩ := maximal_munch EtwoProbes respTwo probeStart (by decide)
    respTwo_family ⟨rfl, by decide, rfl, rfl, rfl⟩
    ⟨1, tiNumber2, ⟨by decide, by decide, rfl, rfl⟩, by decide⟩
  exact ⟨t, h1, h3, h4⟩

theorem squareCloseState_engine :
    Engine E0 squareCloseState 100 [[sint 1], [sint 2]]
      ([((1 : Int), tiOpen), ((cmdOpenSquare : Int), tiOpen)] ++ ([] : List (Int × Int)).reverse) := by
  refine ⟨by rfl, by rfl, ?_, ?_, ⟨by rfl, ?_⟩, by rfl⟩
  · intro o ho
    simp only [List.mem_cons, List.mem_singleton, List.not_mem_nil, or_false] at ho
    rcases ho with e | e <;> subst e
    · exact isObj_sint 1 (by norm_num)
    · exact isObj_sint 2 (by norm_num)
  · intro i hi
    have hi2 : i < 2 := hi
    interval_cases i <;> rfl
  · intro i hi
    have hi2 : i < 2 := hi
    interval_cases i <;> rfl

/-- Witness of the amended C4: in `[1,2)` the close parenthesis meets the marker of
the square bracket, whose opcode is not the one below its own: `ERR_MISSINGBRACKET`. -/
theorem bracket_matching_witness :
    ∃ g : Globals, closeBracketOrComma E0 cmdCloseBracket squareCloseState = Flow.ret none g
      ∧ g.ErrorCode = E0.ERR_MISSINGBRACKET ∧ g.Exceptions = E0.EX_ERRORCODE := by
  obtain ⟨_, h2⟩ := bracket_matching E0 (2 ^ 18) (mkEnv_kindLaws _ _) (mkEnv_symbLaws _ _)
    squareCloseState 100 [[sint 1], [sint 2]] []
    [((1 : Int), tiOpen), ((cmdOpenSquare : Int), tiOpen)] cmdCloseBracket
    squareCloseState_engine (by simp) (by decide) (by decide)
  obtain ⟨u, _, _, _, _, h5⟩ := (h2 _ rfl).2 [((1 : Int), tiOpen)] (cmdOpenSquare : Int) tiOpen
    rfl (by decide)
  exact (h5 (by decide)).2 (by decide)

/-- Counterexample to C4 as stated: at the `)` of `1+)` the operator stack holds no
open-bracket marker, yet `rplCompile` does not fail with `ERR_MISSINGBRACKET`: applying
the stacked `+` to the single object `1` fails first, with `ERR_BADARGCOUNT`. -/
theorem bracket_missing_but_badargcount :
    (∃ t : St, tokensOnePlus = Flow.next t ∧ t.InfixOpTop = t.g.ValidateTop + 2
      ∧ E0.TI_TYPE (t.g.cells (t.InfixOpTop - 1)) ≠ E0.TITYPE_OPENBRACKET)
    ∧ ∃ g : Globals, closeBracketOrComma E0 cmdCloseBracket plusCloseState = Flow.ret none g
      ∧ g.ErrorCode = E0.ERR_BADARGCOUNT ∧ g.ErrorCode ≠ E0.ERR_MISSINGBRACKET := by
  refine ⟨⟨_, rfl, rfl, by decide⟩, _, rfl, rfl, by decide⟩

theorem funCloseState_engine :
    Engine E0 funCloseState 100 ([] ++ [[sint 1], [sint 2], [sint 3]])
      ([] ++ [((cmdFun : Int), tiFun2), ((1 : Int), tiOpen), ((E0.CMD_OPENBRACKET : Int), tiOpen)]) := by
  refine ⟨by rfl, by rfl, ?_, ?_, ⟨by rfl, ?_⟩, by rfl⟩
  · intro o ho
    simp only [List.nil_append, List.mem_cons, List.mem_singleton, List.not_mem_nil,
      or_false] at ho
    rcases ho with e | e | e <;> subst e
    · exact isObj_sint 1 (by norm_num)
    · exact isObj_sint 2 (by norm_num)
    · exact isObj_sint 3 (by norm_num)
  · intro i hi
    have hi2 : i < 3 := hi
    interval_cases i <;> rfl
  · intro i hi
    have hi2 : i < 3 := hi
    interval_cases i <;> rfl

/-- Witness of the amended C5: the two-argument function called as `g(1,2,3)` fails
with `ERR_BADARGCOUNT`. -/
theorem close_bracket_arity_witness :
    ∃ g : Globals, closeBracket E0 funCloseState = Flow.ret none g
      ∧ g.ErrorCode = E0.ERR_BADARGCOUNT ∧ g.Exceptions = E0.EX_ERRORCODE :=
  (close_bracket_arity E0 (2 ^ 18) (mkEnv_symbLaws _ _) funCloseState 100 []
    [[sint 1], [sint 2], [sint 3]] [] (cmdFun : Int) tiFun2 1 tiOpen (E0.CMD_OPENBRACKET : Int)
    tiOpen funCloseState_engine (by decide) (Or.inl (by decide)) (by decide) (by decide)).1
    (by decide)

/-- Counterexample to C5 as stated: at the `)` of `f(1,2)` the entry below the marker
is the function-kind `CMD_OVR_FUNCEVAL` of arity 15 and two objects are counted, yet
the function is applied to three arguments: `1`, `2` and the name `f`. -/
theorem funceval_gets_one_more_argument :
    E0.TI_TYPE (identCloseState.g.cells (identCloseState.InfixOpTop - 4 - 1)) = E0.TITYPE_FUNCTION
    ∧ E0.TI_NARGS (identCloseState.g.cells (identCloseState.InfixOpTop - 4 - 1)) = 15
    ∧ countArgs E0 identCloseState.g.mem
        (identCloseState.g.TempObEnd + identCloseState.g.cells (identCloseState.InfixOpTop - 4))
        4 identCloseState.g.CompileEnd 0 = 2
    ∧ ∃ u : St, closeBracket E0 identCloseState = Flow.next u
      ∧ segment u.g.mem 101 5 = node E0 E0.CMD_OVR_FUNCEVAL [[sint 1], [sint 2], [identF]] := by
  refine ⟨by decide, by decide, by rfl, _, rfl, by rfl⟩

theorem onePlusTwo_engine :
    Engine E0 (afterTokens tokensOnePlusTwo) 100 [[sint 1], [sint 2]]
      ([] ++ [((E0.CMD_OVR_ADD : Int), tiPlus)].reverse) := by
  refine ⟨by rfl, by rfl, ?_, ?_, ⟨by rfl, ?_⟩, by rfl⟩
  · intro o ho
    simp only [List.mem_cons, List.mem_singleton, List.not_mem_nil, or_false] at ho
    rcases ho with e | e <;> subst e
    · exact isObj_sint 1 (by norm_num)
    · exact isObj_sint 2 (by norm_num)
  · intro i hi
    have hi2 : i < 2 := hi
    interval_cases i <;> rfl
  · intro i hi
    have hi2 : i < 1 := hi
    interval_cases i; rfl

/-- Witness of the amended C6: at the end of `1+2` the pending `+` is applied, one
object is left, and the symbolic is closed. -/
theorem end_of_infix_expression_witness :
    ∃ t : St, endConstructInfix E0 (afterTokens tokensOnePlusTwo) = Flow.next t
      ∧ t.infixmode = false
      ∧ segment t.g.mem 101 4 = node E0 E0.CMD_OVR_ADD [[sint 1], [sint 2]] := by
  obtain ⟨_, h2⟩ := end_of_infix_expression E0 (2 ^ 18) (mkEnv_symbLaws _ _)
    (afterTokens tokensOnePlusTwo) 100 [[sint 1], [sint 2]] [((E0.CMD_OVR_ADD : Int), tiPlus)] []
    onePlusTwo_engine (by rfl) (by decide) (by decide) (by decide) (by decide)
  obtain ⟨t, h3, h4, _, _, h7, _⟩ := ((h2 _ rfl).2 rfl).2 _ rfl
  exact ⟨t, h3, h4, h7⟩

/-- Counterexample to C6 as stated: at the end of `(1+` an open-bracket marker is
left on the operator stack, yet `rplCompile` does not fail with `ERR_MISSINGBRACKET`:
applying the `+` stacked above the marker fails first, with `ERR_BADARGCOUNT`. -/
theorem end_with_marker_but_badargcount :
    E0.TI_TYPE ((afterTokens tokensParenOnePlus).g.cells
        ((afterTokens tokensParenOnePlus).g.ValidateTop + 3)) = E0.TITYPE_OPENBRACKET
    ∧ (afterTokens tokensParenOnePlus).InfixOpTop = (afterTokens tokensParenOnePlus).g.ValidateTop + 6
    ∧ ∃ g : Globals, endConstructInfix E0 (afterTokens tokensParenOnePlus) = Flow.ret none g
      ∧ g.ErrorCode = E0.ERR_BADARGCOUNT ∧ g.ErrorCode ≠ E0.ERR_MISSINGBRACKET := by
  refine ⟨by decide, by rfl, _, rfl, rfl, by decide⟩

/-- Witness of the amended C8: the text `< 1` opens a construct and never closes it;
the compile fails with `ERR_STARTWITHOUTEND`. -/
theorem unterminated_construct_witness :
    ∃ r : Result, rplCompile Etoy 10 (textOf [60, 32, 49]) 3 false toyGlobals = some r
      ∧ r.value = none ∧ r.g.ErrorCode = Etoy.ERR_STARTWITHOUTEND := by
  obtain ⟨r, h1, h2, _, _, h5, _⟩ := unterminated_construct Etoy (by decide) 10 false
    (toyStart (textOf [60, 32, 49]) 3 false) (toyLoopEnd (toyStart (textOf [60, 32, 49]) 3 false))
    (by rfl) (Or.inr (by decide))
  exact ⟨r, h1, h2, h5 (by rfl) (fun h => by cases h)⟩

/-- Counterexample to C8 as stated: in the text `< !` the construct opened by `<` is
never closed, and the library that compiles `!` flags out-of-memory itself; the end
of the input is reached with the construct stack not empty, and `rplCompile` returns
null with that error, not with `ERR_STARTWITHOUTEND`. -/
theorem unterminated_but_other_error :
    ∃ r : Result, rplCompile Etoy 10 (textOf [60, 32, 33]) 3 false toyGlobals = some r
      ∧ r.value = none
      ∧ r.g.NextTokenStart = r.g.CompileStringEnd
      ∧ r.g.ValidateTop > r.g.ValidateBottom
      ∧ r.g.Exceptions = Etoy.EX_OUTOFMEM
      ∧ r.g.ErrorCode ≠ Etoy.ERR_STARTWITHOUTEND := by
  refine ⟨_, rfl, by rfl, by rfl, by decide, by rfl, by decide⟩

/-- The plain `END_CONSTRUCT` with the construct stack empty: the text `>` closes a
construct that was never opened; the compile fails with `ERR_ENDWITHOUTSTART`. -/
theorem construct_underflow_witness :
    scanBody Etoy (afterTokens (scanBody Etoy (loopHead Etoy (toyStart (textOf [62]) 1 false)).1))
      = dispatch Etoy (toyAsked (toyStart (textOf [62]) 1 false))
    ∧ (∃ g : Globals, dispatch Etoy (toyAsked (toyStart (textOf [62]) 1 false)) = Flow.ret none g
      ∧ g.ErrorCode = Etoy.ERR_ENDWITHOUTSTART)
    ∧ (rplCompile Etoy 10 (textOf [62]) 1 false toyGlobals).map (fun r => (r.value, r.g.ErrorCode))
        = some (none, Etoy.ERR_ENDWITHOUTSTART) := by
  obtain ⟨h1, _, _⟩ := construct_underflow Etoy (by decide) (toyAsked (toyStart (textOf [62]) 1 false))
  obtain ⟨g, a, b, _⟩ := h1 (by rfl) (by rfl)
  exact ⟨by rfl, ⟨g, a, b⟩, by rfl⟩

/-- C9 at the infix variant in infix mode: in the text `' > '` the toy library opens
a symbolic, then closes it with a plain `END_CONSTRUCT` while infix mode goes on, then
answers `END_CONSTRUCT_INFIX`.  That action is processed in infix mode with the
construct stack empty.  Before `--ValidateTop` and the test of the stack bottom, the
flush of the operator stack runs with `InfixOpTop` one cell above `ValidateTop`: it
takes the cell below the stack bottom, a pointer of the caller, for an opcode and the
stale cell of the closed construct for a token-info, leaves `InfixOpTop` below the
stack bottom and appends a node of two words with that pointer to the stream; the
check for a single object then reads the cell below the stack bottom as the start of
the symbolic.  `rplCompile` returns null with `ERR_SYNTAXERROR`, not with
`ERR_ENDWITHOUTSTART`; with another pointer in the cell below the stack bottom the
same text gives `ERR_ENDWITHOUTSTART`; and the plain `END_CONSTRUCT` of the text `>`
gives `ERR_ENDWITHOUTSTART` without such a read. -/
theorem underflow_in_infix_mode :
    scanBody Etoy (afterTokens (scanBody Etoy
        (loopHead Etoy (toyPass (toyPass (toyStart (textOf [39, 32, 62, 32, 39]) 5 false)))).1))
      = dispatch Etoy (toyAsked (toyPass (toyPass (toyStart (textOf [39, 32, 62, 32, 39]) 5 false))))
    ∧ (toyAsked (toyPass (toyPass (toyStart (textOf [39, 32, 62, 32, 39]) 5 false)))).g.RetNum
      = RetCode.OK_ENDCONSTRUCT_INFIX
    ∧ (toyAsked (toyPass (toyPass (toyStart (textOf [39, 32, 62, 32, 39]) 5 false)))).infixmode = true
    ∧ (toyAsked (toyPass (toyPass (toyStart (textOf [39, 32, 62, 32, 39]) 5 false)))).g.ValidateTop
      = (toyAsked (toyPass (toyPass (toyStart (textOf [39, 32, 62, 32, 39]) 5 false)))).g.ValidateBottom
    ∧ (∃ g : Globals,
        dispatch Etoy (toyAsked (toyPass (toyPass (toyStart (textOf [39, 32, 62, 32, 39]) 5 false))))
          = Flow.ret none g
        ∧ g.ErrorCode = Etoy.ERR_SYNTAXERROR ∧ g.ErrorCode ≠ Etoy.ERR_ENDWITHOUTSTART)
    ∧ (rplCompile Etoy 10 (textOf [39, 32, 62, 32, 39]) 5 false toyGlobals).map
        (fun r => (r.value, r.g.ErrorCode)) = some (none, Etoy.ERR_SYNTAXERROR)
    ∧ (toyAsked (toyPass (toyPass (toyStart (textOf [39, 32, 62, 32, 39]) 5 false)))).InfixOpTop
      = (toyAsked (toyPass (toyPass (toyStart (textOf [39, 32, 62, 32, 39]) 5 false)))).g.ValidateBottom
        + 1
    ∧ (∃ t : St,
        infixFlushEnd Etoy 1
            (toyAsked (toyPass (toyPass (toyStart (textOf [39, 32, 62, 32, 39]) 5 false))))
          = Flow.next t
        ∧ t.InfixOpTop = t.g.ValidateBottom - 1
        ∧ t.g.CompileEnd
          = (toyAsked (toyPass (toyPass (toyStart (textOf [39, 32, 62, 32, 39]) 5 false)))).g.CompileEnd
            + 2
        ∧ segment t.g.mem 101 2 = [Etoy.MKPROLOG Etoy.DOSYMB 1, (toyGlobals.cells 49).toNat])
    ∧ (rplCompile Etoy 10 (textOf [39, 32, 62, 32, 39]) 5 false
          { toyGlobals with cells := fun a => if a = 49 then 100 else 0 }).map
        (fun r => (r.value, r.g.ErrorCode)) = some (none, Etoy.ERR_ENDWITHOUTSTART)
    ∧ (rplCompile Etoy 10 (textOf [62]) 1 false toyGlobals).map
        (fun r => (r.value, r.g.ErrorCode)) = some (none, Etoy.ERR_ENDWITHOUTSTART) := by
  refine ⟨by rfl, by rfl, by rfl, by rfl, ⟨_, rfl, by rfl, by decide⟩, by rfl, by rfl,
    ⟨_, rfl, by rfl, by rfl, by rfl⟩, by rfl, by rfl⟩

/-- Counterexample to C10 as stated: in the text `' 1 '` the toy library, the only
one registered, answers the probe of the closing quote with `END_CONSTRUCT_INFIX`, so
no library answers with a token-info value; the token is accepted, and `rplCompile`
returns the compiled symbolic with no error. -/
theorem closing_quote_is_accepted :
    scanBody Etoy (afterTokens (scanBody Etoy
        (loopHead Etoy (toyPass (toyPass (toyStart (textOf [39, 32, 49, 32, 39]) 5 false)))).1))
      = dispatch Etoy (toyAsked (toyPass (toyPass (toyStart (textOf [39, 32, 49, 32, 39]) 5 false))))
    ∧ (toyAsked (toyPass (toyPass (toyStart (textOf [39, 32, 49, 32, 39]) 5 false)))).infixmode = true
    ∧ (toyAsked (toyPass (toyPass (toyStart (textOf [39, 32, 49, 32, 39]) 5 false)))).g.CurOpcode
      = Etoy.MKOPCODE 2 Etoy.OPCODE_PROBETOKEN
    ∧ (toyAsked (toyPass (toyPass (toyStart (textOf [39, 32, 49, 32, 39]) 5 false)))).g.RetNum
      = RetCode.OK_ENDCONSTRUCT_INFIX
    ∧ (∀ n : Int, n ≠ 2 → Etoy.rplGetLibHandler n = none)
    ∧ ∃ r : Result, rplCompile Etoy 10 (textOf [39, 32, 49, 32, 39]) 5 false toyGlobals = some r
      ∧ r.value = some 100 ∧ r.g.Exceptions = 0
      ∧ segment r.g.mem 100 2 = [Etoy.MKPROLOG Etoy.DOSYMB 1, sint 1] := by
  refine ⟨by rfl, by rfl, by rfl, by rfl, ?_, _, rfl, by rfl, by rfl, by rfl⟩
  intro n hn
  show (if n = 2 then some toyLib else none) = none
  rw [if_neg hn]

theorem toy_tame : Tame Etoy := by
  refine ⟨?_, ?_, ?_⟩
  · intro n h hh g
    have hh2 : (if n = 2 then some toyLib else none) = some h := hh
    split at hh2
    · cases hh2
      unfold toyLib
      dsimp only
      split_ifs <;> refine ⟨⟨rfl, rfl, rfl, rfl, le_refl _⟩, ?_⟩ <;> unfold NoSplit <;>
        refine ⟨?_, ?_, ?_, ?_⟩ <;> intro h <;> cases h
    · cases hh2
  · intro str a b n h
    exact Nat.le_min.mpr ⟨by omega, h⟩
  · intro str a b n h hn
    exact Nat.lt_min.mpr ⟨by omega, h⟩

/-- Witness of the amended C7: the text `' 1 '` compiles, with the toy library, to a
symbolic at address 100. -/
theorem result_contract_witness :
    ∃ r : Result, rplCompile Etoy 10 (textOf [39, 32, 49, 32, 39]) 5 false toyGlobals = some r
      ∧ ((∃ p, r.value = some p)
        ∨ (r.value = none ∧ r.g.Exceptions ≠ 0)
        ∨ (r.value = none ∧ r.g.Exceptions = 0 ∧ r.g.CompileEnd = r.g.TempObEnd)) := by
  obtain ⟨h1, h2⟩ := result_contract Etoy (by decide) 10 (textOf [39, 32, 49, 32, 39]) 5 false
    toyGlobals
  obtain ⟨r, hr⟩ := h2 toy_tame (by decide)
  exact ⟨r, hr, h1 r hr⟩

/-- Counterexample to C7 as stated: for the empty text without wrapper `rplCompile`
returns null while no error is flagged; nothing was compiled. -/
theorem empty_text_null_without_error :
    ∃ r : Result, rplCompile Etoy 10 (textOf []) 0 false toyGlobals = some r
      ∧ r.value = none ∧ r.g.Exceptions = 0 := by
  exact ⟨_, rfl, by rfl, by rfl⟩

/-- Witness of the amended C10: the only library answers `NOT_MINE` to every call;
the text `x` is rejected with `ERR_INVALIDTOKEN`. -/
theorem unknown_token_witness :
    ∃ r : Result, rplCompile Edeaf 1 (textOf [120]) 1 false toyGlobals = some r
      ∧ r.value = none ∧ r.g.ErrorCode = Edeaf.ERR_INVALIDTOKEN := by
  obtain ⟨h1, _⟩ := unknown_token Edeaf (by decide) (by decide) 0 false deafStart
    (by unfold TokenLeft; decide)
  obtain ⟨r, a, b, c, _⟩ := h1 (by rfl) (by rfl) (by
    intro n h hh g _
    have hh2 : (if n = 1 then some (answering RetCode.ERR_NOTMINE) else none) = some h := hh
    split at hh2
    · cases hh2; rfl
    · cases hh2)
  exact ⟨r, a, b, c⟩

/-! ## Closing a construct, the program wrapper, the library scan and the token scanner -/
theorem closeSize_eq (compileEnd header : Int) (h1 : header < compileEnd)
    (h2 : compileEnd - header < 2 ^ 30) :
    closeSize compileEnd header = (compileEnd - header - 1).toNat := by
  unfold closeSize toWord
  have hp : (2 : Int) ^ 32 = 4294967296 := by norm_num
  have hq : (2 : Int) ^ 30 = 1073741824 := by norm_num
  rw [hp]
  rw [hq] at h2
  have e1 : (4 * (compileEnd - header)) % 4294967296 = 4 * (compileEnd - header) := by
    omega
  rw [e1]
  have e2 : ((4 * (compileEnd - header)).toNat / 4 : Nat) = (compileEnd - header).toNat := by
    omega
  rw [e2]
  have e3 : (((compileEnd - header).toNat : Nat) : Int) - 1 = compileEnd - header - 1 := by
    omega
  rw [e3]
  have e4 : (compileEnd - header - 1) % 4294967296 = compileEnd - header - 1 := by omega
  rw [e4]

theorem endConstruct_closedOn {E : Env} {bound : Nat} (hlaw : HeaderLaws E bound) (s : St)
    (hopen : s.g.ValidateTop > s.g.ValidateBottom)
    (hprolog : E.ISPROLOG (s.g.mem (s.g.cells (s.g.ValidateTop - 1))) = true)
    (hbelow : s.g.cells (s.g.ValidateTop - 1) < s.g.CompileEnd)
    (hfits : s.g.CompileEnd - s.g.cells (s.g.ValidateTop - 1) - 1 < bound) :
    ∃ t : St, endConstruct E s = Flow.next t ∧ ClosedOn E s t
      ∧ t.infixmode = s.infixmode := by
  have hs := hlaw.small
  have hcs := closeSize_eq s.g.CompileEnd (s.g.cells (s.g.ValidateTop - 1)) hbelow (by omega)
  have hn : (s.g.CompileEnd - s.g.cells (s.g.ValidateTop - 1) - 1).toNat < bound := by omega
  unfold endConstruct
  simp only []
  rw [if_neg (by omega), if_pos hprolog]
  refine ⟨_, rfl, ?_, rfl⟩
  have hw : ∀ m : Int → Nat, ∀ p : Int, ∀ w : Nat, setWord m p w p = w := by
    intro m p w; simp [setWord]
  constructor
  · show (E.OBJSIZE (setWord _ _ _ _) : Int) = _
    rw [hw, hcs, hlaw.size _ _ hn]; omega
  · show rplSkipOb E (setWord _ _ _) _ = s.g.CompileEnd
    unfold rplSkipOb
    rw [hw, hcs, hlaw.prolog _ _ hn, hprolog, if_pos rfl, hlaw.size _ _ hn]; omega
  · rfl
  · show E.ISPROLOG (setWord _ _ _ _) = true
    rw [hw, hcs, hlaw.prolog _ _ hn, hprolog]
  · show E.LIBNUM (setWord _ _ _ _) = _
    rw [hw, hcs, hlaw.libnum _ _ hn]
  · intro a ha
    show setWord _ _ _ a = _
    exact setWord_other _ _ _ _ ha
  · rfl

theorem patch_word (w n : Nat) (hn : n < 2 ^ 18) :
    (w ^^^ (w % 2 ^ 18)) ||| n = 2 ^ 18 * (w / 2 ^ 18) + n := by
  apply Nat.eq_of_testBit_eq
  intro i
  rw [Nat.testBit_mul_pow_two_add _ hn, Nat.testBit_or, Nat.testBit_xor, Nat.testBit_mod_two_pow,
    ← Nat.shiftRight_eq_div_pow, Nat.testBit_shiftRight]
  by_cases hi : i < 18
  · simp [hi]
  · have h2 : n.testBit i = false := by
      apply Nat.testBit_lt_two_pow
      calc n < 2 ^ 18 := hn
        _ ≤ 2 ^ i := Nat.pow_le_pow_right (by decide) (by omega)
    have e : 18 + (i - 18) = i := by omega
    simp [hi, h2, e]

theorem patch_size (w n : Nat) (hn : n < 2 ^ 18) : ((w ^^^ (w % 2 ^ 18)) ||| n) % 2 ^ 18 = n := by
  rw [patch_word w n hn]; omega

theorem patch_high (w n : Nat) (hn : n < 2 ^ 18) :
    ((w ^^^ (w % 2 ^ 18)) ||| n) / 2 ^ 18 = w / 2 ^ 18 := by
  rw [patch_word w n hn]; omega

theorem patch_prolog (w n : Nat) (hn : n < 2 ^ 18) :
    ((w ^^^ (w % 2 ^ 18)) ||| n) / 2 ^ 19 = w / 2 ^ 19 := by
  have h := patch_high w n hn
  have e1 : ∀ x : Nat, x / 2 ^ 19 = x / 2 ^ 18 / 2 := by intro x; omega
  rw [e1, h, ← e1]

theorem patch_libnum (w n : Nat) (hn : n < 2 ^ 18) :
    ((w ^^^ (w % 2 ^ 18)) ||| n) / 2 ^ 20 = w / 2 ^ 20 := by
  have h := patch_high w n hn
  have e1 : ∀ x : Nat, x / 2 ^ 20 = x / 2 ^ 18 / 4 := by intro x; omega
  rw [e1, h, ← e1]

/-- The concrete layout of `mkEnv` obeys the header laws for sizes below `2 ^ 18`. -/
theorem mkEnv_headerLaws (maxlib : Nat) (table : Int → Option LIBHANDLER) :
    HeaderLaws (mkEnv maxlib table) (2 ^ 18) := by
  refine ⟨by norm_num, ?_, ?_, ?_⟩
  · intro w n hn
    exact patch_size w n hn
  · intro w n hn
    show decide (((w ^^^ (w % 2 ^ 18)) ||| n) / 2 ^ 19 % 2 = 1) = decide (w / 2 ^ 19 % 2 = 1)
    rw [patch_prolog w n hn]
  · intro w n hn
    show ((((w ^^^ (w % 2 ^ 18)) ||| n) / 2 ^ 20 : Nat) : Int) = ((w / 2 ^ 20 : Nat) : Int)
    rw [patch_libnum w n hn]

/-- C11 (size patch on close): whenever the construct on top of the construct stack
is closed on a header word that is a prolog, with the cursor above the header and
the size within the size field, the size field afterwards is cursor - header - 1,
skipping the object from its header lands on the cursor, the prolog flag, the
library identifier and every other word are unchanged; the header word is arbitrary,
so whatever `INC_ARG_COUNT` accumulated in the size field is discarded.  This is
what the closing fragment does, and so what `END_CONSTRUCT` does and what its infix
variant does, outside infix mode at once and in infix mode after its flush and its
single-object check led to the state `s`. -/
theorem size_patch_on_close {E : Env} {bound : Nat} (hlaw : HeaderLaws E bound) (s : St)
    (hopen : s.g.ValidateTop > s.g.ValidateBottom)
    (hprolog : E.ISPROLOG (s.g.mem (s.g.cells (s.g.ValidateTop - 1))) = true)
    (hbelow : s.g.cells (s.g.ValidateTop - 1) < s.g.CompileEnd)
    (hfits : s.g.CompileEnd - s.g.cells (s.g.ValidateTop - 1) - 1 < bound) :
    (∃ t : St, endConstruct E s = Flow.next t ∧ ClosedOn E s t)
    ∧ (s.g.RetNum = RetCode.OK_ENDCONSTRUCT →
        ∃ t : St, dispatch E s = Flow.next t ∧ ClosedOn E s t)
    ∧ (s.infixmode = false → s.g.RetNum = RetCode.OK_ENDCONSTRUCT_INFIX →
        ∃ t : St, dispatch E s = Flow.next t ∧ ClosedOn E s t)
    ∧ (∀ s0 : St, s0.infixmode = true → s0.g.RetNum = RetCode.OK_ENDCONSTRUCT_INFIX →
        ((infixFlushEnd E (s0.InfixOpTop - s0.g.ValidateTop).toNat s0).bind fun s1 =>
          if rplSkipOb E s1.g.mem (s1.g.cells (s1.g.ValidateTop - 1) + 1) ≠ s1.g.CompileEnd then
            return0 (rplError E E.ERR_SYNTAXERROR s1.g)
          else Flow.next { s1 with infixmode := false }) = Flow.next s →
        ∃ t : St, dispatch E s0 = Flow.next t ∧ ClosedOn E s t) := by
  obtain ⟨t, ht, hc, -⟩ := endConstruct_closedOn hlaw s hopen hprolog hbelow hfits
  refine ⟨⟨t, ht, hc⟩, ?_, ?_, ?_⟩
  · intro hr
    refine ⟨{ t with libcnt := EXIT_LOOP, force_libnum := -1 }, ?_,
      ⟨hc.size, hc.skip, hc.cursor, hc.prolog, hc.libnum, hc.others, hc.popped⟩⟩
    unfold dispatch
    rw [hr]
    simp only [ht, Flow.bind]
  · intro hm hr
    refine ⟨{ t with libcnt := EXIT_LOOP, force_libnum := -1 }, ?_,
      ⟨hc.size, hc.skip, hc.cursor, hc.prolog, hc.libnum, hc.others, hc.popped⟩⟩
    unfold dispatch
    rw [hr]
    simp only [endConstructInfix, hm, ht, Flow.bind, Bool.false_eq_true, if_false]
  · intro s0 hm hr hs0
    refine ⟨{ t with libcnt := EXIT_LOOP, force_libnum := -1 }, ?_,
      ⟨hc.size, hc.skip, hc.cursor, hc.prolog, hc.libnum, hc.others, hc.popped⟩⟩
    unfold dispatch
    rw [hr]
    simp only [endConstructInfix, hm, if_true]
    rw [hs0]
    simp only [ht, Flow.bind]

/-- C11 on a header that counted three arguments: the count is replaced by the size 4. -/
theorem size_patch_on_close_witness :
    E0.OBJSIZE (countedState.g.mem 100) = 3
    ∧ (∃ t : St, endConstruct E0 countedState = Flow.next t ∧ ClosedOn E0 countedState t
        ∧ E0.OBJSIZE (t.g.mem 100) = 4 ∧ rplSkipOb E0 t.g.mem 100 = 105) := by
  refine ⟨by decide, ?_⟩
  obtain ⟨t, ht, hc⟩ := (size_patch_on_close (mkEnv_headerLaws 3 fun _ => none) countedState
    (by decide) (by decide) (by decide) (by decide)).1
  refine ⟨t, ht, hc, ?_, ?_⟩
  · have h := hc.size
    have e : countedState.g.cells (countedState.g.ValidateTop - 1) = 100 := by decide
    have e2 : countedState.g.CompileEnd = 105 := by decide
    rw [e, e2] at h
    change ((E0.OBJSIZE (t.g.mem 100) : Nat) : Int) = 105 - 100 - 1 at h
    omega
  · have h := hc.skip
    have e : countedState.g.cells (countedState.g.ValidateTop - 1) = 100 := by decide
    have e2 : countedState.g.CompileEnd = 105 := by decide
    rw [e, hc.cursor, e2] at h
    exact h

theorem rplCompileAppend_mem (E : Env) (w : Nat) (g : Globals) :
    (rplCompileAppend E w g).mem = setWord g.mem g.CompileEnd w
    ∧ (rplCompileAppend E w g).CompileEnd = g.CompileEnd + 1
    ∧ (rplCompileAppend E w g).TempObEnd = g.TempObEnd
    ∧ (rplCompileAppend E w g).cells = g.cells
    ∧ (rplCompileAppend E w g).ValidateTop = g.ValidateTop
    ∧ (rplCompileAppend E w g).ValidateBottom = g.ValidateBottom := by
  unfold rplCompileAppend
  dsimp only
  split
  · unfold growTempOb
    split <;> exact ⟨rfl, rfl, rfl, rfl, rfl, rfl⟩
  · exact ⟨rfl, rfl, rfl, rfl, rfl, rfl⟩

theorem closeWrapper_intact {E : Env} {bound : Nat} (hlaw : WrapperLaws E bound) (g g4 : Globals)
    (hex : g.Exceptions = 0)
    (hentry : g.cells (g.ValidateTop - 1) = g.TempObEnd)
    (hheader : g.mem g.TempObEnd = E.MKPROLOG E.DOCOL 0)
    (habove : g.TempObEnd < g.CompileEnd)
    (hfits : g.CompileEnd - g.TempObEnd < bound)
    (h : closeWrapper E true g = Flow.next g4) :
    g4.TempObEnd = g.TempObEnd ∧ g4.CompileEnd = g.CompileEnd + 2
      ∧ g4.mem = setWord (setWord (setWord g.mem g.CompileEnd E.CMD_SEMI) g.TempObEnd
          (E.MKPROLOG E.DOCOL (g.CompileEnd - g.TempObEnd).toNat)) (g.CompileEnd + 1)
          E.CMD_ENDOFCODE := by
  have hs := hlaw.small
  obtain ⟨a1, a2, a3, a4, a5, a6⟩ := rplCompileAppend_mem E E.CMD_SEMI g
  unfold closeWrapper at h
  rw [if_pos ⟨hex, rfl⟩] at h
  dsimp only at h
  split at h
  · cases h
  · rw [a4, a5, hentry, a1, a2] at h
    have hhd : setWord g.mem g.CompileEnd E.CMD_SEMI g.TempObEnd = E.MKPROLOG E.DOCOL 0 := by
      rw [setWord_other _ _ _ _ (by omega), hheader]
    have hn : (g.CompileEnd - g.TempObEnd).toNat < bound := by omega
    have hcs : closeSize (g.CompileEnd + 1) g.TempObEnd = (g.CompileEnd - g.TempObEnd).toNat := by
      rw [closeSize_eq _ _ (by omega) (by omega)]
      congr 1
      omega
    rw [hhd, if_pos (hlaw.isprolog 0 (by omega)), hcs, hlaw.patch _ hn] at h
    cases h
    have b := rplCompileAppend_mem E E.CMD_ENDOFCODE
    refine ⟨?_, ?_, ?_⟩
    · rw [(b _).2.2.1]; exact a3
    · rw [(b _).2.1]; show g.CompileEnd + 1 + 1 = _; omega
    · rw [(b _).1]

theorem closeWrapper_ret_none (E : Env) (addwrapper : Bool) (g g1 : Globals) (v : Option Int)
    (h : closeWrapper E addwrapper g = Flow.ret v g1) : v = none := by
  unfold closeWrapper at h
  split at h
  · dsimp only at h
    split at h
    · unfold return0 at h
      cases h
      rfl
    · cases h
  · cases h

theorem or_eq_zero_left (a b : Nat) (h : a ||| b = 0) : a = 0 := by
  apply Nat.eq_of_testBit_eq
  intro i
  have h2 : (a ||| b).testBit i = (0 : Nat).testBit i := by rw [h]
  rw [Nat.testBit_or] at h2
  simp only [Nat.zero_testBit, Bool.or_eq_false_iff] at h2 ⊢
  exact h2.1

theorem compileFinish_success {E : Env} {bound : Nat} (hlaw : WrapperLaws E bound)
    (addwrapper : Bool) (s : St) (obj : Int)
    (h : (compileFinish E addwrapper s).value = some obj) :
    s.force_libnum < 0 ∧ ∃ g4 : Globals, closeWrapper E addwrapper s.g = Flow.next g4
      ∧ g4.Exceptions = 0
      ∧ obj = g4.TempObEnd
      ∧ (compileFinish E addwrapper s).g.mem = g4.mem
      ∧ (compileFinish E addwrapper s).g.TempObEnd = g4.CompileEnd := by
  generalize hr : compileFinish E addwrapper s = r at h
  unfold compileFinish at hr
  split at hr
  · subst hr; cases h
  · rename_i hf
    refine ⟨by omega, ?_⟩
    split at hr
    · rename_i v g hc
      subst hr
      have hv := closeWrapper_ret_none E addwrapper s.g g v hc
      subst hv
      cases h
    · rename_i g4 hc
      refine ⟨g4, hc, ?_⟩
      dsimp only at hr
      generalize hg5 : (if g4.Exceptions = 0 then _ else g4 : Globals) = g5 at hr
      have h5 : g5.mem = g4.mem ∧ g5.TempObEnd = g4.TempObEnd ∧ g5.CompileEnd = g4.CompileEnd
          ∧ (g5.Exceptions = 0 → g4.Exceptions = 0) := by
        subst hg5
        split
        · split
          · exact ⟨rfl, rfl, rfl, fun h0 => or_eq_zero_left _ _ h0⟩
          · split
            · exact ⟨rfl, rfl, rfl, fun h0 => or_eq_zero_left _ _ h0⟩
            · exact ⟨rfl, rfl, rfl, fun h0 => h0⟩
        · exact ⟨rfl, rfl, rfl, fun h0 => h0⟩
      obtain ⟨m5, t5, c5, e5⟩ := h5
      generalize hg7 : (if g5.CompileEnd + E.TEMPOBSLACK > g5.TempObSize then _ else _ : Globals)
        = g7 at hr
      have h7 : g7.mem = g5.mem ∧ g7.TempObEnd = g5.TempObEnd ∧ g7.CompileEnd = g5.CompileEnd := by
        subst hg7
        split
        · unfold growTempOb
          split <;> exact ⟨rfl, rfl, rfl⟩
        · exact ⟨rfl, rfl, rfl⟩
      obtain ⟨m7, t7, c7⟩ := h7
      obtain ⟨b1, b2, b3⟩ := hlaw.block g7.TempObEnd g7
      split at hr
      · rename_i hcond
        refine ⟨e5 hcond.2, ?_⟩
        split at hr
        · subst hr; cases h
        · subst hr
          dsimp only at h ⊢
          injection h with h
          subst h
          exact ⟨by rw [b2, t7, t5], by rw [b1, m7, m5], by rw [b3, c7, c5]⟩
      · subst hr; cases h

theorem pushConstruct_spec (E : Env) (g g1 : Globals) (h : pushConstruct E g = Flow.next g1) :
    g1.mem = g.mem ∧ g1.TempObEnd = g.TempObEnd ∧ g1.CompileEnd = g.CompileEnd
      ∧ g1.cells g.ValidateTop = g.CompileEnd - 1 ∧ g1.ValidateTop = g.ValidateTop + 1
      ∧ g1.CompileStringEnd = g.CompileStringEnd ∧ g1.NextTokenStart = g.NextTokenStart := by
  unfold pushConstruct at h
  dsimp only at h
  generalize hg : (if g.RStkSize ≤ g.ValidateTop - g.RStk then _ else g : Globals) = g2 at h
  have h2 : g2.mem = g.mem ∧ g2.TempObEnd = g.TempObEnd ∧ g2.CompileEnd = g.CompileEnd
      ∧ g2.cells = g.cells ∧ g2.ValidateTop = g.ValidateTop
      ∧ g2.CompileStringEnd = g.CompileStringEnd ∧ g2.NextTokenStart = g.NextTokenStart := by
    subst hg
    split
    · unfold growRStk
      split <;> exact ⟨rfl, rfl, rfl, rfl, rfl, rfl, rfl⟩
    · exact ⟨rfl, rfl, rfl, rfl, rfl, rfl, rfl⟩
  obtain ⟨a1, a2, a3, a4, a5, a6, a7⟩ := h2
  split at h
  · unfold return0 at h; cases h
  · cases h
    refine ⟨a1, a2, a3, ?_, ?_, a6, a7⟩
    · show setCell g2.cells g2.ValidateTop (g2.CompileEnd - 1) g.ValidateTop = _
      rw [a5, a3]
      simp [setCell]
    · show g2.ValidateTop + 1 = _
      rw [a5]

theorem loopHead_store (E : Env) (s : St) :
    (loopHead E s).1.g.mem = s.g.mem ∧ (loopHead E s).1.g.cells = s.g.cells
      ∧ (loopHead E s).1.g.ValidateTop = s.g.ValidateTop
      ∧ (loopHead E s).1.g.TempObEnd = s.g.TempObEnd
      ∧ (loopHead E s).1.g.CompileEnd = s.g.CompileEnd := by
  unfold loopHead
  dsimp only
  split
  · split
    · exact ⟨rfl, rfl, rfl, rfl, rfl⟩
    · split <;> exact ⟨rfl, rfl, rfl, rfl, rfl⟩
  · split
    · split <;> exact ⟨rfl, rfl, rfl, rfl, rfl⟩
    · split
      · split <;> exact ⟨rfl, rfl, rfl, rfl, rfl⟩
      · split <;> exact ⟨rfl, rfl, rfl, rfl, rfl⟩

theorem loopHead_at_end (E : Env) (s : St) (hs : s.splittoken = false)
    (h : s.g.NextTokenStart ≥ s.g.CompileStringEnd) : (loopHead E s).2 = true := by
  unfold loopHead
  simp only [hs, Bool.false_eq_true, not_false_eq_true, if_true]
  rw [if_pos h]

theorem rplCompileAppend_text (E : Env) (w : Nat) (g : Globals) :
    (rplCompileAppend E w g).NextTokenStart = g.NextTokenStart
    ∧ (rplCompileAppend E w g).CompileStringEnd = g.CompileStringEnd := by
  unfold rplCompileAppend
  dsimp only
  split
  · unfold growTempOb
    split <;> exact ⟨rfl, rfl⟩
  · exact ⟨rfl, rfl⟩

theorem compileInit_wrapper (E : Env) (string : Nat → Nat) (length : Nat) (g : Globals) (s0 : St)
    (h : compileInit E string length true g = Flow.next s0) :
    s0.g.TempObEnd = g.TempObEnd ∧ s0.g.CompileEnd = g.TempObEnd + 1
      ∧ s0.g.mem g.TempObEnd = E.MKPROLOG E.DOCOL 0
      ∧ s0.g.cells (s0.g.ValidateTop - 1) = g.TempObEnd
      ∧ s0.g.CompileStringEnd = length ∧ s0.splittoken = false
      ∧ (length = 0 → s0.g.NextTokenStart = 0) := by
  unfold compileInit at h
  dsimp only at h
  simp only [if_true] at h
  cases hp : pushConstruct E (rplCompileAppend E (E.MKPROLOG E.DOCOL 0)
      { g with CompileEnd := g.TempObEnd, LAMTopSaved := g.LAMTop, ValidateTop := g.RSTop,
               ValidateBottom := g.RSTop, string := string, NextTokenStart := 0,
               CompileStringEnd := length }) with
  | ret v g1 => rw [hp] at h; cases h
  | next g3 =>
    rw [hp] at h
    simp only [Flow.bind] at h
    cases h
    obtain ⟨p1, p2, p3, p4, p5, p6, p7⟩ := pushConstruct_spec E _ _ hp
    obtain ⟨a1, a2, a3, a4, a5, a6⟩ := rplCompileAppend_mem E (E.MKPROLOG E.DOCOL 0)
      { g with CompileEnd := g.TempObEnd, LAMTopSaved := g.LAMTop, ValidateTop := g.RSTop,
               ValidateBottom := g.RSTop, string := string, NextTokenStart := 0,
               CompileStringEnd := length }
    have k2 := rplCompileAppend_text E (E.MKPROLOG E.DOCOL 0)
      { g with CompileEnd := g.TempObEnd, LAMTopSaved := g.LAMTop, ValidateTop := g.RSTop,
               ValidateBottom := g.RSTop, string := string, NextTokenStart := 0,
               CompileStringEnd := length }
    refine ⟨?_, ?_, ?_, ?_, ?_, rfl, ?_⟩
    · show g3.TempObEnd = _
      rw [p2, a3]
    · show g3.CompileEnd = _
      rw [p3, a2]
    · show g3.mem g.TempObEnd = _
      rw [p1, a1]
      simp [setWord]
    · show g3.cells (g3.ValidateTop - 1) = _
      rw [p5]
      have e : (rplCompileAppend E (E.MKPROLOG E.DOCOL 0)
        { g with CompileEnd := g.TempObEnd, LAMTopSaved := g.LAMTop, ValidateTop := g.RSTop,
                 ValidateBottom := g.RSTop, string := string, NextTokenStart := 0,
                 CompileStringEnd := length }).ValidateTop + 1 - 1
          = (rplCompileAppend E (E.MKPROLOG E.DOCOL 0)
        { g with CompileEnd := g.TempObEnd, LAMTopSaved := g.LAMTop, ValidateTop := g.RSTop,
                 ValidateBottom := g.RSTop, string := string, NextTokenStart := 0,
                 CompileStringEnd := length }).ValidateTop := by omega
      rw [e, p4, a2]
      show g.TempObEnd + 1 - 1 = _
      omega
    · show g3.CompileStringEnd = _
      rw [p6]
      exact k2.2
    · intro hl
      show skipBlanks g3.string g3.CompileStringEnd (g3.CompileStringEnd - g3.NextTokenStart)
        g3.NextTokenStart = 0
      have e1 : g3.CompileStringEnd = 0 := by rw [p6, k2.2]; exact hl
      have e2 : g3.NextTokenStart = 0 := by rw [p7]; exact k2.1
      rw [e1, e2]
      rfl

/-- C12 (program wrapper), as amended: for every input on which
`rplCompile(text, length, 1)` succeeds, the result comes from closing the wrapper in
the state `s` with which the main loop was left; if the wrapper is intact in `s` (the
top entry of the construct stack still points to the first word of the stream, which
is still `MKPROLOG(DOCOL, 0)`), the returned object begins with a prolog of `DOCOL`
whose size is the number of words after it up to and including `CMD_SEMI`, and the
word after the object is `CMD_ENDOFCODE`.  For the empty text the result is exactly
the three words prolog of `DOCOL` with size 1, `CMD_SEMI`, `CMD_ENDOFCODE`. -/
theorem program_wrapper {E : Env} {bound : Nat} (hE : E.EX_ERRORCODE ≠ 0)
    (hlaw : WrapperLaws E bound) (fuel : Nat) (string : Nat → Nat) (length : Nat) (g : Globals)
    (r : Result) (obj : Int)
    (hrun : rplCompile E fuel string length true g = some r) (hok : r.value = some obj) :
    ∃ s : St, (∃ s0 : St, compileInit E string length true g = Flow.next s0
        ∧ compileLoop E fuel s0 = some (Flow.next s))
      ∧ r = compileFinish E true s
      ∧ (WrapperIntact E s → s.g.CompileEnd - s.g.TempObEnd < bound →
          obj = s.g.TempObEnd
          ∧ IsProgram E r.g.mem obj (s.g.CompileEnd - s.g.TempObEnd).toNat
          ∧ r.g.TempObEnd = s.g.CompileEnd + 2)
      ∧ (length = 0 → 1 < bound →
          obj = g.TempObEnd ∧ r.g.mem obj = E.MKPROLOG E.DOCOL 1
          ∧ r.g.mem (obj + 1) = E.CMD_SEMI ∧ r.g.mem (obj + 2) = E.CMD_ENDOFCODE
          ∧ r.g.TempObEnd = obj + 3) := by
  unfold rplCompile at hrun
  cases hi : compileInit E string length true g with
  | ret v g1 =>
    rw [hi] at hrun
    cases hrun
    have hfl := flagged_compileInit E string length true g v g1 hi
    rw [hfl.1] at hok
    cases hok
  | next s0 =>
    rw [hi] at hrun
    dsimp only at hrun
    unfold compileFrom at hrun
    cases hl : compileLoop E fuel s0 with
    | none => rw [hl] at hrun; cases hrun
    | some f =>
      rw [hl] at hrun
      cases f with
      | ret v g1 =>
        cases hrun
        have hfl := flagged_compileLoop hE fuel s0 _ hl v g1 rfl
        rw [hfl.1] at hok
        cases hok
      | next s =>
        dsimp only at hrun
        injection hrun with hrun
        subst hrun
        obtain ⟨hf, g4, hc, hex4, hobj, hmem, hend⟩ := compileFinish_success hlaw true s obj hok
        have hex : s.g.Exceptions = 0 := by
          by_contra hne
          rw [closeWrapper_skip E true s.g (Or.inl hne)] at hc
          cases hc
          exact hne hex4
        have main : WrapperIntact E s → s.g.CompileEnd - s.g.TempObEnd < bound →
            obj = s.g.TempObEnd
            ∧ IsProgram E (compileFinish E true s).g.mem obj (s.g.CompileEnd - s.g.TempObEnd).toNat
            ∧ (compileFinish E true s).g.TempObEnd = s.g.CompileEnd + 2 := by
          intro hw hfit
          obtain ⟨c1, c2, c3⟩ := closeWrapper_intact hlaw s.g g4 hex hw.entry hw.header hw.above
            hfit hc
          have hab := hw.above
          have hn : (s.g.CompileEnd - s.g.TempObEnd).toNat < bound := by omega
          have hcast : ((s.g.CompileEnd - s.g.TempObEnd).toNat : Int)
              = s.g.CompileEnd - s.g.TempObEnd := by omega
          have hhead : g4.mem s.g.TempObEnd
              = E.MKPROLOG E.DOCOL (s.g.CompileEnd - s.g.TempObEnd).toNat := by
            rw [c3, setWord_other _ _ _ _ (by omega)]
            simp [setWord]
          refine ⟨by rw [hobj, c1], ?_, by rw [hend, c2]⟩
          rw [hobj, c1, hmem]
          refine ⟨hhead, ?_, ?_, ?_⟩
          · rw [hcast, c3, setWord_other _ _ _ _ (by omega), setWord_other _ _ _ _ (by omega)]
            have e : s.g.TempObEnd + (s.g.CompileEnd - s.g.TempObEnd) = s.g.CompileEnd := by omega
            rw [e]
            simp [setWord]
          · rw [hcast, c3]
            have e : s.g.TempObEnd + (s.g.CompileEnd - s.g.TempObEnd) + 1 = s.g.CompileEnd + 1 := by
              omega
            rw [e]
            simp [setWord]
          · unfold rplSkipOb
            rw [hhead, hlaw.isprolog _ hn, if_pos rfl, hlaw.objsize _ hn, hcast]
            omega
        refine ⟨s, ⟨s0, rfl, hl⟩, rfl, main, ?_⟩
        intro hlen hb
        obtain ⟨i1, i2, i3, i4, i5, i6, i7⟩ := compileInit_wrapper E string length g s0 hi
        have hbreak := loopHead_at_end E s0 i6 (by rw [i5, i7 hlen, hlen])
        have hs : s = (loopHead E s0).1 := by
          cases fuel with
          | zero => cases hl
          | succ n =>
            simp only [compileLoop] at hl
            rcases hh : loopHead E s0 with ⟨s1, b⟩
            rw [hh] at hl hbreak
            dsimp only at hbreak
            subst hbreak
            dsimp only at hl
            injection hl with hl
            injection hl with hl
            exact hl.symm
        obtain ⟨l1, l2, l3, l4, l5⟩ := loopHead_store E s0
        rw [← hs] at l1 l2 l3 l4 l5
        have hw : WrapperIntact E s := by
          refine ⟨?_, ?_, ?_⟩
          · rw [l2, l3, l4, i4, i1]
          · rw [l1, l4, i1, i3]
          · rw [l4, l5, i1, i2]; omega
        have hsz : s.g.CompileEnd - s.g.TempObEnd = 1 := by rw [l4, l5, i1, i2]; omega
        obtain ⟨m1, m2, m3⟩ := main hw (by rw [hsz]; omega)
        rw [hsz] at m2
        have ht : s.g.TempObEnd = g.TempObEnd := by rw [l4, i1]
        have e1 : ((1 : Int).toNat : Int) = 1 := rfl
        refine ⟨by rw [m1, ht], m2.header, ?_, ?_, ?_⟩
        · have h := m2.semi
          rw [e1] at h
          exact h
        · have h := m2.after
          rw [e1] at h
          have e : obj + 1 + 1 = obj + 2 := by omega
          rw [e] at h
          exact h
        · rw [m3, m1]
          omega

theorem or_low (n : Nat) (hn : n < 2 ^ 18) : (8 * 2 ^ 20 + 2 ^ 19) ||| n = 8 * 2 ^ 20 + 2 ^ 19 + n := by
  have e : 8 * 2 ^ 20 + 2 ^ 19 = 2 ^ 18 * 34 := by norm_num
  rw [e]
  apply Nat.eq_of_testBit_eq
  intro i
  have h0 := Nat.testBit_mul_pow_two_add 34 (show 0 < 2 ^ 18 by norm_num) i
  rw [Nat.add_zero] at h0
  rw [Nat.testBit_or, Nat.testBit_mul_pow_two_add _ hn, h0]
  by_cases hi : i < 18
  · simp [hi]
  · have h2 : n.testBit i = false := by
      apply Nat.testBit_lt_two_pow
      calc n < 2 ^ 18 := hn
        _ ≤ 2 ^ i := Nat.pow_le_pow_right (by decide) (by omega)
    simp [hi, h2]

/-- The concrete layout of `mkEnv` obeys the wrapper laws for sizes below `2 ^ 18`. -/
theorem mkEnv_wrapperLaws (maxlib : Nat) (table : Int → Option LIBHANDLER) :
    WrapperLaws (mkEnv maxlib table) (2 ^ 18) := by
  refine ⟨by norm_num, ?_, ?_, ?_, fun _ _ => ⟨rfl, rfl, rfl⟩⟩
  · intro n hn
    show decide ((8 * 2 ^ 20 + 2 ^ 19 + n % 2 ^ 18) / 2 ^ 19 % 2 = 1) = true
    rw [decide_eq_true_eq]
    omega
  · intro n hn
    show (8 * 2 ^ 20 + 2 ^ 19 + n % 2 ^ 18) % 2 ^ 18 = n
    omega
  · intro n hn
    show (8 * 2 ^ 20 + 2 ^ 19 + 0 % 2 ^ 18) ||| n = 8 * 2 ^ 20 + 2 ^ 19 + n % 2 ^ 18
    rw [Nat.mod_eq_of_lt hn]
    exact or_low n hn

/-- Witness of the amended C12: the text `1 1` compiles with wrapper, in the toy
environment, to a program at address 100. -/
theorem program_wrapper_witness :
    ∃ (r : Result) (obj : Int),
      rplCompile Etoy 10 (textOf [49, 32, 49]) 3 true toyGlobals = some r ∧ r.value = some obj
      ∧ r.g.mem 100 = Etoy.MKPROLOG Etoy.DOCOL 3
      ∧ ∃ s : St, (∃ s0 : St, compileInit Etoy (textOf [49, 32, 49]) 3 true toyGlobals = Flow.next s0
          ∧ compileLoop Etoy 10 s0 = some (Flow.next s))
        ∧ r = compileFinish Etoy true s
        ∧ (WrapperIntact Etoy s → s.g.CompileEnd - s.g.TempObEnd < ((2 ^ 18 : Nat) : Int) →
            obj = s.g.TempObEnd
            ∧ IsProgram Etoy r.g.mem obj (s.g.CompileEnd - s.g.TempObEnd).toNat
            ∧ r.g.TempObEnd = s.g.CompileEnd + 2)
        ∧ ((3 : Nat) = 0 → 1 < 2 ^ 18 →
            obj = toyGlobals.TempObEnd ∧ r.g.mem obj = Etoy.MKPROLOG Etoy.DOCOL 1
            ∧ r.g.mem (obj + 1) = Etoy.CMD_SEMI ∧ r.g.mem (obj + 2) = Etoy.CMD_ENDOFCODE
            ∧ r.g.TempObEnd = obj + 3) :=
  ⟨_, _, rfl, rfl, by rfl, program_wrapper (by decide) (mkEnv_wrapperLaws 3 _) 10
    (textOf [49, 32, 49]) 3 toyGlobals _ _ rfl rfl⟩

/-- Counterexample to C12 as stated: on the text `~` the library answers
`CHANGE_CONSTRUCT` while the wrapper is the open construct; `rplCompile` succeeds and
the size field of the prolog of `DOCOL` is 0, though two words follow it up to and
including `CMD_SEMI`. -/
theorem wrapper_entry_replaced :
    ∃ r : Result, rplCompile Emark 10 (textOf [126]) 1 true toyGlobals = some r
      ∧ r.value = some 100 ∧ r.g.Exceptions = 0
      ∧ r.g.mem 100 = Emark.MKPROLOG Emark.DOCOL 0
      ∧ r.g.mem 102 = Emark.CMD_SEMI ∧ r.g.mem 103 = Emark.CMD_ENDOFCODE
      ∧ Emark.OBJSIZE (r.g.mem 100) ≠ 2 :=
  ⟨_, rfl, by rfl, by rfl, by rfl, by rfl, by rfl, by decide⟩

/-- The size of the wrapper is or-ed into its header: on the text `# 1` the library
answers `INC_ARG_COUNT` while the wrapper is the open construct, and the size field
of the returned program is 3, the count 1 merged with the size 2. -/
theorem wrapper_size_merged_with_count :
    ∃ r : Result, rplCompile Emark 10 (textOf [35, 32, 49]) 3 true toyGlobals = some r
      ∧ r.value = some 100 ∧ r.g.Exceptions = 0
      ∧ r.g.mem 102 = Emark.CMD_SEMI ∧ r.g.mem 103 = Emark.CMD_ENDOFCODE
      ∧ r.g.mem 100 = Emark.MKPROLOG Emark.DOCOL 3 :=
  ⟨_, rfl, by rfl, by rfl, by rfl, by rfl, by rfl⟩

theorem handlerCall_locals (E : Env) (h : LIBHANDLER) (n : Int) (s : St) :
    (handlerCall E h n s).infixmode = s.infixmode
    ∧ (handlerCall E h n s).force_libnum = s.force_libnum
    ∧ (handlerCall E h n s).libcnt = s.libcnt
    ∧ (handlerCall E h n s).libnum = s.libnum := ⟨rfl, rfl, rfl, rfl⟩

theorem handlerCall_compile (E : Env) (h : LIBHANDLER) (n : Int) (s : St)
    (hmode : s.infixmode = false) (hforce : s.force_libnum = -1) :
    (handlerCall E h n s).g
      = { h { s.g with CurOpcode := E.MKOPCODE n E.OPCODE_COMPILE, RSTop := s.g.ValidateTop } with
          RSTop := s.g.RSTop } := by
  unfold handlerCall
  simp only [hmode, hforce, Bool.false_eq_true, if_false, ne_eq, not_true_eq_false]

theorem handlerCall_compilecont (E : Env) (h : LIBHANDLER) (n : Int) (s : St)
    (hmode : s.infixmode = false) (hforce : s.force_libnum ≠ -1) :
    (handlerCall E h n s).g
      = { h { s.g with CurOpcode := E.MKOPCODE n E.OPCODE_COMPILECONT, RSTop := s.g.ValidateTop } with
          RSTop := s.g.RSTop } := by
  unfold handlerCall
  simp only [hmode, Bool.false_eq_true, if_false, ne_eq, hforce, not_false_eq_true, if_true]

theorem scanLibs_done (E : Env) (fuel : Nat) (s : St) (h : s.libcnt < 0) :
    scanLibs E fuel s = Flow.next s := by
  cases fuel with
  | zero => rfl
  | succ n =>
    simp only [scanLibs]
    rw [if_neg (by omega)]

theorem endConstructInfix_libcnt (E : Env) (s t : St) (h : endConstructInfix E s = Flow.next t) :
    t.libcnt = EXIT_LOOP := by
  unfold endConstructInfix at h
  generalize (if s.infixmode = true then _ else Flow.next s : Flow St) = X at h
  cases X with
  | ret v g => cases h
  | next s2 =>
    simp only [Flow.bind] at h
    cases hp : endConstruct E s2 with
    | ret v g => rw [hp] at h; cases h
    | next s3 => rw [hp] at h; cases h; rfl

/-- Every action of the table other than `NOT_MINE` ends the library scan: the
function returns, or `libcnt` is set to `EXIT_LOOP`. -/
theorem dispatch_action_ends (E : Env) (s t : St) (ha : IsAction s.g.RetNum)
    (h : dispatch E s = Flow.next t) : t.libcnt = EXIT_LOOP := by
  unfold dispatch at h
  unfold IsAction at ha
  cases hr : s.g.RetNum <;> rw [hr] at ha h <;> dsimp only at ha h
  all_goals first
    | exact ha.elim
    | (cases h; rfl)
    | (cases hp : pushConstruct E s.g with
        | ret v g => rw [hp] at h; cases h
        | next g1 => rw [hp] at h; cases h; rfl)
    | (cases hp : endConstruct E s with
        | ret v g => rw [hp] at h; cases h
        | next g1 => rw [hp] at h; cases h; rfl)
    | (unfold return0 at h; cases h)
    | skip
  all_goals exact endConstructInfix_libcnt E _ t h

theorem scan_through (E : Env) : ∀ (k fuel : Nat) (s : St), s.infixmode = false →
    s.force_libnum = -1 → (k : Int) ≤ s.libcnt + 1 →
    (∀ (n : Int) (h : LIBHANDLER), s.libcnt - k < n → n ≤ s.libcnt →
      E.rplGetLibHandler n = some h →
      ∀ g : Globals, g.CurOpcode = E.MKOPCODE n E.OPCODE_COMPILE →
        (h g).RetNum = RetCode.ERR_NOTMINE) →
    scanLibs E (fuel + k) s = scanLibs E fuel (callInOrder E (descending s.libcnt k) s)
      ∧ (callInOrder E (descending s.libcnt k) s).infixmode = false
      ∧ (callInOrder E (descending s.libcnt k) s).force_libnum = -1
      ∧ (k ≠ 0 → (callInOrder E (descending s.libcnt k) s).libcnt = s.libcnt - k) := by
  intro k
  induction k with
  | zero =>
    intro fuel s hm hf _ _
    exact ⟨rfl, hm, hf, fun h => (h rfl).elim⟩
  | succ k ih =>
    intro fuel s hm hf hk hnm
    have hge : s.libcnt ≥ 0 := by push_cast at hk; omega
    have hstep : scanLibs E (fuel + (k + 1)) s
        = (scanBody E s).bind (scanLibs E (fuel + k)) := by
      show scanLibs E ((fuel + k) + 1) s = _
      simp only [scanLibs]
      rw [if_pos hge]
    have hlt : s.force_libnum < 0 := by omega
    cases hh : E.rplGetLibHandler s.libcnt with
    | none =>
      have hb : scanBody E s = Flow.next { s with libnum := s.libcnt, libcnt := s.libcnt - 1 } := by
        unfold scanBody
        simp only [if_pos hlt, rplGetNextLib, hh]
      have hi := ih fuel { s with libnum := s.libcnt, libcnt := s.libcnt - 1 } hm hf
        (by show (k : Int) ≤ s.libcnt - 1 + 1; push_cast at hk; omega)
        (by
          intro n h h1 h2
          exact hnm n h (by
            have h1b : s.libcnt - 1 - (k : Int) < n := h1
            push_cast; omega) (by
            have h2b : n ≤ s.libcnt - 1 := h2
            omega))
      have hc : callInOrder E (descending s.libcnt (k + 1)) s
          = callInOrder E (descending (s.libcnt - 1) k)
              { s with libnum := s.libcnt, libcnt := s.libcnt - 1 } := by
        simp only [descending, callInOrder, hh]
      rw [hstep, hb, hc]
      refine ⟨hi.1, hi.2.1, hi.2.2.1, fun _ => ?_⟩
      by_cases hk0 : k = 0
      · subst hk0
        show s.libcnt - 1 = _
        push_cast; omega
      · have e := hi.2.2.2 hk0
        have e2 : (callInOrder E (descending (s.libcnt - 1) k)
            { s with libnum := s.libcnt, libcnt := s.libcnt - 1 }).libcnt
            = s.libcnt - 1 - (k : Int) := e
        rw [e2]
        push_cast; omega
    | some handler =>
      have hret : (handlerCall E handler s.libcnt
          { s with libnum := s.libcnt, libcnt := s.libcnt - 1 }).g.RetNum = RetCode.ERR_NOTMINE := by
        have e := handlerCall_compile E handler s.libcnt
          { s with libnum := s.libcnt, libcnt := s.libcnt - 1 } hm hf
        rw [e]
        exact hnm s.libcnt handler (by push_cast; omega) (le_refl _) hh _ rfl
      have hb : scanBody E s = Flow.next (handlerCall E handler s.libcnt
          { s with libnum := s.libcnt, libcnt := s.libcnt - 1 }) := by
        unfold scanBody
        simp only [if_pos hlt, rplGetNextLib, hh]
        exact dispatch_notmine E _ hret
      have hi := ih fuel (handlerCall E handler s.libcnt
          { s with libnum := s.libcnt, libcnt := s.libcnt - 1 }) hm hf
        (by show (k : Int) ≤ s.libcnt - 1 + 1; push_cast at hk; omega)
        (by
          intro n h h1 h2
          exact hnm n h (by
            have h1b : s.libcnt - 1 - (k : Int) < n := h1
            push_cast; omega) (by
            have h2b : n ≤ s.libcnt - 1 := h2
            omega))
      have hc : callInOrder E (descending s.libcnt (k + 1)) s
          = callInOrder E (descending (s.libcnt - 1) k) (handlerCall E handler s.libcnt
              { s with libnum := s.libcnt, libcnt := s.libcnt - 1 }) := by
        simp only [descending, callInOrder, hh]
      rw [hstep, hb, hc]
      refine ⟨hi.1, hi.2.1, hi.2.2.1, fun _ => ?_⟩
      by_cases hk0 : k = 0
      · subst hk0
        show s.libcnt - 1 = _
        push_cast; omega
      · have e := hi.2.2.2 hk0
        have e2 : (callInOrder E (descending (s.libcnt - 1) k) (handlerCall E handler s.libcnt
            { s with libnum := s.libcnt, libcnt := s.libcnt - 1 })).libcnt
            = s.libcnt - 1 - (k : Int) := e
        rw [e2]
        push_cast; omega

theorem bind_scan_done (E : Env) (fuel : Nat) (f : Flow St)
    (h : ∀ t : St, f = Flow.next t → t.libcnt < 0) : f.bind (scanLibs E fuel) = f := by
  cases f with
  | ret v g => rfl
  | next t => exact scanLibs_done E fuel t (h t rfl)

/-- C13 (handler dispatch order outside infix mode): for a token outside infix mode
with no library in the middle of a continuation, the scan starts at `MAXLIBNUMBER`
(set by the head of the pass) and calls the handlers with `COMPILE` in descending
order of library identifier, identifiers without a handler being skipped: when the
libraries above `MAXLIBNUMBER - k` answer `NOT_MINE`, the handler of library
`MAXLIBNUMBER - k` is called in the state left by the calls of the registered ones
among them in descending order; if it answers `NOT_MINE` the scan goes on below it,
and if it answers any other action the scan ends there (the action is carried out
and `libcnt` becomes `EXIT_LOOP` unless the function returns).  `NEED_MORE` records
the library in `force_libnum`; for the next token the head of the pass sets `libcnt`
to 0 and the scan is the single call of that library, with `COMPILECONT`. -/
theorem handler_dispatch_order (E : Env) (s : St) (k : Nat) (h0 : LIBHANDLER)
    (hmode : s.infixmode = false) (hforce : s.force_libnum = -1)
    (hcnt : s.libcnt = (E.MAXLIBNUMBER : Int)) (hk : k ≤ E.MAXLIBNUMBER)
    (hnm : ∀ (n : Int) (h : LIBHANDLER), (E.MAXLIBNUMBER : Int) - k < n →
      n ≤ (E.MAXLIBNUMBER : Int) → E.rplGetLibHandler n = some h →
      ∀ g : Globals, g.CurOpcode = E.MKOPCODE n E.OPCODE_COMPILE →
        (h g).RetNum = RetCode.ERR_NOTMINE)
    (hreg : E.rplGetLibHandler ((E.MAXLIBNUMBER : Int) - k) = some h0) :
    (∀ u : St, (loopHead E u).1.libcnt = (if u.force_libnum < 0 then (E.MAXLIBNUMBER : Int) else 0)
        ∧ (loopHead E u).1.force_libnum = u.force_libnum)
    ∧ (firstTaker E k h0 s).g
        = { h0 { (callInOrder E (descending (E.MAXLIBNUMBER : Int) k) s).g with
                 CurOpcode := E.MKOPCODE ((E.MAXLIBNUMBER : Int) - k) E.OPCODE_COMPILE,
                 RSTop := (callInOrder E (descending (E.MAXLIBNUMBER : Int) k) s).g.ValidateTop } with
            RSTop := (callInOrder E (descending (E.MAXLIBNUMBER : Int) k) s).g.RSTop }
    ∧ (IsAction (firstTaker E k h0 s).g.RetNum →
        scanLibs E (E.MAXLIBNUMBER + 1) s = dispatch E (firstTaker E k h0 s)
        ∧ ∀ t : St, dispatch E (firstTaker E k h0 s) = Flow.next t → t.libcnt = EXIT_LOOP)
    ∧ ((firstTaker E k h0 s).g.RetNum = RetCode.ERR_NOTMINE →
        scanLibs E (E.MAXLIBNUMBER + 1) s = scanLibs E (E.MAXLIBNUMBER - k) (firstTaker E k h0 s))
    ∧ ((firstTaker E k h0 s).g.RetNum = RetCode.OK_NEEDMORE →
        dispatch E (firstTaker E k h0 s)
          = Flow.next { firstTaker E k h0 s with
              force_libnum := (E.MAXLIBNUMBER : Int) - k, libcnt := EXIT_LOOP })
    ∧ (∀ (u : St) (hL : LIBHANDLER), u.infixmode = false → u.force_libnum ≥ 0 → u.libcnt = 0 →
        E.rplGetLibHandler u.force_libnum = some hL →
        scanLibs E (u.libcnt.toNat + 1) u
          = dispatch E (handlerCall E hL u.force_libnum
              { u with libnum := u.force_libnum, libcnt := -1 })
        ∧ (handlerCall E hL u.force_libnum { u with libnum := u.force_libnum, libcnt := -1 }).g
          = { hL { u.g with CurOpcode := E.MKOPCODE u.force_libnum E.OPCODE_COMPILECONT,
                            RSTop := u.g.ValidateTop } with RSTop := u.g.RSTop }) := by
  have hst := scan_through E k (E.MAXLIBNUMBER - k + 1) s hmode hforce
    (by rw [hcnt]; omega) (by rw [hcnt]; exact hnm)
  rw [hcnt] at hst
  obtain ⟨t1, t2, t3, t4⟩ := hst
  have hfuel : E.MAXLIBNUMBER - k + 1 + k = E.MAXLIBNUMBER + 1 := by omega
  rw [hfuel] at t1
  have hlib : (callInOrder E (descending (E.MAXLIBNUMBER : Int) k) s).libcnt
      = (E.MAXLIBNUMBER : Int) - k := by
    by_cases hk0 : k = 0
    · subst hk0
      show s.libcnt = _
      rw [hcnt]; push_cast; omega
    · exact t4 hk0
  have hbody : scanBody E (callInOrder E (descending (E.MAXLIBNUMBER : Int) k) s)
      = dispatch E (firstTaker E k h0 s) := by
    unfold scanBody firstTaker
    have hlt : (callInOrder E (descending (E.MAXLIBNUMBER : Int) k) s).force_libnum < 0 := by
      rw [t3]; decide
    simp only [if_pos hlt, rplGetNextLib, hlib, hreg]
  have hscan : scanLibs E (E.MAXLIBNUMBER + 1) s
      = (dispatch E (firstTaker E k h0 s)).bind (scanLibs E (E.MAXLIBNUMBER - k)) := by
    rw [t1]
    simp only [scanLibs]
    rw [if_pos (by rw [hlib]; omega), hbody]
  refine ⟨?_, ?_, ?_, ?_, ?_, ?_⟩
  · intro u
    unfold loopHead
    dsimp only
    split
    · split
      · exact ⟨rfl, rfl⟩
      · split <;> exact ⟨rfl, rfl⟩
    · split
      · split <;> exact ⟨rfl, rfl⟩
      · split
        · split <;> exact ⟨rfl, rfl⟩
        · split <;> exact ⟨rfl, rfl⟩
  · unfold firstTaker
    exact handlerCall_compile E h0 _ _ t2 t3
  · intro ha
    have hend := dispatch_action_ends E (firstTaker E k h0 s)
    refine ⟨?_, fun t ht => hend t ha ht⟩
    rw [hscan]
    apply bind_scan_done
    intro t ht
    rw [hend t ha ht]
    decide
  · intro hr
    rw [hscan, dispatch_notmine E _ hr]
    rfl
  · intro hr
    unfold dispatch
    rw [hr]
    rfl
  · intro u hL hm hf hc hh
    have hne : u.force_libnum ≠ -1 := by omega
    refine ⟨?_, handlerCall_compilecont E hL _ _ hm hne⟩
    rw [hc]
    show scanLibs E 1 u = _
    simp only [scanLibs]
    rw [if_pos (by rw [hc])]
    have hb : scanBody E u = dispatch E (handlerCall E hL u.force_libnum
        { u with libnum := u.force_libnum, libcnt := -1 }) := by
      unfold scanBody
      have hnlt : ¬ u.force_libnum < 0 := by omega
      simp only [if_neg hnlt, rplGetNextLib, hh, hc]
      rfl
    rw [hb]
    cases dispatch E (handlerCall E hL u.force_libnum
        { u with libnum := u.force_libnum, libcnt := -1 }) <;> rfl

/-- Witness of C13 on the text `x y` in the logging environment: for `x` library 3
is called first and answers `NOT_MINE`, number 2 has no handler, library 1 is called
next, both with `COMPILE`, and its `NEED_MORE` ends the scan before library 0; for
`y` the only call is that of library 1, with `COMPILECONT`. -/
theorem handler_dispatch_order_witness :
    (∃ t : St, scanLibs Elog (Elog.MAXLIBNUMBER + 1) logStart = Flow.next t
      ∧ t.libcnt = EXIT_LOOP ∧ t.force_libnum = 1 ∧ t.g.mem 199 = 2
      ∧ t.g.mem 200 = Elog.MKOPCODE 3 Elog.OPCODE_COMPILE
      ∧ t.g.mem 201 = Elog.MKOPCODE 1 Elog.OPCODE_COMPILE)
    ∧ (∃ t : St, scanLibs Elog (logSecond.libcnt.toNat + 1) logSecond = Flow.next t
      ∧ t.g.mem 199 = 3 ∧ t.g.mem 202 = Elog.MKOPCODE 1 Elog.OPCODE_COMPILECONT) := by
  have H := handler_dispatch_order Elog logStart 2 logLib1 rfl rfl rfl (by decide)
    (by
      intro n h h1 h2 hh g _
      have h1b : (3 : Int) - 2 < n := h1
      have h2b : n ≤ (3 : Int) := h2
      have hn : n = 2 ∨ n = 3 := by omega
      rcases hn with hn | hn
      · subst hn
        cases hh
      · subst hn
        cases hh
        rfl)
    rfl
  obtain ⟨-, -, h3, -, -, h6⟩ := H
  constructor
  · refine ⟨afterTokens (dispatch Elog (firstTaker Elog 2 logLib1 logStart)),
      (h3 (trivial : True)).1.trans (by rfl), by rfl, by rfl, by rfl, by rfl, by rfl⟩
  · obtain ⟨h7, -⟩ := h6 logSecond logLib1 rfl (by decide) rfl rfl
    exact ⟨afterTokens (dispatch Elog (handlerCall Elog logLib1 logSecond.force_libnum
      { logSecond with libnum := logSecond.force_libnum, libcnt := -1 })),
      h7.trans (by rfl), by rfl, by rfl⟩

theorem skipNonBlanks_spec (str : Nat → Nat) (stop : Nat) :
    ∀ (fuel p : Nat), p ≤ stop → stop - p ≤ fuel →
      skipNonBlanks str stop fuel p ≤ stop
      ∧ (∀ i, p ≤ i → i < skipNonBlanks str stop fuel p → isBlank (str i) = false)
      ∧ (skipNonBlanks str stop fuel p = stop
          ∨ isBlank (str (skipNonBlanks str stop fuel p)) = true) := by
  intro fuel
  induction fuel with
  | zero =>
    intro p h1 h2
    have e : p = stop := by omega
    refine ⟨h1, fun i hi1 hi2 => ?_, Or.inl e⟩
    have hi3 : i < p := hi2
    omega
  | succ f ih =>
    intro p h1 h2
    simp only [skipNonBlanks]
    by_cases hc : p < stop ∧ isBlank (str p) = false
    · rw [if_pos hc]
      obtain ⟨a, b, c⟩ := ih (p + 1) (by omega) (by omega)
      refine ⟨a, fun i hi1 hi2 => ?_, c⟩
      by_cases hip : i = p
      · rw [hip]; exact hc.2
      · exact b i (by omega) hi2
    · rw [if_neg hc]
      refine ⟨h1, fun i hi1 hi2 => by omega, ?_⟩
      by_cases hp : p < stop
      · right
        cases hb : isBlank (str p) with
        | true => rfl
        | false => exact (hc ⟨hp, hb⟩).elim
      · left; omega

theorem skipBlanks_spec (str : Nat → Nat) (stop : Nat) :
    ∀ (fuel p : Nat), p ≤ stop → stop - p ≤ fuel →
      skipBlanks str stop fuel p ≤ stop
      ∧ (∀ i, p ≤ i → i < skipBlanks str stop fuel p → isBlank (str i) = true)
      ∧ AtToken str stop (skipBlanks str stop fuel p) := by
  intro fuel
  induction fuel with
  | zero =>
    intro p h1 h2
    have e : p = stop := by omega
    refine ⟨h1, fun i hi1 hi2 => ?_, Or.inl e⟩
    have hi3 : i < p := hi2
    omega
  | succ f ih =>
    intro p h1 h2
    simp only [skipBlanks]
    by_cases hc : p < stop ∧ isBlank (str p) = true
    · rw [if_pos hc]
      obtain ⟨a, b, c⟩ := ih (p + 1) (by omega) (by omega)
      refine ⟨a, fun i hi1 hi2 => ?_, c⟩
      by_cases hip : i = p
      · rw [hip]; exact hc.2
      · exact b i (by omega) hi2
    · rw [if_neg hc]
      refine ⟨h1, fun i hi1 hi2 => by omega, ?_⟩
      by_cases hp : p < stop
      · right
        refine ⟨hp, ?_⟩
        cases hb : isBlank (str p) with
        | false => rfl
        | true => exact (hc ⟨hp, hb⟩).elim
      · left; omega

theorem loopHead_scan (E : Env) (s : St) (hs : s.splittoken = false) :
    (loopHead E s).1.g.TokenStart = s.g.NextTokenStart
    ∧ (loopHead E s).1.g.BlankStart = skipNonBlanks s.g.string s.g.CompileStringEnd
        (s.g.CompileStringEnd - s.g.NextTokenStart) s.g.NextTokenStart
    ∧ (loopHead E s).1.g.NextTokenStart = skipBlanks s.g.string s.g.CompileStringEnd
        (s.g.CompileStringEnd - skipNonBlanks s.g.string s.g.CompileStringEnd
          (s.g.CompileStringEnd - s.g.NextTokenStart) s.g.NextTokenStart)
        (skipNonBlanks s.g.string s.g.CompileStringEnd
          (s.g.CompileStringEnd - s.g.NextTokenStart) s.g.NextTokenStart)
    ∧ (loopHead E s).1.g.BlankLen
        = ((loopHead E s).1.g.NextTokenStart : Int) - (loopHead E s).1.g.BlankStart
    ∧ (loopHead E s).1.g.string = s.g.string
    ∧ (loopHead E s).1.g.CompileStringEnd = s.g.CompileStringEnd := by
  unfold loopHead
  simp only [hs, Bool.false_eq_true, not_false_eq_true, if_true]
  split
  · exact ⟨rfl, rfl, rfl, rfl, rfl, rfl⟩
  · split <;> exact ⟨rfl, rfl, rfl, rfl, rfl, rfl⟩

theorem compileInit_atToken (E : Env) (string : Nat → Nat) (length : Nat) (addwrapper : Bool)
    (g : Globals) (s0 : St) (h : compileInit E string length addwrapper g = Flow.next s0) :
    AtToken s0.g.string s0.g.CompileStringEnd s0.g.NextTokenStart := by
  unfold compileInit at h
  dsimp only at h
  cases addwrapper with
  | true =>
    simp only [if_true] at h
    cases hp : pushConstruct E (rplCompileAppend E (E.MKPROLOG E.DOCOL 0)
        { g with CompileEnd := g.TempObEnd, LAMTopSaved := g.LAMTop, ValidateTop := g.RSTop,
                 ValidateBottom := g.RSTop, string := string, NextTokenStart := 0,
                 CompileStringEnd := length }) with
    | ret v g1 => rw [hp] at h; cases h
    | next g3 =>
      rw [hp] at h
      simp only [Flow.bind] at h
      cases h
      obtain ⟨-, -, -, -, -, p6, p7⟩ := pushConstruct_spec E _ _ hp
      have k2 := rplCompileAppend_text E (E.MKPROLOG E.DOCOL 0)
        { g with CompileEnd := g.TempObEnd, LAMTopSaved := g.LAMTop, ValidateTop := g.RSTop,
                 ValidateBottom := g.RSTop, string := string, NextTokenStart := 0,
                 CompileStringEnd := length }
      have e2 : g3.NextTokenStart = 0 := by rw [p7]; exact k2.1
      show AtToken g3.string g3.CompileStringEnd
        (skipBlanks g3.string g3.CompileStringEnd (g3.CompileStringEnd - g3.NextTokenStart)
          g3.NextTokenStart)
      rw [e2]
      exact (skipBlanks_spec g3.string g3.CompileStringEnd _ 0 (Nat.zero_le _) (le_refl _)).2.2
  | false =>
    simp only [Bool.false_eq_true, if_false, Flow.bind] at h
    cases h
    exact (skipBlanks_spec string length _ 0 (Nat.zero_le _) (le_refl _)).2.2

/-- C14 (token scanner), as amended: on every pass of the main loop that is not a
split-token retry, with `NextTokenStart` within the text, the head of the pass sets
`TokenStart` to the previous `NextTokenStart`; the bytes from `TokenStart` up to
`BlankStart` are not whitespace and the span is the longest such (it stops at the end
of the text or before a whitespace byte); the bytes from `BlankStart` up to
`NextTokenStart` are whitespace and `NextTokenStart` is at the end of the text or on
a byte that is not whitespace; `BlankLen` is `NextTokenStart - BlankStart`; and the
token span is empty only when `TokenStart` is at the end of the text or on a
whitespace byte.  When `NextTokenStart` was at the end or on a byte that is not
whitespace, as the start of `rplCompile` and the head of every pass leave it, the
token span is empty exactly when `TokenStart` is at the end of the text. -/
theorem token_scanner (E : Env) (s : St) (hs : s.splittoken = false)
    (hstart : s.g.NextTokenStart ≤ s.g.CompileStringEnd) :
    ∃ g1 : Globals, g1 = (loopHead E s).1.g
      ∧ g1.TokenStart = s.g.NextTokenStart
      ∧ g1.TokenStart ≤ g1.BlankStart ∧ g1.BlankStart ≤ g1.NextTokenStart
      ∧ g1.NextTokenStart ≤ g1.CompileStringEnd
      ∧ (∀ i, g1.TokenStart ≤ i → i < g1.BlankStart → isBlank (g1.string i) = false)
      ∧ (g1.BlankStart = g1.CompileStringEnd ∨ isBlank (g1.string g1.BlankStart) = true)
      ∧ (∀ i, g1.BlankStart ≤ i → i < g1.NextTokenStart → isBlank (g1.string i) = true)
      ∧ AtToken g1.string g1.CompileStringEnd g1.NextTokenStart
      ∧ g1.BlankLen = (g1.NextTokenStart : Int) - g1.BlankStart
      ∧ (g1.TokenStart = g1.BlankStart →
          g1.TokenStart = g1.CompileStringEnd ∨ isBlank (g1.string g1.TokenStart) = true)
      ∧ (AtToken s.g.string s.g.CompileStringEnd s.g.NextTokenStart →
          (g1.TokenStart = g1.BlankStart ↔ g1.TokenStart = g1.CompileStringEnd))
      ∧ (∀ (string : Nat → Nat) (length : Nat) (addwrapper : Bool) (g : Globals) (s0 : St),
          compileInit E string length addwrapper g = Flow.next s0 →
          AtToken s0.g.string s0.g.CompileStringEnd s0.g.NextTokenStart) := by
  obtain ⟨h1, h2, h3, h4, h5, h6⟩ := loopHead_scan E s hs
  obtain ⟨a1, a2, a3⟩ := skipNonBlanks_spec s.g.string s.g.CompileStringEnd
    (s.g.CompileStringEnd - s.g.NextTokenStart) s.g.NextTokenStart hstart (le_refl _)
  have a0 := skipNonBlanks_ge s.g.string s.g.CompileStringEnd
    (s.g.CompileStringEnd - s.g.NextTokenStart) s.g.NextTokenStart
  obtain ⟨b1, b2, b3⟩ := skipBlanks_spec s.g.string s.g.CompileStringEnd
    (s.g.CompileStringEnd - skipNonBlanks s.g.string s.g.CompileStringEnd
      (s.g.CompileStringEnd - s.g.NextTokenStart) s.g.NextTokenStart)
    (skipNonBlanks s.g.string s.g.CompileStringEnd
      (s.g.CompileStringEnd - s.g.NextTokenStart) s.g.NextTokenStart) a1 (le_refl _)
  have b0 := skipBlanks_ge s.g.string s.g.CompileStringEnd
    (s.g.CompileStringEnd - skipNonBlanks s.g.string s.g.CompileStringEnd
      (s.g.CompileStringEnd - s.g.NextTokenStart) s.g.NextTokenStart)
    (skipNonBlanks s.g.string s.g.CompileStringEnd
      (s.g.CompileStringEnd - s.g.NextTokenStart) s.g.NextTokenStart)
  rw [← h2] at a0 a1 a2 a3 b0 b1 b2 b3
  rw [← h2] at h3
  rw [← h3] at b0 b1 b2 b3
  rw [← h5] at a2 a3 b2 b3
  rw [← h6] at a1 a3 b1 b3
  rw [← h1] at a0 a2
  refine ⟨_, rfl, h1, a0, b0, b1, a2, a3, b2, b3, h4, ?_, ?_, ?_⟩
  · intro he
    rw [he]
    exact a3
  · intro hat
    rw [← h1, ← h5, ← h6] at hat
    rcases hat with hat | ⟨hlt, hnb⟩
    · exact ⟨fun _ => hat, fun _ => by omega⟩
    · have hstep : (loopHead E s).1.g.TokenStart < (loopHead E s).1.g.BlankStart := by
        rw [h2, h1]
        have hpos : s.g.CompileStringEnd - s.g.NextTokenStart
            = (s.g.CompileStringEnd - s.g.NextTokenStart - 1) + 1 := by
          rw [h1, h6] at hlt; omega
        rw [hpos]
        rw [h1, h5] at hnb
        rw [h1, h6] at hlt
        exact skipNonBlanks_step _ _ _ _ hlt hnb
      exact ⟨fun he => by omega, fun he => by omega⟩
  · intro string length addwrapper g s0 h
    exact compileInit_atToken E string length addwrapper g s0 h

/-- Witness of the amended C14: the head of the first pass on the text `1 1`. -/
theorem token_scanner_witness :
    (toyStart (textOf [49, 32, 49]) 3 true).splittoken = false
    ∧ ∃ g1 : Globals, g1 = (loopHead Etoy (toyStart (textOf [49, 32, 49]) 3 true)).1.g
      ∧ g1.TokenStart = 0 ∧ g1.BlankStart = 1 ∧ g1.NextTokenStart = 2 ∧ g1.BlankLen = 1
      ∧ AtToken g1.string g1.CompileStringEnd g1.NextTokenStart := by
  obtain ⟨g1, e, -, -, -, -, -, -, -, h, -⟩ := token_scanner Etoy
    (toyStart (textOf [49, 32, 49]) 3 true) rfl (by decide)
  subst e
  exact ⟨rfl, _, rfl, rfl, rfl, rfl, rfl, h⟩

/-- Counterexample to C14 as stated: on the text `@`, line feed, `1` the library
skips its comment by moving `NextTokenStart` to the line feed; the next pass is not a
split-token retry, its token span is empty, and `TokenStart` is not at the end of the
text. -/
theorem empty_token_on_blank :
    commentSecond.splittoken = false
    ∧ (loopHead Emark commentSecond).1.g.TokenStart = 1
    ∧ (loopHead Emark commentSecond).1.g.BlankStart = 1
    ∧ (loopHead Emark commentSecond).1.g.CompileStringEnd = 3
    ∧ (loopHead Emark commentSecond).2 = false := by
  exact ⟨rfl, rfl, rfl, rfl, rfl⟩

theorem stepOK_failReturn (E : Env) (fl : Nat) (s : DSt) (g : Globals)
    (h : g.Exceptions ≠ 0) : StepOK fl (failReturn E s g) := by
  unfold failReturn
  dsimp only
  refine ⟨rfl, ?_⟩
  split
  · exact h
  · exact h

theorem stepOK_popExpression (E : Env) (n : Int) (s : DSt) (fl : Nat) (h : s.flags = fl) :
    StepOK fl (popExpression E n s) := by
  unfold popExpression
  exact h

theorem stepOK_customFunction (E : Env) (s : DSt) (fl : Nat) (h : s.flags = fl) :
    StepOK fl (customFunction E s) := by
  unfold customFunction
  dsimp only
  split
  · exact stepOK_popExpression E _ _ fl h
  · exact h

theorem stepOK_operatorKind (E : Env) (handler : Option LIBHANDLER) (info : Int) (s : DSt)
    (fl : Nat) (h : s.flags = fl) : StepOK fl (operatorKind E handler info s) := by
  unfold operatorKind
  dsimp only
  split
  · exact h
  · split
    · exact h
    · split
      · exact h
      · split
        · exact stepOK_customFunction E s fl h
        · split
          · exact h
          · split
            · exact stepOK_popExpression E _ _ fl h
            · exact h

theorem stepOK_operatorOrAtom (E : Env) (handler : Option LIBHANDLER) (info : Int) (s : DSt)
    (g2 : Globals) (fl : Nat) (h : s.flags = fl) :
    StepOK fl (operatorOrAtom E handler info s g2) := by
  unfold operatorOrAtom
  by_cases hk : E.TI_TYPE info ≥ E.TITYPE_OPERATORS
  · rw [if_pos hk]
    dsimp only
    generalize (if g2.RStkSize ≤ s.InfixOpTop + 1 - g2.RStk then
        growRStk E (s.InfixOpTop - g2.RStk + E.RSTKSLACK) g2 else g2 : Globals) = g3
    by_cases hx : g3.Exceptions ≠ 0
    · rw [if_pos hx]
      exact stepOK_failReturn E fl s g3 hx
    · rw [if_neg hx]
      exact stepOK_operatorKind E _ _ _ fl h
  · rw [if_neg hk]
    exact h

theorem stepOK_startExpression (E : Env) (s : DSt) (fl : Nat) (h : s.flags = fl) :
    StepOK fl (startExpression E s) := by
  unfold startExpression
  exact stepOK_operatorOrAtom E _ _ s _ fl h

theorem stepOK_binaryArgument (E : Env) (s : DSt) (fl : Nat) (h : s.flags = fl) :
    StepOK fl (binaryArgument E s) := by
  unfold binaryArgument
  exact h

theorem stepOK_postfixArgument (E : Env) (s : DSt) (fl : Nat) (h : s.flags = fl) :
    StepOK fl (postfixArgument E s) := by
  unfold postfixArgument
  exact stepOK_popExpression E _ _ fl h

theorem stepOK_functionArgument (E : Env) (s : DSt) (fl : Nat) (h : s.flags = fl) :
    StepOK fl (functionArgument E s) := by
  unfold functionArgument
  dsimp only
  split
  · exact stepOK_popExpression E _ _ fl h
  · exact h

theorem stepOK_decompInfix (E : Env) (s : DSt) (fl : Nat) (h : s.flags = fl) :
    StepOK fl (decompInfix E s) := by
  unfold decompInfix
  split
  · dsimp only
    split
    · exact h
    · exact stepOK_startExpression E _ fl h
  · split
    · exact stepOK_startExpression E s fl h
    · split
      · exact stepOK_binaryArgument E s fl h
      · split
        · exact stepOK_popExpression E _ _ fl h
        · split
          · exact stepOK_postfixArgument E s fl h
          · split
            · dsimp only
              split
              · exact stepOK_popExpression E _ _ fl h
              · exact h
            · split
              · exact stepOK_functionArgument E s fl h
              · split
                · dsimp only
                  split
                  · exact stepOK_popExpression E _ _ fl h
                  · exact h
                · exact h

theorem widthCheck_flags (E : Env) (s : DSt) : (widthCheck E s).flags = s.flags := by
  unfold widthCheck
  rfl

theorem hintsAfter_flags (E : Env) (s : DSt) : (hintsAfter E s).flags = s.flags := by
  unfold hintsAfter
  dsimp only
  repeat' split
  all_goals rfl

theorem stepOK_decompAfter (E : Env) (s : DSt) (fl : Nat) (h : s.flags = fl) :
    StepOK fl (decompAfter E s) := by
  have h1 : (hintsAfter E (widthCheck E s)).flags = fl := by
    rw [hintsAfter_flags, widthCheck_flags]; exact h
  unfold decompAfter
  split
  · exact h1
  · exact h1

theorem stepOK_decompEnd (E : Env) (s : DSt) (fl : Nat) (h : s.flags = fl) :
    StepOK fl (decompEnd E s) := by
  unfold decompEnd
  split
  · exact stepOK_decompInfix E s fl h
  · exact stepOK_decompAfter E s fl h

theorem decompInfo_flags (E : Env) (s : DSt) : (decompInfo E s).flags = s.flags := by
  unfold decompInfo
  rfl

theorem hintsBefore_flags (E : Env) (s : DSt) : (hintsBefore E s).flags = s.flags := by
  unfold hintsBefore
  dsimp only
  split
  · split
    · split <;> split <;> rfl
    · split <;> rfl
  · rfl

theorem decompObject_flags (E : Env) (s : DSt) : (decompObject E s).flags = s.flags := by
  unfold decompObject
  dsimp only
  split <;> rfl

theorem stepOK_decompSwitch {E : Env} (hE : E.EX_ERRORCODE ≠ 0) (s : DSt) (fl : Nat)
    (h : s.flags = fl) : StepOK fl (decompSwitch E s) := by
  unfold decompSwitch
  cases hr : s.g.RetNum
  all_goals dsimp only
  all_goals repeat' split
  all_goals first
    | exact h
    | exact stepOK_failReturn E fl _ _ (rplError_flag hE _ _)
    | exact stepOK_failReturn E fl _ _ (by assumption)

theorem stepOK_decompTop {E : Env} (hE : E.EX_ERRORCODE ≠ 0) (s : DSt) (fl : Nat)
    (h : s.flags = fl) : StepOK fl (decompTop E s) := by
  have h1 : (decompInfo E s).flags = fl := by rw [decompInfo_flags]; exact h
  have h2 : (decompObject E (hintsBefore E (decompInfo E s))).flags = fl := by
    rw [decompObject_flags, hintsBefore_flags]; exact h1
  unfold decompTop
  split
  · exact h1
  · split
    · exact h2
    · exact stepOK_decompSwitch hE _ fl h2

/-- Every result of the loop of `rplDecompile`: the local `flags` is unchanged when
the loop is left, and a return taken inside is a return of `NULL` with the error
flag raised. -/
theorem decompLoop_ok {E : Env} (hE : E.EX_ERRORCODE ≠ 0) :
    ∀ (fuel : Nat) (b : Bool) (s : DSt) (f : Flow DSt), decompLoop E fuel b s = some f →
      (∀ s1, f = Flow.next s1 → s1.flags = s.flags)
      ∧ (∀ v g, f = Flow.ret v g → v = none ∧ g.Exceptions ≠ 0) := by
  intro fuel
  induction fuel with
  | zero =>
    intro b s f hf
    unfold decompLoop at hf
    cases hf
  | succ n ih =>
    intro b s f hf
    cases b with
    | false =>
      unfold decompLoop at hf
      split at hf
      · have hs := stepOK_decompTop hE s s.flags rfl
        cases ht : decompTop E s with
        | next s1 =>
          rw [ht] at hf hs
          obtain ⟨a, c⟩ := ih true s1 f hf
          exact ⟨fun s2 e => (a s2 e).trans hs, c⟩
        | again s1 =>
          rw [ht] at hf hs
          obtain ⟨a, c⟩ := ih true s1 f hf
          exact ⟨fun s2 e => (a s2 e).trans hs, c⟩
        | leave s1 =>
          rw [ht] at hf hs
          cases hf
          exact ⟨fun s2 e => by cases e; exact hs, fun v g e => by cases e⟩
        | ret v g =>
          rw [ht] at hf hs
          cases hf
          exact ⟨fun s2 e => (by cases e), fun v1 g1 e => (by cases e; exact hs)⟩
      · cases hf
        exact ⟨fun s2 e => by cases e; rfl, fun v g e => by cases e⟩
    | true =>
      unfold decompLoop at hf
      have hs := stepOK_decompEnd E s s.flags rfl
      cases ht : decompEnd E s with
      | next s1 =>
        rw [ht] at hf hs
        obtain ⟨a, c⟩ := ih false s1 f hf
        exact ⟨fun s2 e => (a s2 e).trans hs, c⟩
      | again s1 =>
        rw [ht] at hf hs
        obtain ⟨a, c⟩ := ih true s1 f hf
        exact ⟨fun s2 e => (a s2 e).trans hs, c⟩
      | leave s1 =>
        rw [ht] at hf hs
        cases hf
        exact ⟨fun s2 e => by cases e; exact hs, fun v g e => by cases e⟩
      | ret v g =>
        rw [ht] at hf hs
        cases hf
        exact ⟨fun s2 e => (by cases e), fun v1 g1 e => (by cases e; exact hs)⟩

theorem and_or_eq_zero (a b c : Nat) (h1 : a &&& c = 0) (h2 : b &&& c = 0) :
    (a ||| b) &&& c = 0 := by
  apply Nat.eq_of_testBit_eq
  intro i
  have e1 : (a &&& c).testBit i = (0 : Nat).testBit i := by rw [h1]
  have e2 : (b &&& c).testBit i = (0 : Nat).testBit i := by rw [h2]
  rw [Nat.testBit_and] at e1 e2
  rw [Nat.testBit_and, Nat.testBit_or]
  simp only [Nat.zero_testBit] at e1 e2 ⊢
  cases ha : a.testBit i <;> cases hb : b.testBit i <;> cases hc : c.testBit i <;>
    simp_all

theorem and_or_ne_zero (a b c : Nat) (h1 : a &&& c ≠ 0) : (a ||| b) &&& c ≠ 0 := by
  intro h0
  apply h1
  apply Nat.eq_of_testBit_eq
  intro i
  have e1 : ((a ||| b) &&& c).testBit i = (0 : Nat).testBit i := by rw [h0]
  rw [Nat.testBit_and, Nat.testBit_or] at e1
  rw [Nat.testBit_and]
  simp only [Nat.zero_testBit] at e1 ⊢
  cases ha : a.testBit i <;> cases hb : b.testBit i <;> cases hc : c.testBit i <;>
    simp_all

theorem initWidth_spec (E : Env)
    (hw : E.DECOMP_MAXWIDTH E.DEFAULT_DECOMP_WIDTH &&& E.DECOMP_EMBEDDED = 0) (s1 : DSt) :
    ((initWidth E s1).flags &&& E.DECOMP_EMBEDDED = 0 ↔ s1.flags &&& E.DECOMP_EMBEDDED = 0)
    ∧ (initWidth E s1).infixmode = s1.infixmode ∧ (initWidth E s1).g = s1.g := by
  unfold initWidth
  split
  · refine ⟨⟨?_, ?_⟩, rfl, rfl⟩
    · intro h0
      by_contra hne
      exact and_or_ne_zero _ _ _ hne h0
    · intro h0
      exact and_or_eq_zero _ _ _ h0 hw
  · exact ⟨Iff.rfl, rfl, rfl⟩

theorem growTempOb_pointers (E : Env) (n : Int) (g : Globals) :
    (growTempOb E n g).DecompileObject = g.DecompileObject
    ∧ (growTempOb E n g).EndOfObject = g.EndOfObject := by
  unfold growTempOb
  split <;> exact ⟨rfl, rfl⟩

theorem growRStk_pointers (E : Env) (n : Int) (g : Globals) :
    (growRStk E n g).DecompileObject = g.DecompileObject
    ∧ (growRStk E n g).EndOfObject = g.EndOfObject := by
  unfold growRStk
  split <;> exact ⟨rfl, rfl⟩

theorem rplCompileAppend_pointers (E : Env) (w : Nat) (g : Globals) :
    (rplCompileAppend E w g).DecompileObject = g.DecompileObject
    ∧ (rplCompileAppend E w g).EndOfObject = g.EndOfObject := by
  unfold rplCompileAppend
  dsimp only
  split
  · exact growTempOb_pointers E _ _
  · exact ⟨rfl, rfl⟩

theorem initObject_spec (E : Env) (object : Int) (s2 : DSt) :
    (initObject E object s2).flags = s2.flags
    ∧ (initObject E object s2).infixmode = s2.infixmode
    ∧ (initObject E object s2).g.DecompileObject = s2.g.DecompileObject
    ∧ (initObject E object s2).g.EndOfObject = rplSkipOb E s2.g.mem object := by
  refine ⟨rfl, rfl, ?_, ?_⟩
  · unfold initObject
    dsimp only
    by_cases h : s2.flags &&& E.DECOMP_EMBEDDED = 0
    · rw [if_pos h, if_pos h]
      dsimp only
      rw [(rplCompileAppend_pointers E _ _).1]
    · rw [if_neg h, if_neg h]
  · unfold initObject
    dsimp only
    by_cases h : s2.flags &&& E.DECOMP_EMBEDDED = 0
    · rw [if_pos h, if_pos h]
      dsimp only
      rw [(rplCompileAppend_pointers E _ _).2]
    · rw [if_neg h, if_neg h]

theorem growRStk_mem (E : Env) (n : Int) (g : Globals) : (growRStk E n g).mem = g.mem := by
  unfold growRStk
  split <;> rfl

theorem embeddedGlobals_spec (E : Env) (object : Int) (g : Globals) :
    (embeddedGlobals E object g).mem = g.mem
    ∧ (embeddedGlobals E object g).DecompileObject = object := by
  unfold embeddedGlobals
  dsimp only
  repeat' split
  all_goals first
    | exact ⟨rfl, rfl⟩
    | exact ⟨(growRStk_mem E _ _).trans rfl, (growRStk_pointers E _ _).1.trans rfl⟩

/-- The start of `rplDecompile`: the only return is the one after a failed growth of
the return stack, with the error flag raised; otherwise the loop starts outside infix
mode on the object, whose end is where `rplSkipOb` lands, and the local `flags` has
the bit `DECOMP_EMBEDDED` exactly when the argument has it. -/
theorem decompInit_spec (E : Env)
    (hw : E.DECOMP_MAXWIDTH E.DEFAULT_DECOMP_WIDTH &&& E.DECOMP_EMBEDDED = 0)
    (object : Int) (flags : Nat) (g : Globals) :
    (∀ v g1, decompInit E object flags g = Flow.ret v g1 → v = none ∧ g1.Exceptions ≠ 0)
    ∧ (∀ s0, decompInit E object flags g = Flow.next s0 →
        (s0.flags &&& E.DECOMP_EMBEDDED = 0 ↔ flags &&& E.DECOMP_EMBEDDED = 0)
        ∧ s0.infixmode = 0 ∧ s0.g.DecompileObject = object
        ∧ s0.g.EndOfObject = rplSkipOb E g.mem object) := by
  have key : ∀ s1 : DSt, (s1.flags &&& E.DECOMP_EMBEDDED = 0 ↔ flags &&& E.DECOMP_EMBEDDED = 0) →
      s1.infixmode = 0 → s1.g.DecompileObject = object → s1.g.mem = g.mem →
      ((initObject E object (initWidth E s1)).flags &&& E.DECOMP_EMBEDDED = 0
          ↔ flags &&& E.DECOMP_EMBEDDED = 0)
      ∧ (initObject E object (initWidth E s1)).infixmode = 0
      ∧ (initObject E object (initWidth E s1)).g.DecompileObject = object
      ∧ (initObject E object (initWidth E s1)).g.EndOfObject = rplSkipOb E g.mem object := by
    intro s1 h1 h2 h3 h4
    obtain ⟨a1, a2, a3, a4⟩ := initObject_spec E object (initWidth E s1)
    obtain ⟨b1, b2, b3⟩ := initWidth_spec E hw s1
    rw [a1, a2, a3, a4, b2, b3, h2, h3, h4]
    exact ⟨b1.trans h1, rfl, rfl, rfl⟩
  unfold decompInit
  by_cases hemb : flags &&& E.DECOMP_EMBEDDED ≠ 0
  · rw [if_pos hemb]
    unfold initEmbedded
    dsimp only
    by_cases hx : (embeddedGlobals E object g).Exceptions ≠ 0
    · rw [if_pos hx]
      constructor
      · intro v g1 e
        unfold Flow.bind at e
        cases e
        exact ⟨rfl, hx⟩
      · intro s0 e
        unfold Flow.bind at e
        cases e
    · rw [if_neg hx]
      constructor
      · intro v g1 e
        unfold Flow.bind at e
        cases e
      · intro s0 e
        unfold Flow.bind at e
        dsimp only at e
        cases e
        apply key
        · constructor
          · intro h0
            exact absurd h0 (and_or_ne_zero _ _ _ hemb)
          · intro h0
            exact absurd h0 hemb
        · rfl
        · exact (embeddedGlobals_spec E object g).2
        · exact (embeddedGlobals_spec E object g).1
  · rw [if_neg hemb]
    constructor
    · intro v g1 e
      unfold Flow.bind at e
      cases e
    · intro s0 e
      unfold Flow.bind at e
      dsimp only at e
      cases e
      apply key
      · exact Iff.rfl
      · rfl
      · rfl
      · rfl

/-- The end of `rplDecompile`, after the loop: an object is returned only outside an
embedded session, with no error flagged when registering the block flags none; a
null return has the error flag raised, or ends an embedded session. -/
theorem decompFinish_contract (E : Env)
    (hblock : ∀ (p : Int) (g : Globals), (E.rplAddTempBlock p g).Exceptions = g.Exceptions)
    (s : DSt) :
    ((∃ p, (decompFinish E s).value = some p) ∧ (decompFinish E s).g.Exceptions = 0
        ∧ s.flags &&& E.DECOMP_EMBEDDED = 0)
    ∨ ((decompFinish E s).value = none ∧ (decompFinish E s).g.Exceptions ≠ 0)
    ∨ ((decompFinish E s).value = none ∧ (decompFinish E s).g.Exceptions = 0
        ∧ s.flags &&& E.DECOMP_EMBEDDED ≠ 0) := by
  unfold decompFinish
  dsimp only
  generalize (if s.flags &&& E.DECOMP_EMBEDDED = 0 then _ else trimNewline s : Globals) = g2
  by_cases h3 : g2.Exceptions = 0
  · rw [if_pos h3]
    by_cases hgrow : g2.CompileEnd + E.TEMPOBSLACK > g2.TempObSize
    · rw [if_pos hgrow]
      by_cases hx : (growTempOb E (g2.CompileEnd - g2.TempOb + E.TEMPOBSLACK)
          { g2 with LAMTop := g2.LAMTopSaved }).Exceptions ≠ 0
      · rw [if_pos ⟨hgrow, hx⟩]
        right; left
        refine ⟨rfl, ?_⟩
        dsimp only
        split
        · exact hx
        · exact hx
      · rw [if_neg (fun h => hx h.2)]
        by_cases hemb : s.flags &&& E.DECOMP_EMBEDDED ≠ 0
        · rw [if_pos hemb]
          right; right
          exact ⟨rfl, not_not.mp hx, hemb⟩
        · rw [if_neg hemb]
          left
          refine ⟨⟨_, rfl⟩, ?_, not_not.mp hemb⟩
          dsimp only
          rw [hblock]
          exact not_not.mp hx
    · rw [if_neg hgrow, if_neg (fun h => hgrow h.1)]
      by_cases hemb : s.flags &&& E.DECOMP_EMBEDDED ≠ 0
      · rw [if_pos hemb]
        right; right
        exact ⟨rfl, h3, hemb⟩
      · rw [if_neg hemb]
        left
        refine ⟨⟨_, rfl⟩, ?_, not_not.mp hemb⟩
        dsimp only
        rw [hblock]
        exact h3
  · rw [if_neg h3]
    right; left
    exact ⟨rfl, h3⟩

theorem samePlace_trans {s t u : DSt} (h1 : SamePlace s t) (h2 : SamePlace t u) :
    SamePlace s u :=
  ⟨h2.1.trans h1.1, h2.2.1.trans h1.2.1, h2.2.2.trans h1.2.2⟩

theorem growForText_pointers (E : Env) (e : Int) (g : Globals) :
    (growForText E e g).DecompileObject = g.DecompileObject
    ∧ (growForText E e g).EndOfObject = g.EndOfObject := by
  unfold growForText
  split
  · exact growTempOb_pointers E _ _
  · exact ⟨rfl, rfl⟩

theorem rplDecompAppendChar_pointers (E : Env) (c : Nat) (g : Globals) :
    (rplDecompAppendChar E c g).DecompileObject = g.DecompileObject
    ∧ (rplDecompAppendChar E c g).EndOfObject = g.EndOfObject := by
  unfold rplDecompAppendChar
  dsimp only
  split
  · exact growForText_pointers E _ _
  · exact ⟨rfl, rfl⟩

theorem appendSpaces_pointers (E : Env) : ∀ (k : Nat) (g : Globals),
    (appendSpaces E k g).DecompileObject = g.DecompileObject
    ∧ (appendSpaces E k g).EndOfObject = g.EndOfObject := by
  intro k
  induction k with
  | zero => intro g; exact ⟨rfl, rfl⟩
  | succ n ih =>
    intro g
    unfold appendSpaces
    obtain ⟨a, b⟩ := ih (rplDecompAppendChar E 32 g)
    obtain ⟨c, d⟩ := rplDecompAppendChar_pointers E 32 g
    exact ⟨a.trans c, b.trans d⟩

theorem rplDecompAppendString_pointers (E : Env) (str : List Nat) (g : Globals) :
    (rplDecompAppendString E str g).DecompileObject = g.DecompileObject
    ∧ (rplDecompAppendString E str g).EndOfObject = g.EndOfObject := by
  unfold rplDecompAppendString
  dsimp only
  repeat' split
  all_goals first
    | exact ⟨rfl, rfl⟩
    | exact growTempOb_pointers E _ _

theorem hintsBefore_place (E : Env) (s : DSt) :
    SamePlace s (hintsBefore E s) ∧ (hintsBefore E s).han = s.han := by
  have c := rplDecompAppendChar_pointers E
  have a := appendSpaces_pointers E
  unfold hintsBefore SamePlace
  dsimp only
  repeat' split
  all_goals first
    | exact ⟨⟨rfl, rfl, rfl⟩, rfl⟩
    | exact ⟨⟨rfl, ((c _ _).1.trans (c _ _).1), ((c _ _).2.trans (c _ _).2)⟩, rfl⟩
    | exact ⟨⟨rfl, ((a _ _).1.trans (c _ _).1), ((a _ _).2.trans (c _ _).2)⟩, rfl⟩

theorem widthCheck_place (E : Env) (s : DSt) : SamePlace s (widthCheck E s) := by
  unfold widthCheck
  exact ⟨rfl, rfl, rfl⟩

theorem hintsAfter_place (E : Env) (s : DSt) : SamePlace s (hintsAfter E s) := by
  have c := rplDecompAppendChar_pointers E
  have a := appendSpaces_pointers E
  unfold hintsAfter SamePlace
  dsimp only
  repeat' split
  all_goals first
    | exact ⟨rfl, rfl, rfl⟩
    | exact ⟨rfl, (c _ _).1, (c _ _).2⟩
    | exact ⟨rfl, ((a _ _).1.trans (c _ _).1), ((a _ _).2.trans (c _ _).2)⟩

theorem decompInfo_place {E : Env} (hT : DecompTame E) (s : DSt) :
    SamePlace s (decompInfo E s) ∧ ∀ h, (decompInfo E s).han = some h → TameHandler h := by
  unfold decompInfo SamePlace
  dsimp only
  cases hh : E.rplGetLibHandler (E.LIBNUM (s.g.mem s.g.DecompileObject)) with
  | none =>
    dsimp only
    exact ⟨⟨rfl, rfl, rfl⟩, fun h e => by cases e⟩
  | some handler =>
    dsimp only
    unfold callProtected
    dsimp only
    refine ⟨⟨rfl, (hT _ _ hh _).1, (hT _ _ hh _).2.1⟩, ?_⟩
    intro h e
    cases e
    exact hT _ _ hh

theorem decompObject_place (E : Env) (s : DSt) (hs : ∀ h, s.han = some h → TameHandler h) :
    SamePlace s (decompObject E s)
    ∧ (decompObject E s).g.RetNum ≠ RetCode.OK_STARTCONSTRUCT_INFIX := by
  unfold decompObject SamePlace
  dsimp only
  cases hh : s.han with
  | none =>
    dsimp only
    exact ⟨⟨rfl, rfl, rfl⟩, fun e => by cases e⟩
  | some handler =>
    dsimp only
    exact ⟨⟨rfl, (hs _ hh _).1, (hs _ hh _).2.1⟩, (hs _ hh _).2.2⟩

theorem decompSwitch_place (E : Env) (s : DSt) (h0 : s.infixmode = 0)
    (hr : s.g.RetNum ≠ RetCode.OK_STARTCONSTRUCT_INFIX) :
    (∀ s1, decompSwitch E s = Step.next s1 →
      s1.infixmode = 0 ∧ s1.g.EndOfObject = s.g.EndOfObject
        ∧ s.g.DecompileObject < s1.g.DecompileObject)
    ∧ (∀ s1, decompSwitch E s ≠ Step.again s1) := by
  have hk := rplSkipOb_gt E
  have hg1 := fun n g => (growRStk_pointers E n g).1
  have hg2 := fun n g => (growRStk_pointers E n g).2
  have ha1 := fun n g => (rplDecompAppendString_pointers E n g).1
  have ha2 := fun n g => (rplDecompAppendString_pointers E n g).2
  constructor
  · intro s1 e
    unfold decompSwitch at e
    cases hc : s.g.RetNum
    case OK_STARTCONSTRUCT_INFIX => exact absurd hc hr
    all_goals rw [hc] at e
    all_goals dsimp only at e
    all_goals repeat' split at e
    all_goals try unfold failReturn at e
    all_goals cases e
    all_goals dsimp only
    all_goals try simp only [hg1, hg2, ha1, ha2]
    all_goals refine ⟨h0, ?_, ?_⟩
    all_goals first
      | trivial
      | exact hk _ _
      | omega
  · intro s1 e
    unfold decompSwitch at e
    cases hc : s.g.RetNum
    all_goals rw [hc] at e
    all_goals dsimp only at e
    all_goals repeat' split at e
    all_goals try unfold failReturn at e
    all_goals cases e

theorem decompTop_place {E : Env} (hT : DecompTame E) (s : DSt) (h0 : s.infixmode = 0) :
    (∀ s1, decompTop E s = Step.next s1 →
      s1.infixmode = 0 ∧ s1.g.EndOfObject = s.g.EndOfObject
        ∧ s.g.DecompileObject < s1.g.DecompileObject)
    ∧ (∀ s1, decompTop E s ≠ Step.again s1) := by
  obtain ⟨p1, t1⟩ := decompInfo_place hT s
  obtain ⟨p2, t2⟩ := hintsBefore_place E (decompInfo E s)
  obtain ⟨p3, r3⟩ := decompObject_place E (hintsBefore E (decompInfo E s))
    (fun h e => t1 h (t2 ▸ e))
  have p := samePlace_trans (samePlace_trans p1 p2) p3
  obtain ⟨q1, q2⟩ := decompSwitch_place E (decompObject E (hintsBefore E (decompInfo E s)))
    (p.1.trans h0) r3
  unfold decompTop
  constructor
  · intro s1 e
    split at e
    · cases e
    · split at e
      · cases e
      · obtain ⟨a, b, c⟩ := q1 s1 e
        refine ⟨a, b.trans p.2.2, ?_⟩
        rw [← p.2.1]
        exact c
  · intro s1 e
    split at e
    · cases e
    · split at e
      · cases e
      · exact q2 s1 e

theorem decompEnd_place (E : Env) (s : DSt) (h0 : s.infixmode = 0) :
    (∀ s1, decompEnd E s = Step.next s1 →
      s1.infixmode = 0 ∧ s1.g.EndOfObject = s.g.EndOfObject
        ∧ s1.g.DecompileObject = s.g.DecompileObject)
    ∧ (∀ s1, decompEnd E s ≠ Step.again s1) := by
  have p := samePlace_trans (widthCheck_place E s) (hintsAfter_place E (widthCheck E s))
  unfold decompEnd
  rw [if_neg (not_not.mpr h0)]
  unfold decompAfter
  constructor
  · intro s1 e
    split at e
    · cases e
    · cases e
      exact ⟨p.1.trans h0, p.2.2, p.2.1⟩
  · intro s1 e
    split at e <;> cases e

/-- The loop of `rplDecompile` ends when the handlers are tame: outside infix mode a
pass moves `DecompileObject` forward by at least one word and leaves `EndOfObject`
where it was, so two units of fuel for each word of the object, and one more, are
enough. -/
theorem decompLoop_total {E : Env} (hT : DecompTame E) :
    ∀ (n fuel : Nat) (s : DSt), s.infixmode = 0 →
      s.g.EndOfObject - s.g.DecompileObject ≤ n → 2 * n + 1 ≤ fuel →
      ∃ f, decompLoop E fuel false s = some f := by
  intro n
  induction n with
  | zero =>
    intro fuel s h0 hm hf
    obtain ⟨k, rfl⟩ : ∃ k, fuel = k + 1 := ⟨fuel - 1, by omega⟩
    unfold decompLoop
    rw [if_neg (by omega)]
    exact ⟨_, rfl⟩
  | succ m ih =>
    intro fuel s h0 hm hf
    obtain ⟨k, rfl⟩ : ∃ k, fuel = k + 2 := ⟨fuel - 2, by omega⟩
    unfold decompLoop
    by_cases hlt : s.g.DecompileObject < s.g.EndOfObject
    · rw [if_pos hlt]
      obtain ⟨q1, q2⟩ := decompTop_place hT s h0
      cases ht : decompTop E s with
      | next s1 =>
        dsimp only
        obtain ⟨a, b, c⟩ := q1 s1 ht
        unfold decompLoop
        obtain ⟨r1, r2⟩ := decompEnd_place E s1 a
        cases he : decompEnd E s1 with
        | next s2 =>
          dsimp only
          obtain ⟨a2, b2, c2⟩ := r1 s2 he
          apply ih k s2 a2
          · rw [b2, c2, b]; push_cast at hm ⊢; omega
          · omega
        | again s2 => exact absurd he (r2 s2)
        | leave s2 => exact ⟨_, rfl⟩
        | ret v g => exact ⟨_, rfl⟩
      | again s1 => exact absurd ht (q2 s1)
      | leave s1 => exact ⟨_, rfl⟩
      | ret v g => exact ⟨_, rfl⟩
    · rw [if_neg hlt]
      exact ⟨_, rfl⟩

theorem wrap_tame : DecompTame Ewrap := by
  intro lib h hh g
  have hh2 : (if lib = 12 then some wrapLib else none) = some h := hh
  split at hh2
  · cases hh2
    unfold wrapLib
    split
    · exact ⟨rfl, rfl, fun e => by cases e⟩
    · exact ⟨(rplDecompAppendChar_pointers E0 49 g).1, (rplDecompAppendChar_pointers E0 49 g).2,
        fun e => by cases e⟩
  · cases hh2

set_option maxRecDepth 1000000

/-- C15 (result contract of `rplDecompile`), as amended: whenever `rplDecompile`
returns, it returns a non-null pointer with no error flagged, outside an embedded
session; or null with the error flag raised; or null with no error flagged, at the
successful end of an embedded session (`DECOMP_EMBEDDED`), whose text is left in the
string of the caller.  And it does return, within two steps for each word of the
object, when the handlers are tame: they leave `DecompileObject` and `EndOfObject`
alone and never open an infix construct.  The runtime is assumed to flag nothing
when it registers the finished block. -/
theorem decompile_result_contract (E : Env) (hE : E.EX_ERRORCODE ≠ 0)
    (hw : E.DECOMP_MAXWIDTH E.DEFAULT_DECOMP_WIDTH &&& E.DECOMP_EMBEDDED = 0)
    (hblock : ∀ (p : Int) (g : Globals), (E.rplAddTempBlock p g).Exceptions = g.Exceptions)
    (fuel : Nat) (object : Int) (flags : Nat) (g : Globals) :
    (∀ r : Result, rplDecompile E fuel object flags g = some r →
      ((∃ p, r.value = some p) ∧ r.g.Exceptions = 0 ∧ flags &&& E.DECOMP_EMBEDDED = 0)
      ∨ (r.value = none ∧ r.g.Exceptions ≠ 0)
      ∨ (r.value = none ∧ r.g.Exceptions = 0 ∧ flags &&& E.DECOMP_EMBEDDED ≠ 0))
    ∧ (DecompTame E → 2 * (rplSkipOb E g.mem object - object).toNat + 1 ≤ fuel →
      ∃ r : Result, rplDecompile E fuel object flags g = some r) := by
  obtain ⟨i1, i2⟩ := decompInit_spec E hw object flags g
  constructor
  · intro r hr
    unfold rplDecompile at hr
    cases hi : decompInit E object flags g with
    | ret v g1 =>
      rw [hi] at hr
      cases hr
      exact Or.inr (Or.inl (i1 v g1 hi))
    | next s0 =>
      rw [hi] at hr
      dsimp only at hr
      obtain ⟨f0, _, _, _⟩ := i2 s0 hi
      cases hl : decompLoop E fuel false s0 with
      | none => rw [hl] at hr; cases hr
      | some f =>
        rw [hl] at hr
        obtain ⟨l1, l2⟩ := decompLoop_ok hE fuel false s0 f hl
        cases f with
        | ret v g1 =>
          cases hr
          exact Or.inr (Or.inl (l2 v g1 rfl))
        | next s1 =>
          cases hr
          have hfl : s1.flags &&& E.DECOMP_EMBEDDED = 0 ↔ flags &&& E.DECOMP_EMBEDDED = 0 := by
            rw [l1 s1 rfl]; exact f0
          rcases decompFinish_contract E hblock s1 with ⟨a, b, c⟩ | ⟨a, b⟩ | ⟨a, b, c⟩
          · exact Or.inl ⟨a, b, hfl.mp c⟩
          · exact Or.inr (Or.inl ⟨a, b⟩)
          · exact Or.inr (Or.inr ⟨a, b, fun h => c (hfl.mpr h)⟩)
  · intro hT hfuel
    unfold rplDecompile
    cases hi : decompInit E object flags g with
    | ret v g1 => exact ⟨_, rfl⟩
    | next s0 =>
      dsimp only
      obtain ⟨_, f1, f2, f3⟩ := i2 s0 hi
      obtain ⟨f, hf⟩ := decompLoop_total hT (rplSkipOb E g.mem object - object).toNat fuel s0 f1
        (by rw [f2, f3]; exact Int.self_le_toNat _) hfuel
      rw [hf]
      cases f with
      | ret v g1 => exact ⟨_, rfl⟩
      | next s1 => exact ⟨_, rfl⟩

/-- Witness of the amended C15: with the tame library `wrapLib` the number at
address 60 is decompiled within three steps, and the result is a non-null pointer
with no error flagged. -/
theorem decompile_result_contract_witness :
    ∃ r : Result, rplDecompile Ewrap 3 60 0 numberGlobals = some r
      ∧ (∃ p, r.value = some p) ∧ r.g.Exceptions = 0 := by
  obtain ⟨h1, h2⟩ := decompile_result_contract Ewrap (by decide) (by decide)
    (fun _ _ => rfl) 3 60 0 numberGlobals
  obtain ⟨r, hr⟩ := h2 wrap_tame (by decide)
  refine ⟨r, hr, ?_⟩
  rcases h1 r hr with ⟨a, b, _⟩ | ⟨a, b⟩ | ⟨_, _, c⟩
  · exact ⟨a, b⟩
  · exfalso
    have e : rplDecompile Ewrap 3 60 0 numberGlobals = some r := hr
    have k : (globalsOf (rplDecompile Ewrap 3 60 0 numberGlobals) numberGlobals).Exceptions = 0 := by
      rfl
    rw [e] at k
    exact b k
  · exact absurd (by decide) c

/-- Counterexample to C15 as stated: an embedded session that decompiles the number
at address 60 without any error returns null, and no error is flagged; its text,
the digit `1`, was appended to the text of the session that called it. -/
theorem embedded_success_returns_null :
    ∃ r : Result, rplDecompile Ewrap 3 60 Ewrap.DECOMP_EMBEDDED sessionGlobals = some r
      ∧ r.value = none ∧ r.g.Exceptions = 0
      ∧ r.g.DecompStringEnd = 485 ∧ getByte r.g.mem 484 = 49 :=
  ⟨_, rfl, by rfl, by rfl, by rfl, by rfl⟩

theorem rplDecompAppendChar_cells (E : Env) (c : Nat) (g : Globals) :
    (rplDecompAppendChar E c g).cells = g.cells := by
  unfold rplDecompAppendChar
  dsimp only
  split
  · unfold growForText
    split
    · unfold growTempOb
      split <;> rfl
    · rfl
  · rfl

theorem openParen_rule (E : Env) (hL : ParenLaws E) (top : Int) (g : Globals)
    (hstack : top - 6 ≥ g.ValidateTop)
    (hop : E.ISPROLOG (toWord (g.cells (top - 6))) = false)
    (hfun : notFunctionKind E (g.cells (top - 5))) (info : Int)
    (hsub : BinaryOrPostfixOp E info) :
    openParen E top info g
      = if wrapRule E (E.TI_PRECEDENCE (g.cells (top - 5))) (E.TI_PRECEDENCE info)
          (g.mem g.DecompileObject)
        then rplDecompAppendChar E 40 g else g := by
  have hpre : E.TI_TYPE info ≠ E.TITYPE_PREFIXOP := fun h => hL.unary (h ▸ hsub)
  have hbr : E.TI_TYPE info ≠ E.TITYPE_OPENBRACKET := fun h => hL.bracket (h ▸ hsub)
  unfold openParen
  rw [if_pos hstack, hop, if_neg (by decide), if_neg hpre]
  by_cases heq : E.TI_PRECEDENCE (g.cells (top - 5)) = E.TI_PRECEDENCE info
  · rw [if_pos heq]
    by_cases hops : g.mem g.DecompileObject ≠ E.CMD_OVR_MUL
        ∧ g.mem g.DecompileObject ≠ E.CMD_OVR_ADD
    · rw [if_pos hops, if_pos ⟨hfun, hbr⟩, if_pos (Or.inr ⟨heq, hops.2, hops.1⟩)]
    · rw [if_neg hops, if_neg]
      rintro (h | ⟨_, h1, h2⟩)
      · omega
      · exact hops ⟨h2, h1⟩
  · rw [if_neg heq]
    by_cases hlt : E.TI_PRECEDENCE (g.cells (top - 5)) < E.TI_PRECEDENCE info
    · rw [if_pos hlt, if_pos ⟨hfun, hbr⟩, if_pos (Or.inl hlt)]
    · rw [if_neg hlt, if_neg]
      rintro (h | ⟨h, _⟩)
      · exact hlt h
      · exact heq h

theorem closeParen_rule (E : Env) (top : Int) (g : Globals)
    (hstack : top - 6 ≥ g.ValidateTop)
    (hop : E.ISPROLOG (toWord (g.cells (top - 6))) = false)
    (hfun : notFunctionKind E (g.cells (top - 5))) :
    closeParen E top g
      = if wrapRule E (E.TI_PRECEDENCE (g.cells (top - 5))) (E.TI_PRECEDENCE (g.cells (top - 1)))
          (toWord (g.cells (top - 2)))
        then rplDecompAppendChar E 41 g else g := by
  unfold closeParen
  rw [if_pos hstack, hop, if_neg (by decide)]
  dsimp only
  by_cases heq : E.TI_PRECEDENCE (g.cells (top - 5)) = E.TI_PRECEDENCE (g.cells (top - 1))
  · rw [if_pos heq]
    by_cases hops : toWord (g.cells (top - 2)) ≠ E.CMD_OVR_MUL
        ∧ toWord (g.cells (top - 2)) ≠ E.CMD_OVR_ADD
    · rw [if_pos hops, rplDecompAppendChar_cells, if_neg (by omega),
        if_pos (Or.inr ⟨heq, hops.2, hops.1⟩)]
    · rw [if_neg hops, if_neg (by omega), if_neg]
      rintro (h | ⟨_, h1, h2⟩)
      · omega
      · exact hops ⟨h2, h1⟩
  · rw [if_neg heq]
    by_cases hlt : E.TI_PRECEDENCE (g.cells (top - 5)) < E.TI_PRECEDENCE (g.cells (top - 1))
    · rw [if_pos hlt, if_pos hfun, if_pos (Or.inl hlt)]
    · rw [if_neg hlt, if_neg]
      rintro (h | ⟨h, _⟩)
      · exact hlt h
      · exact heq h

/-- The two blocks of `rplDecompile` that decide a parenthesis, relative to the
operator stack: when the operator of a binary or postfix sub-expression has been
pushed on the operator stack above an operator that is not of a function kind
(`TITYPE_FUNCTION`, `TITYPE_CASFUNCTION`, `TITYPE_CUSTOMFUNC`), the block that decides
the opening parenthesis appends `(` exactly when `wrapRule` holds for the two
precedence values and the operator at `DecompileObject`, and the block that decides
the closing parenthesis appends `)` exactly when it holds for the same precedence
values and the operator that was pushed.  With `*` of precedence 7 and `+` of
precedence 8 the tree `+(1, *(2, 3))` decompiles to `'1+2*3'` and the tree
`*(+(1, 2), 3)` to `'(1+2)*3'`.  The operator below on the stack is the enclosing
operator of the tree unless the decompiler skipped one (`specialCases`). -/
theorem parenthesization_rule (E : Env) (hL : ParenLaws E) (top : Int) (g : Globals)
    (hstack : top - 6 ≥ g.ValidateTop)
    (hop : E.ISPROLOG (toWord (g.cells (top - 6))) = false)
    (hfun : notFunctionKind E (g.cells (top - 5))) :
    (∀ info, BinaryOrPostfixOp E info →
      openParen E top info g
        = if wrapRule E (E.TI_PRECEDENCE (g.cells (top - 5))) (E.TI_PRECEDENCE info)
            (g.mem g.DecompileObject)
          then rplDecompAppendChar E 40 g else g)
    ∧ closeParen E top g
        = (if wrapRule E (E.TI_PRECEDENCE (g.cells (top - 5)))
              (E.TI_PRECEDENCE (g.cells (top - 1))) (toWord (g.cells (top - 2)))
            then rplDecompAppendChar E 41 g else g)
    ∧ compiled [39, 49, 43, 50, 42, 51, 39]
        = some (Ealg.MKPROLOG Ealg.DOSYMB 7
            :: node Ealg Ealg.CMD_OVR_ADD [[sint 1],
                node Ealg Ealg.CMD_OVR_MUL [[sint 2], [sint 3]]])
    ∧ normalise [39, 49, 43, 50, 42, 51, 39] = some [39, 49, 43, 50, 42, 51, 39]
    ∧ compiled [39, 40, 49, 43, 50, 41, 42, 51, 39]
        = some (Ealg.MKPROLOG Ealg.DOSYMB 7
            :: node Ealg Ealg.CMD_OVR_MUL [node Ealg Ealg.CMD_OVR_ADD [[sint 1], [sint 2]],
                [sint 3]])
    ∧ normalise [39, 40, 49, 43, 50, 41, 42, 51, 39]
        = some [39, 40, 49, 43, 50, 41, 42, 51, 39] :=
  ⟨fun info hsub => openParen_rule E hL top g hstack hop hfun info hsub,
    closeParen_rule E top g hstack hop hfun, by rfl, by rfl, by rfl, by rfl⟩

/-- The two blocks at the sum inside the product `(1+2)*3`: the operator below has
precedence 7 and the sum precedence 8, so both parentheses are appended. -/
theorem parenthesization_rule_witness :
    openParen Ealg 58 tiPlus productOfSum = rplDecompAppendChar Ealg 40 productOfSum
    ∧ closeParen Ealg 58 productOfSum = rplDecompAppendChar Ealg 41 productOfSum := by
  obtain ⟨h1, h2, _⟩ := parenthesization_rule Ealg ⟨by decide, by decide⟩ 58 productOfSum
    (by decide) (by rfl) (by decide)
  have a := h1 tiPlus (by unfold BinaryOrPostfixOp; decide)
  rw [if_pos (by decide)] at a h2
  exact ⟨a, h2⟩

/-- C16 at the shortcut `A+(-B) --> A-B`: the text `'a+-(c+d)'` compiles to the sum
of `a` and the negation of the sum `c+d`.  In that tree the sum `c+d`, of precedence
8, is the direct argument of the unary minus, a prefix operator of precedence 4, so
the rule asks for parentheses around it.  `rplDecompile` prints `'a-c+d'`: at the
outer sum the shortcut prints `-` and steps over the unary minus without pushing it,
so the inner sum is compared with the outer sum on the operator stack, an equal
precedence, and gets no parentheses.  The text obtained compiles to the sum of the
difference `a-c` and `d`, another expression.  Where the shortcut does not apply,
the parentheses are printed: the negation alone decompiles to `'-(c+d)'`, and under
a product to `'a*(-(c+d))'`. -/
theorem shortcut_drops_parentheses :
    compiled [39, 97, 43, 45, 40, 99, 43, 100, 41, 39]
      = some (Ealg.MKPROLOG Ealg.DOSYMB 9
          :: node Ealg Ealg.CMD_OVR_ADD [[28 * 2 ^ 20 + 97],
              node Ealg Ealg.CMD_OVR_UMINUS
                [node Ealg Ealg.CMD_OVR_ADD [[28 * 2 ^ 20 + 99], [28 * 2 ^ 20 + 100]]]])
    ∧ BinaryOrPostfixOp Ealg (algInfo Ealg.CMD_OVR_ADD)
    ∧ notFunctionKind Ealg (algInfo Ealg.CMD_OVR_UMINUS)
    ∧ Ealg.TI_PRECEDENCE (algInfo Ealg.CMD_OVR_UMINUS) = 4
    ∧ Ealg.TI_PRECEDENCE (algInfo Ealg.CMD_OVR_ADD) = 8
    ∧ wrapRule Ealg (Ealg.TI_PRECEDENCE (algInfo Ealg.CMD_OVR_UMINUS))
        (Ealg.TI_PRECEDENCE (algInfo Ealg.CMD_OVR_ADD)) Ealg.CMD_OVR_ADD
    ∧ decompiled (Ealg.MKPROLOG Ealg.DOSYMB 9
          :: node Ealg Ealg.CMD_OVR_ADD [[28 * 2 ^ 20 + 97],
              node Ealg Ealg.CMD_OVR_UMINUS
                [node Ealg Ealg.CMD_OVR_ADD [[28 * 2 ^ 20 + 99], [28 * 2 ^ 20 + 100]]]])
        = some [39, 97, 45, 99, 43, 100, 39]
    ∧ compiled [39, 97, 45, 99, 43, 100, 39]
        = some (Ealg.MKPROLOG Ealg.DOSYMB 7
            :: node Ealg Ealg.CMD_OVR_ADD [node Ealg Ealg.CMD_OVR_SUB
                [[28 * 2 ^ 20 + 97], [28 * 2 ^ 20 + 99]], [28 * 2 ^ 20 + 100]])
    ∧ decompiled (Ealg.MKPROLOG Ealg.DOSYMB 6
          :: node Ealg Ealg.CMD_OVR_UMINUS
              [node Ealg Ealg.CMD_OVR_ADD [[28 * 2 ^ 20 + 99], [28 * 2 ^ 20 + 100]]])
        = some [39, 45, 40, 99, 43, 100, 41, 39]
    ∧ normalise [39, 97, 42, 45, 40, 99, 43, 100, 41, 39]
        = some [39, 97, 42, 40, 45, 40, 99, 43, 100, 41, 41, 39] := by
  refine ⟨by rfl, by unfold BinaryOrPostfixOp; decide, by decide, by rfl, by rfl,
    by decide, by rfl, by rfl, by rfl, by rfl⟩

theorem specialCases_sub (E : Env) (hL : ShortcutLaws E) (mem : Int → Nat) (obj : Int)
    (hm : E.rplSymbMainOperator mem obj = E.CMD_OVR_UMINUS) :
    specialCases E mem obj E.CMD_OVR_ADD
      = { Operator := E.CMD_OVR_SUB, SavedDecompObject := E.rplSymbUnwrap mem obj + 2,
          no_output := false } := by
  have h1 := hL.uminus_ne_mul
  have h2 := hL.uminus_ne_div
  have h3 := hL.sub_ne_mul
  simp [specialCases, hm, h1, h2, h3]

theorem specialCases_div (E : Env) (hL : ShortcutLaws E) (mem : Int → Nat) (obj : Int)
    (hm : E.rplSymbMainOperator mem obj = E.CMD_OVR_INV) :
    specialCases E mem obj E.CMD_OVR_MUL
      = { Operator := E.CMD_OVR_DIV, SavedDecompObject := E.rplSymbUnwrap mem obj + 2,
          no_output := false } := by
  have h1 : E.CMD_OVR_MUL ≠ E.CMD_OVR_ADD := fun h => hL.add_ne_mul h.symm
  simp [specialCases, hm, h1]

theorem binaryArgument_emit (E : Env) (s : DSt) (op : Nat) (operand : Int)
    (hc : specialCases E s.g.mem s.g.DecompileObject (toWord (s.g.cells (s.InfixOpTop - 2)))
      = { Operator := op, SavedDecompObject := operand, no_output := false }) :
    binaryArgument E s
      = Step.next { s with g := emitThenGo E s op operand,
                           infixmode := nextBinaryMode E s (emitThenGo E s op operand) } := by
  unfold binaryArgument
  rw [hc]
  rfl

theorem appendIfInvalid_pointers (E : Env) (g : Globals) :
    (appendIfInvalid E g).DecompileObject = g.DecompileObject := by
  unfold appendIfInvalid
  split
  · exact (rplDecompAppendString_pointers E _ _).1
  · rfl

theorem emitThenGo_object (E : Env) (s : DSt) (op : Nat) (operand : Int)
    (hkeep : ∀ h, E.rplGetLibHandler (E.LIBNUM op) = some h →
      ∀ g, (h g).SavedDecompObject = g.SavedDecompObject) :
    (emitThenGo E s op operand).DecompileObject = operand := by
  unfold emitThenGo
  dsimp only
  rw [appendIfInvalid_pointers]
  dsimp only
  unfold callOperator
  cases hh : E.rplGetLibHandler (E.LIBNUM op) with
  | none => rfl
  | some h =>
    dsimp only
    unfold callProtected
    dsimp only
    rw [hkeep h hh]

theorem decompInfix_binary (E : Env) (s : DSt)
    (hmode : s.infixmode = INFIX_BINARYLEFT ∨ s.infixmode = INFIX_BINARYMID) :
    decompInfix E s = binaryArgument E s := by
  have h1 : s.infixmode ≠ INFIX_STARTSYMBOLIC := by
    rcases hmode with h | h <;> rw [h] <;> decide
  have h2 : s.infixmode ≠ INFIX_STARTEXPRESSION := by
    rcases hmode with h | h <;> rw [h] <;> decide
  unfold decompInfix
  rw [if_neg h1, if_neg h2, if_pos hmode]

/-- C17 (decompiler shortcut): after the first argument of a binary operator
(`INFIX_BINARYLEFT`) and after every later argument but the last (`INFIX_BINARYMID`),
when the operator on the operator stack is `CMD_OVR_ADD` and the next argument is a
symbolic whose main operator is `CMD_OVR_UMINUS`, `rplDecompile` emits the text of
`CMD_OVR_SUB` and goes on with the operand of the negation (two words into the
unwrapped symbolic), so that the negation is not printed; when the operator is
`CMD_OVR_MUL` and the main operator of the next argument is `CMD_OVR_INV` it emits
`CMD_OVR_DIV` and goes on with the operand of the inverse.  The object decompiled
next is that operand whenever the handler that prints the operator leaves
`SavedDecompObject` alone.  So `a+(-b)` reads `'a-b'`, `a*inv(b)` reads `'a/b'`, and
in the sum of `a`, `b` and `-c` the third argument is shortened too: `'a+b-c'`. -/
theorem decompiler_shortcut (E : Env) (hL : ShortcutLaws E) (s : DSt)
    (hmode : s.infixmode = INFIX_BINARYLEFT ∨ s.infixmode = INFIX_BINARYMID) :
    (toWord (s.g.cells (s.InfixOpTop - 2)) = E.CMD_OVR_ADD →
      E.rplSymbMainOperator s.g.mem s.g.DecompileObject = E.CMD_OVR_UMINUS →
      decompInfix E s
        = Step.next { s with
            g := emitThenGo E s E.CMD_OVR_SUB (E.rplSymbUnwrap s.g.mem s.g.DecompileObject + 2),
            infixmode := nextBinaryMode E s
              (emitThenGo E s E.CMD_OVR_SUB (E.rplSymbUnwrap s.g.mem s.g.DecompileObject + 2)) }
      ∧ ((∀ h, E.rplGetLibHandler (E.LIBNUM E.CMD_OVR_SUB) = some h →
            ∀ g, (h g).SavedDecompObject = g.SavedDecompObject) →
          (emitThenGo E s E.CMD_OVR_SUB
              (E.rplSymbUnwrap s.g.mem s.g.DecompileObject + 2)).DecompileObject
            = E.rplSymbUnwrap s.g.mem s.g.DecompileObject + 2))
    ∧ (toWord (s.g.cells (s.InfixOpTop - 2)) = E.CMD_OVR_MUL →
      E.rplSymbMainOperator s.g.mem s.g.DecompileObject = E.CMD_OVR_INV →
      decompInfix E s
        = Step.next { s with
            g := emitThenGo E s E.CMD_OVR_DIV (E.rplSymbUnwrap s.g.mem s.g.DecompileObject + 2),
            infixmode := nextBinaryMode E s
              (emitThenGo E s E.CMD_OVR_DIV (E.rplSymbUnwrap s.g.mem s.g.DecompileObject + 2)) }
      ∧ ((∀ h, E.rplGetLibHandler (E.LIBNUM E.CMD_OVR_DIV) = some h →
            ∀ g, (h g).SavedDecompObject = g.SavedDecompObject) →
          (emitThenGo E s E.CMD_OVR_DIV
              (E.rplSymbUnwrap s.g.mem s.g.DecompileObject + 2)).DecompileObject
            = E.rplSymbUnwrap s.g.mem s.g.DecompileObject + 2))
    ∧ decompiled (Ealg.MKPROLOG Ealg.DOSYMB 6
          :: node Ealg Ealg.CMD_OVR_ADD [[28 * 2 ^ 20 + 97],
              node Ealg Ealg.CMD_OVR_UMINUS [[28 * 2 ^ 20 + 98]]])
        = some [39, 97, 45, 98, 39]
    ∧ decompiled (Ealg.MKPROLOG Ealg.DOSYMB 6
          :: node Ealg Ealg.CMD_OVR_MUL [[28 * 2 ^ 20 + 97],
              node Ealg Ealg.CMD_OVR_INV [[28 * 2 ^ 20 + 98]]])
        = some [39, 97, 47, 98, 39]
    ∧ decompiled (Ealg.MKPROLOG Ealg.DOSYMB 7
          :: node Ealg Ealg.CMD_OVR_ADD [[28 * 2 ^ 20 + 97], [28 * 2 ^ 20 + 98],
              node Ealg Ealg.CMD_OVR_UMINUS [[28 * 2 ^ 20 + 99]]])
        = some [39, 97, 43, 98, 45, 99, 39] := by
  refine ⟨?_, ?_, by rfl, by rfl, by rfl⟩
  · intro hop hm
    rw [decompInfix_binary E s hmode]
    refine ⟨binaryArgument_emit E s _ _ ?_, emitThenGo_object E s _ _⟩
    rw [hop]
    exact specialCases_sub E hL _ _ hm
  · intro hop hm
    rw [decompInfix_binary E s hmode]
    refine ⟨binaryArgument_emit E s _ _ ?_, emitThenGo_object E s _ _⟩
    rw [hop]
    exact specialCases_div E hL _ _ hm

/-- Witness of C17: in the sum of `a` and `-b`, after `a`, the decompiler appends
the byte `-` and goes on at the word 66, the operand `b` of the negation, which is
the last argument. -/
theorem decompiler_shortcut_witness :
    ∃ t : DSt, decompInfix Ealg sumState = Step.next t ∧ t.g.DecompileObject = 66
      ∧ t.infixmode = INFIX_BINARYRIGHT ∧ getByte t.g.mem 406 = 45
      ∧ t.g.DecompStringEnd = 407 := by
  obtain ⟨h, _⟩ := (decompiler_shortcut Ealg ⟨by decide, by decide, by decide, by decide⟩
    sumState (Or.inl rfl)).1 (by rfl) (by rfl)
  exact ⟨_, h, by rfl, by rfl, by rfl, by rfl⟩

/-- C18 at a failing input: an embedded session on an object whose library flags an
error returns null through the `break` of the loop and the final `return 0`, where
nothing is restored: the decompiler pointers, the saved environment pointer, the
mode, and the three stack pointers are those of the embedded session, not those the
call was entered with. -/
theorem embedded_error_skips_restore :
    ∃ r : Result, rplDecompile Efail 10 60 Efail.DECOMP_EMBEDDED sessionGlobals = some r
      ∧ r.value = none ∧ r.g.Exceptions ≠ 0
      ∧ sessionGlobals.RSTop = 50 ∧ r.g.RSTop = 56
      ∧ sessionGlobals.ValidateTop = 52 ∧ r.g.ValidateTop = 57
      ∧ sessionGlobals.ValidateBottom = 51 ∧ r.g.ValidateBottom = 56
      ∧ sessionGlobals.DecompileObject = 300 ∧ r.g.DecompileObject = 60
      ∧ sessionGlobals.EndOfObject = 310 ∧ r.g.EndOfObject = 61
      ∧ sessionGlobals.LAMTopSaved = 7 ∧ r.g.LAMTopSaved = 9
      ∧ sessionGlobals.DecompMode = 5 ∧ r.g.DecompMode ≠ 5 :=
  ⟨_, rfl, by rfl, by decide, by rfl, by rfl, by rfl, by rfl, by rfl, by rfl, by rfl, by rfl,
    by rfl, by rfl, by rfl, by rfl, by rfl, by decide⟩

/-- The same session on an object that the algebra library decompiles: every return
path that goes through the restoring block, here the successful end, gives back the
pointers of the caller, and the session returns null with no error flagged. -/
theorem embedded_success_restores :
    ∃ r : Result,
      rplDecompile Ealg 10 60 Ealg.DECOMP_EMBEDDED sessionGlobals = some r
      ∧ r.value = none ∧ r.g.Exceptions = 0
      ∧ r.g.RSTop = 50 ∧ r.g.ValidateTop = 52 ∧ r.g.ValidateBottom = 51
      ∧ r.g.DecompileObject = 300 ∧ r.g.EndOfObject = 310 ∧ r.g.LAMTopSaved = 7
      ∧ r.g.SavedDecompObject = 305 ∧ r.g.CurrentConstruct = 77 ∧ r.g.DecompMode = 5
      ∧ r.g.DecompHints = 3
      ∧ r.g.DecompStringEnd = 485 ∧ getByte r.g.mem 484 = 49 :=
  ⟨_, rfl, by rfl, by rfl, by rfl, by rfl, by rfl, by rfl, by rfl, by rfl, by rfl, by rfl,
    by rfl, by rfl, by rfl, by rfl⟩

theorem lane_update (w c i j : Nat) (hi : i < 4) (hj : j < 4) (hc : c < 256) :
    (w - (w / 256 ^ i % 256) * 256 ^ i + c * 256 ^ i) / 256 ^ j % 256
      = if i = j then c else w / 256 ^ j % 256 := by
  interval_cases i <;> interval_cases j <;> simp <;> omega

theorem lane_lt (b : Int) : (b % 4).toNat < 4 := by
  have h1 := Int.emod_nonneg b (by norm_num : (4 : Int) ≠ 0)
  have h2 := Int.emod_lt_of_pos b (by norm_num : (0 : Int) < 4)
  omega

theorem getByte_setByte_same (mem : Int → Nat) (b : Int) (c : Nat) :
    getByte (setByte mem b c) b = c % 256 := by
  unfold getByte setByte setWord
  rw [if_pos rfl, lane_update _ _ _ _ (lane_lt b) (lane_lt b) (Nat.mod_lt _ (by norm_num)),
    if_pos rfl]

theorem getByte_setByte_other (mem : Int → Nat) (b b1 : Int) (c : Nat) (h : b1 ≠ b) :
    getByte (setByte mem b c) b1 = getByte mem b1 := by
  unfold getByte setByte setWord
  by_cases hw : b1 / 4 = b / 4
  · rw [if_pos hw, hw,
      lane_update _ _ _ _ (lane_lt b) (lane_lt b1) (Nat.mod_lt _ (by norm_num)), if_neg]
    intro hl
    apply h
    have h1 := Int.emod_nonneg b (by norm_num : (4 : Int) ≠ 0)
    have h2 := Int.emod_nonneg b1 (by norm_num : (4 : Int) ≠ 0)
    have e1 := Int.emod_add_ediv b 4
    have e2 := Int.emod_add_ediv b1 4
    omega
  · rw [if_neg hw]

theorem growForText_text (E : Env) (e : Int) (g : Globals) :
    (growForText E e g).mem = g.mem
    ∧ (growForText E e g).DecompStringEnd = g.DecompStringEnd
    ∧ (growForText E e g).CompileEnd = g.CompileEnd := by
  unfold growForText
  split
  · unfold growTempOb
    split <;> exact ⟨rfl, rfl, rfl⟩
  · exact ⟨rfl, rfl, rfl⟩

theorem rplDecompAppendChar_text (E : Env) (c : Nat) (g : Globals) :
    (rplDecompAppendChar E c g).mem = setByte g.mem g.DecompStringEnd c
    ∧ (rplDecompAppendChar E c g).DecompStringEnd = g.DecompStringEnd + 1
    ∧ (rplDecompAppendChar E c g).CompileEnd = g.CompileEnd := by
  unfold rplDecompAppendChar
  dsimp only
  split
  · obtain ⟨a, b, d⟩ := growForText_text E (g.DecompStringEnd + 1)
      { g with mem := setByte g.mem g.DecompStringEnd c,
               DecompStringEnd := g.DecompStringEnd + 1 }
    exact ⟨a, b, d⟩
  · exact ⟨rfl, rfl, rfl⟩

/-- The indentation loop appends `k` spaces after the text. -/
theorem appendSpaces_text (E : Env) : ∀ (k : Nat) (g : Globals),
    Appended g (appendSpaces E k g) k
    ∧ ∀ b, g.DecompStringEnd ≤ b → b < g.DecompStringEnd + k →
        getByte (appendSpaces E k g).mem b = 32 := by
  intro k
  induction k with
  | zero =>
    intro g
    refine ⟨⟨?_, rfl, fun b _ => rfl⟩, ?_⟩
    · show g.DecompStringEnd = g.DecompStringEnd + ((0 : Nat) : Int)
      simp
    · intro b h1 h2
      simp at h2
      omega
  | succ n ih =>
    intro g
    obtain ⟨m1, e1, c1⟩ := rplDecompAppendChar_text E 32 g
    obtain ⟨⟨a1, a2, a3⟩, a4⟩ := ih (rplDecompAppendChar E 32 g)
    unfold appendSpaces
    refine ⟨⟨?_, a2.trans c1, ?_⟩, ?_⟩
    · rw [a1, e1]; push_cast; ring
    · intro b hb
      rw [a3 b (by rw [e1]; omega), m1, getByte_setByte_other _ _ _ _ (by omega)]
    · intro b h1 h2
      by_cases hb : b = g.DecompStringEnd
      · rw [a3 b (by rw [e1]; omega), m1, hb, getByte_setByte_same]
      · apply a4 b
        · rw [e1]; omega
        · rw [e1]; push_cast at h2; omega

/-- The scan for the line feed before the final indentation: when the text ends with
a line feed at `p` followed by `k` spaces and the scan may go down to `p`, it stops
on the line feed. -/
theorem trimScan_newline (mem : Int → Nat) (start p : Int) (hs : start ≤ p)
    (hnl : getByte mem p = 10) :
    ∀ (k fuel : Nat), k + 1 ≤ fuel →
      (∀ b, p < b → b < p + 1 + k → getByte mem b = 32) →
      trimScan mem start fuel (p + 1 + k) = p := by
  intro k
  induction k with
  | zero =>
    intro fuel hf _
    obtain ⟨f, rfl⟩ : ∃ f, fuel = f + 1 := ⟨fuel - 1, by omega⟩
    unfold trimScan
    have e : p + 1 + ((0 : Nat) : Int) - 1 = p := by simp
    rw [e, if_pos hnl]
  | succ n ih =>
    intro fuel hf hsp
    obtain ⟨f, rfl⟩ : ∃ f, fuel = f + 1 := ⟨fuel - 1, by omega⟩
    unfold trimScan
    have e : p + 1 + ((n + 1 : Nat) : Int) - 1 = p + 1 + (n : Int) := by push_cast; ring
    have h32 : getByte mem (p + 1 + (n : Int)) = 32 :=
      hsp _ (by omega) (by push_cast; omega)
    rw [e, h32, if_neg (by decide), if_neg (by decide), if_pos (by omega)]
    apply ih f (by omega)
    intro b h1 h2
    exact hsp b h1 (by push_cast; omega)

theorem scanBackNewline_le (mem : Int → Nat) (start : Int) :
    ∀ (fuel : Nat) (ptr : Int), scanBackNewline mem start (fuel + 1) ptr ≤ ptr - 1 := by
  intro fuel
  induction fuel with
  | zero =>
    intro ptr
    unfold scanBackNewline
    split
    · exact le_refl _
    · split
      · unfold scanBackNewline
        exact le_refl _
      · exact le_refl _
  | succ n ih =>
    intro ptr
    unfold scanBackNewline
    split
    · exact le_refl _
    · split
      · have := ih (ptr - 1)
        omega
      · exact le_refl _

theorem widthCheck_spec (E : Env) (s : DSt) :
    (widthCheck E s).g = s.g ∧ (widthCheck E s).flags = s.flags
    ∧ (s.flags &&& E.DECOMP_NOHINTS = 0 →
        4 * s.g.CompileEnd + (widthCheck E s).lastnloffset ≤ s.g.DecompStringEnd) := by
  refine ⟨rfl, rfl, ?_⟩
  intro h
  unfold widthCheck
  dsimp only
  rw [if_pos h]
  have hle := scanBackNewline_le s.g.mem (4 * s.g.CompileEnd + s.lastnloffset)
    (s.g.DecompStringEnd - (4 * s.g.CompileEnd + s.lastnloffset)).toNat s.g.DecompStringEnd
  split <;> omega

theorem widthCheck_asks (E : Env) (hL : HintLaws E) (s : DSt)
    (hnl : s.dhints &&& E.HINT_NLAFTER ≠ 0
      ∨ s.g.DecompStringEnd - (4 * s.g.CompileEnd + (widthCheck E s).lastnloffset) > s.maxwidth) :
    (widthCheck E s).dhints &&& E.HINT_NLAFTER ≠ 0 := by
  have hself : E.HINT_NLAFTER &&& E.HINT_NLAFTER ≠ 0 := by
    rw [Nat.and_self]; exact hL.nonzero
  have key : ∀ off : Int,
      (s.dhints &&& E.HINT_NLAFTER ≠ 0
        ∨ s.g.DecompStringEnd - (4 * s.g.CompileEnd + off) > s.maxwidth) →
      (if s.g.DecompStringEnd - (4 * s.g.CompileEnd + off) > s.maxwidth then
          s.dhints ||| E.HINT_NLAFTER else s.dhints) &&& E.HINT_NLAFTER ≠ 0 := by
    intro off h
    by_cases hw : s.g.DecompStringEnd - (4 * s.g.CompileEnd + off) > s.maxwidth
    · rw [if_pos hw, Nat.lor_comm]
      exact and_or_ne_zero _ _ _ hself
    · rw [if_neg hw]
      rcases h with h | h
      · exact h
      · exact absurd h hw
  exact key _ hnl

theorem hintsAfter_newline (E : Env) (hL : HintLaws E) (s1 : DSt)
    (h1 : s1.flags &&& E.DECOMP_NOHINTS = 0) (h2 : s1.dhints &&& E.HINT_NLAFTER ≠ 0) :
    ∃ i : Int, hintsAfter E s1
      = { s1 with indent := i, lastnewline := true,
                  g := appendSpaces E i.toNat (rplDecompAppendChar E 10 s1.g) } := by
  unfold hintsAfter
  rw [if_pos ⟨h1, hL.masked _ h2⟩]
  dsimp only
  rw [if_pos h2]
  exact ⟨_, rfl⟩

theorem wrap_hintLaws : HintLaws Ewrap := by
  refine ⟨by decide, ?_⟩
  intro d h h0
  apply h
  have e : Ewrap.HINT_NLAFTER = Ewrap.HINT_ALLAFTER &&& Ewrap.HINT_NLAFTER := by decide
  rw [e, ← Nat.and_assoc, h0]
  exact Nat.zero_and _

/-- C19 (trailing wrap trimmed): at the label `end_of_expression` outside infix mode,
with the hints on, when a line feed after the object is asked for, by the hint of the
library or because the line is wider than the maximum width, `rplDecompile` appends
the line feed and, after it, `k` spaces of indentation.  If no error is flagged, the
block that starts the end of the function then moves the end of the text back to the
line feed: the text ends where it ended before the line feed was appended, it holds
neither the line feed nor the indentation, and every byte before that is the one the
text had.  When the object ends there the loop is left in that state, so this is
the text the function finishes. -/
theorem trailing_wrap_trimmed (E : Env) (hL : HintLaws E) (s : DSt)
    (hhints : s.flags &&& E.DECOMP_NOHINTS = 0)
    (hnl : s.dhints &&& E.HINT_NLAFTER ≠ 0
      ∨ s.g.DecompStringEnd - (4 * s.g.CompileEnd + (widthCheck E s).lastnloffset) > s.maxwidth)
    (hok : (hintsAfter E (widthCheck E s)).g.Exceptions = 0) :
    ∃ k : Nat,
      (hintsAfter E (widthCheck E s)).g.DecompStringEnd = s.g.DecompStringEnd + 1 + k
      ∧ getByte (hintsAfter E (widthCheck E s)).g.mem s.g.DecompStringEnd = 10
      ∧ (∀ b, s.g.DecompStringEnd < b → b < s.g.DecompStringEnd + 1 + k →
          getByte (hintsAfter E (widthCheck E s)).g.mem b = 32)
      ∧ trimNewline (hintsAfter E (widthCheck E s))
          = { (hintsAfter E (widthCheck E s)).g with DecompStringEnd := s.g.DecompStringEnd }
      ∧ (∀ b, b < s.g.DecompStringEnd →
          getByte (trimNewline (hintsAfter E (widthCheck E s))).mem b = getByte s.g.mem b)
      ∧ (s.infixmode = 0 → ¬ s.g.DecompileObject < s.g.EndOfObject → ∀ fuel : Nat,
          decompLoop E (fuel + 2) true s = some (Flow.next (hintsAfter E (widthCheck E s)))) := by
  obtain ⟨w1, w2, w3⟩ := widthCheck_spec E s
  have hstart := w3 hhints
  obtain ⟨i, hi⟩ := hintsAfter_newline E hL (widthCheck E s) (by rw [w2]; exact hhints)
    (widthCheck_asks E hL s hnl)
  obtain ⟨m1, e1, c1⟩ := rplDecompAppendChar_text E 10 s.g
  obtain ⟨⟨a1, a2, a3⟩, a4⟩ := appendSpaces_text E i.toNat (rplDecompAppendChar E 10 s.g)
  have hg : (hintsAfter E (widthCheck E s)).g
      = appendSpaces E i.toNat (rplDecompAppendChar E 10 s.g) := by
    rw [hi, w1]
  have hln : (hintsAfter E (widthCheck E s)).lastnewline = true := by rw [hi]
  have hoff : (hintsAfter E (widthCheck E s)).lastnloffset = (widthCheck E s).lastnloffset := by
    rw [hi]
  have hend : (hintsAfter E (widthCheck E s)).g.DecompStringEnd
      = s.g.DecompStringEnd + 1 + i.toNat := by
    rw [hg, a1, e1]
  have hbyte : getByte (hintsAfter E (widthCheck E s)).g.mem s.g.DecompStringEnd = 10 := by
    rw [hg, a3 _ (by rw [e1]; omega), m1, getByte_setByte_same]
  have hsp : ∀ b, s.g.DecompStringEnd < b → b < s.g.DecompStringEnd + 1 + i.toNat →
      getByte (hintsAfter E (widthCheck E s)).g.mem b = 32 := by
    intro b h1 h2
    rw [hg]
    exact a4 b (by rw [e1]; omega) (by rw [e1]; omega)
  have hce : (hintsAfter E (widthCheck E s)).g.CompileEnd = s.g.CompileEnd := by
    rw [hg, a2, c1]
  have htrim : trimNewline (hintsAfter E (widthCheck E s))
      = { (hintsAfter E (widthCheck E s)).g with DecompStringEnd := s.g.DecompStringEnd } := by
    unfold trimNewline
    rw [if_pos ⟨hln, hok⟩]
    dsimp only
    have hscan := trimScan_newline (hintsAfter E (widthCheck E s)).g.mem
      (4 * s.g.CompileEnd + (widthCheck E s).lastnloffset) s.g.DecompStringEnd hstart hbyte
      i.toNat
      ((s.g.DecompStringEnd + 1 + i.toNat
        - (4 * s.g.CompileEnd + (widthCheck E s).lastnloffset)).toNat + 1)
      (by omega) hsp
    rw [hend, hce, hoff, hscan, if_pos hbyte]
  refine ⟨i.toNat, hend, hbyte, hsp, htrim, ?_, ?_⟩
  · intro b hb
    rw [htrim]
    dsimp only
    rw [hg, a3 b (by rw [e1]; omega), m1, getByte_setByte_other _ _ _ _ (by omega)]
  · intro h0 hlast fuel
    obtain ⟨_, p2, p3⟩ := samePlace_trans (widthCheck_place E s)
      (hintsAfter_place E (widthCheck E s))
    unfold decompLoop
    unfold decompEnd
    rw [if_neg (not_not.mpr h0)]
    unfold decompAfter
    rw [if_neg (not_not.mpr hok)]
    dsimp only
    unfold decompLoop
    rw [if_neg (by rw [p2, p3]; exact hlast)]

/-- Witness of C19: `wrapLib` asks for a line feed and two more columns after the
number; the text `1`, line feed, two spaces is cut back to `1`, and the string that
`rplDecompile` returns is `1`. -/
theorem trailing_wrap_trimmed_witness :
    (hintsAfter Ewrap (widthCheck Ewrap wrapState)).g.DecompStringEnd
        = wrapState.g.DecompStringEnd + 3
    ∧ (trimNewline (hintsAfter Ewrap (widthCheck Ewrap wrapState))).DecompStringEnd
        = wrapState.g.DecompStringEnd
    ∧ ∃ r : Result, rplDecompile Ewrap 3 60 0 numberGlobals = some r
        ∧ stringBytes Ewrap r.g.mem (r.value.getD 0) = [49] := by
  obtain ⟨k, _, _, _, h4, _, _⟩ := trailing_wrap_trimmed Ewrap wrap_hintLaws wrapState
    (by rfl) (Or.inl (by decide)) (by rfl)
  refine ⟨by rfl, ?_, _, rfl, by rfl⟩
  rw [h4]

/-- C20 at its own example: with `+` and `-` binary, left-associative and of one
precedence, the text `'a-(c+d)'` compiles to the difference of `a` and the sum
`c+d`; decompiled for editing it reads `'a-c+d'`, because a sum is never put in
parentheses under an operator of the same precedence; that text compiles, to the
sum of the difference `a-c` and `d`, and decompiles to `'(a-c)+d'`.  So the second
pass does not give back the text of the first, and the first pass changed the
meaning of the expression. -/
theorem round_trip_not_stable :
    normalise [39, 97, 45, 40, 99, 43, 100, 41, 39] = some [39, 97, 45, 99, 43, 100, 39]
    ∧ normalise [39, 97, 45, 99, 43, 100, 39] = some [39, 40, 97, 45, 99, 41, 43, 100, 39]
    ∧ compiled [39, 97, 45, 40, 99, 43, 100, 41, 39]
        = some (Ealg.MKPROLOG Ealg.DOSYMB 7
            :: node Ealg Ealg.CMD_OVR_SUB [[28 * 2 ^ 20 + 97],
                node Ealg Ealg.CMD_OVR_ADD [[28 * 2 ^ 20 + 99], [28 * 2 ^ 20 + 100]]])
    ∧ compiled [39, 97, 45, 99, 43, 100, 39]
        = some (Ealg.MKPROLOG Ealg.DOSYMB 7
            :: node Ealg Ealg.CMD_OVR_ADD [node Ealg Ealg.CMD_OVR_SUB
                [[28 * 2 ^ 20 + 97], [28 * 2 ^ 20 + 99]], [28 * 2 ^ 20 + 100]]) := by
  refine ⟨by rfl, by rfl, by rfl, by rfl⟩

theorem boundary_zero (p : Int) (os : List (List Nat)) : boundary p os 0 = p := by
  simp [boundary]

theorem boundary_all (p : Int) (os : List (List Nat)) :
    boundary p os os.length = p + (os.flatten.length : Int) := by
  simp [boundary]

theorem boundary_cons_succ (p : Int) (o : List Nat) (os : List (List Nat)) (i : Nat) :
    boundary p (o :: os) (i + 1) = boundary (p + (o.length : Int)) os i := by
  simp [boundary]
  ring

theorem boundary_succ (p : Int) (os : List (List Nat)) (i : Nat) (hi : i < os.length) :
    boundary p os (i + 1) = boundary p os i + ((os.get ⟨i, hi⟩).length : Int) := by
  unfold boundary
  rw [List.take_succ, List.getElem?_eq_getElem hi]
  simp only [Option.toList, List.flatten_append, List.flatten_cons, List.flatten_nil,
    List.append_nil, List.length_append, List.get_eq_getElem]
  push_cast
  ring

/-- The loop of `rplReverseSkipOb` on a position that is no end of an object of the
list: it returns `NULL`. -/
theorem rplReverseSkipObLoop_null {E : Env} {mem : Int → Nat} :
    ∀ (os : List (List Nat)) (p a : Int) (fuel : Nat), os ≠ [] → (∀ x ∈ os, IsObj E x) →
      Holds mem p os.flatten → a ≤ p + (os.flatten.length : Int) →
      (∀ i, 1 ≤ i → i ≤ os.length → a ≠ boundary p os i) →
      rplReverseSkipObLoop E mem a fuel p = none := by
  intro os
  induction os with
  | nil => intro p a fuel h; exact absurd rfl h
  | cons o os ih =>
    intro p a fuel _ hall hh ha hne
    cases fuel with
    | zero => rfl
    | succ f =>
      have ho : IsObj E o := hall o (by simp)
      simp only [List.flatten_cons] at hh ha
      obtain ⟨hh1, hh2⟩ := holds_append.mp hh
      have hs := rplSkipOb_of_holds ho hh1
      have h1 : a ≠ p + (o.length : Int) := by
        have := hne 1 (le_refl _) (by simp)
        simpa [boundary] using this
      unfold rplReverseSkipObLoop
      dsimp only
      rw [hs]
      by_cases hlt : p + (o.length : Int) < a
      · rw [if_pos hlt]
        have hos : os ≠ [] := by
          intro e
          subst e
          simp at ha
          omega
        apply ih (p + (o.length : Int)) a f hos (fun x hx => hall x (by simp [hx])) hh2
        · simp only [List.length_append] at ha
          push_cast at ha
          omega
        · intro i hi1 hi2
          have := hne (i + 1) (by omega) (by simp; omega)
          rwa [boundary_cons_succ] at this
      · rw [if_neg hlt, if_pos (by omega)]

theorem holds_take_succ {mem : Int → Nat} {p : Int} {os : List (List Nat)}
    (hh : Holds mem p os.flatten) (i : Nat) (hi : i < os.length) :
    Holds mem p ((os.take i).flatten ++ os.get ⟨i, hi⟩) := by
  have e : os = os.take (i + 1) ++ os.drop (i + 1) := (List.take_append_drop _ _).symm
  rw [e, List.flatten_append] at hh
  have h1 := (holds_append.mp hh).1
  have e2 : (os.take (i + 1)).flatten = (os.take i).flatten ++ os.get ⟨i, hi⟩ := by
    rw [List.take_succ, List.getElem?_eq_getElem hi]
    simp only [Option.toList, List.flatten_append, List.flatten_cons, List.flatten_nil,
      List.append_nil, List.get_eq_getElem]
  rw [e2] at h1
  exact h1

/-- C27 (`rplReverseSkipOb`): when the words from `list_start` form the consecutive
complete objects `os`, at least one, with the boundaries `b 0 = list_start`, ...,
`b k`, then for `after_object = b (i + 1)` the function returns `b i`, the start of
the object that ends there; for every `after_object` up to `b k` that is none of
`b 1`, ..., `b k` (`list_start` itself, a position below it, or one inside an object)
it returns `NULL`; and the loop of the close bracket, which calls it from the cursor
`b k` back until it returns `NULL`, counts exactly the `k` objects. -/
theorem reverse_skip_object (E : Env) (mem : Int → Nat) (p : Int) (os : List (List Nat))
    (hk : 1 ≤ os.length) (hall : ∀ x ∈ os, IsObj E x) (hh : Holds mem p os.flatten) :
    (∀ i, i < os.length →
      rplReverseSkipOb E mem p (boundary p os (i + 1)) = some (boundary p os i))
    ∧ (∀ a, a ≤ boundary p os os.length →
        (∀ i, 1 ≤ i → i ≤ os.length → a ≠ boundary p os i) →
        rplReverseSkipOb E mem p a = none)
    ∧ countArgs E mem p ((boundary p os os.length - p).toNat + 1) (boundary p os os.length) 0
        = os.length := by
  refine ⟨?_, ?_, ?_⟩
  · intro i hi
    have ho : IsObj E (os.get ⟨i, hi⟩) := hall _ (List.get_mem _ _ _)
    have hpre : ∀ x ∈ os.take i, IsObj E x := fun x hx => hall x (List.mem_of_mem_take hx)
    have h := rplReverseSkipOb_spec ho (os.take i) p hpre (holds_take_succ hh i hi)
    rw [boundary_succ p os i hi]
    exact h
  · intro a ha hne
    unfold rplReverseSkipOb
    apply rplReverseSkipObLoop_null os p a _ _ hall hh
    · rw [← boundary_all]; exact ha
    · exact hne
    · intro e
      rw [e] at hk
      simp at hk
  · rw [boundary_all]
    have h := @countArgs_spec E mem p os.length os 0
      ((p + (os.flatten.length : Int) - p).toNat + 1) rfl hall hh
      (by
        have := length_le_flatten hall
        have e : (p + (os.flatten.length : Int) - p).toNat = os.flatten.length := by
          have : p + (os.flatten.length : Int) - p = (os.flatten.length : Int) := by ring
          rw [this]
          exact Int.toNat_natCast _
        omega)
    rw [h]
    simp

/-- Witness of C27: with the numbers 1 and 2 at 100 and 101, the object that ends at
102 starts at 101, the one that ends at 101 starts at 100, nothing ends at 100, and
two objects are counted back from 102. -/
theorem reverse_skip_object_witness :
    rplReverseSkipOb E0 twoNumbers 100 102 = some 101
    ∧ rplReverseSkipOb E0 twoNumbers 100 101 = some 100
    ∧ rplReverseSkipOb E0 twoNumbers 100 100 = none
    ∧ countArgs E0 twoNumbers 100 3 102 0 = 2 := by
  have hall : ∀ x ∈ [[sint 1], [sint 2]], IsObj E0 x := by
    intro x hx
    simp only [List.mem_cons, List.mem_singleton, List.not_mem_nil, or_false] at hx
    rcases hx with rfl | rfl
    · exact isObj_sint 1 (by norm_num)
    · exact isObj_sint 2 (by norm_num)
  obtain ⟨h1, h2, h3⟩ := reverse_skip_object E0 twoNumbers 100 [[sint 1], [sint 2]]
    (by decide) hall (holds_writeWords _ 100 [sint 1, sint 2])
  refine ⟨h1 1 (by decide), h1 0 (by decide), h2 100 (by decide) ?_, h3⟩
  intro i hi1 hi2
  have hi3 : i ≤ 2 := hi2
  interval_cases i <;> decide

theorem twoNumbers_wf : ∀ x ∈ [[sint 1], [sint 2]], IsObj E0 x := by
  intro x hx
  simp only [List.mem_cons, List.mem_singleton, List.not_mem_nil, or_false] at hx
  rcases hx with rfl | rfl
  · exact isObj_sint 1 (by norm_num)
  · exact isObj_sint 2 (by norm_num)

theorem countedArgs_spec {E : Env} (s : St) (st : Int) (pre args : List (List Nat))
    (hce : s.g.CompileEnd = st + ((pre ++ args).flatten.length : Int))
    (hall : ∀ x ∈ pre ++ args, IsObj E x)
    (hh : Holds s.g.mem st (pre ++ args).flatten)
    (hpos : s.g.TempObEnd + s.g.cells (s.InfixOpTop - 4) = st + (pre.flatten.length : Int)) :
    countedArgs E s = args.length := by
  have hargs : Holds s.g.mem (st + (pre.flatten.length : Int)) args.flatten := by
    rw [List.flatten_append] at hh
    exact (holds_append.mp hh).2
  have hallargs : ∀ x ∈ args, IsObj E x := fun x hx => hall x (by simp [hx])
  have hcur : s.g.CompileEnd = st + (pre.flatten.length : Int) + (args.flatten.length : Int) := by
    rw [hce, List.flatten_append, List.length_append]; push_cast; ring
  unfold countedArgs
  rw [hpos, hcur]
  have := @countArgs_spec E s.g.mem (st + (pre.flatten.length : Int)) args.length args 0
    ((st + (pre.flatten.length : Int) + (args.flatten.length : Int)
      - (st + (pre.flatten.length : Int))).toNat + 1) rfl hallargs hargs
    (by have := @length_le_flatten E args hallargs
        have e : st + (pre.flatten.length : Int) + (args.flatten.length : Int)
            - (st + (pre.flatten.length : Int)) = (args.flatten.length : Int) := by ring
        rw [e, Int.toNat_natCast]; omega)
  simpa using this

theorem reserveOps_next {E : Env} {n : Int} {s s1 : St} (h : reserveOps E n s = Flow.next s1) :
    s1.InfixOpTop = s.InfixOpTop ∧ s1.g.cells = s.g.cells ∧ s1.g.CompileEnd = s.g.CompileEnd
    ∧ s1.g.TempObEnd = s.g.TempObEnd ∧ s1.g.mem = s.g.mem
    ∧ s1.probe_tokeninfo = s.probe_tokeninfo ∧ s1.previous_tokeninfo = s.previous_tokeninfo
    ∧ s1.g.ValidateTop = s.g.ValidateTop := by
  unfold reserveOps at h
  dsimp only at h
  have hg2 : ∀ g2 : Globals, g2 = (if s.g.RStkSize ≤ s.InfixOpTop + n - s.g.RStk then
      growRStk E (s.InfixOpTop - s.g.RStk + E.RSTKSLACK) s.g else s.g) →
      g2.cells = s.g.cells ∧ g2.CompileEnd = s.g.CompileEnd ∧ g2.TempObEnd = s.g.TempObEnd
      ∧ g2.mem = s.g.mem ∧ g2.ValidateTop = s.g.ValidateTop := by
    intro g2 e
    subst e
    split
    · unfold growRStk
      cases E.rstkGrowth (s.InfixOpTop - s.g.RStk + E.RSTKSLACK) s.g <;> simp
    · simp
  generalize (if s.g.RStkSize ≤ s.InfixOpTop + n - s.g.RStk then _ else s.g) = g2 at h hg2
  obtain ⟨a, b, c, d, e⟩ := hg2 g2 rfl
  by_cases hx : g2.Exceptions ≠ 0
  · rw [if_pos hx] at h
    cases h
  · rw [if_neg hx] at h
    simp only [Flow.next.injEq] at h
    subst h
    exact ⟨rfl, a, b, c, d, rfl, rfl, e⟩

theorem mkEnv_funEvalLaws (maxlib : Nat) (table : Int → Option LIBHANDLER) :
    FunEvalLaws (mkEnv maxlib table) := by
  constructor
  · intro l
    show ((((l % 2 ^ 14 + (21 % 64) * 2 ^ 14 + (15 % 16) * 2 ^ 20 + (2 % 64) * 2 ^ 24
        + 2 ^ 30 : Nat) : Int)).toNat / 2 ^ 14) % 64 = 21
    rw [Int.toNat_natCast]
    omega
  · intro l
    show ((((l % 2 ^ 14 + (21 % 64) * 2 ^ 14 + (15 % 16) * 2 ^ 20 + (2 % 64) * 2 ^ 24
        + 2 ^ 30 : Nat) : Int)).toNat / 2 ^ 20) % 16 = 15
    rw [Int.toNat_natCast]
    omega
  · intro l
    show ((((l % 2 ^ 14 + (21 % 64) * 2 ^ 14 + (15 % 16) * 2 ^ 20 + (2 % 64) * 2 ^ 24
        + 2 ^ 30 : Nat) : Int)).toNat / 2 ^ 24) % 64 = 2
    rw [Int.toNat_natCast]
    omega

/-- C24 (function-call bracket): at an open-bracket token in infix mode, the room
on the return stack being there (`reserveOps` goes on).  When the previous token
exists and its kind is not in the operator class, six cells are pushed:
`CMD_OVR_FUNCEVAL` and a token-info built with kind function, arity 15 and precedence
2 (which read back as such under the macro laws), and directly above them the
four-cell marker: the cursor as an offset from `TempObEnd`, the bracket's token-info,
the bracket's opcode, and the token-info again.  When there is no previous token or
its kind is in the operator class (an operator, another open bracket, a comma), only
the four-cell marker is pushed.  In both cases the cells below and the compiled
stream are untouched. -/
theorem function_call_bracket (E : Env) (Opcode : Nat) (s : St) :
    (s.previous_tokeninfo ≠ 0 → E.TI_TYPE s.previous_tokeninfo ≤ E.TITYPE_OPERATORS →
      ∀ s1, reserveOps E 5 s = Flow.next s1 →
      ∃ u : St, openBracket E Opcode s = Flow.next u
        ∧ u.InfixOpTop = s.InfixOpTop + 6
        ∧ u.g.cells s.InfixOpTop = (E.CMD_OVR_FUNCEVAL : Int)
        ∧ u.g.cells (s.InfixOpTop + 1)
            = E.MKTOKENINFO (E.TI_LENGTH s.previous_tokeninfo) E.TITYPE_FUNCTION 0xf 2
        ∧ (FunEvalLaws E →
            E.TI_TYPE (u.g.cells (s.InfixOpTop + 1)) = E.TITYPE_FUNCTION
            ∧ E.TI_NARGS (u.g.cells (s.InfixOpTop + 1)) = 15
            ∧ E.TI_PRECEDENCE (u.g.cells (s.InfixOpTop + 1)) = 2)
        ∧ u.g.cells (s.InfixOpTop + 2) = s.g.CompileEnd - s.g.TempObEnd
        ∧ u.g.cells (s.InfixOpTop + 3) = s.probe_tokeninfo
        ∧ u.g.cells (s.InfixOpTop + 4) = (Opcode : Int)
        ∧ u.g.cells (s.InfixOpTop + 5) = s.probe_tokeninfo
        ∧ (∀ a : Int, a < s.InfixOpTop → u.g.cells a = s.g.cells a)
        ∧ u.g.mem = s.g.mem ∧ u.g.CompileEnd = s.g.CompileEnd)
    ∧ (s.previous_tokeninfo = 0 ∨ E.TI_TYPE s.previous_tokeninfo > E.TITYPE_OPERATORS →
      ∀ s1, reserveOps E 3 s = Flow.next s1 →
      ∃ u : St, openBracket E Opcode s = Flow.next u
        ∧ u.InfixOpTop = s.InfixOpTop + 4
        ∧ u.g.cells s.InfixOpTop = s.g.CompileEnd - s.g.TempObEnd
        ∧ u.g.cells (s.InfixOpTop + 1) = s.probe_tokeninfo
        ∧ u.g.cells (s.InfixOpTop + 2) = (Opcode : Int)
        ∧ u.g.cells (s.InfixOpTop + 3) = s.probe_tokeninfo
        ∧ (∀ a : Int, a < s.InfixOpTop → u.g.cells a = s.g.cells a)
        ∧ u.g.mem = s.g.mem ∧ u.g.CompileEnd = s.g.CompileEnd) := by
  constructor
  · intro h0 hk s1 hres
    obtain ⟨e1, e2, e3, e4, e5, e6, e7, _⟩ := reserveOps_next hres
    have hc : ¬ (s.previous_tokeninfo = 0 ∨ E.TI_TYPE s.previous_tokeninfo > E.TITYPE_OPERATORS) := by
      intro h
      rcases h with h | h
      · exact h0 h
      · omega
    have hu : openBracket E Opcode s = Flow.next (pushMarker Opcode { s1 with
          g := { s1.g with cells := (setCell (setCell s1.g.cells s1.InfixOpTop E.CMD_OVR_FUNCEVAL)
            (s1.InfixOpTop + 1)
            (E.MKTOKENINFO (E.TI_LENGTH s1.previous_tokeninfo) E.TITYPE_FUNCTION 0xf 2)) },
          InfixOpTop := s1.InfixOpTop + 2 }) := by
      unfold openBracket
      rw [if_neg hc, hres]
      rfl
    refine ⟨_, hu, ?_, ?_, ?_, ?_, ?_, ?_, ?_, ?_, ?_, e5, e3⟩
    · show s1.InfixOpTop + 2 + 4 = s.InfixOpTop + 6
      rw [e1]; ring
    · simp only [pushMarker, setCell, e1]
      repeat (first | rw [if_pos trivial] | rw [if_pos (by omega)] | rw [if_neg (by omega)])
    · simp only [pushMarker, setCell, e1, e7]
      repeat (first | rw [if_pos trivial] | rw [if_pos (by omega)] | rw [if_neg (by omega)])
    · intro hl
      have h1 : (pushMarker Opcode { s1 with
          g := { s1.g with cells := (setCell (setCell s1.g.cells s1.InfixOpTop E.CMD_OVR_FUNCEVAL)
            (s1.InfixOpTop + 1)
            (E.MKTOKENINFO (E.TI_LENGTH s1.previous_tokeninfo) E.TITYPE_FUNCTION 0xf 2)) },
          InfixOpTop := s1.InfixOpTop + 2 }).g.cells (s.InfixOpTop + 1)
          = E.MKTOKENINFO (E.TI_LENGTH s.previous_tokeninfo) E.TITYPE_FUNCTION 0xf 2 := by
        simp only [pushMarker, setCell, e1, e7]
        repeat (first | rw [if_pos trivial] | rw [if_pos (by omega)] | rw [if_neg (by omega)])
      rw [h1]
      exact ⟨hl.kind _, hl.nargs _, hl.precedence _⟩
    · simp only [pushMarker, setCell, e1, e3, e4]
      repeat (first | rw [if_pos trivial] | rw [if_pos (by omega)] | rw [if_neg (by omega)])
    · simp only [pushMarker, setCell, e1, e6]
      repeat (first | rw [if_pos trivial] | rw [if_pos (by omega)] | rw [if_neg (by omega)])
    · simp only [pushMarker, setCell, e1]
      repeat (first | rw [if_pos trivial] | rw [if_pos (by omega)] | rw [if_neg (by omega)])
    · simp only [pushMarker, setCell, e1, e6]
      repeat (first | rw [if_pos trivial] | rw [if_pos (by omega)])
    · intro a ha
      simp only [pushMarker, setCell, e1, e2]
      repeat (first | rw [if_pos trivial] | rw [if_pos (by omega)] | rw [if_neg (by omega)])
  · intro hc s1 hres
    obtain ⟨e1, e2, e3, e4, e5, e6, e7, _⟩ := reserveOps_next hres
    have hu : openBracket E Opcode s = Flow.next (pushMarker Opcode s1) := by
      unfold openBracket
      rw [if_pos hc, hres]
      rfl
    refine ⟨_, hu, ?_, ?_, ?_, ?_, ?_, ?_, e5, e3⟩
    · show s1.InfixOpTop + 4 = s.InfixOpTop + 4
      rw [e1]
    · simp only [pushMarker, setCell, e1, e3, e4]
      repeat (first | rw [if_pos trivial] | rw [if_pos (by omega)] | rw [if_neg (by omega)])
    · simp only [pushMarker, setCell, e1, e6]
      repeat (first | rw [if_pos trivial] | rw [if_pos (by omega)] | rw [if_neg (by omega)])
    · simp only [pushMarker, setCell, e1]
      repeat (first | rw [if_pos trivial] | rw [if_pos (by omega)] | rw [if_neg (by omega)])
    · simp only [pushMarker, setCell, e1, e6]
      rw [if_pos trivial]
    · intro a ha
      simp only [pushMarker, setCell, e1, e2]
      repeat (first | rw [if_pos trivial] | rw [if_pos (by omega)] | rw [if_neg (by omega)])

/-- Witness of C24: at the `(` of `f(` the function entry and the marker are pushed,
the marker recording the offset 2 of the cursor; at the second `(` of `((` only a
marker is pushed, recording the offset 1. -/
theorem function_call_bracket_witness :
    (∃ u : St, openBracket E0 E0.CMD_OPENBRACKET identOpenState = Flow.next u
      ∧ u.InfixOpTop = 57
      ∧ u.g.cells 51 = (E0.CMD_OVR_FUNCEVAL : Int)
      ∧ E0.TI_TYPE (u.g.cells 52) = E0.TITYPE_FUNCTION
      ∧ E0.TI_NARGS (u.g.cells 52) = 15 ∧ E0.TI_PRECEDENCE (u.g.cells 52) = 2
      ∧ u.g.cells 53 = 2 ∧ u.g.cells 54 = tiOpen
      ∧ u.g.cells 55 = (E0.CMD_OPENBRACKET : Int) ∧ u.g.cells 56 = tiOpen)
    ∧ (∃ u : St, openBracket E0 E0.CMD_OPENBRACKET openOpenState = Flow.next u
      ∧ u.InfixOpTop = 59
      ∧ u.g.cells 55 = 1 ∧ u.g.cells 56 = tiOpen
      ∧ u.g.cells 57 = (E0.CMD_OPENBRACKET : Int) ∧ u.g.cells 58 = tiOpen) := by
  constructor
  · obtain ⟨u, a, b, c, _, d, e, f, g, h, _⟩ :=
      (function_call_bracket E0 E0.CMD_OPENBRACKET identOpenState).1 (by decide) (by decide)
        identOpenState (by rfl)
    obtain ⟨d1, d2, d3⟩ := d (mkEnv_funEvalLaws _ _)
    exact ⟨u, a, b, c, d1, d2, d3, e, f, g, h⟩
  · obtain ⟨u, a, b, c, d, e, f, _⟩ :=
      (function_call_bracket E0 E0.CMD_OPENBRACKET openOpenState).2 (Or.inr (by decide))
        openOpenState (by rfl)
    exact ⟨u, a, b, c, d, e, f⟩

theorem rplInfixApply_cells (E : Env) (op nargs : Nat) (g : Globals) :
    (rplInfixApply E op nargs g).2.cells = g.cells := by
  rcases hfa : findArgsStart E g.mem (g.cells (g.ValidateTop - 1) + 1) nargs (some g.CompileEnd)
    with ⟨n, p⟩
  cases n with
  | succ m => simp only [rplInfixApply, hfa]; rfl
  | zero =>
    cases p with
    | none => simp only [rplInfixApply, hfa]; rfl
    | some ptr =>
      simp only [rplInfixApply, hfa]
      have hg : ∀ x : Globals, x.cells = g.cells →
          (if g.CompileEnd + 2 ≥ g.TempObSize then growTempOb E
            ((toWord (g.CompileEnd + 2 - g.TempOb) : Int) + E.TEMPOBSLACK) x else x).cells
            = g.cells := by
        intro x h1
        split
        · rw [(growTempOb_frame E _ x).2.2.1]; exact h1
        · exact h1
      have hg2 := hg { g with CompileEnd := g.CompileEnd + 2 } rfl
      generalize hg2e : (if g.CompileEnd + 2 ≥ g.TempObSize then _ else _ : Globals) = g2
      rw [hg2e] at hg2
      split
      · exact hg2
      · exact hg2

theorem flush_confined (E : Env) (m : Int) :
    ∀ (fuel k : Nat) (s : St), s.InfixOpTop = m + 2 * (k : Int) → s.g.ValidateTop < m →
      ¬ popsBefore E (s.g.cells (m - 1)) s.probe_tokeninfo →
      precedenceFlush E fuel s = flushAboveMarker E m fuel s
      ∧ ∀ t, precedenceFlush E fuel s = Flow.next t →
          m ≤ t.InfixOpTop ∧ t.g.cells = s.g.cells := by
  intro fuel
  induction fuel with
  | zero =>
    intro k s hk _ _
    refine ⟨rfl, fun t ht => ?_⟩
    simp only [precedenceFlush, Flow.next.injEq] at ht
    subst ht
    exact ⟨by omega, rfl⟩
  | succ f ih =>
    intro k s hk hv hstop
    cases k with
    | zero =>
      have e : s.InfixOpTop = m := by simpa using hk
      have h1 : s.InfixOpTop > s.g.ValidateTop := by omega
      have h2 : ¬ s.InfixOpTop > m := by omega
      unfold popsBefore at hstop
      have h3 : precedenceFlush E (f + 1) s = Flow.next s := by
        simp only [precedenceFlush, if_pos h1]
        rw [e, if_neg (fun hc => hstop (Or.inl hc)), if_neg (fun hc => hstop (Or.inr hc))]
      refine ⟨?_, fun t ht => ?_⟩
      · rw [h3]
        simp only [flushAboveMarker, if_neg h2]
      · rw [h3] at ht
        simp only [Flow.next.injEq] at ht
        subst ht
        exact ⟨by omega, rfl⟩
    | succ k =>
      have h1 : s.InfixOpTop > s.g.ValidateTop := by push_cast at hk; omega
      have h2 : s.InfixOpTop > m := by push_cast at hk; omega
      have hframe := rplInfixApply_frame E (s.g.cells (s.InfixOpTop - 2)).toNat
        (E.TI_NARGS (s.g.cells (s.InfixOpTop - 2 + 1))) s.g
      have hcells := rplInfixApply_cells E (s.g.cells (s.InfixOpTop - 2)).toNat
        (E.TI_NARGS (s.g.cells (s.InfixOpTop - 2 + 1))) s.g
      have hrec : ∀ g1 : Globals, g1.ValidateTop = s.g.ValidateTop → g1.cells = s.g.cells →
          precedenceFlush E f { s with g := g1, InfixOpTop := s.InfixOpTop - 2 }
            = flushAboveMarker E m f { s with g := g1, InfixOpTop := s.InfixOpTop - 2 }
          ∧ ∀ t, precedenceFlush E f { s with g := g1, InfixOpTop := s.InfixOpTop - 2 }
              = Flow.next t → m ≤ t.InfixOpTop ∧ t.g.cells = s.g.cells := by
        intro g1 hv1 hc1
        have := ih k { s with g := g1, InfixOpTop := s.InfixOpTop - 2 }
          (by show s.InfixOpTop - 2 = m + 2 * (k : Int); push_cast at hk; omega)
          (by show g1.ValidateTop < m; omega)
          (by show ¬ popsBefore E (g1.cells (m - 1)) s.probe_tokeninfo
              rw [hc1]; exact hstop)
        exact ⟨this.1, fun t ht => ⟨(this.2 t ht).1, ((this.2 t ht).2).trans hc1⟩⟩
      simp only [precedenceFlush, flushAboveMarker, if_pos h1, if_pos h2]
      rcases hr : rplInfixApply E (s.g.cells (s.InfixOpTop - 2)).toNat
        (E.TI_NARGS (s.g.cells (s.InfixOpTop - 2 + 1))) s.g with ⟨b, g1⟩
      rw [hr] at hframe hcells
      have hr2 := hrec g1 hframe.1 hcells
      cases b with
      | false =>
        refine ⟨by split_ifs <;> rfl, fun t ht => ?_⟩
        split_ifs at ht
        · cases ht
        · cases ht
        · simp only [Flow.next.injEq] at ht
          subst ht
          exact ⟨by omega, rfl⟩
      | true =>
        refine ⟨by split_ifs <;> first | rfl | exact hr2.1, fun t ht => ?_⟩
        split_ifs at ht
        · exact hr2.2 t ht
        · exact hr2.2 t ht
        · simp only [Flow.next.injEq] at ht
          subst ht
          exact ⟨by omega, rfl⟩

/-- C25 (the precedence flush and brackets), as amended: let the top cell of an
open-bracket marker lie at `m - 1`, with any number of entries stacked above it, and
let the precedence declared for the bracket not make the flush pop it (it is higher
than the incoming token's, or equal when the incoming token is not a left-associative
binary operator).  Then the flush is the loop confined to the entries above `m`: it
pops and applies only those, and when it goes on the operator stack still reaches up
to `m` at least and no cell of the stack has changed. -/
theorem flush_stops_at_marker (E : Env) (m : Int) (k fuel : Nat) (s : St)
    (hk : s.InfixOpTop = m + 2 * (k : Int)) (hv : s.g.ValidateTop < m)
    (hstop : ¬ popsBefore E (s.g.cells (m - 1)) s.probe_tokeninfo) :
    precedenceFlush E fuel s = flushAboveMarker E m fuel s
    ∧ ∀ t, precedenceFlush E fuel s = Flow.next t → m ≤ t.InfixOpTop ∧ t.g.cells = s.g.cells :=
  flush_confined E m fuel k s hk hv hstop

/-- Witness of the amended C25: at the second `+` of `(1+2+` the flush applies the
stacked `+` and stops at the marker, whose precedence is 31. -/
theorem flush_stops_at_marker_witness :
    E0.TI_TYPE (parenSumPlusState.g.cells 54) = E0.TITYPE_OPENBRACKET
    ∧ parenSumPlusState.InfixOpTop = 57
    ∧ (∃ t, precedenceFlush E0 6 parenSumPlusState = Flow.next t ∧ t.InfixOpTop = 55
        ∧ segment t.g.mem 101 4 = node E0 E0.CMD_OVR_ADD [[sint 1], [sint 2]])
    ∧ precedenceFlush E0 6 parenSumPlusState = flushAboveMarker E0 55 6 parenSumPlusState
    ∧ ∀ t, precedenceFlush E0 6 parenSumPlusState = Flow.next t →
        55 ≤ t.InfixOpTop ∧ t.g.cells = parenSumPlusState.g.cells :=
  ⟨by decide, by rfl, ⟨_, rfl, by rfl, by rfl⟩,
    flush_stops_at_marker E0 55 1 6 parenSumPlusState (by rfl) (by decide)
      (by unfold popsBefore; decide)⟩

/-- Counterexample to C25 as stated: a library declares the open bracket with
precedence 1.  At the `+` of `(1+` the marker is on top of the operator stack, and the
flush, run with the fuel `rplCompile` gives it, pops all four cells of the marker and
applies the bracket's opcode as an operator: the node of `CMD_OPENBRACKET` with no
argument is written at the cursor. -/
theorem flush_pops_marker_of_low_precedence :
    E0.TI_TYPE (lowBracketPlusState.g.cells (lowBracketPlusState.InfixOpTop - 1))
      = E0.TITYPE_OPENBRACKET
    ∧ lowBracketPlusState.g.cells (lowBracketPlusState.InfixOpTop - 2)
      = (E0.CMD_OPENBRACKET : Int)
    ∧ lowBracketPlusState.InfixOpTop = lowBracketPlusState.g.ValidateTop + 4
    ∧ ∃ t, precedenceFlush E0
          (lowBracketPlusState.InfixOpTop - lowBracketPlusState.g.ValidateTop).toNat
          lowBracketPlusState = Flow.next t
        ∧ t.InfixOpTop = lowBracketPlusState.g.ValidateTop
        ∧ segment t.g.mem lowBracketPlusState.g.CompileEnd 2 = node E0 E0.CMD_OPENBRACKET [] :=
  ⟨by decide, by rfl, by rfl, _, rfl, by rfl, by rfl⟩

/-- C29 (plain parentheses): at a close bracket, once the operators stacked inside
the brackets are applied, when the entry below the marker is not a function or
CAS-function.  If the marker's opcode is `CMD_OPENBRACKET` and at most one object is
counted since the marker, the four cells of the marker are removed and nothing else
changes: no node is made and the stream and the cursor stay.  If the opcode is
another one, or two or more objects are counted, and the store has room for two more
words, so that `growTempOb` is not called, the marker is removed and the counted
objects `args` are wrapped in one node with the opcode of the marker: the cursor
moves by two and nothing else but the store changes. -/
theorem plain_parentheses (E : Env) (bound : Nat) (hlaw : SymbLaws E bound) (s : St)
    (hnf : ¬ (s.InfixOpTop - 4 > s.g.ValidateTop
      ∧ (E.TI_TYPE (s.g.cells (s.InfixOpTop - 4 - 1)) = E.TITYPE_FUNCTION
        ∨ E.TI_TYPE (s.g.cells (s.InfixOpTop - 4 - 1)) = E.TITYPE_CASFUNCTION))) :
    (s.g.cells (s.InfixOpTop - 4 + 2) = (E.CMD_OPENBRACKET : Int) → countedArgs E s ≤ 1 →
      closeBracket E s = Flow.next { s with InfixOpTop := s.InfixOpTop - 4 })
    ∧ (∀ (st : Int) (pre args : List (List Nat)),
      s.g.cells (s.g.ValidateTop - 1) + 1 = st →
      s.g.CompileEnd = st + ((pre ++ args).flatten.length : Int) →
      (∀ x ∈ pre ++ args, IsObj E x) →
      Holds s.g.mem st (pre ++ args).flatten →
      s.g.TempObEnd + s.g.cells (s.InfixOpTop - 4) = st + (pre.flatten.length : Int) →
      (s.g.cells (s.InfixOpTop - 4 + 2)).toNat ≠ E.CMD_OPENBRACKET ∨ args.length > 1 →
      args.flatten.length + 1 < bound → s.g.CompileEnd + 2 < s.g.TempObSize →
      countedArgs E s = args.length
      ∧ ∃ m : Int → Nat,
          closeBracket E s = Flow.next
            { s with g := { s.g with CompileEnd := s.g.CompileEnd + 2, mem := m },
                     InfixOpTop := s.InfixOpTop - 4 }
          ∧ Holds m st (pre ++ [node E (s.g.cells (s.InfixOpTop - 4 + 2)).toNat args]).flatten
          ∧ (∀ a : Int, a < st + (pre.flatten.length : Int) → m a = s.g.mem a)) := by
  constructor
  · intro hop hcount
    have hc2 : countArgs E s.g.mem (s.g.TempObEnd + s.g.cells (s.InfixOpTop - 4))
        ((s.g.CompileEnd - (s.g.TempObEnd + s.g.cells (s.InfixOpTop - 4))).toNat + 1)
        s.g.CompileEnd 0 ≤ 1 := hcount
    unfold closeBracket
    simp only [hop, Int.toNat_natCast]
    rw [if_neg hnf, if_neg (by
      intro h
      rcases h with h | h
      · exact h rfl
      · omega)]
  · intro st pre args hs hce hall hh hpos hwhich hsz hroom
    have hcount := countedArgs_spec s st pre args hce hall hh hpos
    refine ⟨hcount, ?_⟩
    obtain ⟨m, h1, h2, h3, _⟩ := rplInfixApply_spec hlaw s.g st
      (s.g.cells (s.InfixOpTop - 4 + 2)).toNat args.length pre args hs hce hall hh rfl hroom hsz
    refine ⟨m, ?_, h2, h3⟩
    have hc2 : countArgs E s.g.mem (s.g.TempObEnd + s.g.cells (s.InfixOpTop - 4))
        ((s.g.CompileEnd - (s.g.TempObEnd + s.g.cells (s.InfixOpTop - 4))).toNat + 1)
        s.g.CompileEnd 0 = args.length := hcount
    unfold closeBracket
    simp only [hc2]
    rw [if_neg hnf, if_pos hwhich, h1]

/-- Witness of C29: at the `)` of `(1)` only the marker is removed; at the `)` of
`(1,2)` the two numbers are wrapped in a node of `CMD_OPENBRACKET`. -/
theorem plain_parentheses_witness :
    closeBracket E0 parenOneCloseState
      = Flow.next { parenOneCloseState with InfixOpTop := parenOneCloseState.InfixOpTop - 4 }
    ∧ countedArgs E0 parenPairCloseState = 2
    ∧ ∃ m : Int → Nat, closeBracket E0 parenPairCloseState = Flow.next
          { parenPairCloseState with
              g := { parenPairCloseState.g with
                       CompileEnd := parenPairCloseState.g.CompileEnd + 2, mem := m },
              InfixOpTop := parenPairCloseState.InfixOpTop - 4 }
        ∧ Holds m 101 (node E0 E0.CMD_OPENBRACKET [[sint 1], [sint 2]]) := by
  constructor
  · exact (plain_parentheses E0 (2 ^ 18) (mkEnv_symbLaws _ _) parenOneCloseState
      (by decide)).1 (by rfl) (by decide)
  · obtain ⟨a, m, b, c, _⟩ := (plain_parentheses E0 (2 ^ 18) (mkEnv_symbLaws _ _)
      parenPairCloseState (by decide)).2 101 [] [[sint 1], [sint 2]] (by rfl) (by rfl)
      twoNumbers_wf
      (by intro i hi
          have hi2 : i < 2 := hi
          interval_cases i <;> rfl)
      (by rfl) (Or.inr (by decide)) (by norm_num) (by decide)
    exact ⟨a, m, b, by simpa using c⟩

theorem trimNewline_fields (s : DSt) :
    (trimNewline s).CompileEnd = s.g.CompileEnd ∧ (trimNewline s).TempObEnd = s.g.TempObEnd
    ∧ (trimNewline s).mem = s.g.mem ∧ (trimNewline s).Exceptions = s.g.Exceptions
    ∧ (trimNewline s).TempObSize = s.g.TempObSize ∧ (trimNewline s).TempOb = s.g.TempOb := by
  unfold trimNewline
  dsimp only
  repeat' split
  all_goals exact ⟨rfl, rfl, rfl, rfl, rfl, rfl⟩

theorem growTempOb_store (E : Env) (n : Int) (g : Globals) :
    (growTempOb E n g).mem = g.mem ∧ (growTempOb E n g).CompileEnd = g.CompileEnd
    ∧ (growTempOb E n g).TempObEnd = g.TempObEnd
    ∧ (growTempOb E n g).DecompStringEnd = g.DecompStringEnd := by
  unfold growTempOb
  split <;> exact ⟨rfl, rfl, rfl, rfl⟩

theorem padding_eq (c : Int) (n : Nat) : ((-(4 * c + (n : Int))) % 4).toNat = (4 - n % 4) % 4 := by
  omega

theorem size_eq (n : Nat) (h : n + 3 < 2 ^ 32) : (toWord (n : Int) + 3) % 2 ^ 32 / 4 = (n + 3) / 4 := by
  unfold toWord
  have e : ((n : Int) % 2 ^ 32).toNat = n := by omega
  rw [e, Nat.mod_eq_of_lt h]

/-- The end of a successful session that is not embedded, the text being the `n`
bytes after the prolog at `TempObEnd`: the prolog written, the pointer returned and
the new end of the temporary objects. -/
theorem decompFinish_string {E : Env} {bound : Nat} (hlaw : StringLaws E bound)
    (hblock : BlockLaws E) (s : DSt) (hemb : s.flags &&& E.DECOMP_EMBEDDED = 0)
    (hstart : s.g.CompileEnd = s.g.TempObEnd + 1) (n : Nat)
    (hn : (trimNewline s).DecompStringEnd = 4 * s.g.CompileEnd + (n : Int))
    (hsz : (n + 3) / 4 < bound) (p : Int) (hp : (decompFinish E s).value = some p) :
    p = s.g.TempObEnd
    ∧ (decompFinish E s).g.mem p = E.MKPROLOG (E.DOSTRING + (4 - n % 4) % 4) ((n + 3) / 4)
    ∧ (decompFinish E s).g.TempObEnd = p + 1 + (((n + 3) / 4 : Nat) : Int)
    ∧ (decompFinish E s).g.DecompStringEnd = 4 * (p + 1) + (n : Int) := by
  obtain ⟨t1, t2, t3, t4, t5, t6⟩ := trimNewline_fields s
  have hsmall := hlaw.small
  have hn3 : n + 3 < 2 ^ 32 := by omega
  have hpad : (4 - n % 4) % 4 < 4 := Nat.mod_lt _ (by norm_num)
  have hword : E.MKPROLOG (E.DOSTRING + ((-(trimNewline s).DecompStringEnd) % 4).toNat)
      ((toWord ((trimNewline s).DecompStringEnd - 4 * (trimNewline s).CompileEnd) + 3)
        % 2 ^ 32 / 4)
      = E.MKPROLOG (E.DOSTRING + (4 - n % 4) % 4) ((n + 3) / 4) := by
    rw [hn, t1, padding_eq]
    have e : 4 * s.g.CompileEnd + (n : Int) - 4 * s.g.CompileEnd = (n : Int) := by ring
    rw [e, size_eq n hn3]
  have hskip : rplSkipOb E (setWord (trimNewline s).mem ((trimNewline s).CompileEnd - 1)
      (E.MKPROLOG (E.DOSTRING + (4 - n % 4) % 4) ((n + 3) / 4)))
      ((trimNewline s).CompileEnd - 1) = s.g.CompileEnd + (((n + 3) / 4 : Nat) : Int) := by
    unfold rplSkipOb
    rw [setWord_same, hlaw.isprolog _ _ hpad hsz, hlaw.objsize _ _ hpad hsz, t1]
    simp only [if_true]
    ring
  have hfin : ∀ g4 : Globals,
      g4.mem s.g.TempObEnd = E.MKPROLOG (E.DOSTRING + (4 - n % 4) % 4) ((n + 3) / 4) →
      g4.CompileEnd = s.g.CompileEnd + (((n + 3) / 4 : Nat) : Int) →
      g4.TempObEnd = s.g.TempObEnd →
      g4.DecompStringEnd = 4 * s.g.CompileEnd + (n : Int) →
      (E.rplAddTempBlock g4.TempObEnd g4).TempObEnd = s.g.TempObEnd
      ∧ (E.rplAddTempBlock g4.TempObEnd g4).mem s.g.TempObEnd
          = E.MKPROLOG (E.DOSTRING + (4 - n % 4) % 4) ((n + 3) / 4)
      ∧ (E.rplAddTempBlock g4.TempObEnd g4).CompileEnd
          = s.g.TempObEnd + 1 + (((n + 3) / 4 : Nat) : Int)
      ∧ (E.rplAddTempBlock g4.TempObEnd g4).DecompStringEnd
          = 4 * (s.g.TempObEnd + 1) + (n : Int) := by
    intro g4 a1 a2 a3 a4
    obtain ⟨b1, b2, b3, b4⟩ := hblock g4.TempObEnd g4
    rw [b1, b2, b3, b4, a1, a2, a3, a4, hstart]
    exact ⟨rfl, rfl, rfl, rfl⟩
  unfold decompFinish at hp ⊢
  dsimp only at hp ⊢
  generalize hg2 : (if s.flags &&& E.DECOMP_EMBEDDED = 0 then _ else trimNewline s : Globals)
    = g2 at hp ⊢
  rw [if_pos hemb, hword, hskip] at hg2
  have f1 : g2.mem s.g.TempObEnd = E.MKPROLOG (E.DOSTRING + (4 - n % 4) % 4) ((n + 3) / 4) := by
    rw [← hg2]
    show setWord _ _ _ _ = _
    rw [t1, hstart]
    have e : s.g.TempObEnd + 1 - 1 = s.g.TempObEnd := by ring
    rw [e, setWord_same]
  have f2 : g2.CompileEnd = s.g.CompileEnd + (((n + 3) / 4 : Nat) : Int) := by rw [← hg2]
  have f3 : g2.TempObEnd = s.g.TempObEnd := by rw [← hg2]; exact t2
  have f4 : g2.DecompStringEnd = 4 * s.g.CompileEnd + (n : Int) := by rw [← hg2]; exact hn
  clear hg2
  by_cases h3 : g2.Exceptions = 0
  · rw [if_pos h3] at hp ⊢
    by_cases hgrow : g2.CompileEnd + E.TEMPOBSLACK > g2.TempObSize
    · rw [if_pos hgrow] at hp ⊢
      by_cases hx : (growTempOb E (g2.CompileEnd - g2.TempOb + E.TEMPOBSLACK)
          { g2 with LAMTop := g2.LAMTopSaved }).Exceptions ≠ 0
      · rw [if_pos ⟨hgrow, hx⟩] at hp
        cases hp
      · rw [if_neg (fun h => hx h.2), if_neg (not_not.mpr hemb)] at hp ⊢
        obtain ⟨c1, c2, c3, c4⟩ := growTempOb_store E (g2.CompileEnd - g2.TempOb + E.TEMPOBSLACK)
          { g2 with LAMTop := g2.LAMTopSaved }
        obtain ⟨d1, d2, d3, d4⟩ := hfin _ (by rw [c1]; exact f1) (by rw [c2]; exact f2)
          (by rw [c3]; exact f3) (by rw [c4]; exact f4)
        simp only [Option.some.injEq] at hp
        subst hp
        rw [d1]
        exact ⟨rfl, d2, d3, d4⟩
    · rw [if_neg hgrow, if_neg (fun h => hgrow h.1), if_neg (not_not.mpr hemb)] at hp ⊢
      obtain ⟨d1, d2, d3, d4⟩ := hfin { g2 with LAMTop := g2.LAMTopSaved } f1 f2 f3 f4
      simp only [Option.some.injEq] at hp
      subst hp
      rw [d1]
      exact ⟨rfl, d2, d3, d4⟩
  · rw [if_neg h3] at hp
    cases hp

theorem storeKept_refl (g : Globals) : StoreKept g g := ⟨rfl, rfl⟩

theorem storeKept_trans {g g1 g2 : Globals} (h1 : StoreKept g g1) (h2 : StoreKept g1 g2) :
    StoreKept g g2 := ⟨h2.1.trans h1.1, h2.2.trans h1.2⟩

theorem growTempOb_kept (E : Env) (n : Int) (g : Globals) : StoreKept g (growTempOb E n g) := by
  unfold growTempOb
  split <;> exact ⟨rfl, rfl⟩

theorem growRStk_kept (E : Env) (n : Int) (g : Globals) : StoreKept g (growRStk E n g) := by
  unfold growRStk
  split <;> exact ⟨rfl, rfl⟩

theorem growForText_kept (E : Env) (e : Int) (g : Globals) : StoreKept g (growForText E e g) := by
  unfold growForText
  split
  · exact growTempOb_kept E _ _
  · exact ⟨rfl, rfl⟩

theorem rplDecompAppendChar_kept (E : Env) (c : Nat) (g : Globals) :
    StoreKept g (rplDecompAppendChar E c g) := by
  unfold rplDecompAppendChar
  dsimp only
  split
  · exact growForText_kept E _ _
  · exact ⟨rfl, rfl⟩

theorem appendSpaces_kept (E : Env) : ∀ (k : Nat) (g : Globals),
    StoreKept g (appendSpaces E k g) := by
  intro k
  induction k with
  | zero => intro g; exact ⟨rfl, rfl⟩
  | succ n ih =>
    intro g
    unfold appendSpaces
    exact storeKept_trans (rplDecompAppendChar_kept E 32 g) (ih _)

theorem rplDecompAppendString_kept (E : Env) (str : List Nat) (g : Globals) :
    StoreKept g (rplDecompAppendString E str g) := by
  unfold rplDecompAppendString
  dsimp only
  repeat' split
  all_goals first
    | exact ⟨rfl, rfl⟩
    | exact growTempOb_kept E _ _

theorem hintsBefore_kept (E : Env) (s : DSt) : StoreKept s.g (hintsBefore E s).g := by
  have c := rplDecompAppendChar_kept E
  have a := appendSpaces_kept E
  unfold hintsBefore
  dsimp only
  repeat' split
  all_goals first
    | exact ⟨rfl, rfl⟩
    | exact storeKept_trans (c _ _) (c _ _)
    | exact storeKept_trans (c _ _) (a _ _)

theorem widthCheck_kept (E : Env) (s : DSt) : StoreKept s.g (widthCheck E s).g := by
  unfold widthCheck
  exact ⟨rfl, rfl⟩

theorem hintsAfter_kept (E : Env) (s : DSt) : StoreKept s.g (hintsAfter E s).g := by
  have c := rplDecompAppendChar_kept E
  have a := appendSpaces_kept E
  unfold hintsAfter
  dsimp only
  repeat' split
  all_goals first
    | exact ⟨rfl, rfl⟩
    | exact c _ _
    | exact storeKept_trans (c _ _) (a _ _)

theorem decompInfo_kept {E : Env} (hT : StoreTame E) (s : DSt) :
    StoreKept s.g (decompInfo E s).g
    ∧ ∀ h, (decompInfo E s).han = some h → ∀ g, StoreKept g (h g) := by
  unfold decompInfo
  dsimp only
  cases hh : E.rplGetLibHandler (E.LIBNUM (s.g.mem s.g.DecompileObject)) with
  | none =>
    dsimp only
    exact ⟨⟨rfl, rfl⟩, fun h e => by cases e⟩
  | some handler =>
    dsimp only
    unfold callProtected
    dsimp only
    refine ⟨⟨(hT _ _ hh _).1, (hT _ _ hh _).2⟩, ?_⟩
    intro h e
    cases e
    exact hT _ _ hh

theorem decompObject_kept (E : Env) (s : DSt) (hs : ∀ h, s.han = some h → ∀ g, StoreKept g (h g)) :
    StoreKept s.g (decompObject E s).g := by
  unfold decompObject
  dsimp only
  cases hh : s.han with
  | none =>
    dsimp only
    exact ⟨rfl, rfl⟩
  | some handler =>
    dsimp only
    exact ⟨(hs _ hh _).1, (hs _ hh _).2⟩

theorem decompSwitch_kept (E : Env) (s : DSt) : StepStore s.g (decompSwitch E s) := by
  have hg1 := fun n g => (growRStk_kept E n g).1
  have hg2 := fun n g => (growRStk_kept E n g).2
  have ha1 := fun n g => (rplDecompAppendString_kept E n g).1
  have ha2 := fun n g => (rplDecompAppendString_kept E n g).2
  unfold decompSwitch
  cases hc : s.g.RetNum
  all_goals dsimp only
  all_goals repeat' split
  all_goals try unfold failReturn
  all_goals unfold StepStore StoreKept
  all_goals dsimp only
  all_goals try simp only [hg1, hg2, ha1, ha2]
  all_goals trivial

theorem decompTop_kept {E : Env} (hT : StoreTame E) (s : DSt) : StepStore s.g (decompTop E s) := by
  obtain ⟨p1, t1⟩ := decompInfo_kept hT s
  have p2 := hintsBefore_kept E (decompInfo E s)
  have t2 := (hintsBefore_place E (decompInfo E s)).2
  have p3 := decompObject_kept E (hintsBefore E (decompInfo E s)) (fun h e => t1 h (t2 ▸ e))
  have p := storeKept_trans (storeKept_trans p1 p2) p3
  have q := decompSwitch_kept E (decompObject E (hintsBefore E (decompInfo E s)))
  unfold decompTop
  split
  · exact p1
  · split
    · exact p
    · cases hd : decompSwitch E (decompObject E (hintsBefore E (decompInfo E s))) with
      | next s1 => rw [hd] at q; exact storeKept_trans p q
      | again s1 => rw [hd] at q; exact storeKept_trans p q
      | leave s1 => rw [hd] at q; exact storeKept_trans p q
      | ret v g => trivial

theorem decompAfter_kept (E : Env) (s : DSt) : StepStore s.g (decompAfter E s) := by
  have p := storeKept_trans (widthCheck_kept E s) (hintsAfter_kept E (widthCheck E s))
  unfold decompAfter
  split
  · exact p
  · exact p

theorem handlerKeeps_of_tame {E : Env} (hT : StoreTame E) (lib : Int) :
    HandlerKeeps (E.rplGetLibHandler lib) := fun h e => hT lib h e

theorem storeKept_of_eq {g g0 g1 : Globals} (h : StoreKept g0 g1)
    (h1 : g0.CompileEnd = g.CompileEnd) (h2 : g0.TempObEnd = g.TempObEnd) : StoreKept g g1 :=
  ⟨h.1.trans h1, h.2.trans h2⟩

theorem appendUTF8Bytes_kept : ∀ (fuel b : Nat) (g : Globals),
    StoreKept g (appendUTF8Bytes fuel b g) := by
  intro fuel
  induction fuel with
  | zero => intro b g; exact ⟨rfl, rfl⟩
  | succ n ih =>
    intro b g
    unfold appendUTF8Bytes
    split
    · exact storeKept_of_eq (ih _ _) rfl rfl
    · exact ⟨rfl, rfl⟩

theorem rplDecompAppendUTF8_kept (E : Env) (b : Nat) (g : Globals) :
    StoreKept g (rplDecompAppendUTF8 E b g) := by
  unfold rplDecompAppendUTF8
  dsimp only
  split
  · exact storeKept_trans (appendUTF8Bytes_kept _ _ _) (growForText_kept E _ _)
  · exact appendUTF8Bytes_kept _ _ _

theorem appendIfInvalid_kept (E : Env) (g : Globals) : StoreKept g (appendIfInvalid E g) := by
  unfold appendIfInvalid
  split
  · exact rplDecompAppendString_kept E _ _
  · exact ⟨rfl, rfl⟩

theorem openParen_kept (E : Env) (top info : Int) (g : Globals) :
    StoreKept g (openParen E top info g) := by
  have c := rplDecompAppendChar_kept E
  unfold openParen
  repeat' split
  all_goals first
    | exact ⟨rfl, rfl⟩
    | exact c _ _

theorem closeParen_kept (E : Env) (top : Int) (g : Globals) :
    StoreKept g (closeParen E top g) := by
  have c := rplDecompAppendChar_kept E
  unfold closeParen
  dsimp only
  repeat' split
  all_goals first
    | exact ⟨rfl, rfl⟩
    | exact c _ _
    | exact storeKept_trans (c _ _) (c _ _)

theorem closeParenPrefix_kept (E : Env) (top : Int) (g : Globals) :
    StoreKept g (closeParenPrefix E top g) := by
  have c := rplDecompAppendChar_kept E
  unfold closeParenPrefix
  repeat' split
  all_goals first
    | exact ⟨rfl, rfl⟩
    | exact c _ _

theorem callProtected_kept (h : LIBHANDLER) (hh : ∀ g, StoreKept g (h g)) (top : Int)
    (g : Globals) : StoreKept g (callProtected h top g) := by
  unfold callProtected
  dsimp only
  exact ⟨(hh _).1, (hh _).2⟩

theorem callOperator_kept (handler : Option LIBHANDLER) (hh : HandlerKeeps handler) (top : Int)
    (g : Globals) : StoreKept g (callOperator handler top g) := by
  unfold callOperator
  cases he : handler with
  | none => exact ⟨rfl, rfl⟩
  | some h =>
    dsimp only
    exact storeKept_of_eq (callProtected_kept h (hh h he) _ _) rfl rfl

theorem popExpression_kept (E : Env) (n : Int) (s : DSt) :
    StepStore s.g (popExpression E n s) := by
  unfold popExpression
  dsimp only
  unfold StepStore
  dsimp only
  split
  · exact storeKept_of_eq (rplDecompAppendChar_kept E _ _) rfl rfl
  · exact ⟨rfl, rfl⟩

theorem stepStore_of {g g1 : Globals} (h : StoreKept g g1) {st : Step} (h2 : StepStore g1 st) :
    StepStore g st := by
  cases st with
  | next s1 => exact storeKept_trans h h2
  | again s1 => exact storeKept_trans h h2
  | leave s1 => exact storeKept_trans h h2
  | ret v g2 => trivial

theorem askInfo_kept {E : Env} (hT : StoreTame E) (s : DSt) : StoreKept s.g (askInfo E s) := by
  unfold askInfo
  dsimp only
  cases hh : E.rplGetLibHandler (E.LIBNUM (s.g.mem s.g.DecompileObject)) with
  | none => exact ⟨rfl, rfl⟩
  | some h =>
    dsimp only
    exact storeKept_of_eq (callProtected_kept h (hT _ _ hh) _ _) rfl rfl

theorem defaultInfo_kept (E : Env) (g : Globals) : StoreKept g (defaultInfo E g) := by
  unfold defaultInfo
  split <;> exact ⟨rfl, rfl⟩

theorem customFunction_kept {E : Env} (hT : StoreTame E) (s : DSt) :
    StepStore s.g (customFunction E s) := by
  have c1 := fun c g => (rplDecompAppendChar_kept E c g).1
  have c2 := fun c g => (rplDecompAppendChar_kept E c g).2
  have i1 := fun g => (appendIfInvalid_kept E g).1
  have i2 := fun g => (appendIfInvalid_kept E g).2
  have o1 := fun lib top g => (callOperator_kept _ (handlerKeeps_of_tame hT lib) top g).1
  have o2 := fun lib top g => (callOperator_kept _ (handlerKeeps_of_tame hT lib) top g).2
  unfold customFunction
  dsimp only
  split
  · refine stepStore_of ?_ (popExpression_kept E _ _)
    constructor <;> simp only [c1, c2, i1, i2, o1, o2, popDecompileObject, rplPushRet]
  · show StoreKept _ _
    constructor <;> simp only [c1, c2, i1, i2, o1, o2, popDecompileObject, rplPushRet]

theorem operatorKind_kept {E : Env} (hT : StoreTame E) (handler : Option LIBHANDLER)
    (hh : HandlerKeeps handler) (info : Int) (s : DSt) :
    StepStore s.g (operatorKind E handler info s) := by
  have c1 := fun c g => (rplDecompAppendChar_kept E c g).1
  have c2 := fun c g => (rplDecompAppendChar_kept E c g).2
  have i1 := fun g => (appendIfInvalid_kept E g).1
  have i2 := fun g => (appendIfInvalid_kept E g).2
  have o1 := fun top g => (callOperator_kept handler hh top g).1
  have o2 := fun top g => (callOperator_kept handler hh top g).2
  unfold operatorKind
  dsimp only
  split
  · exact ⟨rfl, rfl⟩
  · split
    · exact ⟨rfl, rfl⟩
    · split
      · show StoreKept _ _
        cases he : handler with
        | none => constructor <;> simp only [i1, i2]
        | some h =>
          have p1 := fun top g => (callProtected_kept h (hh h he) top g).1
          have p2 := fun top g => (callProtected_kept h (hh h he) top g).2
          constructor <;> simp only [i1, i2, p1, p2]
      · split
        · exact customFunction_kept hT s
        · split
          · show StoreKept _ _
            constructor <;> simp only [c1, c2, i1, i2, o1, o2]
          · split
            · refine stepStore_of ?_ (popExpression_kept E _ _)
              constructor <;> simp only [c1, c2, i1, i2, o1, o2]
            · show StoreKept _ _
              constructor <;> simp only [c1, c2, i1, i2, o1, o2]

theorem operatorOrAtom_kept {E : Env} (hT : StoreTame E) (handler : Option LIBHANDLER)
    (hh : HandlerKeeps handler) (info : Int) (s : DSt) (g2 : Globals)
    (hg : StoreKept s.g g2) : StepStore s.g (operatorOrAtom E handler info s g2) := by
  unfold operatorOrAtom
  by_cases hk : E.TI_TYPE info ≥ E.TITYPE_OPERATORS
  · rw [if_pos hk]
    dsimp only
    have h3 : StoreKept s.g (if g2.RStkSize ≤ s.InfixOpTop + 1 - g2.RStk then
        growRStk E (s.InfixOpTop - g2.RStk + E.RSTKSLACK) g2 else g2 : Globals) := by
      split
      · exact storeKept_trans hg (growRStk_kept E _ _)
      · exact hg
    generalize (if g2.RStkSize ≤ s.InfixOpTop + 1 - g2.RStk then
        growRStk E (s.InfixOpTop - g2.RStk + E.RSTKSLACK) g2 else g2 : Globals) = g3 at h3
    by_cases hx : g3.Exceptions ≠ 0
    · rw [if_pos hx]
      unfold failReturn
      trivial
    · rw [if_neg hx]
      refine stepStore_of ?_ (operatorKind_kept hT handler hh info _)
      exact storeKept_trans h3 (storeKept_of_eq (openParen_kept E _ _ _) rfl rfl)
  · rw [if_neg hk]
    exact hg

theorem startExpression_kept {E : Env} (hT : StoreTame E) (s : DSt) :
    StepStore s.g (startExpression E s) := by
  unfold startExpression
  exact operatorOrAtom_kept hT _ (handlerKeeps_of_tame hT _) _ s _
    (storeKept_trans (askInfo_kept hT s) (defaultInfo_kept E _))

theorem binaryArgument_kept {E : Env} (hT : StoreTame E) (s : DSt) :
    StepStore s.g (binaryArgument E s) := by
  have i1 := fun g => (appendIfInvalid_kept E g).1
  have i2 := fun g => (appendIfInvalid_kept E g).2
  have o1 := fun lib top g => (callOperator_kept _ (handlerKeeps_of_tame hT lib) top g).1
  have o2 := fun lib top g => (callOperator_kept _ (handlerKeeps_of_tame hT lib) top g).2
  unfold binaryArgument
  dsimp only
  show StoreKept _ _
  split
  · constructor <;> simp only [i1, i2, o1, o2]
  · exact ⟨rfl, rfl⟩

theorem postfixArgument_kept {E : Env} (hT : StoreTame E) (s : DSt) :
    StepStore s.g (postfixArgument E s) := by
  have i1 := fun g => (appendIfInvalid_kept E g).1
  have i2 := fun g => (appendIfInvalid_kept E g).2
  have o1 := fun lib top g => (callOperator_kept _ (handlerKeeps_of_tame hT lib) top g).1
  have o2 := fun lib top g => (callOperator_kept _ (handlerKeeps_of_tame hT lib) top g).2
  have p1 := fun top g => (closeParen_kept E top g).1
  have p2 := fun top g => (closeParen_kept E top g).2
  unfold postfixArgument
  dsimp only
  refine stepStore_of ?_ (popExpression_kept E _ _)
  constructor <;> simp only [i1, i2, o1, o2, p1, p2]

theorem appendSeparator_kept (E : Env) (s : DSt) : StepStore s.g (appendSeparator E s) := by
  unfold appendSeparator
  exact rplDecompAppendUTF8_kept E _ _

theorem functionArgument_kept {E : Env} (hT : StoreTame E) (s : DSt) :
    StepStore s.g (functionArgument E s) := by
  have c1 := fun c g => (rplDecompAppendChar_kept E c g).1
  have c2 := fun c g => (rplDecompAppendChar_kept E c g).2
  have i1 := fun g => (appendIfInvalid_kept E g).1
  have i2 := fun g => (appendIfInvalid_kept E g).2
  have o1 := fun lib top g => (callOperator_kept _ (handlerKeeps_of_tame hT lib) top g).1
  have o2 := fun lib top g => (callOperator_kept _ (handlerKeeps_of_tame hT lib) top g).2
  unfold functionArgument
  dsimp only
  split
  · refine stepStore_of ?_ (popExpression_kept E _ _)
    show StoreKept _ _
    split
    · constructor <;> simp only [i1, i2, o1, o2]
    · constructor <;> simp only [c1, c2]
  · exact appendSeparator_kept E s

theorem decompInfix_kept {E : Env} (hT : StoreTame E) (s : DSt) :
    StepStore s.g (decompInfix E s) := by
  have c := rplDecompAppendChar_kept E
  unfold decompInfix
  split
  · dsimp only
    split
    · exact c _ _
    · exact stepStore_of (c _ _) (startExpression_kept hT _)
  · split
    · exact startExpression_kept hT s
    · split
      · exact binaryArgument_kept hT s
      · split
        · refine stepStore_of ?_ (popExpression_kept E _ _)
          show StoreKept _ _
          split
          · exact closeParenPrefix_kept E _ _
          · exact closeParen_kept E _ _
        · split
          · exact postfixArgument_kept hT s
          · split
            · dsimp only
              split
              · exact stepStore_of (c _ _) (popExpression_kept E _ _)
              · exact appendSeparator_kept E s
            · split
              · exact functionArgument_kept hT s
              · split
                · dsimp only
                  split
                  · exact popExpression_kept E _ _
                  · exact appendSeparator_kept E s
                · exact ⟨rfl, rfl⟩

theorem decompEnd_kept {E : Env} (hT : StoreTame E) (s : DSt) :
    StepStore s.g (decompEnd E s) := by
  unfold decompEnd
  split
  · exact decompInfix_kept hT s
  · exact decompAfter_kept E s

/-- The loop of `rplDecompile` with handlers that leave the store pointers alone:
the state with which the loop is left has `CompileEnd` and `TempObEnd` where they
were. -/
theorem decompLoop_store {E : Env} (hS : StoreTame E) :
    ∀ (fuel : Nat) (b : Bool) (s s1 : DSt),
      decompLoop E fuel b s = some (Flow.next s1) → StoreKept s.g s1.g := by
  intro fuel
  induction fuel with
  | zero =>
    intro b s s1 h
    unfold decompLoop at h
    cases h
  | succ n ih =>
    intro b s s1 h
    cases b with
    | false =>
      unfold decompLoop at h
      by_cases hlt : s.g.DecompileObject < s.g.EndOfObject
      · rw [if_pos hlt] at h
        have hk := decompTop_kept hS s
        cases ht : decompTop E s with
        | next s2 =>
          rw [ht] at h hk
          exact storeKept_trans hk (ih true s2 s1 h)
        | again s2 =>
          rw [ht] at h hk
          exact storeKept_trans hk (ih true s2 s1 h)
        | leave s2 =>
          rw [ht] at h hk
          simp only [Option.some.injEq, Flow.next.injEq] at h
          subst h
          exact hk
        | ret v g =>
          rw [ht] at h
          cases h
      · rw [if_neg hlt] at h
        simp only [Option.some.injEq, Flow.next.injEq] at h
        subst h
        exact storeKept_refl _
    | true =>
      unfold decompLoop at h
      have hk := decompEnd_kept hS s
      cases ht : decompEnd E s with
      | next s2 =>
        rw [ht] at h hk
        exact storeKept_trans hk (ih false s2 s1 h)
      | again s2 =>
        rw [ht] at h hk
        exact storeKept_trans hk (ih true s2 s1 h)
      | leave s2 =>
        rw [ht] at h hk
        simp only [Option.some.injEq, Flow.next.injEq] at h
        subst h
        exact hk
      | ret v g =>
        rw [ht] at h
        cases h

theorem decompFinish_textEnd (E : Env) (hblock : BlockLaws E) (s : DSt)
    (hemb : s.flags &&& E.DECOMP_EMBEDDED = 0) (p : Int)
    (hp : (decompFinish E s).value = some p) :
    (decompFinish E s).g.DecompStringEnd = (trimNewline s).DecompStringEnd := by
  unfold decompFinish at hp ⊢
  dsimp only at hp ⊢
  generalize hg2 : (if s.flags &&& E.DECOMP_EMBEDDED = 0 then _ else trimNewline s : Globals)
    = g2 at hp ⊢
  rw [if_pos hemb] at hg2
  have f4 : g2.DecompStringEnd = (trimNewline s).DecompStringEnd := by rw [← hg2]
  clear hg2
  by_cases h3 : g2.Exceptions = 0
  · rw [if_pos h3] at hp ⊢
    by_cases hgrow : g2.CompileEnd + E.TEMPOBSLACK > g2.TempObSize
    · rw [if_pos hgrow] at hp ⊢
      by_cases hx : (growTempOb E (g2.CompileEnd - g2.TempOb + E.TEMPOBSLACK)
          { g2 with LAMTop := g2.LAMTopSaved }).Exceptions ≠ 0
      · rw [if_pos ⟨hgrow, hx⟩] at hp
        cases hp
      · rw [if_neg (fun h => hx h.2), if_neg (not_not.mpr hemb)]
        show (E.rplAddTempBlock _ _).DecompStringEnd = _
        rw [(hblock _ _).2.2.2, (growTempOb_store E _ _).2.2.2]
        exact f4
    · rw [if_neg hgrow, if_neg (fun h => hgrow h.1), if_neg (not_not.mpr hemb)]
      show (E.rplAddTempBlock _ _).DecompStringEnd = _
      rw [(hblock _ _).2.2.2]
      exact f4
  · rw [if_neg h3] at hp
    cases hp

theorem rplCompileAppend_kept (E : Env) (w : Nat) (g : Globals) :
    (rplCompileAppend E w g).CompileEnd = g.CompileEnd + 1
    ∧ (rplCompileAppend E w g).TempObEnd = g.TempObEnd := by
  unfold rplCompileAppend
  dsimp only
  split
  · exact ⟨(growTempOb_kept E _ _).1, (growTempOb_kept E _ _).2⟩
  · exact ⟨rfl, rfl⟩

/-- The start of a session that is not embedded: the prolog of the string is at
`TempObEnd` and the text starts at the word after it. -/
theorem decompInit_store (E : Env)
    (hw : E.DECOMP_MAXWIDTH E.DEFAULT_DECOMP_WIDTH &&& E.DECOMP_EMBEDDED = 0)
    (object : Int) (flags : Nat) (g : Globals) (hemb : flags &&& E.DECOMP_EMBEDDED = 0)
    (s0 : DSt) (h : decompInit E object flags g = Flow.next s0) :
    s0.g.CompileEnd = g.TempObEnd + 1 ∧ s0.g.TempObEnd = g.TempObEnd
    ∧ s0.g.DecompStringEnd = 4 * s0.g.CompileEnd := by
  unfold decompInit at h
  rw [if_neg (not_not.mpr hemb)] at h
  simp only [Flow.bind, Flow.next.injEq] at h
  subst h
  obtain ⟨b1, _, b3⟩ := initWidth_spec E hw (initLocals flags { g with DecompileObject := object })
  have hfl : (initWidth E (initLocals flags { g with DecompileObject := object })).flags
      &&& E.DECOMP_EMBEDDED = 0 := b1.mpr hemb
  unfold initObject
  dsimp only
  rw [if_pos hfl, if_pos hfl, b3]
  dsimp only
  rw [(rplCompileAppend_kept E _ _).1, (rplCompileAppend_kept E _ _).2]
  exact ⟨rfl, rfl, rfl⟩

theorem decompFinish_value (E : Env) (hblock : BlockLaws E) (s : DSt)
    (hemb : s.flags &&& E.DECOMP_EMBEDDED = 0) (p : Int)
    (hp : (decompFinish E s).value = some p) : p = s.g.TempObEnd := by
  obtain ⟨_, t2, _⟩ := trimNewline_fields s
  unfold decompFinish at hp
  dsimp only at hp
  generalize hg2 : (if s.flags &&& E.DECOMP_EMBEDDED = 0 then _ else trimNewline s : Globals)
    = g2 at hp
  rw [if_pos hemb] at hg2
  have f3 : g2.TempObEnd = s.g.TempObEnd := by rw [← hg2]; exact t2
  clear hg2
  by_cases h3 : g2.Exceptions = 0
  · rw [if_pos h3] at hp
    by_cases hgrow : g2.CompileEnd + E.TEMPOBSLACK > g2.TempObSize
    · rw [if_pos hgrow] at hp
      by_cases hx : (growTempOb E (g2.CompileEnd - g2.TempOb + E.TEMPOBSLACK)
          { g2 with LAMTop := g2.LAMTopSaved }).Exceptions ≠ 0
      · rw [if_pos ⟨hgrow, hx⟩] at hp
        cases hp
      · rw [if_neg (fun h => hx h.2), if_neg (not_not.mpr hemb)] at hp
        simp only [Option.some.injEq] at hp
        rw [← hp, (hblock _ _).2.1, (growTempOb_store E _ _).2.2.1]
        exact f3
    · rw [if_neg hgrow, if_neg (fun h => hgrow h.1), if_neg (not_not.mpr hemb)] at hp
      simp only [Option.some.injEq] at hp
      rw [← hp, (hblock _ _).2.1]
      exact f3
  · rw [if_neg h3] at hp
    cases hp

/-- C30 (length encoding of the decompiled string): let `rplDecompile`, called
without `DECOMP_EMBEDDED`, return the object `p`, the text being the `n` bytes from
the word after `p` up to `DecompStringEnd`; the handlers leave `CompileEnd` and
`TempObEnd` alone and the registration of the block leaves the store alone.  Then `p`
is the former end of the temporary objects, the word at `p` is the prolog
`MKPROLOG(DOSTRING + pad, size)` with `size = (n + 3) / 4`, the number of words that
hold `n` bytes, and `pad = (4 - n mod 4) mod 4`, both of which read back, so that
`4 * size - pad = n`; and the new end of the temporary objects is the end of that
object.  The same holds of the end of the function alone, for any state after the
loop in which `CompileEnd` is still the word after `TempObEnd`. -/
theorem string_length_encoding (E : Env) (bound : Nat) (hlaw : StringLaws E bound)
    (hblock : BlockLaws E) (hE : E.EX_ERRORCODE ≠ 0)
    (hw : E.DECOMP_MAXWIDTH E.DEFAULT_DECOMP_WIDTH &&& E.DECOMP_EMBEDDED = 0) :
    (StoreTame E → ∀ (fuel : Nat) (object : Int) (flags : Nat) (g : Globals) (r : Result)
      (p : Int) (n : Nat),
      flags &&& E.DECOMP_EMBEDDED = 0 →
      rplDecompile E fuel object flags g = some r → r.value = some p →
      r.g.DecompStringEnd = 4 * (p + 1) + (n : Int) → (n + 3) / 4 < bound →
      p = g.TempObEnd
      ∧ r.g.mem p = E.MKPROLOG (E.DOSTRING + (4 - n % 4) % 4) ((n + 3) / 4)
      ∧ E.OBJSIZE (r.g.mem p) = (n + 3) / 4
      ∧ E.LIBNUM (r.g.mem p) = ((E.DOSTRING + (4 - n % 4) % 4 : Nat) : Int)
      ∧ 4 * E.OBJSIZE (r.g.mem p) - (4 - n % 4) % 4 = n
      ∧ n ≤ 4 * E.OBJSIZE (r.g.mem p) ∧ 4 * E.OBJSIZE (r.g.mem p) < n + 4
      ∧ r.g.TempObEnd = rplSkipOb E r.g.mem p)
    ∧ (∀ (s : DSt) (p : Int) (n : Nat),
      s.flags &&& E.DECOMP_EMBEDDED = 0 → s.g.CompileEnd = s.g.TempObEnd + 1 →
      (decompFinish E s).value = some p →
      (decompFinish E s).g.DecompStringEnd = 4 * (p + 1) + (n : Int) → (n + 3) / 4 < bound →
      p = s.g.TempObEnd
      ∧ (decompFinish E s).g.mem p = E.MKPROLOG (E.DOSTRING + (4 - n % 4) % 4) ((n + 3) / 4)
      ∧ (decompFinish E s).g.TempObEnd = p + 1 + (((n + 3) / 4 : Nat) : Int)) := by
  have hpad : ∀ n : Nat, (4 - n % 4) % 4 < 4 := fun n => Nat.mod_lt _ (by norm_num)
  have hfinish : ∀ (s : DSt) (p : Int) (n : Nat),
      s.flags &&& E.DECOMP_EMBEDDED = 0 → s.g.CompileEnd = s.g.TempObEnd + 1 →
      (decompFinish E s).value = some p →
      (decompFinish E s).g.DecompStringEnd = 4 * (p + 1) + (n : Int) → (n + 3) / 4 < bound →
      p = s.g.TempObEnd
      ∧ (decompFinish E s).g.mem p = E.MKPROLOG (E.DOSTRING + (4 - n % 4) % 4) ((n + 3) / 4)
      ∧ (decompFinish E s).g.TempObEnd = p + 1 + (((n + 3) / 4 : Nat) : Int) := by
    intro s p n hemb hstart hp hn hsz
    have hv := decompFinish_value E hblock s hemb p hp
    have hte := decompFinish_textEnd E hblock s hemb p hp
    obtain ⟨a, b, c, _⟩ := decompFinish_string hlaw hblock s hemb hstart n
      (by rw [← hte, hn, hv, hstart]) hsz p hp
    exact ⟨a, b, c⟩
  refine ⟨?_, hfinish⟩
  intro hS fuel object flags g r p n hemb hr hp hn hsz
  unfold rplDecompile at hr
  cases hi : decompInit E object flags g with
  | ret v g1 =>
    rw [hi] at hr
    simp only [Option.some.injEq] at hr
    subst hr
    have := (decompInit_spec E hw object flags g).1 v g1 hi
    rw [this.1] at hp
    cases hp
  | next s0 =>
    rw [hi] at hr
    dsimp only at hr
    obtain ⟨i1, i2, _⟩ := decompInit_store E hw object flags g hemb s0 hi
    have i3 := ((decompInit_spec E hw object flags g).2 s0 hi).1
    cases hl : decompLoop E fuel false s0 with
    | none =>
      rw [hl] at hr
      cases hr
    | some f =>
      rw [hl] at hr
      cases f with
      | ret v g1 =>
        simp only [Option.some.injEq] at hr
        subst hr
        have := (decompLoop_ok hE fuel false s0 _ hl).2 v g1 rfl
        rw [this.1] at hp
        cases hp
      | next s1 =>
        simp only [Option.some.injEq] at hr
        subst hr
        have hfl := (decompLoop_ok hE fuel false s0 _ hl).1 s1 rfl
        obtain ⟨k1, k2⟩ := decompLoop_store hS fuel false s0 s1 hl
        obtain ⟨a, b, c⟩ := hfinish s1 p n (by rw [hfl]; exact i3.mpr hemb)
          (by rw [k1, k2, i1, i2]) hp hn hsz
        have hs := hlaw.objsize _ _ (hpad n) hsz
        have hp2 := hlaw.isprolog _ _ (hpad n) hsz
        have hl2 := hlaw.libnum _ _ (hpad n) hsz
        refine ⟨by rw [a, k2, i2], b, by rw [b, hs], by rw [b, hl2], ?_, ?_, ?_, ?_⟩
        · rw [b, hs]; omega
        · rw [b, hs]; omega
        · rw [b, hs]; omega
        · unfold rplSkipOb
          rw [b, hp2, hs, c]
          simp

theorem mkEnv_stringLaws (maxlib : Nat) (table : Int → Option LIBHANDLER) :
    StringLaws (mkEnv maxlib table) (2 ^ 18) := by
  refine ⟨by norm_num, ?_, ?_, ?_⟩
  · intro p n hp hn
    show ((24 + p) * 2 ^ 20 + 2 ^ 19 + n % 2 ^ 18) % 2 ^ 18 = n
    omega
  · intro p n hp hn
    show decide (((24 + p) * 2 ^ 20 + 2 ^ 19 + n % 2 ^ 18) / 2 ^ 19 % 2 = 1) = true
    simp only [decide_eq_true_eq]
    omega
  · intro p n hp hn
    show ((((24 + p) * 2 ^ 20 + 2 ^ 19 + n % 2 ^ 18) / 2 ^ 20 : Nat) : Int) = ((24 + p : Nat) : Int)
    congr 1
    omega

theorem wrap_storeTame : StoreTame Ewrap := by
  intro lib h hh g
  have hh2 : (if lib = 12 then some wrapLib else none) = some h := hh
  split at hh2
  · cases hh2
    unfold wrapLib
    split
    · exact ⟨rfl, rfl⟩
    · exact @storeKept_of_eq g (rplDecompAppendChar E0 49 g) _ ⟨rfl, rfl⟩
        (rplDecompAppendChar_kept E0 49 g).1 (rplDecompAppendChar_kept E0 49 g).2
  · cases hh2

/-- Witness of C30: with the library `wrapLib` the number at address 60 is decompiled
to the one byte `1`; the string object is at 100, the former end of the temporary
objects, its prolog is `MKPROLOG(DOSTRING + 3, 1)`, and the new end of the
temporary objects is 102. -/
theorem string_length_encoding_witness :
    ∃ r : Result, rplDecompile Ewrap 3 60 0 numberGlobals = some r
      ∧ r.value = some 100 ∧ r.g.DecompStringEnd = 4 * (100 + 1) + ((1 : Nat) : Int)
      ∧ r.g.mem 100 = Ewrap.MKPROLOG (Ewrap.DOSTRING + 3) 1
      ∧ Ewrap.OBJSIZE (r.g.mem 100) = 1
      ∧ 4 * Ewrap.OBJSIZE (r.g.mem 100) - 3 = 1
      ∧ r.g.TempObEnd = rplSkipOb Ewrap r.g.mem 100 := by
  have h := (string_length_encoding Ewrap (2 ^ 18) (mkEnv_stringLaws _ _) (fun _ _ => ⟨rfl, rfl, rfl, rfl⟩)
    (by decide) (by decide)).1 wrap_storeTame 3 60 0 numberGlobals
    (match rplDecompile Ewrap 3 60 0 numberGlobals with
      | some r => r
      | none => { value := none, g := numberGlobals })
    100 1 (by decide) (by rfl) (by rfl) (by rfl) (by norm_num)
  obtain ⟨_, b, c, _, e, _, _, f⟩ := h
  exact ⟨_, by rfl, by rfl, by rfl, b, c, e, f⟩

/-- C26 fails on the code: the function `f` is declared with the precedence of `-`.
At the difference inside `f(a-b)` the block that decides the opening parenthesis
appends nothing, the enclosing operator being a function, but the block that decides
the closing parenthesis has no such test where the precedences are equal and appends
`)`.  The symbolic decompiles to `'f(a-b))'`; with `f` of precedence 2 it decompiles
to `'f(a-b)'`. -/
theorem function_argument_closing_parenthesis :
    E0.TI_TYPE tiFunEq = E0.TITYPE_FUNCTION
    ∧ E0.TI_PRECEDENCE tiFunEq = E0.TI_PRECEDENCE tiPlus
    ∧ openParen Eeq 58 tiPlus functionOfDiff = functionOfDiff
    ∧ closeParen Eeq 58 functionOfDiff = rplDecompAppendChar Eeq 41 functionOfDiff
    ∧ decompiledWith Eeq fOfDiff = some [39, 102, 40, 97, 45, 98, 41, 41, 39]
    ∧ decompiledWith Ealg fOfDiff = some [39, 102, 40, 97, 45, 98, 41, 39] := by
  refine ⟨by decide, by decide, by rfl, by rfl, by rfl, by rfl⟩

/-- C28 fails on the code: the sum of `a` and `f(b)`, where the library gives no
token-info for `f` and `rplDecompile` takes its default, a function of precedence 20,
decompiles to `'a+(f(b)'`: an opening parenthesis is appended before the call, the
precedence of `+` being lower, and the end of a function call appends no closing
one.  And `f(a-b)`, with `f` declared with the precedence of `-`, decompiles to
`'f(a-b))'`.  The two texts have two `(` for one `)`, and one `(` for two `)`. -/
theorem parentheses_not_balanced :
    decompiledWith Emute aPlusF = some [39, 97, 43, 40, 102, 40, 98, 41, 39]
    ∧ ((decompiledWith Emute aPlusF).getD []).count 40 = 2
    ∧ ((decompiledWith Emute aPlusF).getD []).count 41 = 1
    ∧ ((decompiledWith Eeq fOfDiff).getD []).count 40 = 1
    ∧ ((decompiledWith Eeq fOfDiff).getD []).count 41 = 2 := by
  refine ⟨by rfl, by rfl, by rfl, by rfl, by rfl⟩

theorem rplInfixApply_eq_with (E : Env) (opcode nargs : Nat) (g : Globals) :
    rplInfixApply E opcode nargs g = rplInfixApplyWith (growTempOb E) E opcode nargs g := rfl

theorem rplRotArgs_eq_with (E : Env) (nargs : Nat) (g : Globals) :
    rplRotArgs E nargs g = rplRotArgsWith (growTempOb E) E nargs g := rfl

/-- C21 fails on the code when the growth relocates the store.  At the end of
`'1+2'` the stream holds the prolog of the symbolic and the numbers 1 and 2 at 100 to
102, and the store ends at 104.  With a growth in place `rplInfixApply` leaves the
prolog, the header of the sum, `+`, 1 and 2 at 100 to 104.  With a growth that moves
the store by 1000 words the local `ptr` still holds 101: a header of size 1003 and
`+` are written at 101 and 102, outside the moved stream, which holds two stray
words, the prolog and the numbers at 1100 to 1104.  In the same way `rplRotArgs`, at the `)` of
`f(1,2)`, copies the first argument from the stale address: the moved stream ends
with the word 0 where the name `f` belongs. -/
theorem stale_pointer_after_relocation :
    sumAtLimit.CompileEnd = 103
    ∧ segment sumAtLimit.mem 100 3 = [E0.MKPROLOG E0.DOSYMB 0, sint 1, sint 2]
    ∧ (rplInfixApply E0 E0.CMD_OVR_ADD 2 sumAtLimit).1 = true
    ∧ segment (rplInfixApply E0 E0.CMD_OVR_ADD 2 sumAtLimit).2.mem 100 5
        = E0.MKPROLOG E0.DOSYMB 0 :: node E0 E0.CMD_OVR_ADD [[sint 1], [sint 2]]
    ∧ (rplInfixApplyWith (growRelocating 1000) E0 E0.CMD_OVR_ADD 2 sumAtLimit).1 = true
    ∧ (rplInfixApplyWith (growRelocating 1000) E0 E0.CMD_OVR_ADD 2 sumAtLimit).2.TempObEnd = 1100
    ∧ (rplInfixApplyWith (growRelocating 1000) E0 E0.CMD_OVR_ADD 2 sumAtLimit).2.CompileEnd = 1105
    ∧ segment (rplInfixApplyWith (growRelocating 1000) E0 E0.CMD_OVR_ADD 2 sumAtLimit).2.mem 1100 5
        = [0, 0, E0.MKPROLOG E0.DOSYMB 0, sint 1, sint 2]
    ∧ segment (rplInfixApplyWith (growRelocating 1000) E0 E0.CMD_OVR_ADD 2 sumAtLimit).2.mem 101 2
        = [E0.MKPROLOG E0.DOSYMB 1003, E0.CMD_OVR_ADD]
    ∧ segment (rplRotArgs E0 3 callAtLimit).2.mem 101 3 = [sint 1, sint 2, identF]
    ∧ (rplRotArgsWith (growRelocating 1000) E0 3 callAtLimit).1 = true
    ∧ segment (rplRotArgsWith (growRelocating 1000) E0 3 callAtLimit).2.mem 1101 3
        = [sint 1, sint 2, 0] := by
  refine ⟨by rfl, by rfl, by rfl, by rfl, by rfl, by rfl, by rfl, by rfl, by rfl, by rfl, by rfl,
    by rfl⟩

/-- Witness of C2: `2-3` compiles to the node `SUB(2,3)`, `-3` at the start of the
expression to the node `UMINUS(3)`, and `2*-3` to the node `MUL(2, UMINUS(3))`.  In
the states after the tokens `1+`, `(` and `(1,` the previous token is an operator, an
open bracket and a comma, and the sign that follows is pushed as a prefix operator;
after `(1)` the previous token is a close bracket and the `-` is pushed as the
subtraction. -/
theorem unary_disambiguation_witness :
    (∃ t : St, compileInfix2 E0 [sint 2] [sint 3] tiNumber tiNumber E0.CMD_OVR_SUB tiPlus
        infixStart = Flow.next t
      ∧ segment t.g.mem 101 4 = node E0 E0.CMD_OVR_SUB [[sint 2], [sint 3]])
    ∧ (∃ t : St, compileInfix1 E0 [sint 3] tiNumber E0.CMD_OVR_SUB tiPlus infixStart = Flow.next t
      ∧ segment t.g.mem 101 3 = node E0 E0.CMD_OVR_UMINUS [[sint 3]])
    ∧ (∃ t : St, compileInfixSigned E0 [sint 2] [sint 3] tiNumber tiNumber cmdMul tiTimes
        E0.CMD_OVR_SUB tiPlus infixStart = Flow.next t
      ∧ segment t.g.mem 101 6
          = node E0 cmdMul [[sint 2], node E0 E0.CMD_OVR_UMINUS [[sint 3]]])
    ∧ (afterTokens tokensOnePlus).previous_tokeninfo = tiPlus
    ∧ (∃ t : St, feed E0 [E0.CMD_OVR_SUB] tiPlus (afterTokens tokensOnePlus) = Flow.next t
      ∧ t.InfixOpTop = 55 ∧ t.g.cells 53 = (E0.CMD_OVR_UMINUS : Int)
      ∧ t.g.cells 54 = unaryInfo E0 ∧ t.g.CompileEnd = 102)
    ∧ (afterTokens (feed E0 [E0.CMD_OPENBRACKET] tiOpen infixStart)).previous_tokeninfo = tiOpen
    ∧ (∃ t : St, feed E0 [E0.CMD_OVR_SUB] tiPlus
          (afterTokens (feed E0 [E0.CMD_OPENBRACKET] tiOpen infixStart)) = Flow.next t
      ∧ t.InfixOpTop = 57 ∧ t.g.cells 55 = (E0.CMD_OVR_UMINUS : Int)
      ∧ t.g.cells 56 = unaryInfo E0 ∧ t.g.CompileEnd = 101)
    ∧ (afterTokens tokensParenOneComma).previous_tokeninfo = tiComma
    ∧ (∃ t : St, feed E0 [E0.CMD_OVR_ADD] tiPlus (afterTokens tokensParenOneComma) = Flow.next t
      ∧ t.InfixOpTop = 57 ∧ t.g.cells 55 = (E0.CMD_OVR_UPLUS : Int)
      ∧ t.g.cells 56 = unaryInfo E0 ∧ t.g.CompileEnd = 102)
    ∧ (afterTokens tokensParenOne).previous_tokeninfo = tiClose
    ∧ (∃ t : St, feed E0 [E0.CMD_OVR_SUB] tiPlus (afterTokens tokensParenOne) = Flow.next t
      ∧ Engine E0 t 100 [[sint 1]] [((E0.CMD_OVR_SUB : Int), tiPlus)]) := by
  obtain ⟨_, _, _, _, h5, h6, _, h8, h9, h10⟩ := unary_disambiguation E0 (2 ^ 18)
    (mkEnv_kindLaws _ _)
    (mkEnv_unaryLaws _ _) (mkEnv_symbLaws _ _) (by decide) infixStart 100 [sint 2] [sint 3]
    tiNumber tiNumber tiPlus infixStart_engine (by decide) (by decide) (by decide)
    (isObj_sint 2 (by norm_num)) (isObj_sint 3 (by norm_num))
    (by unfold IsOperand; decide) (by unfold IsOperand; decide) (by unfold IsBinary; decide)
    (by norm_num) (by decide) (by decide)
  refine ⟨h5 E0.CMD_OVR_SUB (Or.inl rfl), h6,
    h10 cmdMul tiTimes E0.CMD_OVR_SUB E0.CMD_OVR_UMINUS (by unfold IsBinary; decide)
      (Or.inl ⟨rfl, rfl⟩) (by norm_num) (by decide) (by decide),
    by rfl,
    ⟨_, (h8 (afterTokens tokensOnePlus) E0.CMD_OVR_SUB E0.CMD_OVR_UMINUS tiPlus
      (Or.inl ⟨rfl, rfl⟩) (by decide) (by rfl) (by decide) (by rfl)).1,
      by rfl, by rfl, by rfl, by rfl⟩,
    by rfl,
    ⟨_, (h8 (afterTokens (feed E0 [E0.CMD_OPENBRACKET] tiOpen infixStart)) E0.CMD_OVR_SUB
      E0.CMD_OVR_UMINUS tiPlus (Or.inl ⟨rfl, rfl⟩) (by decide) (by rfl) (by decide) (by rfl)).1,
      by rfl, by rfl, by rfl, by rfl⟩,
    by rfl,
    ⟨_, (h8 (afterTokens tokensParenOneComma) E0.CMD_OVR_ADD E0.CMD_OVR_UPLUS tiPlus
      (Or.inr ⟨rfl, rfl⟩) (by decide) (by rfl) (by decide) (by rfl)).1,
      by rfl, by rfl, by rfl, by rfl⟩,
    by rfl, ?_⟩
  have he : Engine E0 (afterTokens tokensParenOne) 100 [[sint 1]] [] := by
    refine ⟨by rfl, by rfl, ?_, ?_, ⟨by rfl, by simp⟩, by rfl⟩
    · intro o ho
      simp only [List.mem_singleton] at ho
      subst ho
      exact isObj_sint 1 (by norm_num)
    · intro i hi
      have hi2 : i < 1 := hi
      interval_cases i
      rfl
  obtain ⟨t, e1, e2, _⟩ := (h9 (afterTokens tokensParenOne) E0.CMD_OVR_SUB tiPlus (Or.inl rfl)
    (by unfold IsBinary; decide) (by rfl)).2 100 [[sint 1]] [] he (Or.inl rfl) (by decide)
  exact ⟨t, e1, e2⟩

end NewRPL
